import Mathlib

/-!
D3DX12Residency: a shallow embedding of `d3dx12Residency.h`.

Pointers to `ManagedObject`s are natural numbers; the application-owned object
memory is a function from pointers to records.  The two intrusive doubly linked
lists of the LRU are the lists of the pointers linked into them, read from
`Flink` of the list head onwards (head first).  `UINT32` and `UINT64` values are
natural numbers reduced modulo `2^32` and `2^64`; `INT64` values are integers
obtained from the low 64 bits in two's complement.
-/

namespace D3DX12Residency

/-! ## Machine integers -/

/-- Number of values of a `UINT32`. -/
def U32 : Nat := 4294967296

/-- Number of values of a `UINT64`. -/
def U64 : Nat := 18446744073709551616

/-- Wrapping `UINT64` addition. -/
def add64 (a b : Nat) : Nat := (a + b) % U64

/-- Wrapping `UINT64` subtraction. -/
def sub64 (a b : Nat) : Nat := (a + (U64 - b % U64)) % U64

/-- Wrapping `UINT32` increment (`x++`). -/
def inc32 (a : Nat) : Nat := (a + 1) % U32

/-- Wrapping `UINT32` decrement (`x--`). -/
def dec32 (a : Nat) : Nat := (a + (U32 - 1)) % U32

/-- Wrapping `UINT32` subtraction. -/
def sub32 (a b : Nat) : Nat := (a + (U32 - b % U32)) % U32

/-- Conversion of a 64-bit pattern to `INT64` (two's complement). -/
def toINT64 (a : Nat) : Int :=
  if a % U64 < 9223372036854775808 then ((a % U64 : Nat) : Int)
  else ((a % U64 : Nat) : Int) - 18446744073709551616

/-- Conversion of an `INT64` to `UINT64`: the low 64 bits. -/
def toUINT64 (z : Int) : Nat := (z % 18446744073709551616).toNat

/-! ## ManagedObject -/

/-- The enum `ManagedObject::RESIDENCY_STATUS`. -/
inductive RESIDENCY_STATUS where
  | RESIDENT
  | EVICTED
  deriving DecidableEq, Repr

/-- The data members of `ManagedObject` (the `ListEntry` member is represented by
the position of the object's pointer in the lists of `LRUCache`). -/
structure ManagedObject where
  ResidencyStatus : RESIDENCY_STATUS
  pUnderlying : Nat
  Size : Nat
  LastGPUSyncPoint : Nat
  LastUsedTimestamp : Nat
  deriving DecidableEq, Repr

/-- The constructor `ManagedObject()` followed by `Initialize(pUnderlyingIn, ObjectSize)`. -/
def ManagedObject.Initialize (pUnderlyingIn ObjectSize : Nat) : ManagedObject where
  ResidencyStatus := RESIDENCY_STATUS.RESIDENT
  pUnderlying := pUnderlyingIn
  Size := ObjectSize % U64
  LastGPUSyncPoint := 0
  LastUsedTimestamp := 0

/-! ## Internal::LRUCache -/

/-- The class `Internal::LRUCache` together with the object memory its list entries
live in.  `Objects p` is the `ManagedObject` at address `p`. -/
structure LRUCache where
  Objects : Nat → ManagedObject
  ResidentObjectList : List Nat
  EvictedObjectList : List Nat
  NumResidentObjects : Nat
  NumEvictedObjects : Nat
  ResidentSize : Nat

/-- A store through a `ManagedObject*`. -/
def writeObject (Objects : Nat → ManagedObject) (p : Nat) (o : ManagedObject) :
    Nat → ManagedObject :=
  fun q => if q = p then o else Objects q

/-- The constructor `LRUCache()`: both lists empty, all aggregates zero. -/
def LRUCache.init (Objects : Nat → ManagedObject) : LRUCache where
  Objects := Objects
  ResidentObjectList := []
  EvictedObjectList := []
  NumResidentObjects := 0
  NumEvictedObjects := 0
  ResidentSize := 0

/-- `RemoveEntryList(&pObject->ListEntry)`: the entry is unlinked from the list it is
linked into.  An intrusive entry is linked into at most one list, so unlinking is
erasing the pointer from both lists. -/
def LRUCache.RemoveEntryList (c : LRUCache) (pObject : Nat) : LRUCache :=
  { c with
    ResidentObjectList := c.ResidentObjectList.erase pObject
    EvictedObjectList := c.EvictedObjectList.erase pObject }

/-- `LRUCache::Insert`. -/
def LRUCache.Insert (c : LRUCache) (pObject : Nat) : LRUCache :=
  if (c.Objects pObject).ResidencyStatus = RESIDENCY_STATUS.RESIDENT then
    { c with
      ResidentObjectList := pObject :: c.ResidentObjectList
      NumResidentObjects := inc32 c.NumResidentObjects
      ResidentSize := add64 c.ResidentSize (c.Objects pObject).Size }
  else
    { c with
      EvictedObjectList := pObject :: c.EvictedObjectList
      NumEvictedObjects := inc32 c.NumEvictedObjects }

/-- `LRUCache::Remove`. -/
def LRUCache.Remove (c : LRUCache) (pObject : Nat) : LRUCache :=
  let c1 := c.RemoveEntryList pObject
  if (c1.Objects pObject).ResidencyStatus = RESIDENCY_STATUS.RESIDENT then
    { c1 with
      NumResidentObjects := dec32 c1.NumResidentObjects
      ResidentSize := sub64 c1.ResidentSize (c1.Objects pObject).Size }
  else
    { c1 with NumEvictedObjects := dec32 c1.NumEvictedObjects }

/-- `LRUCache::ObjectReferenced`: unlink and relink at the tail of the resident list. -/
def LRUCache.ObjectReferenced (c : LRUCache) (pObject : Nat) : LRUCache :=
  let c1 := c.RemoveEntryList pObject
  { c1 with ResidentObjectList := c1.ResidentObjectList ++ [pObject] }

/-- `LRUCache::MakeResident`. -/
def LRUCache.MakeResident (c : LRUCache) (pObject : Nat) : LRUCache :=
  let o : ManagedObject :=
    { (c.Objects pObject) with ResidencyStatus := RESIDENCY_STATUS.RESIDENT }
  let c1 : LRUCache := { c with Objects := writeObject c.Objects pObject o }
  let c2 := c1.RemoveEntryList pObject
  { c2 with
    ResidentObjectList := c2.ResidentObjectList ++ [pObject]
    NumEvictedObjects := dec32 c2.NumEvictedObjects
    NumResidentObjects := inc32 c2.NumResidentObjects
    ResidentSize := add64 c2.ResidentSize (c2.Objects pObject).Size }

/-- `LRUCache::Evict`. -/
def LRUCache.Evict (c : LRUCache) (pObject : Nat) : LRUCache :=
  let o : ManagedObject :=
    { (c.Objects pObject) with ResidencyStatus := RESIDENCY_STATUS.EVICTED }
  let c1 : LRUCache := { c with Objects := writeObject c.Objects pObject o }
  let c2 := c1.RemoveEntryList pObject
  { c2 with
    EvictedObjectList := c2.EvictedObjectList ++ [pObject]
    NumResidentObjects := dec32 c2.NumResidentObjects
    ResidentSize := sub64 c2.ResidentSize (c2.Objects pObject).Size
    NumEvictedObjects := inc32 c2.NumEvictedObjects }

/-- `LRUCache::GetResidentListHead`: `none` is `nullptr`. -/
def LRUCache.GetResidentListHead (c : LRUCache) : Option Nat :=
  c.ResidentObjectList.head?

/-! ## Fences and sync points -/

/-- The struct `Internal::QueueSyncPoint`; `pFence` is the address of the
`Internal::Fence` it was captured from. -/
structure QueueSyncPoint where
  pFence : Nat
  LastUsedValue : Nat
  deriving DecidableEq, Repr

/-- `QueueSyncPoint::IsCompleted`; `Completed f` is what `GetCompletedValue()` of the
D3D12 fence owned by `Internal::Fence` `f` returns at the time of the call. -/
def QueueSyncPoint.IsCompleted (Completed : Nat → Nat) (q : QueueSyncPoint) : Bool :=
  decide (q.LastUsedValue ≤ Completed q.pFence)

/-- The struct `Internal::DeviceWideSyncPoint`; `pQueueSyncPoints` is the trailing
array placed below the header. -/
structure DeviceWideSyncPoint where
  GenerationID : Nat
  NumQueueSyncPoints : Nat
  pQueueSyncPoints : List QueueSyncPoint
  deriving DecidableEq, Repr

/-- `DeviceWideSyncPoint::IsCompleted`: the first `NumQueueSyncPoints` entries are all
completed. -/
def DeviceWideSyncPoint.IsCompleted (Completed : Nat → Nat) (P : DeviceWideSyncPoint) : Bool :=
  (P.pQueueSyncPoints.take P.NumQueueSyncPoints).all (QueueSyncPoint.IsCompleted Completed)

/-- `ResidencyManager::DequeueCompletedSyncPoints` on the in-flight list (head first):
the remaining list and the returned pointer (`none` is `nullptr`). -/
def DequeueCompletedSyncPoints (Completed : Nat → Nat) :
    List DeviceWideSyncPoint → List DeviceWideSyncPoint × Option DeviceWideSyncPoint
  | [] => ([], none)
  | pPoint :: rest =>
    if pPoint.IsCompleted Completed then DequeueCompletedSyncPoints Completed rest
    else (pPoint :: rest, some pPoint)

/-- `DeviceWideSyncPoint::WaitForCompletion`: the call returns once every queue sync
point that was not completed has been waited for (`WaitForSingleObject(Event, INFINITE)`).
`CompletedAtReturn` are the completed fence values at the time the wait would return;
when the point is not completed under them the wait never returns (`false`). -/
def DeviceWideSyncPoint.WaitForCompletion (CompletedAtReturn : Nat → Nat)
    (P : DeviceWideSyncPoint) : Bool :=
  P.IsCompleted CompletedAtReturn

/-- What `WaitForSyncPoint` leaves behind: the in-flight list and the point it called
`WaitForCompletion` on, if any. -/
structure WaitResult where
  InFlight : List DeviceWideSyncPoint
  Waited : Option DeviceWideSyncPoint
  deriving DecidableEq, Repr

/-- The loop of `ResidencyManager::WaitForSyncPoint` once it has been entered.  The loop
variable `pPointEntry` is never advanced, so the loop condition stays true when the
list runs empty and the list head itself is then read as a sync point: that read is
undefined and is `none` here.  `none` also stands for a `WaitForCompletion` that never
returns. -/
def WaitForSyncPoint.walk (SyncPointID : Nat) (CompletedAtReturn : Nat → Nat) :
    List DeviceWideSyncPoint → Option WaitResult
  | [] => none
  | pPoint :: rest =>
    if pPoint.GenerationID > SyncPointID then some ⟨pPoint :: rest, none⟩
    else if pPoint.GenerationID < SyncPointID then
      WaitForSyncPoint.walk SyncPointID CompletedAtReturn rest
    else if pPoint.WaitForCompletion CompletedAtReturn then some ⟨rest, some pPoint⟩
    else none

/-- `ResidencyManager::WaitForSyncPoint`. -/
def WaitForSyncPoint (SyncPointID : Nat) (CompletedAtReturn : Nat → Nat)
    (InFlight : List DeviceWideSyncPoint) : Option WaitResult :=
  match InFlight with
  | [] => some ⟨[], none⟩
  | pPoint :: rest => WaitForSyncPoint.walk SyncPointID CompletedAtReturn (pPoint :: rest)

/-! ## Trimming -/

/-- The out-parameters of the two trim functions together with the cache they leave:
`EvictionList` holds the handles written to `EvictionList[0 .. NumObjectsToEvict)` in
write order, `Evicted` the objects `Evict` was called on, in call order. -/
structure TrimResult where
  LRU : LRUCache
  EvictionList : List Nat
  NumObjectsToEvict : Nat
  Evicted : List Nat

/-- The `while` loop of `LRUCache::TrimToSyncPointInclusive`; every iteration that does
not `break` unlinks the head of the resident list, and `fuel` bounds the number of
iterations. -/
def LRUCache.TrimToSyncPointInclusive.loop (CurrentBudget : Int) (SyncPoint : Nat) :
    Nat → LRUCache → Int → List Nat → Nat → List Nat → TrimResult
  | 0, c, _, EvictionList, NumObjectsToEvict, Evicted =>
    ⟨c, EvictionList, NumObjectsToEvict, Evicted⟩
  | fuel + 1, c, CurrentUsage, EvictionList, NumObjectsToEvict, Evicted =>
    match c.ResidentObjectList with
    | [] => ⟨c, EvictionList, NumObjectsToEvict, Evicted⟩
    | pObject :: _ =>
      if (c.Objects pObject).LastGPUSyncPoint > SyncPoint ∨ CurrentUsage < CurrentBudget then
        ⟨c, EvictionList, NumObjectsToEvict, Evicted⟩
      else
        let c1 := c.Evict pObject
        LRUCache.TrimToSyncPointInclusive.loop CurrentBudget SyncPoint fuel c1
          (toINT64 (sub64 (toUINT64 CurrentUsage) (c1.Objects pObject).Size))
          (EvictionList ++ [(c.Objects pObject).pUnderlying])
          (inc32 NumObjectsToEvict) (Evicted ++ [pObject])

/-- `LRUCache::TrimToSyncPointInclusive`: `NumObjectsToEvict` is reset to zero and the
loop runs until it breaks or the resident list is empty. -/
def LRUCache.TrimToSyncPointInclusive (c : LRUCache) (CurrentUsage CurrentBudget : Int)
    (SyncPoint : Nat) : TrimResult :=
  LRUCache.TrimToSyncPointInclusive.loop CurrentBudget SyncPoint
    c.ResidentObjectList.length c CurrentUsage [] 0 []

/-- The test `MaxSyncPoint && LastGPUSyncPoint >= MaxSyncPoint->GenerationID` of
`LRUCache::TrimAgedAllocations` (`none` is a null `MaxSyncPoint`). -/
def usedSince (MaxSyncPoint : Option DeviceWideSyncPoint) (LastGPUSyncPoint : Nat) : Bool :=
  match MaxSyncPoint with
  | some P => decide (LastGPUSyncPoint ≥ P.GenerationID)
  | none => false

/-- The `while` loop of `LRUCache::TrimAgedAllocations`. -/
def LRUCache.TrimAgedAllocations.loop (MaxSyncPoint : Option DeviceWideSyncPoint)
    (CurrentTimeStamp MinDelta : Nat) :
    Nat → LRUCache → List Nat → Nat → List Nat → TrimResult
  | 0, c, EvictionList, NumObjectsToEvict, Evicted =>
    ⟨c, EvictionList, NumObjectsToEvict, Evicted⟩
  | fuel + 1, c, EvictionList, NumObjectsToEvict, Evicted =>
    match c.ResidentObjectList with
    | [] => ⟨c, EvictionList, NumObjectsToEvict, Evicted⟩
    | pObject :: _ =>
      if usedSince MaxSyncPoint (c.Objects pObject).LastGPUSyncPoint = true ∨
          sub64 CurrentTimeStamp (c.Objects pObject).LastUsedTimestamp ≤ MinDelta then
        ⟨c, EvictionList, NumObjectsToEvict, Evicted⟩
      else
        LRUCache.TrimAgedAllocations.loop MaxSyncPoint CurrentTimeStamp MinDelta fuel
          (c.Evict pObject)
          (EvictionList ++ [(c.Objects pObject).pUnderlying])
          (inc32 NumObjectsToEvict) (Evicted ++ [pObject])

/-- `LRUCache::TrimAgedAllocations`; `EvictionList` and `NumObjectsToEvict` are what the
caller passes in (the function does not reset the counter). -/
def LRUCache.TrimAgedAllocations (c : LRUCache) (MaxSyncPoint : Option DeviceWideSyncPoint)
    (EvictionList : List Nat) (NumObjectsToEvict : Nat)
    (CurrentTimeStamp MinDelta : Nat) : TrimResult :=
  LRUCache.TrimAgedAllocations.loop MaxSyncPoint CurrentTimeStamp MinDelta
    c.ResidentObjectList.length c EvictionList NumObjectsToEvict []

/-! ## The paging pass -/

/-- The two fields of `DXGI_QUERY_VIDEO_MEMORY_INFO` the manager reads. -/
structure DXGI_QUERY_VIDEO_MEMORY_INFO where
  Budget : Nat
  CurrentUsage : Nat
  deriving DecidableEq, Repr

/-- The struct `ResidencyManager::AsyncWorkload`; the array `ppObjectsReferenced` is a
list of object pointers. -/
structure AsyncWorkload where
  SyncPointGeneration : Nat
  ppObjectsReferenced : List Nat
  NumObjectsReferenced : Nat
  FenceValueToSignal : Nat
  deriving DecidableEq, Repr

/-- The union `ResidentScratchSpace` of `ProcessPagingWork`, tagged with the member
that was written last. -/
inductive ResidentScratchSpace where
  | pManagedObject (p : Nat)
  | pUnderlying (h : Nat)
  deriving DecidableEq, Repr

/-- Observation attached to a `Device->Evict` call: the objects `LRUCache::Evict` was
called on to fill the list, the object memory right after, and the in-flight sync
points at that moment. -/
structure EvictionContext where
  Evicted : List Nat
  Objects : Nat → ManagedObject
  InFlight : List DeviceWideSyncPoint

/-- Observation attached to a `Device->MakeResident` call: whether it is the final call
of the nothing-left-to-trim branch, the value of `AvailableSpace` in that loop
iteration, and the managed objects whose handles were gathered for the call. -/
structure MakeResidentContext where
  Final : Bool
  AvailableSpace : Int
  Batch : List Nat
  deriving DecidableEq, Repr

/-- What the paging pass does to the outside, in program order. -/
inductive PagingEvent where
  | Evict (NumObjects : Nat) (ppObjects : List Nat) (ctx : EvictionContext)
  | MakeResident (NumObjects : Nat) (ppObjects : List ResidentScratchSpace) (hr : Bool)
      (ctx : MakeResidentContext)
  | WaitForCompletion (P : DeviceWideSyncPoint)
  | Signal (Value : Nat)

/-- What one iteration of the `while (true)` loop of `ProcessPagingWork` obtains from
outside: the two budget queries, whether the bounded and the final `MakeResident`
succeed, the completed values of the queue fences at `DequeueCompletedSyncPoints`, and
those at the time `WaitForSyncPoint` would return. -/
structure IterationEnv where
  LocalMemory : DXGI_QUERY_VIDEO_MEMORY_INFO
  NonLocalMemory : DXGI_QUERY_VIDEO_MEMORY_INFO
  BatchSucceeded : Bool
  FinalSucceeded : Bool
  Completed : Nat → Nat
  CompletedAfterWait : Nat → Nat

/-- What `ProcessPagingWork` obtains from outside: the performance counter, the completed
fence values at the first `DequeueCompletedSyncPoints`, the local budget snapshot and
the grace period `GetCurrentEvictionGracePeriod` computes from it, and one
`IterationEnv` per iteration of the batching loop. -/
structure PagingEnv where
  CurrentTime : Nat
  Completed : Nat → Nat
  LocalMemory : DXGI_QUERY_VIDEO_MEMORY_INFO
  EvictionGracePeriod : Nat
  Iterations : List IterationEnv

/-- The variables of `ProcessPagingWork` that the marking loop writes. -/
structure MarkState where
  LRU : LRUCache
  pMakeResidentList : List ResidentScratchSpace
  NumObjectsToMakeResident : Nat
  SizeToMakeResident : Nat

/-- One iteration of the marking loop of `ProcessPagingWork`. -/
def markObject (SyncPointGeneration CurrentTime : Nat) (m : MarkState) (pObject : Nat) :
    MarkState :=
  let m1 : MarkState :=
    if (m.LRU.Objects pObject).ResidencyStatus = RESIDENCY_STATUS.EVICTED then
      let c := m.LRU.MakeResident pObject
      { LRU := c
        pMakeResidentList := m.pMakeResidentList ++ [ResidentScratchSpace.pManagedObject pObject]
        NumObjectsToMakeResident := inc32 m.NumObjectsToMakeResident
        SizeToMakeResident := add64 m.SizeToMakeResident (c.Objects pObject).Size }
    else m
  let o : ManagedObject :=
    { (m1.LRU.Objects pObject) with
      LastGPUSyncPoint := SyncPointGeneration
      LastUsedTimestamp := CurrentTime }
  let c1 : LRUCache := { m1.LRU with Objects := writeObject m1.LRU.Objects pObject o }
  { m1 with LRU := c1.ObjectReferenced pObject }

/-- The marking loop of `ProcessPagingWork` over `ppObjectsReferenced[0 .. NumObjectsReferenced)`. -/
def markObjects (c : LRUCache) (pWork : AsyncWorkload) (CurrentTime : Nat) : MarkState :=
  (pWork.ppObjectsReferenced.take pWork.NumObjectsReferenced).foldl
    (markObject pWork.SyncPointGeneration CurrentTime) ⟨c, [], 0, 0⟩

/-- The variables of the batching loop. -/
structure PagingState where
  LRU : LRUCache
  InFlight : List DeviceWideSyncPoint
  pMakeResidentList : List ResidentScratchSpace
  NumObjectsToMakeResident : Nat
  SizeToMakeResident : Nat
  ObjectsMadeResident : Nat
  MakeResidentIndex : Nat
  Log : List PagingEvent

/-- The variables the `for` loop that builds a bounded batch writes; `Batch` collects the
managed objects it converts. -/
structure BatchState where
  pMakeResidentList : List ResidentScratchSpace
  MakeResidentIndex : Nat
  BatchSize : Nat
  NumObjectsInBatch : Nat
  ObjectsMadeResident : Nat
  Batch : List Nat
  deriving DecidableEq, Repr

/-- The `for` loop that builds a bounded batch, at index `i` with `k` iterations left
(`k` is `NumObjectsToMakeResident - i`).  Reading `pManagedObject` from an entry whose
`pUnderlying` member was written last dereferences a device handle as a
`ManagedObject`: undefined, `none` here. -/
def batchLoop (Objects : Nat → ManagedObject) (AvailableSpace : Int) :
    Nat → Nat → BatchState → Option BatchState
  | 0, _, b => some b
  | k + 1, i, b =>
    match b.pMakeResidentList[i]? with
    | some (ResidentScratchSpace.pManagedObject p) =>
      if add64 b.BatchSize (Objects p).Size > toUINT64 AvailableSpace then
        some { b with MakeResidentIndex := i }
      else
        batchLoop Objects AvailableSpace k (i + 1)
          { b with
            BatchSize := add64 b.BatchSize (Objects p).Size
            NumObjectsInBatch := inc32 b.NumObjectsInBatch
            ObjectsMadeResident := inc32 b.ObjectsMadeResident
            pMakeResidentList :=
              b.pMakeResidentList.set i (ResidentScratchSpace.pUnderlying (Objects p).pUnderlying)
            Batch := b.Batch ++ [p] }
    | _ => none

/-- The `for` loop of the nothing-left-to-trim branch that gathers the remaining
handles, at index `i` with `k` iterations left; the list and the objects gathered. -/
def gatherLoop (Objects : Nat → ManagedObject) :
    Nat → Nat → List ResidentScratchSpace → List Nat →
      Option (List ResidentScratchSpace × List Nat)
  | 0, _, l, g => some (l, g)
  | k + 1, i, l, g =>
    match l[i]? with
    | some (ResidentScratchSpace.pManagedObject p) =>
      gatherLoop Objects k (i + 1)
        (l.set i (ResidentScratchSpace.pUnderlying (Objects p).pUnderlying)) (g ++ [p])
    | _ => none

/-- How an iteration of the batching loop ends: with `break` or by looping. -/
inductive IterationOutcome where
  | exit (s : PagingState)
  | again (s : PagingState)

/-- The state an iteration ends in. -/
def IterationOutcome.state : IterationOutcome → PagingState
  | IterationOutcome.exit s => s
  | IterationOutcome.again s => s

/-- The nothing-left-to-trim branch: the remaining handles are gathered, the final
`Device->MakeResident` is issued, and the loop is left.  `InFlight` is the in-flight
list after the `DequeueCompletedSyncPoints` of this iteration. -/
def finalMakeResident (e : IterationEnv) (AvailableSpace : Int)
    (InFlight : List DeviceWideSyncPoint) (s : PagingState) : Option PagingState :=
  let NumObjects := sub32 s.NumObjectsToMakeResident s.ObjectsMadeResident
  match gatherLoop s.LRU.Objects (s.NumObjectsToMakeResident - s.MakeResidentIndex)
      s.MakeResidentIndex s.pMakeResidentList [] with
  | none => none
  | some (l, g) =>
    some
      { s with
        InFlight := InFlight
        pMakeResidentList := l
        Log := s.Log ++ [PagingEvent.MakeResident NumObjects
          ((l.drop s.MakeResidentIndex).take NumObjects) e.FinalSucceeded
          ⟨true, AvailableSpace, g⟩] }

/-- The `WaitForCompletion` call of a `WaitForSyncPoint`, as a log entry. -/
def waitEvents (w : WaitResult) : List PagingEvent :=
  match w.Waited with
  | some P => [PagingEvent.WaitForCompletion P]
  | none => []

/-- The local `GenerationToWaitFor` of `ProcessPagingWork`: the generation of
`FirstUncompletedSyncPoint`, with `GenerationToWaitFor -= 1` when it equals
`pWork->SyncPointGeneration`. -/
def GenerationToWaitFor (pWork : AsyncWorkload)
    (FirstUncompletedSyncPoint : DeviceWideSyncPoint) : Nat :=
  if FirstUncompletedSyncPoint.GenerationID = pWork.SyncPointGeneration then
    sub64 FirstUncompletedSyncPoint.GenerationID 1
  else FirstUncompletedSyncPoint.GenerationID

/-- The trimming branch: the generation to wait for is chosen, the sync point is waited
for, the resident list is trimmed up to it and the trimmed objects are evicted. -/
def waitAndTrim (pWork : AsyncWorkload) (e : IterationEnv) (TotalUsage TotalBudget : Int)
    (InFlight : List DeviceWideSyncPoint) (FirstUncompletedSyncPoint : DeviceWideSyncPoint)
    (s : PagingState) : Option PagingState :=
  let GenerationToWaitFor := GenerationToWaitFor pWork FirstUncompletedSyncPoint
  match WaitForSyncPoint GenerationToWaitFor e.CompletedAfterWait InFlight with
  | none => none
  | some w =>
    let t := s.LRU.TrimToSyncPointInclusive
      (toINT64 (add64 (toUINT64 TotalUsage) s.SizeToMakeResident)) TotalBudget
      GenerationToWaitFor
    some
      { s with
        LRU := t.LRU
        InFlight := w.InFlight
        Log := s.Log ++ waitEvents w ++
          [PagingEvent.Evict t.NumObjectsToEvict t.EvictionList
            ⟨t.Evicted, t.LRU.Objects, w.InFlight⟩] }

/-- The part of an iteration after the bounded batch, entered when
`FAILED(hr) || ObjectsMadeResident != NumObjectsToMakeResident`. -/
def trimOrFinish (pWork : AsyncWorkload) (e : IterationEnv) (TotalUsage TotalBudget : Int)
    (AvailableSpace : Int) (s : PagingState) : Option IterationOutcome :=
  let pResidentHead := s.LRU.GetResidentListHead
  let d := DequeueCompletedSyncPoints e.Completed s.InFlight
  match pResidentHead with
  | none => (finalMakeResident e AvailableSpace d.1 s).map IterationOutcome.exit
  | some pHead =>
    if (s.LRU.Objects pHead).LastGPUSyncPoint ≥ pWork.SyncPointGeneration then
      (finalMakeResident e AvailableSpace d.1 s).map IterationOutcome.exit
    else
      match d.2 with
      | none => (finalMakeResident e AvailableSpace d.1 s).map IterationOutcome.exit
      | some First =>
        (waitAndTrim pWork e TotalUsage TotalBudget d.1 First s).map IterationOutcome.again

/-- The bounded batch of an iteration: when `AvailableSpace > 0` the `for` loop builds a
batch and one `Device->MakeResident` is issued for it.  The second component is
`SUCCEEDED(hr)`; `hr` stays `S_OK` when no call is made. -/
def boundedBatch (e : IterationEnv) (AvailableSpace : Int) (s : PagingState) :
    Option (PagingState × Bool) :=
  let BatchStart := s.MakeResidentIndex
  if AvailableSpace > 0 then
    match batchLoop s.LRU.Objects AvailableSpace
        (s.NumObjectsToMakeResident - s.MakeResidentIndex) s.MakeResidentIndex
        ⟨s.pMakeResidentList, s.MakeResidentIndex, 0, 0, s.ObjectsMadeResident, []⟩ with
    | none => none
    | some b =>
      some
        ({ s with
            pMakeResidentList := b.pMakeResidentList
            MakeResidentIndex := b.MakeResidentIndex
            ObjectsMadeResident := b.ObjectsMadeResident
            SizeToMakeResident :=
              if e.BatchSucceeded then sub64 s.SizeToMakeResident b.BatchSize
              else s.SizeToMakeResident
            Log := s.Log ++ [PagingEvent.MakeResident b.NumObjectsInBatch
              ((b.pMakeResidentList.drop BatchStart).take b.NumObjectsInBatch)
              e.BatchSucceeded ⟨false, AvailableSpace, b.Batch⟩] },
          e.BatchSucceeded)
  else some (s, true)

/-- `INT64 TotalUsage = LocalMemory.CurrentUsage + NonLocalMemory.CurrentUsage`. -/
def IterationEnv.TotalUsage (e : IterationEnv) : Int :=
  toINT64 (add64 e.LocalMemory.CurrentUsage e.NonLocalMemory.CurrentUsage)

/-- `INT64 TotalBudget = LocalMemory.Budget + NonLocalMemory.Budget`. -/
def IterationEnv.TotalBudget (e : IterationEnv) : Int :=
  toINT64 (add64 e.LocalMemory.Budget e.NonLocalMemory.Budget)

/-- `INT64 AvailableSpace = TotalBudget - TotalUsage`, wrapping to 64 bits. -/
def IterationEnv.AvailableSpace (e : IterationEnv) : Int :=
  toINT64 (toUINT64 (e.TotalBudget - e.TotalUsage))

/-- One iteration of the `while (true)` loop of `ProcessPagingWork`. -/
def pagingIteration (pWork : AsyncWorkload) (e : IterationEnv) (s : PagingState) :
    Option IterationOutcome :=
  match boundedBatch e e.AvailableSpace s with
  | none => none
  | some (s1, hr) =>
    if hr = false ∨ s1.ObjectsMadeResident ≠ s1.NumObjectsToMakeResident then
      trimOrFinish pWork e e.TotalUsage e.TotalBudget e.AvailableSpace s1
    else some (IterationOutcome.exit s1)

/-- The `while (true)` loop of `ProcessPagingWork`: one `IterationEnv` is consumed per
iteration; `none` when the loop has not exited after all of them, or an iteration is
undefined or waits forever. -/
def ProcessPagingWork.loop (pWork : AsyncWorkload) :
    List IterationEnv → PagingState → Option PagingState
  | [], _ => none
  | e :: es, s =>
    match pagingIteration pWork e s with
    | none => none
    | some (IterationOutcome.exit s1) => some s1
    | some (IterationOutcome.again s1) => ProcessPagingWork.loop pWork es s1

/-- What `ProcessPagingWork` leaves: the cache, the in-flight list, the workload slot
(cleared), the lengths the two scratch arrays were allocated with, and the log. -/
structure PagingResult where
  LRU : LRUCache
  InFlight : List DeviceWideSyncPoint
  Work : AsyncWorkload
  MakeResidentListLength : Nat
  EvictionListLength : Nat
  Log : List PagingEvent

/-- The part of `ProcessPagingWork` before the batching loop: the completed sync points
are dequeued, the referenced objects are marked, the aged allocations are trimmed and,
if there are any, evicted with one `Device->Evict`. -/
def beginPagingWork (c : LRUCache) (InFlight : List DeviceWideSyncPoint)
    (pWork : AsyncWorkload) (env : PagingEnv) : PagingState :=
  let d := DequeueCompletedSyncPoints env.Completed InFlight
  let m := markObjects c pWork env.CurrentTime
  let t := m.LRU.TrimAgedAllocations d.2 [] 0 env.CurrentTime env.EvictionGracePeriod
  { LRU := t.LRU
    InFlight := d.1
    pMakeResidentList := m.pMakeResidentList
    NumObjectsToMakeResident := m.NumObjectsToMakeResident
    SizeToMakeResident := m.SizeToMakeResident
    ObjectsMadeResident := 0
    MakeResidentIndex := 0
    Log :=
      if t.NumObjectsToEvict ≠ 0 then
        [PagingEvent.Evict t.NumObjectsToEvict t.EvictionList ⟨t.Evicted, t.LRU.Objects, d.1⟩]
      else [] }

/-- `ResidencyManager::ProcessPagingWork`. -/
def ProcessPagingWork (c : LRUCache) (InFlight : List DeviceWideSyncPoint)
    (pWork : AsyncWorkload) (env : PagingEnv) : Option PagingResult :=
  let s0 := beginPagingWork c InFlight pWork env
  match (if s0.NumObjectsToMakeResident ≠ 0 then ProcessPagingWork.loop pWork env.Iterations s0
         else some s0) with
  | none => none
  | some s =>
    some
      { LRU := s.LRU
        InFlight := s.InFlight
        Work := { pWork with ppObjectsReferenced := [], NumObjectsReferenced := 0 }
        MakeResidentListLength := pWork.NumObjectsReferenced
        EvictionListLength := c.NumResidentObjects
        Log := s.Log ++ [PagingEvent.Signal pWork.FenceValueToSignal] }

/-! ## Tracking -/

/-- `ResidencyManager::BeginTrackingObject`; `none` is a null `pObject`.  The second
component is the handle list of the `Device->Evict(1, &pObject->pUnderlying)` call, if the
call is made. -/
def BeginTrackingObject (cStartEvicted : Bool) (c : LRUCache) (pObject : Option Nat) :
    LRUCache × Option (List Nat) :=
  match pObject with
  | none => (c, none)
  | some p =>
    if cStartEvicted then
      let o : ManagedObject :=
        { (c.Objects p) with ResidencyStatus := RESIDENCY_STATUS.EVICTED }
      let c1 : LRUCache := { c with Objects := writeObject c.Objects p o }
      (c1.Insert p, some [(c1.Objects p).pUnderlying])
    else (c.Insert p, none)

/-- `ResidencyManager::EndTrackingObject`. -/
def EndTrackingObject (c : LRUCache) (pObject : Nat) : LRUCache :=
  c.Remove pObject

/-! ## Invariants of the cache -/

/-- The object at `p` is linked exactly once, into the list that matches its
`ResidencyStatus`, and not into the other list. -/
def InMatchingList (c : LRUCache) (p : Nat) : Prop :=
  ((c.Objects p).ResidencyStatus = RESIDENCY_STATUS.RESIDENT →
      c.ResidentObjectList.count p = 1 ∧ c.EvictedObjectList.count p = 0) ∧
  ((c.Objects p).ResidencyStatus = RESIDENCY_STATUS.EVICTED →
      c.EvictedObjectList.count p = 1 ∧ c.ResidentObjectList.count p = 0)

/-- The list-membership invariant for the set `Tracked` of tracked objects: every tracked
object is in exactly one list, the one matching its status; an object that is not
tracked is in neither. -/
def ListMembership (Tracked : Nat → Prop) (c : LRUCache) : Prop :=
  ∀ p, (Tracked p → InMatchingList c p) ∧
       (¬ Tracked p → c.ResidentObjectList.count p = 0 ∧ c.EvictedObjectList.count p = 0)

/-- The sum of `Size` over a list of objects. -/
def sizeSum (Objects : Nat → ManagedObject) (l : List Nat) : Nat :=
  (l.map (fun p => (Objects p).Size)).sum

/-- The aggregates agree with the lists as far as their width allows: `ResidentSize`
is the sum of the resident sizes modulo `2^64`, the two counters are the list lengths
modulo `2^32`. -/
def AggregatesMod (c : LRUCache) : Prop :=
  c.ResidentSize = sizeSum c.Objects c.ResidentObjectList % U64 ∧
  c.NumResidentObjects = c.ResidentObjectList.length % U32 ∧
  c.NumEvictedObjects = c.EvictedObjectList.length % U32

/-- A property of the cache kept by evicting the head of the resident list. -/
def KeptByHeadEviction (I : LRUCache → Prop) : Prop :=
  ∀ c p rest, I c → c.ResidentObjectList = p :: rest → I (c.Evict p)

/-! ## Operations as data, and example states -/

/-- The operations of `LRUCache`, with their arguments. -/
inductive LRUOperation where
  | Insert (pObject : Nat)
  | Remove (pObject : Nat)
  | ObjectReferenced (pObject : Nat)
  | MakeResident (pObject : Nat)
  | Evict (pObject : Nat)
  | TrimToSyncPointInclusive (CurrentUsage CurrentBudget : Int) (SyncPoint : Nat)
  | TrimAgedAllocations (MaxSyncPoint : Option DeviceWideSyncPoint) (EvictionList : List Nat)
      (NumObjectsToEvict CurrentTimeStamp MinDelta : Nat)

/-- The cache an operation leaves. -/
def LRUOperation.run (c : LRUCache) : LRUOperation → LRUCache
  | LRUOperation.Insert p => c.Insert p
  | LRUOperation.Remove p => c.Remove p
  | LRUOperation.ObjectReferenced p => c.ObjectReferenced p
  | LRUOperation.MakeResident p => c.MakeResident p
  | LRUOperation.Evict p => c.Evict p
  | LRUOperation.TrimToSyncPointInclusive u b s => (c.TrimToSyncPointInclusive u b s).LRU
  | LRUOperation.TrimAgedAllocations M ev n t d => (c.TrimAgedAllocations M ev n t d).LRU

/-- What the callers of an operation guarantee (the `RESIDENCY_CHECK`s of the source):
`Insert` is called on an object that is not tracked, the others on a tracked object
with the stated status. -/
def LRUOperation.Requires (Tracked : Nat → Prop) (c : LRUCache) : LRUOperation → Prop
  | LRUOperation.Insert p => ¬ Tracked p
  | LRUOperation.Remove p => Tracked p
  | LRUOperation.ObjectReferenced p =>
    Tracked p ∧ (c.Objects p).ResidencyStatus = RESIDENCY_STATUS.RESIDENT
  | LRUOperation.MakeResident p =>
    Tracked p ∧ (c.Objects p).ResidencyStatus = RESIDENCY_STATUS.EVICTED
  | LRUOperation.Evict p =>
    Tracked p ∧ (c.Objects p).ResidencyStatus = RESIDENCY_STATUS.RESIDENT
  | LRUOperation.TrimToSyncPointInclusive _ _ _ => True
  | LRUOperation.TrimAgedAllocations _ _ _ _ _ => True

/-- The tracked objects after an operation. -/
def LRUOperation.TrackedAfter (Tracked : Nat → Prop) : LRUOperation → Nat → Prop
  | LRUOperation.Insert p => fun q => Tracked q ∨ q = p
  | LRUOperation.Remove p => fun q => Tracked q ∧ q ≠ p
  | _ => Tracked

/-- The aggregates as exact equalities. -/
def AggregatesExact (c : LRUCache) : Prop :=
  c.ResidentSize = sizeSum c.Objects c.ResidentObjectList ∧
  c.NumResidentObjects = c.ResidentObjectList.length ∧
  c.NumEvictedObjects = c.EvictedObjectList.length

instance (c : LRUCache) : Decidable (AggregatesExact c) := by
  unfold AggregatesExact; infer_instance

/-- The membership invariant and the aggregates together. -/
def CacheConsistent (Tracked : Nat → Prop) (c : LRUCache) : Prop :=
  ListMembership Tracked c ∧ AggregatesMod c

/-- Three objects: two resident (sizes 10 and 20) and one evicted (size 7). -/
def exampleObjects : Nat → ManagedObject := fun p =>
  if p = 1 then ⟨RESIDENCY_STATUS.RESIDENT, 101, 10, 3, 5⟩
  else if p = 2 then ⟨RESIDENCY_STATUS.RESIDENT, 102, 20, 4, 6⟩
  else ⟨RESIDENCY_STATUS.EVICTED, 103, 7, 0, 0⟩

/-- A cache tracking the three objects of `exampleObjects`. -/
def exampleCache : LRUCache where
  Objects := exampleObjects
  ResidentObjectList := [1, 2]
  EvictedObjectList := [3]
  NumResidentObjects := 2
  NumEvictedObjects := 1
  ResidentSize := 30

/-- The tracked objects of `exampleCache`. -/
def exampleTracked : Nat → Prop := fun p => p = 1 ∨ p = 2 ∨ p = 3

/-- Two resident objects whose sizes add up to `2^64`. -/
def hugeObjects : Nat → ManagedObject := fun p =>
  if p = 1 then ⟨RESIDENCY_STATUS.RESIDENT, 101, 18446744073709551615, 0, 0⟩
  else ⟨RESIDENCY_STATUS.RESIDENT, 102, 1, 0, 0⟩

/-- `CurrentUsage` after `CurrentUsage -= Size` for each of the sizes in turn: the
subtraction is done on the 64-bit pattern and the result is read as `INT64`. -/
def usageAfter (CurrentUsage : Int) (sizes : List Nat) : Int :=
  sizes.foldl (fun u s => toINT64 (sub64 (toUINT64 u) s)) CurrentUsage

/-- The number of iterations of the loop of `TrimToSyncPointInclusive` that evict, as a
function of the resident list. -/
def trimCount (Objects : Nat → ManagedObject) (CurrentBudget : Int) (SyncPoint : Nat) :
    Int → List Nat → Nat
  | _, [] => 0
  | CurrentUsage, p :: rest =>
    if (Objects p).LastGPUSyncPoint > SyncPoint ∨ CurrentUsage < CurrentBudget then 0
    else trimCount Objects CurrentBudget SyncPoint
      (toINT64 (sub64 (toUINT64 CurrentUsage) (Objects p).Size)) rest + 1

/-- The object memory after the objects of `l` have been marked `EVICTED`. -/
def markEvicted (Objects : Nat → ManagedObject) (l : List Nat) : Nat → ManagedObject :=
  fun p =>
    if p ∈ l then { (Objects p) with ResidencyStatus := RESIDENCY_STATUS.EVICTED }
    else Objects p

/-- `UINT32` counter after `k` increments. -/
def incBy32 (n k : Nat) : Nat := if k = 0 then n else (n + k) % U32

/-- The `i`-th resident object (counting from 0) is within the prefix
`TrimToSyncPointInclusive` is to evict: its `LastGPUSyncPoint` is at most `SyncPoint`, and
`CurrentUsage` minus the sizes of the objects before it is at least `CurrentBudget`
(signed 64-bit comparison). -/
def TrimCondition (Objects : Nat → ManagedObject) (CurrentBudget : Int) (SyncPoint : Nat)
    (CurrentUsage : Int) (Resident : List Nat) (i : Nat) : Prop :=
  ∃ o, Resident[i]? = some o ∧ (Objects o).LastGPUSyncPoint ≤ SyncPoint ∧
    usageAfter CurrentUsage ((Resident.take i).map (fun p => (Objects p).Size)) ≥ CurrentBudget

/-- What `TrimToSyncPointInclusive` is claimed to do on cache `c`: it evicts exactly the
longest prefix `o1..ok` of the resident list all of whose positions satisfy
`TrimCondition`; the handles of these objects are returned in order with
`NumObjectsToEvict = k` (modulo `2^32`), exactly these objects are marked `EVICTED` and moved
to the evicted list, the rest of the resident list stays as it is; nothing is evicted when
`CurrentUsage < CurrentBudget` at entry and every evicted object has
`LastGPUSyncPoint ≤ SyncPoint`. -/
def EvictsLongestPrefix (c : LRUCache) (CurrentUsage CurrentBudget : Int) (SyncPoint : Nat) :
    Prop :=
    ∃ k, k ≤ c.ResidentObjectList.length ∧
      (∀ i, i < k →
        TrimCondition c.Objects CurrentBudget SyncPoint CurrentUsage c.ResidentObjectList i) ∧
      ¬ TrimCondition c.Objects CurrentBudget SyncPoint CurrentUsage c.ResidentObjectList k ∧
      (c.TrimToSyncPointInclusive CurrentUsage CurrentBudget SyncPoint).Evicted =
        c.ResidentObjectList.take k ∧
      (c.TrimToSyncPointInclusive CurrentUsage CurrentBudget SyncPoint).EvictionList =
        (c.ResidentObjectList.take k).map (fun p => (c.Objects p).pUnderlying) ∧
      (c.TrimToSyncPointInclusive CurrentUsage CurrentBudget SyncPoint).NumObjectsToEvict =
        k % U32 ∧
      (c.ResidentObjectList.length < U32 →
        (c.TrimToSyncPointInclusive CurrentUsage CurrentBudget SyncPoint).NumObjectsToEvict = k) ∧
      (c.TrimToSyncPointInclusive CurrentUsage CurrentBudget SyncPoint).LRU.ResidentObjectList =
        c.ResidentObjectList.drop k ∧
      (c.TrimToSyncPointInclusive CurrentUsage CurrentBudget SyncPoint).LRU.EvictedObjectList =
        c.EvictedObjectList ++ c.ResidentObjectList.take k ∧
      (c.TrimToSyncPointInclusive CurrentUsage CurrentBudget SyncPoint).LRU.Objects =
        markEvicted c.Objects (c.ResidentObjectList.take k) ∧
      (∀ p ∈ c.ResidentObjectList.drop k,
        ((c.TrimToSyncPointInclusive CurrentUsage CurrentBudget SyncPoint).LRU.Objects
          p).ResidencyStatus = RESIDENCY_STATUS.RESIDENT) ∧
      (CurrentUsage < CurrentBudget → k = 0) ∧
      (∀ p ∈ c.ResidentObjectList.take k, (c.Objects p).LastGPUSyncPoint ≤ SyncPoint)

/-- The test under which `TrimAgedAllocations` evicts the object at `p`: its
`LastGPUSyncPoint` is below the generation of the gate sync point (no test for a null
gate) and `now - LastUsedTimestamp`, computed in `UINT64`, exceeds the grace period. -/
def agedOut (Objects : Nat → ManagedObject) (MaxSyncPoint : Option DeviceWideSyncPoint)
    (now grace : Nat) (p : Nat) : Bool :=
  (match MaxSyncPoint with
   | some gate => decide ((Objects p).LastGPUSyncPoint < gate.GenerationID)
   | none => true) &&
  decide (sub64 now (Objects p).LastUsedTimestamp > grace)

/-- What `TrimAgedAllocations` is claimed to do on cache `c`: it evicts exactly the longest
prefix of the resident list whose objects all pass `agedOut`, stops at the first object that
was used at or after the gate generation or within the grace period, appends the handles of
the evicted objects to the eviction list in walk order, and leaves every other object as it
was. -/
def EvictsAgedPrefix (c : LRUCache) (MaxSyncPoint : Option DeviceWideSyncPoint)
    (EvictionList : List Nat) (NumObjectsToEvict now grace : Nat) : Prop :=
    (c.TrimAgedAllocations MaxSyncPoint EvictionList NumObjectsToEvict now grace).Evicted =
      c.ResidentObjectList.takeWhile (agedOut c.Objects MaxSyncPoint now grace) ∧
    (∀ gate, MaxSyncPoint = some gate →
      ∀ p ∈ c.ResidentObjectList.takeWhile (agedOut c.Objects MaxSyncPoint now grace),
        (c.Objects p).LastGPUSyncPoint < gate.GenerationID ∧
        sub64 now (c.Objects p).LastUsedTimestamp > grace) ∧
    (∀ gate, MaxSyncPoint = some gate →
      ∀ p, (c.ResidentObjectList.dropWhile (agedOut c.Objects MaxSyncPoint now grace)).head?
          = some p →
        (c.Objects p).LastGPUSyncPoint ≥ gate.GenerationID ∨
        sub64 now (c.Objects p).LastUsedTimestamp ≤ grace) ∧
    (c.TrimAgedAllocations MaxSyncPoint EvictionList NumObjectsToEvict now grace).EvictionList =
      EvictionList ++
        (c.ResidentObjectList.takeWhile (agedOut c.Objects MaxSyncPoint now grace)).map
          (fun p => (c.Objects p).pUnderlying) ∧
    (NumObjectsToEvict +
        (c.ResidentObjectList.takeWhile (agedOut c.Objects MaxSyncPoint now grace)).length < U32 →
      (c.TrimAgedAllocations MaxSyncPoint EvictionList NumObjectsToEvict now
        grace).NumObjectsToEvict =
      NumObjectsToEvict +
        (c.ResidentObjectList.takeWhile (agedOut c.Objects MaxSyncPoint now grace)).length) ∧
    (c.TrimAgedAllocations MaxSyncPoint EvictionList NumObjectsToEvict now
        grace).LRU.ResidentObjectList =
      c.ResidentObjectList.dropWhile (agedOut c.Objects MaxSyncPoint now grace) ∧
    (c.TrimAgedAllocations MaxSyncPoint EvictionList NumObjectsToEvict now
        grace).LRU.EvictedObjectList =
      c.EvictedObjectList ++
        c.ResidentObjectList.takeWhile (agedOut c.Objects MaxSyncPoint now grace) ∧
    (c.TrimAgedAllocations MaxSyncPoint EvictionList NumObjectsToEvict now grace).LRU.Objects =
      markEvicted c.Objects
        (c.ResidentObjectList.takeWhile (agedOut c.Objects MaxSyncPoint now grace))

/-- The object at `p` as the marking loop of a job leaves it: resident, linked into the
resident list, stamped with the generation of the job and with the time of the pass. -/
def Referenced (SyncPointGeneration CurrentTime : Nat) (c : LRUCache) (p : Nat) : Prop :=
  (c.Objects p).ResidencyStatus = RESIDENCY_STATUS.RESIDENT ∧
  p ∈ c.ResidentObjectList ∧
  (c.Objects p).LastGPUSyncPoint = SyncPointGeneration ∧
  (c.Objects p).LastUsedTimestamp = CurrentTime

/-- The invariant of the batching loop behind reference monotonicity. -/
def ReferencedKept (refs : List Nat) (g t : Nat) (InFlight₀ : List DeviceWideSyncPoint)
    (s : PagingState) : Prop :=
  (∀ p ∈ refs, Referenced g t s.LRU p) ∧ (∀ P ∈ s.InFlight, P ∈ InFlight₀)

/-- A sync point of generation 4 on one queue fence. -/
def exampleP4 : DeviceWideSyncPoint := ⟨4, 1, [⟨0, 7⟩]⟩

/-- A sync point of generation 5 on one queue fence. -/
def exampleP5 : DeviceWideSyncPoint := ⟨5, 1, [⟨0, 9⟩]⟩

/-- A job of generation 5 that references the evicted object of `exampleCache`. -/
def exampleWork : AsyncWorkload := ⟨5, [3], 1, 8⟩

/-- An iteration in which the budget is used up and the fence reaches 7 while waiting. -/
def tightIteration : IterationEnv := ⟨⟨30, 30⟩, ⟨0, 0⟩, true, true, fun _ => 0, fun _ => 7⟩

/-- An iteration with 90 bytes available. -/
def ampleIteration : IterationEnv := ⟨⟨100, 10⟩, ⟨0, 0⟩, true, true, fun _ => 0, fun _ => 0⟩

/-- A pass at time 100 with a grace period of 50 ticks: two tight iterations, then an
ample one. -/
def exampleEnv : PagingEnv :=
  ⟨100, fun _ => 0, ⟨100, 10⟩, 50, [tightIteration, tightIteration, ampleIteration]⟩

/-- The property of a log entry behind eviction safety: the objects a `Device->Evict` call
evicts were last used at a generation below that of every sync point in the in-flight
list at the time of the call. -/
def PagingEvent.EvictionSafe : PagingEvent → Prop
  | PagingEvent.Evict _ _ ctx =>
    ∀ p ∈ ctx.Evicted, ∀ P ∈ ctx.InFlight,
      (ctx.Objects p).LastGPUSyncPoint < P.GenerationID
  | _ => True

/-- The in-flight list is in strictly increasing generation order. -/
def GenerationsIncreasing (l : List DeviceWideSyncPoint) : Prop :=
  l.Pairwise (fun P Q => P.GenerationID < Q.GenerationID)

/-- The invariant of the batching loop behind eviction safety; `Obs P` says that `P` has
been seen completed. -/
def EvictionsSafe (Obs : DeviceWideSyncPoint → Prop) (InFlight₀ : List DeviceWideSyncPoint)
    (s : PagingState) : Prop :=
  GenerationsIncreasing s.InFlight ∧
  (∀ P ∈ InFlight₀, P ∉ s.InFlight → Obs P) ∧
  (∀ P ∈ s.InFlight, P ∈ InFlight₀) ∧
  (∀ ev ∈ s.Log, ev.EvictionSafe)

/-- A sync point has been seen completed during a pass: by the first
`DequeueCompletedSyncPoints`, by that of an iteration, or by the wait of an iteration. -/
def SeenCompleted (env : PagingEnv) (P : DeviceWideSyncPoint) : Prop :=
  P.IsCompleted env.Completed = true ∨
  ∃ e ∈ env.Iterations,
    P.IsCompleted e.Completed = true ∨ P.IsCompleted e.CompletedAfterWait = true

/-- The array entry the batch loops write for the managed object at `p`. -/
def underlyingOf (Objects : Nat → ManagedObject) (p : Nat) : ResidentScratchSpace :=
  ResidentScratchSpace.pUnderlying (Objects p).pUnderlying

/-- C9 as stated, for one log entry: a `MakeResident` call that succeeds has objects of
total size at most `AvailableSpace`. -/
def PagingEvent.WithinAvailable (Objects : Nat → ManagedObject) : PagingEvent → Prop
  | PagingEvent.MakeResident _ _ hr ctx =>
    hr = true → (sizeSum Objects ctx.Batch : Int) ≤ ctx.AvailableSpace
  | _ => True

instance (Objects : Nat → ManagedObject) (ev : PagingEvent) :
    Decidable (ev.WithinAvailable Objects) := by
  cases ev <;> unfold PagingEvent.WithinAvailable <;> infer_instance

/-- The budget property of a bounded batch, for one log entry: a `MakeResident` call other
than the final one is issued with `AvailableSpace > 0`, the value computed in one of the
iterations `es`; the total size of its objects, modulo `2^64`, is at most
`AvailableSpace`, and so is the total size itself when every size is below `2^63`; the
call passes the handles of exactly these objects. -/
def PagingEvent.BoundedWithinAvailable (Objects : Nat → ManagedObject)
    (es : List IterationEnv) : PagingEvent → Prop
  | PagingEvent.MakeResident n l _ ctx =>
    ctx.Final = false →
      (∃ e ∈ es, ctx.AvailableSpace = e.AvailableSpace) ∧
      0 < ctx.AvailableSpace ∧
      ((sizeSum Objects ctx.Batch % U64 : Nat) : Int) ≤ ctx.AvailableSpace ∧
      ((∀ p ∈ ctx.Batch, (Objects p).Size < 9223372036854775808) →
        (sizeSum Objects ctx.Batch : Int) ≤ ctx.AvailableSpace) ∧
      n = ctx.Batch.length % U32 ∧
      l = (ctx.Batch.map (underlyingOf Objects)).take n
  | _ => True

/-- Two object memories agree on the sizes and handles. -/
def SameSizes (O₀ O : Nat → ManagedObject) : Prop :=
  ∀ p, (O p).Size = (O₀ p).Size ∧ (O p).pUnderlying = (O₀ p).pUnderlying

/-- The invariant of `batchLoop`: started at `start`, about to look at index `i`. -/
def BatchInv (O : Nat → ManagedObject) (A : Int) (start i : Nat) (b : BatchState) : Prop :=
  i = start + b.Batch.length ∧
  b.BatchSize = sizeSum O b.Batch % U64 ∧
  b.BatchSize ≤ toUINT64 A ∧
  ((∀ p ∈ b.Batch, (O p).Size < 9223372036854775808) → b.BatchSize = sizeSum O b.Batch) ∧
  b.NumObjectsInBatch = b.Batch.length % U32 ∧
  (∀ j, j < b.Batch.length →
    b.pMakeResidentList[start + j]? = (b.Batch.map (underlyingOf O))[j]?)

/-- The invariant of the batching loop behind budget respect. -/
def BatchesBounded (O₀ : Nat → ManagedObject) (es : List IterationEnv) (s : PagingState) :
    Prop :=
  SameSizes O₀ s.LRU.Objects ∧ ∀ ev ∈ s.Log, ev.BoundedWithinAvailable O₀ es

/-- The `Device->MakeResident` calls of a log, in order. -/
def makeResidentCalls (Log : List PagingEvent) :
    List (Nat × List ResidentScratchSpace × Bool × MakeResidentContext) :=
  Log.filterMap (fun ev =>
    match ev with
    | PagingEvent.MakeResident n l hr ctx => some (n, l, hr, ctx)
    | _ => none)

/-- The `LastGPUSyncPoint` values of the resident list, head first. -/
def residentSyncPoints (c : LRUCache) : List Nat :=
  c.ResidentObjectList.map (fun p => (c.Objects p).LastGPUSyncPoint)

/-- The resident list has non-decreasing `LastGPUSyncPoint` values from head to tail. -/
def ResidentNonDecreasing (c : LRUCache) : Prop :=
  (residentSyncPoints c).Pairwise (fun a b => a ≤ b)

instance (c : LRUCache) : Decidable (ResidentNonDecreasing c) := by
  unfold ResidentNonDecreasing; infer_instance

/-- The ordering invariant with its bound: the resident list is non-decreasing and no
resident object was used at a generation above `G`. -/
def ResidentOrdered (G : Nat) (c : LRUCache) : Prop :=
  ResidentNonDecreasing c ∧ ∀ p ∈ c.ResidentObjectList, (c.Objects p).LastGPUSyncPoint ≤ G

/-- Freshly constructed objects: `ManagedObject()` followed by `Initialize`. -/
def freshObjects : Nat → ManagedObject := fun p => ManagedObject.Initialize (100 + p) 16

/-- A pass that finds every fence completed, at time 10, with a grace period of 1000
ticks. -/
def idleEnv : PagingEnv := ⟨10, fun _ => 0, ⟨100, 0⟩, 1000, []⟩

/-- A run of public operations on fresh objects 1 and 2: object 1 is tracked, the paging
passes of the submissions of generation 0 (referencing nothing) and 1 (referencing
object 1) run, object 1 is untracked, object 2 is tracked and object 1 is tracked again.
The result is the cache after these operations. -/
def retrackScenario : Option LRUCache :=
  let c1 := (BeginTrackingObject false (LRUCache.init freshObjects) (some 1)).1
  match ProcessPagingWork c1 [] ⟨0, [], 0, 1⟩ idleEnv with
  | none => none
  | some r0 =>
    match ProcessPagingWork r0.LRU [] ⟨1, [1], 1, 2⟩ idleEnv with
    | none => none
    | some r1 =>
      let c3 := EndTrackingObject r1.LRU 1
      let c4 := (BeginTrackingObject false c3 (some 2)).1
      some (BeginTrackingObject false c4 (some 1)).1

/-- The struct `Internal::Fence`: whether `Initialize` gave it a D3D12 fence, and
`FenceValue`. -/
structure Fence where
  Initialized : Bool
  FenceValue : Nat
  deriving DecidableEq, Repr

/-- `Fence::Increment`. -/
def Fence.Increment (f : Fence) : Fence :=
  { f with FenceValue := add64 f.FenceValue 1 }

/-- What one pass through the block under `ExecutionCS` of `ExecuteSubset` did, in
program order: the workload `EnqueueAsyncWork` wrote into the ring and whether the call
succeeded, the value of the `Queue->Wait` on the gate fence if one was issued, the command
lists passed to `Queue->ExecuteCommandLists` with the residency sets attached to them,
the queue fence and value of the `Queue->Signal` if one was issued, and the sync point
`EnqueueSyncPoint` appended, if any. -/
structure SubmissionRecord where
  Queue : Nat
  Workload : AsyncWorkload
  EnqueueSucceeded : Bool
  WaitValue : Option Nat
  CommandLists : List Nat
  ResidencySets : List (Option (List Nat))
  Signal : Option (Nat × Nat)
  SyncPoint : Option DeviceWideSyncPoint
  deriving DecidableEq, Repr

/-- What one call of `ExecuteSubset` obtains from outside: the two budget queries, the
results of the device, queue and event calls, whether the sync point could be allocated,
and the number of jobs the paging thread takes off the ring before `EnqueueAsyncWork`
checks for room. -/
structure SubsetEnv where
  LocalMemory : DXGI_QUERY_VIDEO_MEMORY_INFO
  NonLocalMemory : DXGI_QUERY_VIDEO_MEMORY_INFO
  FenceInitialized : Bool
  PrivateDataSet : Bool
  WorkerDequeues : Nat
  EventSet : Bool
  GPUWaitSucceeded : Bool
  GPUSignalSucceeded : Bool
  SyncPointAllocated : Bool
  deriving DecidableEq, Repr

/-- The members of `ResidencyManager` the submission path uses.  A queue fence is
addressed by its index in `QueueFences` (the list at `QueueFencesListHead`);
`QueuePrivateData` is the fence pointer stored on each queue under `FenceGuid`; `Calls`
counts the calls of `ExecuteSubset` and `History` has one record per submission. -/
structure ResidencyManager where
  AsyncThreadFence : Fence
  QueueFences : List Fence
  QueuePrivateData : Nat → Option Nat
  NumQueuesSeen : Nat
  InFlightSyncPoints : List DeviceWideSyncPoint
  CurrentSyncPointGeneration : Nat
  AsyncWorkQueue : List AsyncWorkload
  AsyncWorkQueueSize : Nat
  MaxSoftwareQueueLatency : Nat
  CurrentAsyncWorkloadHead : Nat
  CurrentAsyncWorkloadTail : Nat
  Calls : Nat
  History : List SubmissionRecord

/-- The constructor `AsyncWorkload()`. -/
def AsyncWorkload.init : AsyncWorkload := ⟨0, [], 0, 0⟩

/-- The constructor `ResidencyManager()` followed by `Initialize(..., MaxLatency)`. -/
def ResidencyManager.Initialize (MaxLatency : Nat) : ResidencyManager where
  AsyncThreadFence := ⟨true, 1⟩
  QueueFences := []
  QueuePrivateData := fun _ => none
  NumQueuesSeen := 0
  InFlightSyncPoints := []
  CurrentSyncPointGeneration := 0
  AsyncWorkQueue := List.replicate (inc32 (MaxLatency % U32)) AsyncWorkload.init
  AsyncWorkQueueSize := inc32 (MaxLatency % U32)
  MaxSoftwareQueueLatency := MaxLatency % U32
  CurrentAsyncWorkloadHead := 0
  CurrentAsyncWorkloadTail := 0
  Calls := 0
  History := []

/-- `ResidencyManager::DequeueAsyncWork`: the manager and the index of the slot whose
address is returned (the inner `none` is `nullptr`).  The slot index is
`CurrentAsyncWorkloadHead % AsyncWorkQueueSize`; with a queue size of 0 that is a division
by zero, and the result is then `none`. -/
def ResidencyManager.DequeueAsyncWork (m : ResidencyManager) :
    Option (ResidencyManager × Option Nat) :=
  if m.CurrentAsyncWorkloadHead = m.CurrentAsyncWorkloadTail then some (m, none)
  else if m.AsyncWorkQueueSize = 0 then none
  else
    let currentHead := m.CurrentAsyncWorkloadHead % m.AsyncWorkQueueSize
    some ({ m with CurrentAsyncWorkloadHead := add64 m.CurrentAsyncWorkloadHead 1 },
      some currentHead)

/-- `k` calls of `DequeueAsyncWork` by the paging thread. -/
def ResidencyManager.workerDequeues : Nat → ResidencyManager → Option ResidencyManager
  | 0, m => some m
  | k + 1, m =>
    match m.DequeueAsyncWork with
    | none => none
    | some (m1, _) => ResidencyManager.workerDequeues k m1

/-- `ResidencyManager::EnqueueAsyncWork`.  When there is no room the call waits for the
paging thread; `none` stands for a call that does not return: a wait that does not end,
or the division by zero in `CurrentAsyncWorkloadTail % AsyncWorkQueueSize` when the queue
size is 0.  The second component is whether `SetEvent` succeeded, that is whether `S_OK`
is returned. -/
def ResidencyManager.EnqueueAsyncWork (m : ResidencyManager) (ppObjectsReferenced : List Nat)
    (NumObjectsReferenced FenceValueToSignal SyncPointGeneration : Nat) (EventSet : Bool) :
    Option (ResidencyManager × Bool) :=
  if sub64 m.CurrentAsyncWorkloadTail m.CurrentAsyncWorkloadHead ≥ m.MaxSoftwareQueueLatency then
    none
  else if m.AsyncWorkQueueSize = 0 then none
  else
    let currentIndex := m.CurrentAsyncWorkloadTail % m.AsyncWorkQueueSize
    some
      ({ m with
          AsyncWorkQueue := m.AsyncWorkQueue.set currentIndex
            ⟨SyncPointGeneration, ppObjectsReferenced, NumObjectsReferenced, FenceValueToSignal⟩
          CurrentAsyncWorkloadTail := add64 m.CurrentAsyncWorkloadTail 1 },
        EventSet)

/-- The queue sync points `EnqueueSyncPoint` records: one per fence of the queue-fence
list, with `LastUsedValue = FenceValue - 1`. -/
def captureQueueSyncPoints (fences : List Fence) : List QueueSyncPoint :=
  fences.enum.map (fun f => ⟨f.1, sub64 f.2.FenceValue 1⟩)

/-- `ResidencyManager::EnqueueSyncPoint`; `Allocated` is whether `CreateSyncPoint`
returned a sync point.  The second component is whether `S_OK` is returned. -/
def ResidencyManager.EnqueueSyncPoint (m : ResidencyManager) (Allocated : Bool) :
    ResidencyManager × Bool :=
  if Allocated then
    ({ m with
        InFlightSyncPoints := m.InFlightSyncPoints ++
          [⟨m.CurrentSyncPointGeneration, m.NumQueuesSeen, captureQueueSyncPoints m.QueueFences⟩] },
      true)
  else (m, false)

/-- `TSet::Insert` of one object into a set kept in insertion order. -/
def setInsert (s : List Nat) (pObject : Nat) : List Nat :=
  if pObject ∈ s then s else s ++ [pObject]

/-- `MasterSet` of `ExecuteSubset`: the union of the residency sets that are not null, in
the order `ForEach` visits it (insertion order here; an `unordered_set` fixes none). -/
def masterSet (ResidencySets : List (Option (List Nat))) : List Nat :=
  ResidencySets.foldl
    (fun s r =>
      match r with
      | some Objects => Objects.foldl setInsert s
      | none => s) []

/-- `TotalSizeNeeded` of `ExecuteSubset`: the `UINT64` sum `AccumulateSize` builds. -/
def totalSizeNeeded (Objects : Nat → ManagedObject) (ppObjectsReferenced : List Nat) : Nat :=
  ppObjectsReferenced.foldl (fun t p => add64 t (Objects p).Size) 0

/-- The test of `ExecuteSubset` for splitting:
`Count > 1 && TotalSizeNeeded > LocalMemory.Budget + NonLocalMemory.Budget`. -/
def needsSplit (Objects : Nat → ManagedObject) (e : SubsetEnv)
    (lists : List (Nat × Option (List Nat))) : Bool :=
  decide (lists.length > 1) &&
  decide (totalSizeNeeded Objects (masterSet (lists.map (fun l => l.2))) >
    add64 e.LocalMemory.Budget e.NonLocalMemory.Budget)

/-- The block of `ExecuteSubset` that finds or creates the fence of the queue: the
manager and the index of the fence. -/
def ResidencyManager.findOrCreateFence (m : ResidencyManager) (e : SubsetEnv) (Queue : Nat) :
    ResidencyManager × Nat :=
  match m.QueuePrivateData Queue with
  | some QueueFence => (m, QueueFence)
  | none =>
    let QueueFence := m.QueueFences.length
    let m1 : ResidencyManager :=
      { m with
        QueueFences := m.QueueFences ++ [⟨e.FenceInitialized, 1⟩]
        NumQueuesSeen := inc32 m.NumQueuesSeen }
    if e.FenceInitialized && e.PrivateDataSet then
      ({ m1 with
          QueuePrivateData := fun q => if q = Queue then some QueueFence else m.QueuePrivateData q },
        QueueFence)
    else (m1, QueueFence)

/-- `Fence::GPUSignal` followed by `Fence::Increment` on the queue fence at index
`QueueFence`: the value signalled and the fence list after the increment. -/
def signalAndIncrement (fences : List Fence) (QueueFence : Nat) : Nat × List Fence :=
  match fences[QueueFence]? with
  | some F => (F.FenceValue, fences.set QueueFence F.Increment)
  | none => (0, fences)

/-- The block of `ExecuteSubset` under `ExecutionCS` from the return of
`EnqueueAsyncWork` on: `m` is the manager and `hr1` the result of that call, `QueueFence`
the fence of the queue and `Workload` the job the call wrote into the ring.  The second
component is whether `hr` is a success code at the end. -/
def ResidencyManager.afterEnqueue (m : ResidencyManager) (hr1 : Bool) (e : SubsetEnv)
    (Queue QueueFence : Nat) (Workload : AsyncWorkload)
    (lists : List (Nat × Option (List Nat))) : ResidencyManager × Bool :=
  let WaitValue := if hr1 then some m.AsyncThreadFence.FenceValue else none
  let m3 : ResidencyManager :=
    if hr1 then { m with AsyncThreadFence := m.AsyncThreadFence.Increment } else m
  let hr2 := if hr1 then e.GPUWaitSucceeded else hr1
  let sig := signalAndIncrement m3.QueueFences QueueFence
  let m5 : ResidencyManager := if hr2 then { m3 with QueueFences := sig.2 } else m3
  let hr3 := if hr2 then e.GPUSignalSucceeded else hr2
  let s := if hr3 then m5.EnqueueSyncPoint e.SyncPointAllocated else (m5, hr3)
  let record : SubmissionRecord :=
    { Queue := Queue
      Workload := Workload
      EnqueueSucceeded := hr1
      WaitValue := WaitValue
      CommandLists := lists.map (fun l => l.1)
      ResidencySets := lists.map (fun l => l.2)
      Signal := if hr2 then some (QueueFence, sig.1) else none
      SyncPoint :=
        if hr3 && e.SyncPointAllocated then
          some ⟨m5.CurrentSyncPointGeneration, m5.NumQueuesSeen,
            captureQueueSyncPoints m5.QueueFences⟩
        else none }
  ({ s.1 with
      CurrentSyncPointGeneration := add64 s.1.CurrentSyncPointGeneration 1
      History := s.1.History ++ [record] },
    s.2)

/-- The part of `ExecuteSubset` after the split test: the fence of the queue is found or
created and the block under `ExecutionCS` runs.  The second component is whether `hr`
is a success code when the function returns; `none` when the call does not return
(`EnqueueAsyncWork` waits forever, or a slot index is computed with a queue size of 0). -/
def ResidencyManager.submit (m : ResidencyManager) (e : SubsetEnv) (Queue : Nat)
    (lists : List (Nat × Option (List Nat))) : Option (ResidencyManager × Bool) :=
  let ppObjectsReferenced := masterSet (lists.map (fun l => l.2))
  let f := m.findOrCreateFence e Queue
  match f.1.workerDequeues e.WorkerDequeues with
  | none => none
  | some m1 =>
    match m1.EnqueueAsyncWork ppObjectsReferenced ppObjectsReferenced.length
        m1.AsyncThreadFence.FenceValue m1.CurrentSyncPointGeneration e.EventSet with
    | none => none
    | some (m2, hr1) =>
      some (m2.afterEnqueue hr1 e Queue f.2
        ⟨m1.CurrentSyncPointGeneration, ppObjectsReferenced, ppObjectsReferenced.length,
          m1.AsyncThreadFence.FenceValue⟩ lists)

/-- `ResidencyManager::ExecuteSubset` on the command lists with their residency sets
(`Count` is the length of the list); `env` gives what the `n`-th call of the function
obtains from outside, `fuel` bounds the depth of the recursion.  The result is the manager
where the call stops and, when the call returns, whether it returns `S_OK`; `none` is a
call that does not return (`submit` does not return, or the fuel is used up). -/
def ResidencyManager.ExecuteSubset (Objects : Nat → ManagedObject) (env : Nat → SubsetEnv)
    (Queue : Nat) :
    Nat → ResidencyManager → List (Nat × Option (List Nat)) → ResidencyManager × Option Bool
  | 0, m, lists =>
    if needsSplit Objects (env m.Calls) lists then (m, none)
    else
      match ({ m with Calls := m.Calls + 1 }).submit (env m.Calls) Queue lists with
      | none => ({ m with Calls := m.Calls + 1 }, none)
      | some (m1, hr) => (m1, some hr)
  | fuel + 1, m, lists =>
    if needsSplit Objects (env m.Calls) lists then
      let Half := lists.length / 2
      match ResidencyManager.ExecuteSubset Objects env Queue fuel
          { m with Calls := m.Calls + 1 } (lists.take Half) with
      | (m1, none) => (m1, none)
      | (m1, some LowerHR) =>
        match ResidencyManager.ExecuteSubset Objects env Queue fuel m1 (lists.drop Half) with
        | (m2, none) => (m2, none)
        | (m2, some UpperHR) => (m2, some (LowerHR && UpperHR))
    else
      match ({ m with Calls := m.Calls + 1 }).submit (env m.Calls) Queue lists with
      | none => ({ m with Calls := m.Calls + 1 }, none)
      | some (m1, hr) => (m1, some hr)

/-- `ResidencyManager::ExecuteCommandLists`. -/
def ResidencyManager.ExecuteCommandLists (Objects : Nat → ManagedObject) (env : Nat → SubsetEnv)
    (Queue : Nat) (m : ResidencyManager) (lists : List (Nat × Option (List Nat))) :
    ResidencyManager × Option Bool :=
  ResidencyManager.ExecuteSubset Objects env Queue lists.length m lists

/-- A sequence of submissions, each with what it obtains from outside, its queue and its
command lists: the manager after the last one (`none` when one of them waits forever). -/
def ResidencyManager.submitAll :
    ResidencyManager → List (SubsetEnv × Nat × List (Nat × Option (List Nat))) →
      Option ResidencyManager
  | m, [] => some m
  | m, s :: rest =>
    match m.submit s.1 s.2.1 s.2.2 with
    | none => none
    | some (m1, _) => ResidencyManager.submitAll m1 rest

/-- C8 as stated, on the records of a run: the `Wait` of a submission uses the value its
workload carries, and that value is strictly greater than the value of every earlier
submission. -/
def GateStrictlyOrdered (History : List SubmissionRecord) : Prop :=
  (∀ r ∈ History, ∀ v, r.WaitValue = some v → v = r.Workload.FenceValueToSignal) ∧
  History.Pairwise (fun a b => a.Workload.FenceValueToSignal < b.Workload.FenceValueToSignal)

instance (History : List SubmissionRecord) : Decidable (GateStrictlyOrdered History) := by
  unfold GateStrictlyOrdered
  have : ∀ r : SubmissionRecord,
      Decidable (∀ v, r.WaitValue = some v → v = r.Workload.FenceValueToSignal) := by
    intro r
    cases h : r.WaitValue with
    | none => exact isTrue (fun v hv => by cases hv)
    | some w =>
      exact decidable_of_iff (w = r.Workload.FenceValueToSignal)
        ⟨fun e v hv => by cases hv; exact e, fun f => f w rfl⟩
  infer_instance

/-- The gate-fence ordering that holds: a submission whose `EnqueueAsyncWork` succeeded
issues a `Wait` with the value its workload carries and no other submission issues one;
the values never decrease along the run and increase strictly after every submission
whose `EnqueueAsyncWork` succeeded. -/
def GateOrdered (History : List SubmissionRecord) : Prop :=
  (∀ r ∈ History, r.WaitValue =
    if r.EnqueueSucceeded then some r.Workload.FenceValueToSignal else none) ∧
  History.Pairwise (fun a b =>
    a.Workload.FenceValueToSignal ≤ b.Workload.FenceValueToSignal ∧
    (a.EnqueueSucceeded = true →
      a.Workload.FenceValueToSignal < b.Workload.FenceValueToSignal))

/-- The invariant behind `GateOrdered`: the records are ordered and lie below the current
value of the gate fence. -/
def GateInvariant (m : ResidencyManager) : Prop :=
  GateOrdered m.History ∧
  ∀ r ∈ m.History,
    r.Workload.FenceValueToSignal ≤ m.AsyncThreadFence.FenceValue ∧
    (r.EnqueueSucceeded = true →
      r.Workload.FenceValueToSignal < m.AsyncThreadFence.FenceValue)

/-- A call of `ExecuteSubset` in which everything succeeds, with a budget of 100 bytes. -/
def okEnv : SubsetEnv := ⟨⟨100, 0⟩, ⟨0, 0⟩, true, true, 0, true, true, true, true⟩

/-- A call of `ExecuteSubset` in which `SetEvent` fails in `EnqueueAsyncWork`. -/
def eventFailsEnv : SubsetEnv := ⟨⟨100, 0⟩, ⟨0, 0⟩, true, true, 0, false, true, true, true⟩

/-- C10 as stated, for one batch: a single command list, or the sizes of the distinct
objects of its residency sets add up to at most the sum of the two budgets. -/
def BatchFits (Objects : Nat → ManagedObject) (LocalBudget NonLocalBudget : Nat)
    (r : SubmissionRecord) : Prop :=
  r.CommandLists.length = 1 ∨
    sizeSum Objects (masterSet r.ResidencySets) ≤ LocalBudget + NonLocalBudget

instance (Objects : Nat → ManagedObject) (LocalBudget NonLocalBudget : Nat)
    (r : SubmissionRecord) : Decidable (BatchFits Objects LocalBudget NonLocalBudget r) := by
  unfold BatchFits; infer_instance

/-- What the split test of `ExecuteSubset` gives for one batch: a single command list, or
the 64-bit total of the sizes is at most the 64-bit sum of the two budgets. -/
def BatchFitsMod (Objects : Nat → ManagedObject) (LocalBudget NonLocalBudget : Nat)
    (r : SubmissionRecord) : Prop :=
  r.CommandLists.length = 1 ∨
    sizeSum Objects (masterSet r.ResidencySets) % U64 ≤ (LocalBudget + NonLocalBudget) % U64

/-- The budget queries of every call of `ExecuteSubset` report the same two budgets. -/
def BudgetFixed (env : Nat → SubsetEnv) (LocalBudget NonLocalBudget : Nat) : Prop :=
  ∀ n, (env n).LocalMemory.Budget = LocalBudget ∧ (env n).NonLocalMemory.Budget = NonLocalBudget

/-- The batches `recs` are what a call of `ExecuteSubset` on `lists` may have passed to the
queue: each one passes the split test, and when the call returns they are the command
lists of the call, in order. -/
def SplitsOf (Objects : Nat → ManagedObject) (LocalBudget NonLocalBudget : Nat)
    (lists : List (Nat × Option (List Nat))) (returned : Bool)
    (recs : List SubmissionRecord) : Prop :=
  (∀ r ∈ recs, BatchFitsMod Objects LocalBudget NonLocalBudget r) ∧
  (returned = true →
    (recs.map (fun r => r.CommandLists)).flatten = lists.map (fun l => l.1) ∧
    (recs.map (fun r => r.ResidencySets)).flatten = lists.map (fun l => l.2)) ∧
  (lists.length = 1 → returned = true →
    recs.map (fun r => (r.CommandLists, r.ResidencySets)) =
      [(lists.map (fun l => l.1), lists.map (fun l => l.2))])

/-- A call of `ExecuteSubset` in which everything succeeds, with a budget of 25 bytes. -/
def smallBudgetEnv : SubsetEnv := ⟨⟨25, 0⟩, ⟨0, 0⟩, true, true, 0, true, true, true, true⟩

/-- The command lists of one batch passed to the queue, each with the residency set that
came with it. -/
def batchOf (r : SubmissionRecord) : List (Nat × Option (List Nat)) :=
  r.CommandLists.zip r.ResidencySets

/-- What a call of `ExecuteSubset` on `lists`, entered with manager `m` and ending with
`r`, passed to the queue: the batches appended to the history are, concatenated in call
order, a leading part of `lists`, and all of `lists` when the call returns; a call that
does not return stopped in a submission that does not return. -/
def SplitCovers (env : Nat → SubsetEnv) (Queue : Nat) (m : ResidencyManager)
    (lists : List (Nat × Option (List Nat))) (r : ResidencyManager × Option Bool) : Prop :=
  ∃ recs, r.1.History = m.History ++ recs ∧
    (recs.map batchOf).flatten <+: lists ∧
    (r.2.isSome = true → (recs.map batchOf).flatten = lists) ∧
    (r.2 = none → ∃ batch, r.1.submit (env (r.1.Calls - 1)) Queue batch = none)

/-- One call on the work ring: `EnqueueAsyncWork` by the submitting thread with the four
fields of the job and whether `SetEvent` succeeds, or `DequeueAsyncWork` by the paging
thread. -/
inductive RingOp where
  | Enqueue (Workload : AsyncWorkload) (EventSet : Bool)
  | Dequeue
  deriving DecidableEq, Repr

/-- One call on the work ring and what the caller gets from it: nothing for
`EnqueueAsyncWork`, and for `DequeueAsyncWork` either `nullptr` (`none`) or the job read
through the returned pointer.  The result is `none` when the call does not return (see
`EnqueueAsyncWork`, `DequeueAsyncWork`) or the pointer is outside the array. -/
def ResidencyManager.ringStep (m : ResidencyManager) :
    RingOp → Option (ResidencyManager × List (Option AsyncWorkload))
  | RingOp.Enqueue W EventSet =>
    match m.EnqueueAsyncWork W.ppObjectsReferenced W.NumObjectsReferenced W.FenceValueToSignal
        W.SyncPointGeneration EventSet with
    | none => none
    | some (m1, _) => some (m1, [])
  | RingOp.Dequeue =>
    match m.DequeueAsyncWork with
    | none => none
    | some (m1, none) => some (m1, [none])
    | some (m1, some currentHead) =>
      match m1.AsyncWorkQueue[currentHead]? with
      | none => none
      | some W => some (m1, [some W])

/-- A sequence of calls on the work ring, each started when the one before it has
returned: the manager at the end and what the `DequeueAsyncWork` calls returned, in
order. -/
def ResidencyManager.ringRun :
    ResidencyManager → List RingOp → Option (ResidencyManager × List (Option AsyncWorkload))
  | m, [] => some (m, [])
  | m, op :: ops =>
    match m.ringStep op with
    | none => none
    | some (m1, out) =>
      match ResidencyManager.ringRun m1 ops with
      | none => none
      | some (m2, outs) => some (m2, out ++ outs)

/-- The jobs of the `EnqueueAsyncWork` calls of a sequence, in order. -/
def enqueued : List RingOp → List AsyncWorkload
  | [] => []
  | RingOp.Enqueue W _ :: ops => W :: enqueued ops
  | RingOp.Dequeue :: ops => enqueued ops

/-- The unbounded FIFO queue the work ring is compared with: enqueue appends at the back,
dequeue takes from the front and gives `none` on the empty queue.  The result is the
queue at the end and what the dequeues returned. -/
def fifoRun : List AsyncWorkload → List RingOp → List AsyncWorkload × List (Option AsyncWorkload)
  | q, [] => (q, [])
  | q, RingOp.Enqueue W _ :: ops => fifoRun (q ++ [W]) ops
  | [], RingOp.Dequeue :: ops => ((fifoRun [] ops).1, none :: (fifoRun [] ops).2)
  | W :: q, RingOp.Dequeue :: ops => ((fifoRun q ops).1, some W :: (fifoRun q ops).2)

/-- The bound on the two indices of the work ring as the machine sees it: both are 64-bit
values and their 64-bit difference is at most `MaxSoftwareQueueLatency`. -/
def RingBound (m : ResidencyManager) : Prop :=
  m.CurrentAsyncWorkloadHead < U64 ∧ m.CurrentAsyncWorkloadTail < U64 ∧
  sub64 m.CurrentAsyncWorkloadTail m.CurrentAsyncWorkloadHead ≤ m.MaxSoftwareQueueLatency

/-- The work ring holds the jobs `E` enqueued so far: the array has
`MaxSoftwareQueueLatency + 1` slots, `CurrentAsyncWorkloadTail` is the number of jobs
enqueued, `CurrentAsyncWorkloadHead` the number dequeued, at most
`MaxSoftwareQueueLatency` are pending, and the slot `i % AsyncWorkQueueSize` holds job `i`
for every pending `i` and for the job dequeued last. -/
def RingHolds (m : ResidencyManager) (E : List AsyncWorkload) : Prop :=
  m.AsyncWorkQueueSize = m.MaxSoftwareQueueLatency + 1 ∧
  m.AsyncWorkQueue.length = m.AsyncWorkQueueSize ∧
  E.length = m.CurrentAsyncWorkloadTail ∧
  m.CurrentAsyncWorkloadHead ≤ m.CurrentAsyncWorkloadTail ∧
  m.CurrentAsyncWorkloadTail - m.CurrentAsyncWorkloadHead ≤ m.MaxSoftwareQueueLatency ∧
  ∀ i, m.CurrentAsyncWorkloadHead ≤ i + 1 → i < m.CurrentAsyncWorkloadTail →
    m.AsyncWorkQueue[i % m.AsyncWorkQueueSize]? = E[i]?

/-- Two enqueues, a dequeue, a third enqueue, then three dequeues. -/
def exampleRingOps : List RingOp :=
  [RingOp.Enqueue ⟨0, [1], 1, 1⟩ true, RingOp.Enqueue ⟨1, [2, 3], 2, 2⟩ true, RingOp.Dequeue,
    RingOp.Enqueue ⟨2, [], 0, 3⟩ true, RingOp.Dequeue, RingOp.Dequeue, RingOp.Dequeue]

/-- The last statements of `ProcessPagingWork(pWork)`, for `pWork` the address of the
slot `currentHead` of the work ring: the reference array of the job is freed and
`ppObjectsReferenced` and `NumObjectsReferenced` of the slot are reset.  The result is
`none` when there is no such slot. -/
def ResidencyManager.finishWork (m : ResidencyManager) (currentHead : Nat) :
    Option ResidencyManager :=
  match m.AsyncWorkQueue[currentHead]? with
  | none => none
  | some pWork =>
    some { m with
      AsyncWorkQueue := m.AsyncWorkQueue.set currentHead
        { pWork with ppObjectsReferenced := [], NumObjectsReferenced := 0 } }

/-- One step of the manager as the invariants see it: a call of `ExecuteCommandLists` by a
submitting thread, and on the paging thread a call of `DequeueCompletedSyncPoints`, of
`WaitForSyncPoint` or of `DequeueAsyncWork`, or the end of `ProcessPagingWork` for the
job in some slot of the work ring. -/
inductive ManagerStep where
  | Execute (Objects : Nat → ManagedObject) (env : Nat → SubsetEnv) (Queue : Nat)
      (lists : List (Nat × Option (List Nat)))
  | DequeueCompleted (Completed : Nat → Nat)
  | WaitFor (SyncPointID : Nat) (CompletedAtReturn : Nat → Nat)
  | DequeueWork
  | FinishWork (currentHead : Nat)

/-- The largest number of submissions a step can make: a call of `ExecuteCommandLists`
with `Count` command lists makes at most `max 1 Count`. -/
def ManagerStep.submissions : ManagerStep → Nat
  | ManagerStep.Execute _ _ _ lists => max 1 lists.length
  | _ => 0

/-- The manager after one step.  For `ExecuteCommandLists` it is the manager where the
call stops, also when it does not return; the other calls give `none` when they do not
return. -/
def ResidencyManager.step (m : ResidencyManager) : ManagerStep → Option ResidencyManager
  | ManagerStep.Execute Objects env Queue lists =>
    some (m.ExecuteCommandLists Objects env Queue lists).1
  | ManagerStep.DequeueCompleted Completed =>
    some { m with
      InFlightSyncPoints := (DequeueCompletedSyncPoints Completed m.InFlightSyncPoints).1 }
  | ManagerStep.WaitFor SyncPointID CompletedAtReturn =>
    match WaitForSyncPoint SyncPointID CompletedAtReturn m.InFlightSyncPoints with
    | none => none
    | some w => some { m with InFlightSyncPoints := w.InFlight }
  | ManagerStep.DequeueWork =>
    match m.DequeueAsyncWork with
    | none => none
    | some (m1, _) => some m1
  | ManagerStep.FinishWork currentHead => m.finishWork currentHead

/-- A sequence of steps. -/
def ResidencyManager.run : ResidencyManager → List ManagerStep → Option ResidencyManager
  | m, [] => some m
  | m, s :: steps =>
    match m.step s with
    | none => none
    | some m1 => ResidencyManager.run m1 steps

/-- The submissions a sequence of steps can make. -/
def submissionsOf (steps : List ManagerStep) : Nat :=
  (steps.map ManagerStep.submissions).sum

/-- A property of the manager with a budget of submissions that every submission uses up
one of: it is kept when the budget shrinks, does not look at the call counter, and is
passed on by every submission that returns. -/
structure SubmissionInvariant (I : Nat → ResidencyManager → Prop) : Prop where
  mono : ∀ n m, I (n + 1) m → I n m
  calls : ∀ n (m : ResidencyManager) c, I n m → I n { m with Calls := c }
  submit : ∀ n (m m' : ResidencyManager) e Queue lists hr, I (n + 1) m →
    m.submit e Queue lists = some (m', hr) → I n m'

/-- The invariant of the in-flight list, with a budget of `n` submissions before the
64-bit generation counter wraps: the generations in the list increase strictly from head
to tail and are below `CurrentSyncPointGeneration`. -/
def SyncPointsOrdered (n : Nat) (m : ResidencyManager) : Prop :=
  GenerationsIncreasing m.InFlightSyncPoints ∧
  (∀ P ∈ m.InFlightSyncPoints, P.GenerationID < m.CurrentSyncPointGeneration) ∧
  m.CurrentSyncPointGeneration + n < U64

/-- A `ExecuteCommandLists` call on queue 7 with everything succeeding, a walk of the
paging thread over the in-flight list, a second call, a dequeue from the work ring and
the end of the work on the job dequeued. -/
def exampleSteps : List ManagerStep :=
  [ManagerStep.Execute exampleObjects (fun _ => smallBudgetEnv) 7
      [(10, some [1, 2]), (11, some [3]), (12, some [3, 1])],
    ManagerStep.DequeueCompleted (fun _ => 1),
    ManagerStep.Execute exampleObjects (fun _ => okEnv) 8 [(13, some [2])],
    ManagerStep.WaitFor 1 (fun _ => 2),
    ManagerStep.DequeueWork,
    ManagerStep.FinishWork 0]

/-- The invariant of the queue fences, with a budget of `n` submissions before a 64-bit
fence value wraps: `NumQueuesSeen` counts the fences of the queue-fence list (as a
`UINT32`), the fence stored on a queue is in the list, and every fence value is at
least 1. -/
def FencesInv (n : Nat) (m : ResidencyManager) : Prop :=
  m.NumQueuesSeen = m.QueueFences.length % U32 ∧
  (∀ q i, m.QueuePrivateData q = some i → i < m.QueueFences.length) ∧
  (∀ F ∈ m.QueueFences, 1 ≤ F.FenceValue ∧ F.FenceValue + n < U64) ∧
  n + 1 < U64

/-- The fence list `fences'` continues `fences`: every fence is still at its place and
its value has not gone down. -/
def FencesGrow (fences fences' : List Fence) : Prop :=
  ∀ (i : Nat) (F : Fence), fences[i]? = some F →
    ∃ F' : Fence, fences'[i]? = some F' ∧ F.FenceValue ≤ F'.FenceValue

/-- Every queue fence captured in `P` is captured in `Q` with a `LastUsedValue` that is
not smaller. -/
def Dominates (P Q : DeviceWideSyncPoint) : Prop :=
  ∀ q ∈ P.pQueueSyncPoints.take P.NumQueueSyncPoints,
    ∃ q' ∈ Q.pQueueSyncPoints.take Q.NumQueueSyncPoints,
      q'.pFence = q.pFence ∧ q.LastUsedValue ≤ q'.LastUsedValue

/-- Every value captured in `P` is below the current value of its fence. -/
def CapturedBelow (P : DeviceWideSyncPoint) (fences : List Fence) : Prop :=
  ∀ q ∈ P.pQueueSyncPoints.take P.NumQueueSyncPoints,
    ∃ F : Fence, fences[q.pFence]? = some F ∧ q.LastUsedValue + 1 ≤ F.FenceValue

/-- The invariant of the recorded sync points, with a budget of `n` submissions: while
there are fewer than `2^32` queue fences, every recorded sync point lies below the
current fence values, and each dominates the ones recorded before it. -/
def SyncPointsCaptured (n : Nat) (m : ResidencyManager) : Prop :=
  FencesInv n m ∧
  (m.QueueFences.length < U32 →
    (∀ rec ∈ m.History, ∀ P, rec.SyncPoint = some P → CapturedBelow P m.QueueFences) ∧
    m.History.Pairwise (fun a b =>
      ∀ P Q, a.SyncPoint = some P → b.SyncPoint = some Q → Dominates P Q))

/-- The work ring holds jobs of the generations `G` enqueued so far: the array has
`MaxSoftwareQueueLatency + 1` slots, `CurrentAsyncWorkloadTail` is the number of jobs
enqueued, `CurrentAsyncWorkloadHead` the number dequeued, at most
`MaxSoftwareQueueLatency` are pending, and for every pending `i` the job in the slot
`i % AsyncWorkQueueSize` has the generation of job `i`. -/
def RingGens (m : ResidencyManager) (G : List Nat) : Prop :=
  m.AsyncWorkQueueSize = m.MaxSoftwareQueueLatency + 1 ∧
  m.AsyncWorkQueue.length = m.AsyncWorkQueueSize ∧
  G.length = m.CurrentAsyncWorkloadTail ∧
  m.CurrentAsyncWorkloadHead ≤ m.CurrentAsyncWorkloadTail ∧
  m.CurrentAsyncWorkloadTail - m.CurrentAsyncWorkloadHead ≤ m.MaxSoftwareQueueLatency ∧
  ∀ i, m.CurrentAsyncWorkloadHead ≤ i → i < m.CurrentAsyncWorkloadTail →
    (m.AsyncWorkQueue[i % m.AsyncWorkQueueSize]?).map (fun W => W.SyncPointGeneration) = G[i]?

/-- The jobs in the work ring are in generation order, with a budget of `n` submissions
before the 64-bit tail index wraps: the ring holds jobs of the generations `G` enqueued so
far, which increase strictly and are below `CurrentSyncPointGeneration`.  The other case
is the ring of size 0, which stays empty. -/
def RingGenerations (n : Nat) (m : ResidencyManager) : Prop :=
  (∃ G : List Nat, RingGens m G ∧ m.CurrentAsyncWorkloadTail + n < U64 ∧
    G.Pairwise (fun a b => a < b) ∧ ∀ g ∈ G, g < m.CurrentSyncPointGeneration) ∨
  (m.AsyncWorkQueueSize = 0 ∧ m.CurrentAsyncWorkloadHead = m.CurrentAsyncWorkloadTail)

/-- The invariant of the generations, with a budget of `n` submissions before the 64-bit
generation counter wraps: the counter is the number of submissions made, the job and the
sync point of submission `i` have generation `i`, and the jobs in the work ring are in
generation order. -/
def GenerationsMatch (n : Nat) (m : ResidencyManager) : Prop :=
  m.CurrentSyncPointGeneration = m.History.length ∧
  m.History.length + n < U64 ∧
  (∀ (i : Nat) (rec : SubmissionRecord), m.History[i]? = some rec →
    rec.Workload.SyncPointGeneration = i ∧
    ∀ P, rec.SyncPoint = some P → P.GenerationID = i) ∧
  RingGenerations n m

/-! ## A bounded batch that fails -/

/-- The objects of `exampleObjects` with a second evicted object: objects 3 and 4 are
evicted, 7 bytes each, with the handles 103 and 104. -/
def twoEvictedObjects : Nat → ManagedObject := fun p =>
  if p = 4 then ⟨RESIDENCY_STATUS.EVICTED, 104, 7, 0, 0⟩ else exampleObjects p

/-- A cache tracking the four objects of `twoEvictedObjects`. -/
def twoEvictedCache : LRUCache where
  Objects := twoEvictedObjects
  ResidentObjectList := [1, 2]
  EvictedObjectList := [3, 4]
  NumResidentObjects := 2
  NumEvictedObjects := 2
  ResidentSize := 30

/-- A job of generation 5 that references the two evicted objects of `twoEvictedCache`. -/
def twoEvictedWork : AsyncWorkload := ⟨5, [3, 4], 2, 8⟩

/-- An iteration with 10 bytes available in which the bounded `MakeResident` fails. -/
def failingBatchIteration : IterationEnv :=
  ⟨⟨40, 30⟩, ⟨0, 0⟩, false, true, fun _ => 0, fun _ => 0⟩

/-- An iteration with 90 bytes available in which the bounded `MakeResident` fails and
the fence reaches 7 while waiting. -/
def failingAmpleIteration : IterationEnv :=
  ⟨⟨100, 10⟩, ⟨0, 0⟩, false, true, fun _ => 0, fun _ => 7⟩

/-- A pass at time 10 with a grace period of 1000 ticks and the given iterations. -/
def passWith (Iterations : List IterationEnv) : PagingEnv :=
  ⟨10, fun _ => 0, ⟨40, 30⟩, 1000, Iterations⟩

/-! ## The paging thread -/

/-- One round of the inner loop of `AsyncThreadStart`: `DequeueAsyncWork` and, when it
returns a job, `ProcessPagingWork` on that slot of the work ring.  The result is the
manager, the cache and the log of the pass (`none` when `DequeueAsyncWork` returned
`nullptr`); it is `none` when a call does not return or has no defined result.  The
`SetEvent` after the pass changes none of these. -/
def ResidencyManager.processNextWork (m : ResidencyManager) (c : LRUCache) (env : PagingEnv) :
    Option (ResidencyManager × LRUCache × Option (List PagingEvent)) :=
  match m.DequeueAsyncWork with
  | none => none
  | some (m1, none) => some (m1, c, none)
  | some (m1, some currentHead) =>
    match m1.AsyncWorkQueue[currentHead]? with
    | none => none
    | some pWork =>
      match ProcessPagingWork c m1.InFlightSyncPoints pWork env with
      | none => none
      | some r =>
        some
          ({ m1 with
              InFlightSyncPoints := r.InFlight
              AsyncWorkQueue := m1.AsyncWorkQueue.set currentHead r.Work },
            r.LRU, some r.Log)

/-- The same iteration with `f` as the outcome of the final `Device->MakeResident`. -/
def IterationEnv.withFinal (e : IterationEnv) (f : Bool) : IterationEnv :=
  { e with FinalSucceeded := f }

/-- The same pass with `f` as the outcome of the final `Device->MakeResident`. -/
def PagingEnv.withFinal (env : PagingEnv) (f : Bool) : PagingEnv :=
  { env with Iterations := env.Iterations.map (fun e => e.withFinal f) }

/-- The variables of the pass without the log of its calls. -/
def PagingState.eraseLog (s : PagingState) : PagingState := { s with Log := [] }

/-- The outcome of an iteration without the log. -/
def IterationOutcome.eraseLog : IterationOutcome → IterationOutcome
  | IterationOutcome.exit s => IterationOutcome.exit s.eraseLog
  | IterationOutcome.again s => IterationOutcome.again s.eraseLog

/-- A cache with the fresh object 1 resident and the fresh object 3 evicted. -/
def freshCache : LRUCache :=
  (BeginTrackingObject true (BeginTrackingObject false (LRUCache.init freshObjects) (some 1)).1
    (some 3)).1

/-- A pass at time 10 whose single iteration finds no space available and whose final
`Device->MakeResident` fails. -/
def outOfMemoryEnv : PagingEnv :=
  ⟨10, fun _ => 0, ⟨30, 30⟩, 1000, [⟨⟨30, 30⟩, ⟨0, 0⟩, true, false, fun _ => 0, fun _ => 0⟩]⟩

/-! ## The eviction array -/

/-- The resident list is a part of the list `L₀`, in the order of `L₀`, followed by objects
that carry the generation `g` and the time stamp `t`. -/
def StampedTail (g t : Nat) (L₀ : List Nat) (c : LRUCache) : Prop :=
  ∃ front back, c.ResidentObjectList = front ++ back ∧ front.Sublist L₀ ∧
    ∀ p ∈ back, (c.Objects p).LastGPUSyncPoint = g ∧ (c.Objects p).LastUsedTimestamp = t

/-- A `Device->Evict` call of the log stays within an eviction array of `N` entries:
the count passed is the number of entries written, and that is at most `N`. -/
def PagingEvent.WithinEvictionList (N : Nat) : PagingEvent → Prop
  | PagingEvent.Evict n l _ => n = l.length ∧ l.length ≤ N
  | _ => True

/-- The invariant of the batching loop behind the bound on the eviction array. -/
def EvictionsBounded (g t : Nat) (L₀ : List Nat) (InFlight₀ : List DeviceWideSyncPoint)
    (s : PagingState) : Prop :=
  StampedTail g t L₀ s.LRU ∧ (∀ P ∈ s.InFlight, P ∈ InFlight₀) ∧
  ∀ ev ∈ s.Log, ev.WithinEvictionList L₀.length

/-! ## The grace period -/

/-- The macro `RESIDENCY_MIN` on unsigned values. -/
def RESIDENCY_MIN (x y : Nat) : Nat := if x < y then x else y

/-- The macro `RESIDENCY_MAX` on unsigned values. -/
def RESIDENCY_MAX (x y : Nat) : Nat := if x > y then x else y

/-- The return statement of `GetCurrentEvictionGracePeriod`, a clamp on `UINT64` values.
`Period` is the value `UINT64(MaxEvictionGracePeriodTicks * (1.0 - Pressure))` that the
function computes in `double` arithmetic from the local budget; it is a parameter here. -/
def GetCurrentEvictionGracePeriod
    (Period MinEvictionGracePeriodTicks MaxEvictionGracePeriodTicks : Nat) : Nat :=
  RESIDENCY_MAX (RESIDENCY_MIN Period MaxEvictionGracePeriodTicks) MinEvictionGracePeriodTicks

/-- A pass at time 100 whose grace period is the clamp of a period of 70 ticks to the
range from 20 to 60 ticks, with one ample iteration. -/
def agedEnv : PagingEnv :=
  ⟨100, fun _ => 0, ⟨100, 10⟩, GetCurrentEvictionGracePeriod 70 20 60, [ampleIteration]⟩

/-! ## The fast path -/

/-- The referenced objects of a job that are evicted in the cache `c`, in job order. -/
def evictedReferenced (c : LRUCache) (pWork : AsyncWorkload) : List Nat :=
  (pWork.ppObjectsReferenced.take pWork.NumObjectsReferenced).filter
    (fun p => decide ((c.Objects p).ResidencyStatus = RESIDENCY_STATUS.EVICTED))

/-- A job of generation 5 that references the two resident objects of `exampleCache`. -/
def residentWork : AsyncWorkload := ⟨5, [1, 2], 2, 8⟩

/-! ## Submissions whose `SetEvent` fails -/

/-- Three `ExecuteCommandLists` calls on queue 7 after `Initialize` with a latency of 4:
`SetEvent` fails in the first two, which reference object 1 and object 3, and succeeds in
the third. -/
def unsignalledSubmissions : ResidencyManager :=
  ((((ResidencyManager.Initialize 4).ExecuteCommandLists freshCache.Objects
      (fun _ => eventFailsEnv) 7 [(10, some [1])]).1.ExecuteCommandLists freshCache.Objects
      (fun _ => eventFailsEnv) 7 [(11, some [3])]).1.ExecuteCommandLists freshCache.Objects
      (fun _ => okEnv) 7 [(12, some [1])]).1

/-- A pass at time 20 with a grace period of 1000 ticks: a tight iteration during which
the queue fence reaches 7, then an ample one. -/
def laterPointEnv : PagingEnv :=
  ⟨20, fun _ => 0, ⟨30, 30⟩, 1000, [tightIteration, ampleIteration]⟩

/-- The paging thread after `unsignalledSubmissions`, starting from `freshCache`: the pass
for the job of generation 0, then `DequeueAsyncWork` and `ProcessPagingWork` for the job of
generation 1.  The result is that job and what its pass leaves. -/
def unsignalledSecondPass : Option (AsyncWorkload × PagingResult) :=
  match unsignalledSubmissions.processNextWork freshCache idleEnv with
  | none => none
  | some (m, c, _) =>
    match m.DequeueAsyncWork with
    | some (m1, some currentHead) =>
      match m1.AsyncWorkQueue[currentHead]? with
      | some pWork =>
        (ProcessPagingWork c m1.InFlightSyncPoints pWork laterPointEnv).map (fun r => (pWork, r))
      | none => none
    | _ => none

/-- The values of the `Signal` calls on the gate fence in a log, in order. -/
def gateSignals (Log : List PagingEvent) : List Nat :=
  Log.filterMap (fun ev =>
    match ev with
    | PagingEvent.Signal v => some v
    | _ => none)

/-- The `Device->Evict` calls of a log, in order: the count and the handles passed. -/
def evictCalls (Log : List PagingEvent) : List (Nat × List Nat) :=
  Log.filterMap (fun ev =>
    match ev with
    | PagingEvent.Evict n l _ => some (n, l)
    | _ => none)

/-- The generations of the sync points waited for in a log, in order. -/
def waitedGenerations (Log : List PagingEvent) : List Nat :=
  Log.filterMap (fun ev =>
    match ev with
    | PagingEvent.WaitForCompletion P => some P.GenerationID
    | _ => none)

/-! ## Lemmas on the cache operations -/

theorem status_cases (s : RESIDENCY_STATUS) :
    s = RESIDENCY_STATUS.RESIDENT ∨ s = RESIDENCY_STATUS.EVICTED := by
  cases s <;> simp

theorem status_ne {s : RESIDENCY_STATUS} (h : s = RESIDENCY_STATUS.RESIDENT) :
    s ≠ RESIDENCY_STATUS.EVICTED := by
  subst h; decide

theorem count_erase_eq (l : List Nat) (p q : Nat) :
    (l.erase q).count p = l.count p - (if q = p then 1 else 0) := by
  rw [List.count_erase]; simp

/-- Counts of a pointer in the two lists, read off a `ListMembership` fact. -/
theorem ListMembership.counts {T : Nat → Prop} {c : LRUCache} (h : ListMembership T c)
    (p : Nat) :
    (T p ∧ (((c.Objects p).ResidencyStatus = RESIDENCY_STATUS.RESIDENT ∧
        c.ResidentObjectList.count p = 1 ∧ c.EvictedObjectList.count p = 0) ∨
      ((c.Objects p).ResidencyStatus = RESIDENCY_STATUS.EVICTED ∧
        c.ResidentObjectList.count p = 0 ∧ c.EvictedObjectList.count p = 1))) ∨
    (¬ T p ∧ c.ResidentObjectList.count p = 0 ∧ c.EvictedObjectList.count p = 0) := by
  by_cases ht : T p
  · left
    refine ⟨ht, ?_⟩
    have h1 := (h p).1 ht
    rcases status_cases (c.Objects p).ResidencyStatus with hs | hs
    · left; exact ⟨hs, h1.1 hs⟩
    · right; exact ⟨hs, (h1.2 hs).2, (h1.2 hs).1⟩
  · right; exact ⟨ht, (h p).2 ht⟩

/-- Introduction rule for `ListMembership` from counts. -/
theorem ListMembership.of_counts {T : Nat → Prop} {c : LRUCache}
    (h : ∀ p,
      (T p ∧ (((c.Objects p).ResidencyStatus = RESIDENCY_STATUS.RESIDENT ∧
        c.ResidentObjectList.count p = 1 ∧ c.EvictedObjectList.count p = 0) ∨
      ((c.Objects p).ResidencyStatus = RESIDENCY_STATUS.EVICTED ∧
        c.ResidentObjectList.count p = 0 ∧ c.EvictedObjectList.count p = 1))) ∨
      (¬ T p ∧ c.ResidentObjectList.count p = 0 ∧ c.EvictedObjectList.count p = 0)) :
    ListMembership T c := by
  intro p
  rcases h p with ⟨ht, ⟨hs, h1, h2⟩ | ⟨hs, h1, h2⟩⟩ | ⟨ht, h1, h2⟩
  · refine ⟨fun _ => ⟨fun _ => ⟨h1, h2⟩, fun he => ?_⟩, fun hn => absurd ht hn⟩
    rw [hs] at he; cases he
  · refine ⟨fun _ => ⟨fun he => ?_, fun _ => ⟨h2, h1⟩⟩, fun hn => absurd ht hn⟩
    rw [hs] at he; cases he
  · exact ⟨fun h' => absurd h' ht, fun _ => ⟨h1, h2⟩⟩

theorem Insert_membership (T : Nat → Prop) (c : LRUCache) (q : Nat)
    (h : ListMembership T c) (hq : ¬ T q) :
    ListMembership (fun p => T p ∨ p = q) (c.Insert q) := by
  apply ListMembership.of_counts
  intro p
  have hp := h.counts p
  by_cases hpq : p = q
  · subst hpq
    rcases status_cases (c.Objects p).ResidencyStatus with hs | hs <;>
      simp [LRUCache.Insert, hs, hq] at hp ⊢ <;> omega
  · have hqp : ¬ q = p := fun e => hpq e.symm
    rcases status_cases (c.Objects q).ResidencyStatus with hs | hs <;>
      simpa [LRUCache.Insert, hs, hpq, hqp, List.count_cons] using hp

theorem Remove_membership (T : Nat → Prop) (c : LRUCache) (q : Nat)
    (h : ListMembership T c) (hq : T q) :
    ListMembership (fun p => T p ∧ p ≠ q) (c.Remove q) := by
  apply ListMembership.of_counts
  intro p
  have hp := h.counts p
  by_cases hpq : p = q
  · subst hpq
    rcases status_cases (c.Objects p).ResidencyStatus with hs | hs <;>
      simp [LRUCache.Remove, LRUCache.RemoveEntryList, count_erase_eq, hs, hq] at hp ⊢ <;> omega
  · have hqp : ¬ q = p := fun e => hpq e.symm
    rcases status_cases (c.Objects q).ResidencyStatus with hs | hs <;>
      simpa [LRUCache.Remove, LRUCache.RemoveEntryList, count_erase_eq, hs, hpq, hqp] using hp

theorem ObjectReferenced_membership (T : Nat → Prop) (c : LRUCache) (q : Nat)
    (h : ListMembership T c) (hq : T q)
    (hs : (c.Objects q).ResidencyStatus = RESIDENCY_STATUS.RESIDENT) :
    ListMembership T (c.ObjectReferenced q) := by
  apply ListMembership.of_counts
  intro p
  have hp := h.counts p
  by_cases hpq : p = q
  · subst hpq
    simp [LRUCache.ObjectReferenced, LRUCache.RemoveEntryList, count_erase_eq, hs, hq] at hp ⊢
    omega
  · have hqp : ¬ q = p := fun e => hpq e.symm
    simpa [LRUCache.ObjectReferenced, LRUCache.RemoveEntryList, count_erase_eq, hpq, hqp,
      List.count_singleton] using hp

theorem MakeResident_membership (T : Nat → Prop) (c : LRUCache) (q : Nat)
    (h : ListMembership T c) (hq : T q)
    (hs : (c.Objects q).ResidencyStatus = RESIDENCY_STATUS.EVICTED) :
    ListMembership T (c.MakeResident q) := by
  apply ListMembership.of_counts
  intro p
  have hp := h.counts p
  by_cases hpq : p = q
  · subst hpq
    simp [LRUCache.MakeResident, LRUCache.RemoveEntryList, writeObject, count_erase_eq,
      hs, hq] at hp ⊢
    omega
  · have hqp : ¬ q = p := fun e => hpq e.symm
    simpa [LRUCache.MakeResident, LRUCache.RemoveEntryList, writeObject, count_erase_eq,
      hpq, hqp, List.count_singleton] using hp

theorem Evict_membership (T : Nat → Prop) (c : LRUCache) (q : Nat)
    (h : ListMembership T c) (hq : T q)
    (hs : (c.Objects q).ResidencyStatus = RESIDENCY_STATUS.RESIDENT) :
    ListMembership T (c.Evict q) := by
  apply ListMembership.of_counts
  intro p
  have hp := h.counts p
  by_cases hpq : p = q
  · subst hpq
    simp [LRUCache.Evict, LRUCache.RemoveEntryList, writeObject, count_erase_eq,
      hs, hq] at hp ⊢
    omega
  · have hqp : ¬ q = p := fun e => hpq e.symm
    simpa [LRUCache.Evict, LRUCache.RemoveEntryList, writeObject, count_erase_eq,
      hpq, hqp, List.count_singleton] using hp

/-- A store to an object that keeps its status keeps the membership invariant. -/
theorem write_membership (T : Nat → Prop) (c : LRUCache) (q : Nat) (o : ManagedObject)
    (h : ListMembership T c) (ho : o.ResidencyStatus = (c.Objects q).ResidencyStatus) :
    ListMembership T { c with Objects := writeObject c.Objects q o } := by
  apply ListMembership.of_counts
  intro p
  have hp := h.counts p
  by_cases hpq : p = q
  · subst hpq
    simpa [writeObject, ho] using hp
  · simpa [writeObject, hpq] using hp

theorem sizeSum_nil (O : Nat → ManagedObject) : sizeSum O [] = 0 := rfl

theorem sizeSum_cons (O : Nat → ManagedObject) (p : Nat) (l : List Nat) :
    sizeSum O (p :: l) = (O p).Size + sizeSum O l := by
  simp [sizeSum]

theorem sizeSum_append (O : Nat → ManagedObject) (l₁ l₂ : List Nat) :
    sizeSum O (l₁ ++ l₂) = sizeSum O l₁ + sizeSum O l₂ := by
  simp [sizeSum]

theorem erase_of_count_zero (l : List Nat) (p : Nat) (h : l.count p = 0) : l.erase p = l :=
  List.erase_of_not_mem (List.count_eq_zero.mp h)

theorem sizeSum_erase (O : Nat → ManagedObject) (l : List Nat) (p : Nat)
    (h : 1 ≤ l.count p) : sizeSum O (l.erase p) + (O p).Size = sizeSum O l := by
  induction l with
  | nil => simp at h
  | cons a t ih =>
    by_cases hap : a = p
    · subst hap
      simp [sizeSum_cons]; omega
    · have hne : (a == p) = false := by simpa using hap
      have ht : 1 ≤ t.count p := by
        simpa [List.count_cons, hne] using h
      rw [List.erase_cons_tail (by simpa using hap), sizeSum_cons, sizeSum_cons]
      have := ih ht
      omega

theorem length_erase_count (l : List Nat) (p : Nat) (h : 1 ≤ l.count p) :
    (l.erase p).length + 1 = l.length := by
  have hm : p ∈ l := List.count_pos_iff.mp h
  rw [List.length_erase_of_mem hm]
  have : 0 < l.length := List.length_pos_of_mem hm
  omega

theorem sizeSum_write (O : Nat → ManagedObject) (q : Nat) (o : ManagedObject) (l : List Nat)
    (ho : o.Size = (O q).Size) : sizeSum (writeObject O q o) l = sizeSum O l := by
  induction l with
  | nil => rfl
  | cons a t ih =>
    rw [sizeSum_cons, sizeSum_cons, ih]
    by_cases h : a = q
    · subst h; simp [writeObject, ho]
    · simp [writeObject, h]

theorem sizeSum_setStatus (O : Nat → ManagedObject) (q : Nat) (st : RESIDENCY_STATUS)
    (l : List Nat) :
    sizeSum (writeObject O q { (O q) with ResidencyStatus := st }) l = sizeSum O l :=
  sizeSum_write O q _ l rfl

theorem Insert_aggregates (c : LRUCache) (q : Nat)
    (ha : AggregatesMod c) : AggregatesMod (c.Insert q) := by
  obtain ⟨h1, h2, h3⟩ := ha
  rcases status_cases (c.Objects q).ResidencyStatus with hs | hs
  · simp only [LRUCache.Insert, hs, if_true, AggregatesMod, sizeSum_cons, List.length_cons,
      add64, inc32]
    refine ⟨?_, ?_, h3⟩
    · rw [h1]; simp only [U64]; omega
    · rw [h2]; simp only [U32]; omega
  · have hn : ¬ (c.Objects q).ResidencyStatus = RESIDENCY_STATUS.RESIDENT := by
      rw [hs]; decide
    simp only [LRUCache.Insert, hn, if_false, AggregatesMod, List.length_cons, inc32]
    refine ⟨h1, h2, ?_⟩
    rw [h3]; simp only [U32]; omega

theorem Remove_aggregates (T : Nat → Prop) (c : LRUCache) (q : Nat)
    (h : ListMembership T c) (hq : T q) (ha : AggregatesMod c) :
    AggregatesMod (c.Remove q) := by
  obtain ⟨h1, h2, h3⟩ := ha
  rcases h.counts q with ⟨_, ⟨hs, hr, he⟩ | ⟨hs, hr, he⟩⟩ | ⟨hn, _⟩
  · have e1 := sizeSum_erase c.Objects c.ResidentObjectList q (by omega)
    have e2 := length_erase_count c.ResidentObjectList q (by omega)
    have e3 := erase_of_count_zero c.EvictedObjectList q he
    simp only [LRUCache.Remove, LRUCache.RemoveEntryList, hs, if_true, AggregatesMod, sub64,
      dec32, e3]
    refine ⟨?_, ?_, h3⟩
    · rw [h1]; simp only [U64]; omega
    · rw [h2]; simp only [U32]; omega
  · have hn : ¬ (c.Objects q).ResidencyStatus = RESIDENCY_STATUS.RESIDENT := by
      rw [hs]; decide
    have e2 := length_erase_count c.EvictedObjectList q (by omega)
    have e3 := erase_of_count_zero c.ResidentObjectList q hr
    simp only [LRUCache.Remove, LRUCache.RemoveEntryList, hn, if_false, AggregatesMod,
      dec32, e3]
    refine ⟨h1, h2, ?_⟩
    rw [h3]; simp only [U32]; omega
  · exact absurd hq hn

theorem ObjectReferenced_aggregates (T : Nat → Prop) (c : LRUCache) (q : Nat)
    (h : ListMembership T c) (hq : T q)
    (hs : (c.Objects q).ResidencyStatus = RESIDENCY_STATUS.RESIDENT)
    (ha : AggregatesMod c) : AggregatesMod (c.ObjectReferenced q) := by
  obtain ⟨h1, h2, h3⟩ := ha
  rcases h.counts q with ⟨_, ⟨_, hr, he⟩ | ⟨hs', _, _⟩⟩ | ⟨hn, _⟩
  · have e1 := sizeSum_erase c.Objects c.ResidentObjectList q (by omega)
    have e2 := length_erase_count c.ResidentObjectList q (by omega)
    have e3 := erase_of_count_zero c.EvictedObjectList q he
    simp only [LRUCache.ObjectReferenced, LRUCache.RemoveEntryList, AggregatesMod, e3,
      sizeSum_append, sizeSum_cons, sizeSum_nil, List.length_append, List.length_singleton]
    refine ⟨?_, ?_, h3⟩
    · rw [h1]; simp only [U64]; omega
    · rw [h2]; simp only [U32]; omega
  · rw [hs] at hs'; cases hs'
  · exact absurd hq hn

theorem MakeResident_aggregates (T : Nat → Prop) (c : LRUCache) (q : Nat)
    (h : ListMembership T c) (hq : T q)
    (hs : (c.Objects q).ResidencyStatus = RESIDENCY_STATUS.EVICTED)
    (ha : AggregatesMod c) : AggregatesMod (c.MakeResident q) := by
  obtain ⟨h1, h2, h3⟩ := ha
  rcases h.counts q with ⟨_, ⟨hs', _, _⟩ | ⟨_, hr, he⟩⟩ | ⟨hn, _⟩
  · rw [hs] at hs'; cases hs'
  · have e2 := length_erase_count c.EvictedObjectList q (by omega)
    have e3 := erase_of_count_zero c.ResidentObjectList q hr
    simp only [LRUCache.MakeResident, LRUCache.RemoveEntryList, AggregatesMod, e3,
      sizeSum_append, sizeSum_cons, sizeSum_nil, List.length_append, List.length_singleton,
      add64, inc32, dec32]
    rw [sizeSum_setStatus]
    have e4 : ∀ o : ManagedObject, writeObject c.Objects q o q = o := fun o => by
      simp [writeObject]
    refine ⟨?_, ?_, ?_⟩
    · rw [h1, e4]; simp only [U64]; omega
    · rw [h2]; simp only [U32]; omega
    · rw [h3]; simp only [U32]; omega
  · exact absurd hq hn

theorem Evict_aggregates (T : Nat → Prop) (c : LRUCache) (q : Nat)
    (h : ListMembership T c) (hq : T q)
    (hs : (c.Objects q).ResidencyStatus = RESIDENCY_STATUS.RESIDENT)
    (ha : AggregatesMod c) : AggregatesMod (c.Evict q) := by
  obtain ⟨h1, h2, h3⟩ := ha
  rcases h.counts q with ⟨_, ⟨_, hr, he⟩ | ⟨hs', _, _⟩⟩ | ⟨hn, _⟩
  · have e1 := sizeSum_erase c.Objects c.ResidentObjectList q (by omega)
    have e2 := length_erase_count c.ResidentObjectList q (by omega)
    have e3 := erase_of_count_zero c.EvictedObjectList q he
    simp only [LRUCache.Evict, LRUCache.RemoveEntryList, AggregatesMod, e3,
      List.length_append, List.length_singleton, sub64, inc32, dec32]
    rw [sizeSum_setStatus]
    have e4 : ∀ o : ManagedObject, writeObject c.Objects q o q = o := fun o => by
      simp [writeObject]
    refine ⟨?_, ?_, ?_⟩
    · rw [h1, e4]; simp only [U64]; omega
    · rw [h2]; simp only [U32]; omega
    · rw [h3]; simp only [U32]; omega
  · rw [hs] at hs'; cases hs'
  · exact absurd hq hn

/-- A store to an object that keeps its size keeps the aggregates. -/
theorem write_aggregates (c : LRUCache) (q : Nat) (o : ManagedObject)
    (ha : AggregatesMod c) (ho : o.Size = (c.Objects q).Size) :
    AggregatesMod { c with Objects := writeObject c.Objects q o } := by
  obtain ⟨h1, h2, h3⟩ := ha
  refine ⟨?_, h2, h3⟩
  simp only [sizeSum_write _ _ _ _ ho]
  exact h1

/-! ## Properties kept by the paging pass -/

theorem TrimToSyncPointInclusive_loop_keeps (I : LRUCache → Prop) (hI : KeptByHeadEviction I)
    (B : Int) (S : Nat) :
    ∀ (fuel : Nat) (c : LRUCache) (u : Int) (ev : List Nat) (n : Nat) (evd : List Nat),
      I c → I (LRUCache.TrimToSyncPointInclusive.loop B S fuel c u ev n evd).LRU := by
  intro fuel
  induction fuel with
  | zero => intro c u ev n evd h; exact h
  | succ k ih =>
    intro c u ev n evd h
    unfold LRUCache.TrimToSyncPointInclusive.loop
    split
    · exact h
    · rename_i p rest hl
      split
      · exact h
      · exact ih _ _ _ _ _ (hI c p rest h hl)

theorem TrimToSyncPointInclusive_keeps (I : LRUCache → Prop) (hI : KeptByHeadEviction I)
    (c : LRUCache) (u B : Int) (S : Nat) (h : I c) :
    I (c.TrimToSyncPointInclusive u B S).LRU :=
  TrimToSyncPointInclusive_loop_keeps I hI B S _ c u [] 0 [] h

theorem TrimAgedAllocations_loop_keeps (I : LRUCache → Prop) (hI : KeptByHeadEviction I)
    (M : Option DeviceWideSyncPoint) (t d : Nat) :
    ∀ (fuel : Nat) (c : LRUCache) (ev : List Nat) (n : Nat) (evd : List Nat),
      I c → I (LRUCache.TrimAgedAllocations.loop M t d fuel c ev n evd).LRU := by
  intro fuel
  induction fuel with
  | zero => intro c ev n evd h; exact h
  | succ k ih =>
    intro c ev n evd h
    unfold LRUCache.TrimAgedAllocations.loop
    split
    · exact h
    · rename_i p rest hl
      split
      · exact h
      · exact ih _ _ _ _ (hI c p rest h hl)

theorem TrimAgedAllocations_keeps (I : LRUCache → Prop) (hI : KeptByHeadEviction I)
    (c : LRUCache) (M : Option DeviceWideSyncPoint) (ev : List Nat) (n t d : Nat) (h : I c) :
    I (c.TrimAgedAllocations M ev n t d).LRU :=
  TrimAgedAllocations_loop_keeps I hI M t d _ c ev n [] h

theorem finalMakeResident_LRU (e : IterationEnv) (A : Int) (l : List DeviceWideSyncPoint)
    (s s' : PagingState) (h : finalMakeResident e A l s = some s') : s'.LRU = s.LRU := by
  unfold finalMakeResident at h
  simp only at h
  split at h
  · cases h
  · cases h; rfl

theorem waitAndTrim_LRU (pWork : AsyncWorkload) (e : IterationEnv) (U B : Int)
    (l : List DeviceWideSyncPoint) (F : DeviceWideSyncPoint)
    (s s' : PagingState) (h : waitAndTrim pWork e U B l F s = some s') :
    ∃ u S, s'.LRU = (s.LRU.TrimToSyncPointInclusive u B S).LRU := by
  unfold waitAndTrim at h
  simp only at h
  split at h
  · cases h
  · cases h; exact ⟨_, _, rfl⟩

theorem trimOrFinish_keeps (I : LRUCache → Prop) (hI : KeptByHeadEviction I)
    (pWork : AsyncWorkload) (e : IterationEnv) (U B A : Int) (s : PagingState)
    (o : IterationOutcome) (h : trimOrFinish pWork e U B A s = some o) (hs : I s.LRU) :
    I o.state.LRU := by
  have hfin : ∀ l, (finalMakeResident e A l s).map IterationOutcome.exit = some o →
      I o.state.LRU := by
    intro l hl
    cases hf : finalMakeResident e A l s with
    | none => rw [hf] at hl; cases hl
    | some s' =>
      rw [hf] at hl; cases hl
      show I s'.LRU
      rw [finalMakeResident_LRU _ _ _ _ _ hf]; exact hs
  unfold trimOrFinish at h
  simp only at h
  split at h
  · exact hfin _ h
  · split at h
    · exact hfin _ h
    · split at h
      · exact hfin _ h
      · rename_i First hF
        cases hw : waitAndTrim pWork e U B
            (DequeueCompletedSyncPoints e.Completed s.InFlight).1 First s with
        | none => rw [hw] at h; cases h
        | some s' =>
          rw [hw] at h; cases h
          obtain ⟨u, S, hu⟩ := waitAndTrim_LRU _ _ _ _ _ _ _ _ hw
          show I s'.LRU
          rw [hu]
          exact TrimToSyncPointInclusive_keeps I hI _ _ _ _ hs

theorem boundedBatch_LRU (e : IterationEnv) (A : Int) (s s1 : PagingState) (hr : Bool)
    (h : boundedBatch e A s = some (s1, hr)) :
    s1.LRU = s.LRU ∧ s1.InFlight = s.InFlight ∧
      s1.NumObjectsToMakeResident = s.NumObjectsToMakeResident := by
  unfold boundedBatch at h
  simp only at h
  split at h
  · split at h
    · cases h
    · cases h; exact ⟨rfl, rfl, rfl⟩
  · cases h; exact ⟨rfl, rfl, rfl⟩

theorem pagingIteration_keeps (I : LRUCache → Prop) (hI : KeptByHeadEviction I)
    (pWork : AsyncWorkload) (e : IterationEnv) (s : PagingState)
    (o : IterationOutcome) (h : pagingIteration pWork e s = some o) (hs : I s.LRU) :
    I o.state.LRU := by
  unfold pagingIteration at h
  split at h
  · cases h
  · rename_i s1 hr hb
    have hs1 : I s1.LRU := by rw [(boundedBatch_LRU _ _ _ _ _ hb).1]; exact hs
    split at h
    · exact trimOrFinish_keeps I hI _ _ _ _ _ _ _ h hs1
    · cases h; exact hs1

theorem ProcessPagingWork_loop_keeps (I : LRUCache → Prop) (hI : KeptByHeadEviction I)
    (pWork : AsyncWorkload) :
    ∀ (es : List IterationEnv) (s s' : PagingState),
      ProcessPagingWork.loop pWork es s = some s' → I s.LRU → I s'.LRU := by
  intro es
  induction es with
  | nil => intro s s' h; simp [ProcessPagingWork.loop] at h
  | cons e es ih =>
    intro s s' h hs
    unfold ProcessPagingWork.loop at h
    split at h
    · cases h
    · rename_i s1 h1
      cases h
      exact pagingIteration_keeps I hI _ _ _ _ h1 hs
    · rename_i s1 h1
      exact ih _ _ h (pagingIteration_keeps I hI _ _ _ _ h1 hs)

/-- How `ProcessPagingWork` returns: the batching loop, if entered, ends in a state `s`,
and the result is read off `s`. -/
theorem ProcessPagingWork_some (c : LRUCache) (InFlight : List DeviceWideSyncPoint)
    (pWork : AsyncWorkload) (env : PagingEnv) (r : PagingResult)
    (h : ProcessPagingWork c InFlight pWork env = some r) :
    ∃ s : PagingState,
      ((beginPagingWork c InFlight pWork env).NumObjectsToMakeResident ≠ 0 ∧
          ProcessPagingWork.loop pWork env.Iterations (beginPagingWork c InFlight pWork env)
            = some s ∨
        (beginPagingWork c InFlight pWork env).NumObjectsToMakeResident = 0 ∧
          s = beginPagingWork c InFlight pWork env) ∧
      r.LRU = s.LRU ∧ r.InFlight = s.InFlight ∧
      r.Log = s.Log ++ [PagingEvent.Signal pWork.FenceValueToSignal] := by
  unfold ProcessPagingWork at h
  simp only at h
  split at h
  · cases h
  · rename_i s hs
    cases h
    refine ⟨s, ?_, rfl, rfl, rfl⟩
    split at hs
    · rename_i hn; exact Or.inl ⟨hn, hs⟩
    · rename_i hn
      cases hs
      exact Or.inr ⟨by simpa using hn, rfl⟩

/-- A property of the cache kept by trimming is kept by `ProcessPagingWork` as soon as
the marking loop establishes it. -/
theorem ProcessPagingWork_keeps (I : LRUCache → Prop) (hI : KeptByHeadEviction I)
    (c : LRUCache) (InFlight : List DeviceWideSyncPoint) (pWork : AsyncWorkload)
    (env : PagingEnv) (r : PagingResult)
    (h : ProcessPagingWork c InFlight pWork env = some r)
    (hm : I (markObjects c pWork env.CurrentTime).LRU) : I r.LRU := by
  obtain ⟨s, hs, hl, _, _⟩ := ProcessPagingWork_some c InFlight pWork env r h
  have h0 : I (beginPagingWork c InFlight pWork env).LRU :=
    TrimAgedAllocations_keeps I hI _
      (DequeueCompletedSyncPoints env.Completed InFlight).2 [] 0 env.CurrentTime
      env.EvictionGracePeriod hm
  rw [hl]
  rcases hs with ⟨_, hs⟩ | ⟨_, hs⟩
  · exact ProcessPagingWork_loop_keeps I hI _ _ _ _ hs h0
  · rw [hs]; exact h0

/-! ## Lemmas on the marking loop and on the operations -/

theorem ListMembership_keptByHeadEviction (T : Nat → Prop) :
    KeptByHeadEviction (ListMembership T) := by
  intro c p rest h hl
  have hmem : 1 ≤ c.ResidentObjectList.count p := by
    rw [hl]; simp
  rcases h.counts p with ⟨ht, ⟨hs, _, _⟩ | ⟨_, hr, _⟩⟩ | ⟨_, hr, _⟩
  · exact Evict_membership T c p h ht hs
  · omega
  · omega

theorem CacheConsistent_keptByHeadEviction (T : Nat → Prop) :
    KeptByHeadEviction (CacheConsistent T) := by
  intro c p rest h hl
  have hmem : 1 ≤ c.ResidentObjectList.count p := by
    rw [hl]; simp
  rcases h.1.counts p with ⟨ht, ⟨hs, _, _⟩ | ⟨_, hr, _⟩⟩ | ⟨_, hr, _⟩
  · exact ⟨Evict_membership T c p h.1 ht hs, Evict_aggregates T c p h.1 ht hs h.2⟩
  · omega
  · omega

/-- A store to an object that is not tracked keeps the membership invariant. -/
theorem write_untracked_membership (T : Nat → Prop) (c : LRUCache) (q : Nat)
    (o : ManagedObject) (h : ListMembership T c) (hq : ¬ T q) :
    ListMembership T { c with Objects := writeObject c.Objects q o } := by
  apply ListMembership.of_counts
  intro p
  have hp := h.counts p
  by_cases hpq : p = q
  · subst hpq
    simpa [writeObject, hq] using hp
  · simpa [writeObject, hpq] using hp

theorem markObject_membership (T : Nat → Prop) (g t : Nat) (m : MarkState) (p : Nat)
    (hT : T p) (h : ListMembership T m.LRU) :
    ListMembership T (markObject g t m p).LRU := by
  unfold markObject
  simp only
  split
  · rename_i hs
    have h1 := MakeResident_membership T m.LRU p h hT hs
    have hst : ((m.LRU.MakeResident p).Objects p).ResidencyStatus = RESIDENCY_STATUS.RESIDENT := by
      simp [LRUCache.MakeResident, LRUCache.RemoveEntryList, writeObject]
    have h3 := write_membership T (m.LRU.MakeResident p) p
      { ((m.LRU.MakeResident p).Objects p) with LastGPUSyncPoint := g, LastUsedTimestamp := t }
      h1 rfl
    have hst' : (writeObject (m.LRU.MakeResident p).Objects p
        { ((m.LRU.MakeResident p).Objects p) with LastGPUSyncPoint := g, LastUsedTimestamp := t }
        p).ResidencyStatus = RESIDENCY_STATUS.RESIDENT := by
      simp only [writeObject, if_true]; exact hst
    exact ObjectReferenced_membership T _ p h3 hT hst'
  · rename_i hs
    have hst : (m.LRU.Objects p).ResidencyStatus = RESIDENCY_STATUS.RESIDENT := by
      rcases status_cases (m.LRU.Objects p).ResidencyStatus with h' | h'
      · exact h'
      · exact absurd h' hs
    have h3 := write_membership T m.LRU p
      { (m.LRU.Objects p) with LastGPUSyncPoint := g, LastUsedTimestamp := t } h rfl
    have hst' : (writeObject m.LRU.Objects p
        { (m.LRU.Objects p) with LastGPUSyncPoint := g, LastUsedTimestamp := t }
        p).ResidencyStatus = RESIDENCY_STATUS.RESIDENT := by
      simp only [writeObject, if_true]; exact hst
    exact ObjectReferenced_membership T _ p h3 hT hst'

theorem markObject_consistent (T : Nat → Prop) (g t : Nat) (m : MarkState) (p : Nat)
    (hT : T p) (h : CacheConsistent T m.LRU) :
    CacheConsistent T (markObject g t m p).LRU := by
  refine ⟨markObject_membership T g t m p hT h.1, ?_⟩
  unfold markObject
  simp only
  split
  · rename_i hs
    have h1 := MakeResident_membership T m.LRU p h.1 hT hs
    have h2 := MakeResident_aggregates T m.LRU p h.1 hT hs h.2
    have hst : ((m.LRU.MakeResident p).Objects p).ResidencyStatus = RESIDENCY_STATUS.RESIDENT := by
      simp [LRUCache.MakeResident, LRUCache.RemoveEntryList, writeObject]
    have h3 := write_membership T (m.LRU.MakeResident p) p
      { ((m.LRU.MakeResident p).Objects p) with LastGPUSyncPoint := g, LastUsedTimestamp := t }
      h1 rfl
    have h4 := write_aggregates (m.LRU.MakeResident p) p
      { ((m.LRU.MakeResident p).Objects p) with LastGPUSyncPoint := g, LastUsedTimestamp := t }
      h2 rfl
    have hst' : (writeObject (m.LRU.MakeResident p).Objects p
        { ((m.LRU.MakeResident p).Objects p) with LastGPUSyncPoint := g, LastUsedTimestamp := t }
        p).ResidencyStatus = RESIDENCY_STATUS.RESIDENT := by
      simp only [writeObject, if_true]; exact hst
    exact ObjectReferenced_aggregates T _ p h3 hT hst' h4
  · rename_i hs
    have hst : (m.LRU.Objects p).ResidencyStatus = RESIDENCY_STATUS.RESIDENT := by
      rcases status_cases (m.LRU.Objects p).ResidencyStatus with h' | h'
      · exact h'
      · exact absurd h' hs
    have h3 := write_membership T m.LRU p
      { (m.LRU.Objects p) with LastGPUSyncPoint := g, LastUsedTimestamp := t } h.1 rfl
    have h4 := write_aggregates m.LRU p
      { (m.LRU.Objects p) with LastGPUSyncPoint := g, LastUsedTimestamp := t } h.2 rfl
    have hst' : (writeObject m.LRU.Objects p
        { (m.LRU.Objects p) with LastGPUSyncPoint := g, LastUsedTimestamp := t }
        p).ResidencyStatus = RESIDENCY_STATUS.RESIDENT := by
      simp only [writeObject, if_true]; exact hst
    exact ObjectReferenced_aggregates T _ p h3 hT hst' h4

/-- A property kept by every marking step on a tracked object holds after the marking
loop. -/
theorem markObjects_keeps (I : LRUCache → Prop) (T : Nat → Prop) (g t : Nat)
    (hI : ∀ (m : MarkState) (p : Nat), T p → I m.LRU → I (markObject g t m p).LRU) :
    ∀ (l : List Nat) (m : MarkState), (∀ p ∈ l, T p) → I m.LRU →
      I (l.foldl (markObject g t) m).LRU := by
  intro l
  induction l with
  | nil => intro m _ h; exact h
  | cons a l ih =>
    intro m hT h
    simp only [List.foldl_cons]
    exact ih _ (fun p hp => hT p (List.mem_cons_of_mem a hp))
      (hI m a (hT a (List.mem_cons_self a l)) h)

theorem LRUOperation_membership (T : Nat → Prop) (c : LRUCache) (h : ListMembership T c)
    (op : LRUOperation) (hop : op.Requires T c) :
    ListMembership (op.TrackedAfter T) (op.run c) := by
  cases op with
  | Insert p => exact Insert_membership T c p h hop
  | Remove p => exact Remove_membership T c p h hop
  | ObjectReferenced p => exact ObjectReferenced_membership T c p h hop.1 hop.2
  | MakeResident p => exact MakeResident_membership T c p h hop.1 hop.2
  | Evict p => exact Evict_membership T c p h hop.1 hop.2
  | TrimToSyncPointInclusive u b s =>
    exact TrimToSyncPointInclusive_keeps _ (ListMembership_keptByHeadEviction T) c u b s h
  | TrimAgedAllocations M ev n t d =>
    exact TrimAgedAllocations_keeps _ (ListMembership_keptByHeadEviction T) c M ev n t d h

theorem LRUOperation_aggregates (T : Nat → Prop) (c : LRUCache) (h : ListMembership T c)
    (ha : AggregatesMod c) (op : LRUOperation) (hop : op.Requires T c) :
    AggregatesMod (op.run c) := by
  cases op with
  | Insert p => exact Insert_aggregates c p ha
  | Remove p => exact Remove_aggregates T c p h hop ha
  | ObjectReferenced p => exact ObjectReferenced_aggregates T c p h hop.1 hop.2 ha
  | MakeResident p => exact MakeResident_aggregates T c p h hop.1 hop.2 ha
  | Evict p => exact Evict_aggregates T c p h hop.1 hop.2 ha
  | TrimToSyncPointInclusive u b s =>
    exact (TrimToSyncPointInclusive_keeps _ (CacheConsistent_keptByHeadEviction T) c u b s
      ⟨h, ha⟩).2
  | TrimAgedAllocations M ev n t d =>
    exact (TrimAgedAllocations_keeps _ (CacheConsistent_keptByHeadEviction T) c M ev n t d
      ⟨h, ha⟩).2

theorem exampleCache_membership : ListMembership exampleTracked exampleCache := by
  apply ListMembership.of_counts
  intro p
  by_cases h1 : p = 1
  · subst h1; left; simp [exampleTracked, exampleCache, exampleObjects]
  · by_cases h2 : p = 2
    · subst h2; left; simp [exampleTracked, exampleCache, exampleObjects]
    · by_cases h3 : p = 3
      · subst h3; left; simp [exampleTracked, exampleCache, exampleObjects]
      · right
        have h1' : ¬ 1 = p := fun e => h1 e.symm
        have h2' : ¬ 2 = p := fun e => h2 e.symm
        have h3' : ¬ 3 = p := fun e => h3 e.symm
        simp [exampleTracked, exampleCache, h1, h2, h3, h1', h2', h3', List.count_cons]

theorem exampleCache_aggregates : AggregatesMod exampleCache := by
  unfold AggregatesMod; decide

theorem incBy32_succ (n k : Nat) : incBy32 (inc32 n) k = incBy32 n (k + 1) := by
  unfold incBy32 inc32
  by_cases hk : k = 0
  · subst hk; simp
  · simp only [hk, if_false, Nat.succ_ne_zero, U32]; omega

theorem Evict_Objects (c : LRUCache) (p : Nat) :
    (c.Evict p).Objects = markEvicted c.Objects [p] := by
  funext q
  simp only [LRUCache.Evict, LRUCache.RemoveEntryList, writeObject, markEvicted,
    List.mem_singleton]
  by_cases h : q = p
  · subst h; simp
  · simp [h]

theorem markEvicted_markEvicted (O : Nat → ManagedObject) (l₁ l₂ : List Nat) :
    markEvicted (markEvicted O l₁) l₂ = markEvicted O (l₁ ++ l₂) := by
  funext q
  simp only [markEvicted, List.mem_append]
  by_cases h1 : q ∈ l₁ <;> by_cases h2 : q ∈ l₂ <;> simp [h1, h2]

theorem markEvicted_fields (O : Nat → ManagedObject) (l : List Nat) (p : Nat) :
    (markEvicted O l p).LastGPUSyncPoint = (O p).LastGPUSyncPoint ∧
    (markEvicted O l p).Size = (O p).Size ∧
    (markEvicted O l p).pUnderlying = (O p).pUnderlying ∧
    (markEvicted O l p).LastUsedTimestamp = (O p).LastUsedTimestamp := by
  unfold markEvicted
  split <;> simp

theorem trimCount_congr (O O' : Nat → ManagedObject) (B : Int) (S : Nat)
    (h : ∀ p, (O' p).LastGPUSyncPoint = (O p).LastGPUSyncPoint ∧ (O' p).Size = (O p).Size) :
    ∀ (l : List Nat) (U : Int), trimCount O' B S U l = trimCount O B S U l := by
  intro l
  induction l with
  | nil => intro U; rfl
  | cons a l ih =>
    intro U
    simp only [trimCount, (h a).1, (h a).2, ih]

/-- Evicting a prefix of the resident list, one head at a time. -/
theorem foldl_Evict_prefix (T : Nat → Prop) :
    ∀ (l : List Nat) (c : LRUCache) (rest : List Nat),
      c.ResidentObjectList = l ++ rest → ListMembership T c →
      (l.foldl LRUCache.Evict c).ResidentObjectList = rest ∧
      (l.foldl LRUCache.Evict c).EvictedObjectList = c.EvictedObjectList ++ l ∧
      (l.foldl LRUCache.Evict c).Objects = markEvicted c.Objects l ∧
      ListMembership T (l.foldl LRUCache.Evict c) := by
  intro l
  induction l with
  | nil =>
    intro c rest h hm
    refine ⟨by simpa using h, by simp, ?_, hm⟩
    funext q; simp [markEvicted]
  | cons p l ih =>
    intro c rest h hm
    have hc : 1 ≤ c.ResidentObjectList.count p := by rw [h]; simp
    have hpT : T p ∧ (c.Objects p).ResidencyStatus = RESIDENCY_STATUS.RESIDENT ∧
        c.EvictedObjectList.count p = 0 := by
      rcases hm.counts p with ⟨ht, ⟨hs, _, he⟩ | ⟨_, hr, _⟩⟩ | ⟨_, hr, _⟩
      · exact ⟨ht, hs, he⟩
      · omega
      · omega
    have hm1 := Evict_membership T c p hm hpT.1 hpT.2.1
    have hr1 : (c.Evict p).ResidentObjectList = l ++ rest := by
      simp [LRUCache.Evict, LRUCache.RemoveEntryList, h]
    have he1 : (c.Evict p).EvictedObjectList = c.EvictedObjectList ++ [p] := by
      simp [LRUCache.Evict, LRUCache.RemoveEntryList, erase_of_count_zero _ _ hpT.2.2]
    obtain ⟨i1, i2, i3, i4⟩ := ih (c.Evict p) rest hr1 hm1
    simp only [List.foldl_cons]
    refine ⟨i1, ?_, ?_, i4⟩
    · rw [i2, he1]; simp
    · rw [i3, Evict_Objects, markEvicted_markEvicted]; rfl

/-- The loop of `TrimToSyncPointInclusive` in closed form. -/
theorem TrimToSyncPointInclusive_loop_eq (B : Int) (S : Nat) :
    ∀ (fuel : Nat) (c : LRUCache) (U : Int) (ev : List Nat) (n : Nat) (evd : List Nat),
      c.ResidentObjectList.length ≤ fuel →
      LRUCache.TrimToSyncPointInclusive.loop B S fuel c U ev n evd =
        ⟨(c.ResidentObjectList.take (trimCount c.Objects B S U c.ResidentObjectList)).foldl
            LRUCache.Evict c,
          ev ++ (c.ResidentObjectList.take (trimCount c.Objects B S U c.ResidentObjectList)).map
            (fun p => (c.Objects p).pUnderlying),
          incBy32 n (trimCount c.Objects B S U c.ResidentObjectList),
          evd ++ c.ResidentObjectList.take (trimCount c.Objects B S U c.ResidentObjectList)⟩ := by
  intro fuel
  induction fuel with
  | zero =>
    intro c U ev n evd hf
    have hl : c.ResidentObjectList = [] := List.length_eq_zero.mp (Nat.le_zero.mp hf)
    simp [LRUCache.TrimToSyncPointInclusive.loop, hl, trimCount, incBy32]
  | succ k ih =>
    intro c U ev n evd hf
    unfold LRUCache.TrimToSyncPointInclusive.loop
    split
    · rename_i hl
      simp [hl, trimCount, incBy32]
    · rename_i p rest hl
      split
      · rename_i hc
        simp [hl, trimCount, hc, incBy32]
      · rename_i hc
        have hr1 : (c.Evict p).ResidentObjectList = rest := by
          simp [LRUCache.Evict, LRUCache.RemoveEntryList, hl]
        have hlen : (c.Evict p).ResidentObjectList.length ≤ k := by
          rw [hr1]; rw [hl] at hf; simpa using hf
        have hsz : ((c.Evict p).Objects p).Size = (c.Objects p).Size := by
          rw [Evict_Objects]; exact (markEvicted_fields _ _ _).2.1
        have hcount : trimCount (c.Evict p).Objects B S
            (toINT64 (sub64 (toUINT64 U) (c.Objects p).Size)) rest =
            trimCount c.Objects B S (toINT64 (sub64 (toUINT64 U) (c.Objects p).Size)) rest := by
          apply trimCount_congr
          intro q; rw [Evict_Objects]
          exact ⟨(markEvicted_fields _ _ _).1, (markEvicted_fields _ _ _).2.1⟩
        simp only
        rw [ih _ _ _ _ _ hlen, hr1, hsz, hcount, hl]
        simp only [trimCount, hc, if_false, List.take_succ_cons, List.foldl_cons, List.map_cons,
          incBy32_succ]
        congr 1
        · simp only [List.append_assoc, List.singleton_append, List.append_cancel_left_eq,
            List.cons.injEq, true_and]
          apply List.map_congr_left
          intro q _
          rw [Evict_Objects]; exact (markEvicted_fields _ _ _).2.2.1
        · simp

theorem TrimCondition_succ (O : Nat → ManagedObject) (B : Int) (S : Nat) (U : Int)
    (p : Nat) (rest : List Nat) (i : Nat) :
    TrimCondition O B S U (p :: rest) (i + 1) ↔
      TrimCondition O B S (toINT64 (sub64 (toUINT64 U) (O p).Size)) rest i := by
  simp [TrimCondition, usageAfter]

theorem trimCount_spec (O : Nat → ManagedObject) (B : Int) (S : Nat) :
    ∀ (R : List Nat) (U : Int),
      trimCount O B S U R ≤ R.length ∧
      (∀ i, i < trimCount O B S U R → TrimCondition O B S U R i) ∧
      ¬ TrimCondition O B S U R (trimCount O B S U R) := by
  intro R
  induction R with
  | nil => intro U; simp [trimCount, TrimCondition]
  | cons p rest ih =>
    intro U
    by_cases hc : (O p).LastGPUSyncPoint > S ∨ U < B
    · simp only [trimCount, hc, if_true]
      refine ⟨Nat.zero_le _, fun i hi => absurd hi (Nat.not_lt_zero i), ?_⟩
      simp only [TrimCondition, List.getElem?_cons_zero, Option.some.injEq, List.take_zero,
        List.map_nil, usageAfter, List.foldl_nil, not_exists, not_and]
      intro o ho h1 h2
      subst ho
      rcases hc with hc | hc <;> omega
    · simp only [trimCount, hc, if_false]
      obtain ⟨h1, h2, h3⟩ := ih (toINT64 (sub64 (toUINT64 U) (O p).Size))
      refine ⟨by simpa using h1, ?_, ?_⟩
      · intro i hi
        cases i with
        | zero =>
          refine ⟨p, by simp, ?_, ?_⟩
          · omega
          · simp only [List.take_zero, List.map_nil, usageAfter, List.foldl_nil]; omega
        | succ j =>
          rw [TrimCondition_succ]
          exact h2 j (by omega)
      · rw [TrimCondition_succ]; exact h3

theorem agedOut_iff (O : Nat → ManagedObject) (M : Option DeviceWideSyncPoint)
    (t d p : Nat) :
    agedOut O M t d p = true ↔
      ¬ (usedSince M (O p).LastGPUSyncPoint = true ∨ sub64 t (O p).LastUsedTimestamp ≤ d) := by
  cases M with
  | none => simp [agedOut, usedSince]
  | some g => simp [agedOut, usedSince]

theorem agedOut_congr (O O' : Nat → ManagedObject) (M : Option DeviceWideSyncPoint) (t d : Nat)
    (h : ∀ p, (O' p).LastGPUSyncPoint = (O p).LastGPUSyncPoint ∧
      (O' p).LastUsedTimestamp = (O p).LastUsedTimestamp) :
    agedOut O' M t d = agedOut O M t d := by
  funext p
  simp only [agedOut, (h p).1, (h p).2]

/-- The loop of `TrimAgedAllocations` in closed form. -/
theorem TrimAgedAllocations_loop_eq (M : Option DeviceWideSyncPoint) (t d : Nat) :
    ∀ (fuel : Nat) (c : LRUCache) (ev : List Nat) (n : Nat) (evd : List Nat),
      c.ResidentObjectList.length ≤ fuel →
      LRUCache.TrimAgedAllocations.loop M t d fuel c ev n evd =
        ⟨(c.ResidentObjectList.takeWhile (agedOut c.Objects M t d)).foldl LRUCache.Evict c,
          ev ++ (c.ResidentObjectList.takeWhile (agedOut c.Objects M t d)).map
            (fun p => (c.Objects p).pUnderlying),
          incBy32 n (c.ResidentObjectList.takeWhile (agedOut c.Objects M t d)).length,
          evd ++ c.ResidentObjectList.takeWhile (agedOut c.Objects M t d)⟩ := by
  intro fuel
  induction fuel with
  | zero =>
    intro c ev n evd hf
    have hl : c.ResidentObjectList = [] := List.length_eq_zero.mp (Nat.le_zero.mp hf)
    simp [LRUCache.TrimAgedAllocations.loop, hl, incBy32]
  | succ k ih =>
    intro c ev n evd hf
    unfold LRUCache.TrimAgedAllocations.loop
    split
    · rename_i hl
      simp [hl, incBy32]
    · rename_i p rest hl
      split
      · rename_i hc
        have ha : agedOut c.Objects M t d p = false := by
          rw [Bool.eq_false_iff]; intro h; exact (agedOut_iff _ _ _ _ _).mp h hc
        simp [hl, List.takeWhile_cons, ha, incBy32]
      · rename_i hc
        have ha : agedOut c.Objects M t d p = true := (agedOut_iff _ _ _ _ _).mpr hc
        have hr1 : (c.Evict p).ResidentObjectList = rest := by
          simp [LRUCache.Evict, LRUCache.RemoveEntryList, hl]
        have hlen : (c.Evict p).ResidentObjectList.length ≤ k := by
          rw [hr1]; rw [hl] at hf; simpa using hf
        have hcongr : agedOut (c.Evict p).Objects M t d = agedOut c.Objects M t d := by
          apply agedOut_congr
          intro q; rw [Evict_Objects]
          exact ⟨(markEvicted_fields _ _ _).1, (markEvicted_fields _ _ _).2.2.2⟩
        rw [ih _ _ _ _ hlen, hr1, hcongr, hl]
        simp only [List.takeWhile_cons, ha, if_true, List.foldl_cons, List.map_cons,
          List.length_cons, incBy32_succ]
        congr 1
        · simp only [List.append_assoc, List.singleton_append, List.append_cancel_left_eq,
            List.cons.injEq, true_and]
          apply List.map_congr_left
          intro q _
          rw [Evict_Objects]; exact (markEvicted_fields _ _ _).2.2.1
        · simp

theorem foldl_Evict_Objects :
    ∀ (l : List Nat) (c : LRUCache), (l.foldl LRUCache.Evict c).Objects = markEvicted c.Objects l := by
  intro l
  induction l with
  | nil => intro c; funext q; simp [markEvicted]
  | cons p l ih =>
    intro c
    simp only [List.foldl_cons]
    rw [ih, Evict_Objects, markEvicted_markEvicted]; rfl

theorem TrimToSyncPointInclusive_loop_keeps_of (I : LRUCache → Prop) (B : Int) (S : Nat)
    (hI : ∀ c p rest, I c → c.ResidentObjectList = p :: rest →
      (c.Objects p).LastGPUSyncPoint ≤ S → I (c.Evict p)) :
    ∀ (fuel : Nat) (c : LRUCache) (u : Int) (ev : List Nat) (n : Nat) (evd : List Nat),
      I c → I (LRUCache.TrimToSyncPointInclusive.loop B S fuel c u ev n evd).LRU := by
  intro fuel
  induction fuel with
  | zero => intro c u ev n evd h; exact h
  | succ k ih =>
    intro c u ev n evd h
    unfold LRUCache.TrimToSyncPointInclusive.loop
    split
    · exact h
    · rename_i p rest hl
      split
      · exact h
      · rename_i hc
        exact ih _ _ _ _ _ (hI c p rest h hl (by omega))

theorem TrimAgedAllocations_loop_keeps_of (I : LRUCache → Prop)
    (M : Option DeviceWideSyncPoint) (t d : Nat)
    (hI : ∀ c p rest, I c → c.ResidentObjectList = p :: rest →
      agedOut c.Objects M t d p = true → I (c.Evict p)) :
    ∀ (fuel : Nat) (c : LRUCache) (ev : List Nat) (n : Nat) (evd : List Nat),
      I c → I (LRUCache.TrimAgedAllocations.loop M t d fuel c ev n evd).LRU := by
  intro fuel
  induction fuel with
  | zero => intro c ev n evd h; exact h
  | succ k ih =>
    intro c ev n evd h
    unfold LRUCache.TrimAgedAllocations.loop
    split
    · exact h
    · rename_i p rest hl
      split
      · exact h
      · rename_i hc
        exact ih _ _ _ _ (hI c p rest h hl ((agedOut_iff _ _ _ _ _).mpr hc))

/-- Evicting another object leaves a referenced object as it is. -/
theorem Referenced_Evict (g t : Nat) (c : LRUCache) (p q : Nat) (hpq : p ≠ q)
    (h : Referenced g t c p) : Referenced g t (c.Evict q) p := by
  obtain ⟨h1, h2, h3, h4⟩ := h
  have ho : (c.Evict q).Objects p = c.Objects p := by
    rw [Evict_Objects]; simp [markEvicted, hpq]
  refine ⟨by rw [ho]; exact h1, ?_, by rw [ho]; exact h3, by rw [ho]; exact h4⟩
  simp only [LRUCache.Evict, LRUCache.RemoveEntryList]
  exact (List.mem_erase_of_ne hpq).mpr h2

theorem markObject_Referenced_self (g t : Nat) (m : MarkState) (p : Nat) :
    Referenced g t (markObject g t m p).LRU p := by
  unfold markObject
  simp only
  split
  · simp [Referenced, LRUCache.ObjectReferenced, LRUCache.RemoveEntryList,
      LRUCache.MakeResident, writeObject]
  · rename_i hs
    have hst : (m.LRU.Objects p).ResidencyStatus = RESIDENCY_STATUS.RESIDENT := by
      rcases status_cases (m.LRU.Objects p).ResidencyStatus with h' | h'
      · exact h'
      · exact absurd h' hs
    simp [Referenced, LRUCache.ObjectReferenced, LRUCache.RemoveEntryList, writeObject, hst]

theorem markObject_Referenced_other (g t : Nat) (m : MarkState) (p q : Nat) (hpq : p ≠ q)
    (h : Referenced g t m.LRU p) : Referenced g t (markObject g t m q).LRU p := by
  obtain ⟨h1, h2, h3, h4⟩ := h
  unfold markObject
  simp only
  split
  · simp only [Referenced, LRUCache.ObjectReferenced, LRUCache.RemoveEntryList,
      LRUCache.MakeResident, writeObject, if_neg hpq, List.mem_append, List.mem_singleton]
    refine ⟨h1, Or.inl ?_, h3, h4⟩
    apply (List.mem_erase_of_ne hpq).mpr
    exact List.mem_append_left _ ((List.mem_erase_of_ne hpq).mpr h2)
  · simp only [Referenced, LRUCache.ObjectReferenced, LRUCache.RemoveEntryList,
      writeObject, if_neg hpq, List.mem_append, List.mem_singleton]
    exact ⟨h1, Or.inl ((List.mem_erase_of_ne hpq).mpr h2), h3, h4⟩

theorem markObjects_Referenced (g t : Nat) :
    ∀ (l : List Nat) (m : MarkState) (p : Nat),
      (p ∈ l ∨ Referenced g t m.LRU p) → Referenced g t (l.foldl (markObject g t) m).LRU p := by
  intro l
  induction l with
  | nil =>
    intro m p h
    rcases h with h | h
    · simp at h
    · exact h
  | cons a l ih =>
    intro m p h
    simp only [List.foldl_cons]
    apply ih
    by_cases hpa : p = a
    · subst hpa; exact Or.inr (markObject_Referenced_self g t m p)
    · rcases h with h | h
      · rcases List.mem_cons.mp h with h | h
        · exact absurd h hpa
        · exact Or.inl h
      · exact Or.inr (markObject_Referenced_other g t m p a hpa h)

/-- What `DequeueCompletedSyncPoints` does to the in-flight list: it removes a prefix of
completed points and returns the head of what is left, which is not completed. -/
theorem DequeueCompletedSyncPoints_spec (C : Nat → Nat) :
    ∀ l : List DeviceWideSyncPoint,
      (∃ pre, l = pre ++ (DequeueCompletedSyncPoints C l).1 ∧
        ∀ P ∈ pre, P.IsCompleted C = true) ∧
      (DequeueCompletedSyncPoints C l).2 = (DequeueCompletedSyncPoints C l).1.head? ∧
      (∀ F, (DequeueCompletedSyncPoints C l).2 = some F → F.IsCompleted C = false) := by
  intro l
  induction l with
  | nil => exact ⟨⟨[], rfl, by simp⟩, rfl, by simp [DequeueCompletedSyncPoints]⟩
  | cons P l ih =>
    by_cases hc : P.IsCompleted C = true
    · obtain ⟨⟨pre, h1, h2⟩, h3, h4⟩ := ih
      simp only [DequeueCompletedSyncPoints, hc, if_true]
      refine ⟨⟨P :: pre, by rw [List.cons_append, ← h1], ?_⟩, h3, h4⟩
      intro Q hQ
      rcases List.mem_cons.mp hQ with h | h
      · rw [h]; exact hc
      · exact h2 Q h
    · simp only [DequeueCompletedSyncPoints, hc, if_false]
      refine ⟨⟨[], rfl, by simp⟩, rfl, ?_⟩
      intro F hF
      cases hF
      simpa using hc

theorem DequeueCompletedSyncPoints_subset (C : Nat → Nat) (l : List DeviceWideSyncPoint) :
    ∀ P ∈ (DequeueCompletedSyncPoints C l).1, P ∈ l := by
  obtain ⟨⟨pre, h1, _⟩, _, _⟩ := DequeueCompletedSyncPoints_spec C l
  intro P hP
  rw [h1]; exact List.mem_append_right _ hP

theorem DequeueCompletedSyncPoints_head (C : Nat → Nat) (l : List DeviceWideSyncPoint)
    (F : DeviceWideSyncPoint) (h : (DequeueCompletedSyncPoints C l).2 = some F) :
    ∃ rest, (DequeueCompletedSyncPoints C l).1 = F :: rest := by
  obtain ⟨_, h2, _⟩ := DequeueCompletedSyncPoints_spec C l
  rw [h] at h2
  cases hd : (DequeueCompletedSyncPoints C l).1 with
  | nil => rw [hd] at h2; cases h2
  | cons a rest => rw [hd] at h2; cases h2; exact ⟨rest, rfl⟩

/-- `WaitForSyncPoint` on a list whose head has the generation waited for: the head is
waited for and removed. -/
theorem WaitForSyncPoint_head (C : Nat → Nat) (F : DeviceWideSyncPoint)
    (rest : List DeviceWideSyncPoint) (w : WaitResult)
    (h : WaitForSyncPoint F.GenerationID C (F :: rest) = some w) :
    w = ⟨rest, some F⟩ ∧ F.IsCompleted C = true := by
  simp only [WaitForSyncPoint, WaitForSyncPoint.walk, gt_iff_lt, lt_self_iff_false, if_false,
    DeviceWideSyncPoint.WaitForCompletion] at h
  split at h
  · rename_i hc; cases h; exact ⟨rfl, hc⟩
  · cases h

/-- `WaitForSyncPoint` for a generation below that of the head returns at once. -/
theorem WaitForSyncPoint_below (C : Nat → Nat) (S : Nat) (F : DeviceWideSyncPoint)
    (rest : List DeviceWideSyncPoint) (hS : S < F.GenerationID) :
    WaitForSyncPoint S C (F :: rest) = some ⟨F :: rest, none⟩ := by
  simp [WaitForSyncPoint, WaitForSyncPoint.walk, hS]

theorem sub64_one_lt (g : Nat) (hg : 1 ≤ g) : sub64 g 1 < g := by
  simp only [sub64, U64]; omega

theorem Trim_Referenced (refs : List Nat) (g t : Nat) (c : LRUCache) (U B : Int) (S : Nat)
    (hS : S < g) (h : ∀ p ∈ refs, Referenced g t c p) :
    ∀ p ∈ refs, Referenced g t (c.TrimToSyncPointInclusive U B S).LRU p := by
  apply TrimToSyncPointInclusive_loop_keeps_of (fun c => ∀ p ∈ refs, Referenced g t c p) B S
    _ _ c U [] 0 [] h
  intro c q rest hc _ hq p hp
  have hne : p ≠ q := by
    intro e; subst e
    have := (hc p hp).2.2.1
    omega
  exact Referenced_Evict g t c p q hne (hc p hp)

theorem TrimAged_Referenced (refs : List Nat) (g t d : Nat) (c : LRUCache)
    (M : Option DeviceWideSyncPoint) (h : ∀ p ∈ refs, Referenced g t c p) :
    ∀ p ∈ refs, Referenced g t (c.TrimAgedAllocations M [] 0 t d).LRU p := by
  apply TrimAgedAllocations_loop_keeps_of (fun c => ∀ p ∈ refs, Referenced g t c p) M t d
    _ _ c [] 0 [] h
  intro c q rest hc _ hq p hp
  have hne : p ≠ q := by
    intro e; subst e
    have h4 := (hc p hp).2.2.2
    have : sub64 t (c.Objects p).LastUsedTimestamp = 0 := by
      rw [h4]; simp only [sub64, U64]; omega
    simp [agedOut, this] at hq
  exact Referenced_Evict g t c p q hne (hc p hp)

theorem waitAndTrim_ReferencedKept (refs : List Nat) (t : Nat)
    (InFlight₀ : List DeviceWideSyncPoint) (pWork : AsyncWorkload) (e : IterationEnv)
    (U B : Int) (F : DeviceWideSyncPoint) (rest : List DeviceWideSyncPoint)
    (s s' : PagingState)
    (hgate : ∀ P ∈ InFlight₀, pWork.SyncPointGeneration < P.GenerationID →
      P.WaitForCompletion e.CompletedAfterWait = false)
    (hg : 1 ≤ pWork.SyncPointGeneration)
    (hl : ∀ P ∈ F :: rest, P ∈ InFlight₀)
    (hs : ∀ p ∈ refs, Referenced pWork.SyncPointGeneration t s.LRU p)
    (h : waitAndTrim pWork e U B (F :: rest) F s = some s') :
    ReferencedKept refs pWork.SyncPointGeneration t InFlight₀ s' := by
  unfold waitAndTrim GenerationToWaitFor at h
  simp only at h
  split at h
  · cases h
  · rename_i w hw
    cases h
    by_cases hFg : F.GenerationID = pWork.SyncPointGeneration
    · simp only [hFg, if_true] at hw ⊢
      have hlt := sub64_one_lt pWork.SyncPointGeneration hg
      rw [WaitForSyncPoint_below _ _ F rest (by rw [hFg]; exact hlt)] at hw
      cases hw
      exact ⟨Trim_Referenced refs _ t s.LRU _ _ _ hlt hs, hl⟩
    · simp only [hFg, if_false] at hw ⊢
      obtain ⟨hw1, hw2⟩ := WaitForSyncPoint_head _ F rest w hw
      have hle : ¬ pWork.SyncPointGeneration < F.GenerationID := by
        intro hlt
        have := hgate F (hl F (List.mem_cons_self F rest)) hlt
        simp only [DeviceWideSyncPoint.WaitForCompletion] at this
        rw [hw2] at this; cases this
      have hlt : F.GenerationID < pWork.SyncPointGeneration := by omega
      subst hw1
      exact ⟨Trim_Referenced refs _ t s.LRU _ _ _ hlt hs,
        fun P hP => hl P (List.mem_cons_of_mem F hP)⟩

theorem trimOrFinish_ReferencedKept (refs : List Nat) (t : Nat)
    (InFlight₀ : List DeviceWideSyncPoint) (pWork : AsyncWorkload) (e : IterationEnv)
    (U B A : Int) (s : PagingState) (o : IterationOutcome)
    (hgate : ∀ P ∈ InFlight₀, pWork.SyncPointGeneration < P.GenerationID →
      P.WaitForCompletion e.CompletedAfterWait = false)
    (hs : ReferencedKept refs pWork.SyncPointGeneration t InFlight₀ s)
    (h : trimOrFinish pWork e U B A s = some o) :
    ReferencedKept refs pWork.SyncPointGeneration t InFlight₀ o.state := by
  have hsub : ∀ P ∈ (DequeueCompletedSyncPoints e.Completed s.InFlight).1, P ∈ InFlight₀ :=
    fun P hP => hs.2 P (DequeueCompletedSyncPoints_subset _ _ P hP)
  have hfin : (finalMakeResident e A (DequeueCompletedSyncPoints e.Completed s.InFlight).1
      s).map IterationOutcome.exit = some o →
      ReferencedKept refs pWork.SyncPointGeneration t InFlight₀ o.state := by
    intro hl
    cases hf : finalMakeResident e A (DequeueCompletedSyncPoints e.Completed s.InFlight).1 s with
    | none => rw [hf] at hl; cases hl
    | some s' =>
      rw [hf] at hl; cases hl
      unfold finalMakeResident at hf
      simp only at hf
      split at hf
      · cases hf
      · cases hf; exact ⟨hs.1, hsub⟩
  unfold trimOrFinish at h
  simp only at h
  split at h
  · exact hfin h
  · rename_i pHead hhead
    split at h
    · exact hfin h
    · rename_i hgen
      split at h
      · exact hfin h
      · rename_i First hF
        obtain ⟨rest, hrest⟩ := DequeueCompletedSyncPoints_head _ _ _ hF
        rw [hrest] at h hsub
        cases hw : waitAndTrim pWork e U B (First :: rest) First s with
        | none => rw [hw] at h; cases h
        | some s' =>
          rw [hw] at h; cases h
          exact waitAndTrim_ReferencedKept refs t InFlight₀ pWork e U B First rest s s' hgate
            (by omega) hsub hs.1 hw

theorem pagingIteration_ReferencedKept (refs : List Nat) (t : Nat)
    (InFlight₀ : List DeviceWideSyncPoint) (pWork : AsyncWorkload) (e : IterationEnv)
    (s : PagingState) (o : IterationOutcome)
    (hgate : ∀ P ∈ InFlight₀, pWork.SyncPointGeneration < P.GenerationID →
      P.WaitForCompletion e.CompletedAfterWait = false)
    (hs : ReferencedKept refs pWork.SyncPointGeneration t InFlight₀ s)
    (h : pagingIteration pWork e s = some o) :
    ReferencedKept refs pWork.SyncPointGeneration t InFlight₀ o.state := by
  unfold pagingIteration at h
  split at h
  · cases h
  · rename_i s1 hr hb
    obtain ⟨b1, b2, _⟩ := boundedBatch_LRU _ _ _ _ _ hb
    have hs1 : ReferencedKept refs pWork.SyncPointGeneration t InFlight₀ s1 := by
      unfold ReferencedKept; rw [b1, b2]; exact hs
    split at h
    · exact trimOrFinish_ReferencedKept refs t InFlight₀ pWork e _ _ _ s1 o hgate hs1 h
    · cases h; exact hs1

theorem loop_ReferencedKept (refs : List Nat) (t : Nat)
    (InFlight₀ : List DeviceWideSyncPoint) (pWork : AsyncWorkload) :
    ∀ (es : List IterationEnv) (s s' : PagingState),
      (∀ e ∈ es, ∀ P ∈ InFlight₀, pWork.SyncPointGeneration < P.GenerationID →
        P.WaitForCompletion e.CompletedAfterWait = false) →
      ReferencedKept refs pWork.SyncPointGeneration t InFlight₀ s →
      ProcessPagingWork.loop pWork es s = some s' →
      ReferencedKept refs pWork.SyncPointGeneration t InFlight₀ s' := by
  intro es
  induction es with
  | nil => intro s s' _ _ h; simp [ProcessPagingWork.loop] at h
  | cons e es ih =>
    intro s s' hgate hs h
    unfold ProcessPagingWork.loop at h
    split at h
    · cases h
    · rename_i s1 h1
      cases h
      exact pagingIteration_ReferencedKept refs t InFlight₀ pWork e s _
        (hgate e (List.mem_cons_self e es)) hs h1
    · rename_i s1 h1
      exact ih _ _ (fun e' he' => hgate e' (List.mem_cons_of_mem e he'))
        (pagingIteration_ReferencedKept refs t InFlight₀ pWork e s _
          (hgate e (List.mem_cons_self e es)) hs h1) h

theorem TrimToSyncPointInclusive_evicted_gen (c : LRUCache) (U B : Int) (S : Nat) :
    ∀ p ∈ (c.TrimToSyncPointInclusive U B S).Evicted,
      ((c.TrimToSyncPointInclusive U B S).LRU.Objects p).LastGPUSyncPoint ≤ S := by
  have hloop := TrimToSyncPointInclusive_loop_eq B S c.ResidentObjectList.length c U [] 0 []
    (Nat.le_refl _)
  obtain ⟨_, k2, _⟩ := trimCount_spec c.Objects B S c.ResidentObjectList U
  intro p hp
  simp only [LRUCache.TrimToSyncPointInclusive, hloop, List.nil_append] at hp ⊢
  rw [foldl_Evict_Objects, (markEvicted_fields _ _ _).1]
  obtain ⟨i, hi, hget⟩ := List.getElem_of_mem hp
  have hi' : i < trimCount c.Objects B S U c.ResidentObjectList := by
    have := List.length_take_le (trimCount c.Objects B S U c.ResidentObjectList)
      c.ResidentObjectList
    omega
  obtain ⟨o, ho, hg, _⟩ := k2 i hi'
  have : c.ResidentObjectList[i]? = some p := by
    rw [← hget, List.getElem_take]
    exact List.getElem?_eq_getElem _
  rw [this] at ho
  cases ho
  exact hg

theorem TrimAgedAllocations_evicted_gen (c : LRUCache) (M : Option DeviceWideSyncPoint)
    (ev : List Nat) (n t d : Nat) :
    ∀ p ∈ (c.TrimAgedAllocations M ev n t d).Evicted,
      agedOut c.Objects M t d p = true ∧
      ((c.TrimAgedAllocations M ev n t d).LRU.Objects p).LastGPUSyncPoint =
        (c.Objects p).LastGPUSyncPoint := by
  have hloop := TrimAgedAllocations_loop_eq M t d c.ResidentObjectList.length c ev n []
    (Nat.le_refl _)
  intro p hp
  simp only [LRUCache.TrimAgedAllocations, hloop, List.nil_append] at hp ⊢
  rw [foldl_Evict_Objects, (markEvicted_fields _ _ _).1]
  exact ⟨List.mem_takeWhile_imp hp, rfl⟩

theorem GenerationsIncreasing_suffix (pre l : List DeviceWideSyncPoint)
    (h : GenerationsIncreasing (pre ++ l)) : GenerationsIncreasing l :=
  (List.pairwise_append.mp h).2.1

theorem GenerationsIncreasing_head (F : DeviceWideSyncPoint) (rest : List DeviceWideSyncPoint)
    (h : GenerationsIncreasing (F :: rest)) :
    (∀ P ∈ rest, F.GenerationID < P.GenerationID) ∧ GenerationsIncreasing rest :=
  ⟨(List.pairwise_cons.mp h).1, (List.pairwise_cons.mp h).2⟩

theorem dequeue_EvictionsSafe (Obs : DeviceWideSyncPoint → Prop)
    (InFlight₀ l : List DeviceWideSyncPoint) (C : Nat → Nat)
    (hC : ∀ P, P.IsCompleted C = true → Obs P)
    (h1 : GenerationsIncreasing l) (h2 : ∀ P ∈ InFlight₀, P ∉ l → Obs P)
    (h3 : ∀ P ∈ l, P ∈ InFlight₀) :
    GenerationsIncreasing (DequeueCompletedSyncPoints C l).1 ∧
    (∀ P ∈ InFlight₀, P ∉ (DequeueCompletedSyncPoints C l).1 → Obs P) ∧
    (∀ P ∈ (DequeueCompletedSyncPoints C l).1, P ∈ InFlight₀) := by
  obtain ⟨⟨pre, e1, e2⟩, _, _⟩ := DequeueCompletedSyncPoints_spec C l
  refine ⟨?_, ?_, ?_⟩
  · rw [e1] at h1; exact GenerationsIncreasing_suffix _ _ h1
  · intro P hP hn
    by_cases hl : P ∈ l
    · rw [e1] at hl
      rcases List.mem_append.mp hl with h | h
      · exact hC P (e2 P h)
      · exact absurd h hn
    · exact h2 P hP hl
  · intro P hP; exact h3 P (DequeueCompletedSyncPoints_subset C l P hP)

theorem mem_log_append {l₁ l₂ : List PagingEvent} (h1 : ∀ ev ∈ l₁, ev.EvictionSafe)
    (h2 : ∀ ev ∈ l₂, ev.EvictionSafe) : ∀ ev ∈ l₁ ++ l₂, ev.EvictionSafe := by
  intro ev hev
  rcases List.mem_append.mp hev with h | h
  · exact h1 ev h
  · exact h2 ev h

theorem waitEvents_safe (w : WaitResult) : ∀ ev ∈ waitEvents w, ev.EvictionSafe := by
  intro ev hev
  unfold waitEvents at hev
  split at hev
  · simp only [List.mem_singleton] at hev; subst hev; trivial
  · simp at hev

theorem waitAndTrim_EvictionsSafe (Obs : DeviceWideSyncPoint → Prop)
    (InFlight₀ : List DeviceWideSyncPoint) (pWork : AsyncWorkload) (e : IterationEnv)
    (U B : Int) (F : DeviceWideSyncPoint) (rest : List DeviceWideSyncPoint)
    (s s' : PagingState)
    (hC : ∀ P, P.IsCompleted e.CompletedAfterWait = true → Obs P)
    (hg : 1 ≤ pWork.SyncPointGeneration)
    (h1 : GenerationsIncreasing (F :: rest))
    (h2 : ∀ P ∈ InFlight₀, P ∉ F :: rest → Obs P)
    (h3 : ∀ P ∈ F :: rest, P ∈ InFlight₀)
    (h4 : ∀ ev ∈ s.Log, ev.EvictionSafe)
    (h : waitAndTrim pWork e U B (F :: rest) F s = some s') :
    EvictionsSafe Obs InFlight₀ s' := by
  unfold waitAndTrim GenerationToWaitFor at h
  simp only at h
  split at h
  · cases h
  · rename_i w hw
    cases h
    obtain ⟨g1, g2⟩ := GenerationsIncreasing_head F rest h1
    by_cases hFg : F.GenerationID = pWork.SyncPointGeneration
    · simp only [hFg, if_true] at hw ⊢
      have hlt := sub64_one_lt pWork.SyncPointGeneration hg
      rw [WaitForSyncPoint_below _ _ F rest (by rw [hFg]; exact hlt)] at hw
      cases hw
      refine ⟨h1, h2, h3, mem_log_append (mem_log_append h4 (waitEvents_safe _)) ?_⟩
      intro ev hev
      simp only [List.mem_singleton] at hev
      subst hev
      intro p hp P hP
      dsimp only at hp hP ⊢
      have hle := TrimToSyncPointInclusive_evicted_gen s.LRU _ B _ p hp
      have hP' : pWork.SyncPointGeneration ≤ P.GenerationID := by
        rcases List.mem_cons.mp hP with h | h
        · rw [h, hFg]
        · have := g1 P h; omega
      omega
    · simp only [hFg, if_false] at hw ⊢
      obtain ⟨hw1, hw2⟩ := WaitForSyncPoint_head _ F rest w hw
      subst hw1
      refine ⟨g2, ?_, fun P hP => h3 P (List.mem_cons_of_mem F hP),
        mem_log_append (mem_log_append h4 (waitEvents_safe _)) ?_⟩
      · intro P hP hn
        by_cases hPF : P = F
        · rw [hPF]; exact hC F hw2
        · exact h2 P hP (by
            intro hmem
            rcases List.mem_cons.mp hmem with h | h
            · exact hPF h
            · exact hn h)
      · intro ev hev
        simp only [List.mem_singleton] at hev
        subst hev
        intro p hp P hP
        dsimp only at hp hP ⊢
        have hle := TrimToSyncPointInclusive_evicted_gen s.LRU _ B _ p hp
        have := g1 P hP
        omega

theorem finalMakeResident_EvictionsSafe (Obs : DeviceWideSyncPoint → Prop)
    (InFlight₀ l : List DeviceWideSyncPoint) (e : IterationEnv) (A : Int)
    (s s' : PagingState)
    (h1 : GenerationsIncreasing l) (h2 : ∀ P ∈ InFlight₀, P ∉ l → Obs P)
    (h3 : ∀ P ∈ l, P ∈ InFlight₀) (h4 : ∀ ev ∈ s.Log, ev.EvictionSafe)
    (h : finalMakeResident e A l s = some s') : EvictionsSafe Obs InFlight₀ s' := by
  unfold finalMakeResident at h
  simp only at h
  split at h
  · cases h
  · cases h
    refine ⟨h1, h2, h3, mem_log_append h4 ?_⟩
    intro ev hev
    simp only [List.mem_singleton] at hev
    subst hev; trivial

theorem trimOrFinish_EvictionsSafe (Obs : DeviceWideSyncPoint → Prop)
    (InFlight₀ : List DeviceWideSyncPoint) (pWork : AsyncWorkload) (e : IterationEnv)
    (U B A : Int) (s : PagingState) (o : IterationOutcome)
    (hC : ∀ P, P.IsCompleted e.Completed = true → Obs P)
    (hCW : ∀ P, P.IsCompleted e.CompletedAfterWait = true → Obs P)
    (hs : EvictionsSafe Obs InFlight₀ s)
    (h : trimOrFinish pWork e U B A s = some o) :
    EvictionsSafe Obs InFlight₀ o.state := by
  obtain ⟨s1, s2, s3, s4⟩ := hs
  obtain ⟨d1, d2, d3⟩ := dequeue_EvictionsSafe Obs InFlight₀ s.InFlight e.Completed hC s1 s2 s3
  have hfin : (finalMakeResident e A (DequeueCompletedSyncPoints e.Completed s.InFlight).1
      s).map IterationOutcome.exit = some o → EvictionsSafe Obs InFlight₀ o.state := by
    intro hl
    cases hf : finalMakeResident e A (DequeueCompletedSyncPoints e.Completed s.InFlight).1 s with
    | none => rw [hf] at hl; cases hl
    | some s' =>
      rw [hf] at hl; cases hl
      exact finalMakeResident_EvictionsSafe Obs InFlight₀ _ e A s s' d1 d2 d3 s4 hf
  unfold trimOrFinish at h
  simp only at h
  split at h
  · exact hfin h
  · rename_i pHead hhead
    split at h
    · exact hfin h
    · rename_i hgen
      split at h
      · exact hfin h
      · rename_i First hF
        obtain ⟨rest, hrest⟩ := DequeueCompletedSyncPoints_head _ _ _ hF
        rw [hrest] at h d1 d2 d3
        cases hw : waitAndTrim pWork e U B (First :: rest) First s with
        | none => rw [hw] at h; cases h
        | some s' =>
          rw [hw] at h; cases h
          exact waitAndTrim_EvictionsSafe Obs InFlight₀ pWork e U B First rest s s' hCW
            (by omega) d1 d2 d3 s4 hw

theorem boundedBatch_Log (e : IterationEnv) (A : Int) (s s1 : PagingState) (hr : Bool)
    (h : boundedBatch e A s = some (s1, hr)) :
    s1.Log = s.Log ∨ ∃ n l b ctx, s1.Log = s.Log ++ [PagingEvent.MakeResident n l b ctx] := by
  unfold boundedBatch at h
  simp only at h
  split at h
  · split at h
    · cases h
    · cases h; exact Or.inr ⟨_, _, _, _, rfl⟩
  · cases h; exact Or.inl rfl

theorem pagingIteration_EvictionsSafe (Obs : DeviceWideSyncPoint → Prop)
    (InFlight₀ : List DeviceWideSyncPoint) (pWork : AsyncWorkload) (e : IterationEnv)
    (s : PagingState) (o : IterationOutcome)
    (hC : ∀ P, P.IsCompleted e.Completed = true → Obs P)
    (hCW : ∀ P, P.IsCompleted e.CompletedAfterWait = true → Obs P)
    (hs : EvictionsSafe Obs InFlight₀ s)
    (h : pagingIteration pWork e s = some o) :
    EvictionsSafe Obs InFlight₀ o.state := by
  unfold pagingIteration at h
  split at h
  · cases h
  · rename_i s1 hr hb
    obtain ⟨_, b2, _⟩ := boundedBatch_LRU _ _ _ _ _ hb
    have hs1 : EvictionsSafe Obs InFlight₀ s1 := by
      obtain ⟨s1', s2', s3', s4'⟩ := hs
      unfold EvictionsSafe; rw [b2]
      refine ⟨s1', s2', s3', ?_⟩
      rcases boundedBatch_Log _ _ _ _ _ hb with hl | ⟨n, l, b, ctx, hl⟩
      · rw [hl]; exact s4'
      · rw [hl]
        apply mem_log_append s4'
        intro ev hev
        simp only [List.mem_singleton] at hev
        subst hev; trivial
    split at h
    · exact trimOrFinish_EvictionsSafe Obs InFlight₀ pWork e _ _ _ s1 o hC hCW hs1 h
    · cases h; exact hs1

theorem loop_EvictionsSafe (Obs : DeviceWideSyncPoint → Prop)
    (InFlight₀ : List DeviceWideSyncPoint) (pWork : AsyncWorkload) :
    ∀ (es : List IterationEnv) (s s' : PagingState),
      (∀ e ∈ es, ∀ P, P.IsCompleted e.Completed = true ∨
        P.IsCompleted e.CompletedAfterWait = true → Obs P) →
      EvictionsSafe Obs InFlight₀ s →
      ProcessPagingWork.loop pWork es s = some s' → EvictionsSafe Obs InFlight₀ s' := by
  intro es
  induction es with
  | nil => intro s s' _ _ h; simp [ProcessPagingWork.loop] at h
  | cons e es ih =>
    intro s s' hobs hs h
    have he := hobs e (List.mem_cons_self e es)
    have hstep : ∀ o, pagingIteration pWork e s = some o →
        EvictionsSafe Obs InFlight₀ o.state := fun o ho =>
      pagingIteration_EvictionsSafe Obs InFlight₀ pWork e s o
        (fun P hP => he P (Or.inl hP)) (fun P hP => he P (Or.inr hP)) hs ho
    unfold ProcessPagingWork.loop at h
    split at h
    · cases h
    · rename_i s1 h1
      cases h
      exact hstep _ h1
    · rename_i s1 h1
      exact ih _ _ (fun e' he' => hobs e' (List.mem_cons_of_mem e he')) (hstep _ h1) h

theorem LastGPUSyncPoint_keptByHeadEviction (refs : List Nat) (g : Nat) :
    KeptByHeadEviction (fun c => ∀ o ∈ refs, (c.Objects o).LastGPUSyncPoint = g) := by
  intro c p rest h _ o ho
  rw [Evict_Objects, (markEvicted_fields _ _ _).1]
  exact h o ho

theorem beginPagingWork_EvictionsSafe (c : LRUCache) (InFlight : List DeviceWideSyncPoint)
    (pWork : AsyncWorkload) (env : PagingEnv) (hsorted : GenerationsIncreasing InFlight) :
    EvictionsSafe (SeenCompleted env) InFlight (beginPagingWork c InFlight pWork env) := by
  obtain ⟨d1, d2, d3⟩ := dequeue_EvictionsSafe (SeenCompleted env) InFlight InFlight
    env.Completed (fun P hP => Or.inl hP) hsorted (fun P hP hn => absurd hP hn)
    (fun P hP => hP)
  refine ⟨d1, d2, d3, ?_⟩
  intro ev hev
  simp only [beginPagingWork] at hev
  split at hev
  · simp only [List.mem_singleton] at hev
    subst hev
    intro p hp P hP
    dsimp only at hp hP ⊢
    obtain ⟨a1, a2⟩ := TrimAgedAllocations_evicted_gen _ _ _ _ _ _ p hp
    rw [a2]
    obtain ⟨_, e2, _⟩ := DequeueCompletedSyncPoints_spec env.Completed InFlight
    cases hd : (DequeueCompletedSyncPoints env.Completed InFlight).1 with
    | nil => rw [hd] at hP; cases hP
    | cons F rest =>
      rw [hd] at e2 hP d1
      simp only [List.head?_cons] at e2
      rw [e2] at a1
      simp only [agedOut, Bool.and_eq_true, decide_eq_true_eq] at a1
      obtain ⟨g1, _⟩ := GenerationsIncreasing_head F rest d1
      rcases List.mem_cons.mp hP with h | h
      · rw [h]; exact a1.1
      · have := g1 P h; omega
  · simp at hev

theorem toUINT64_of_pos (A : Int) (h : 0 < A) (hA : A < 9223372036854775808) :
    (toUINT64 A : Int) = A := by
  unfold toUINT64
  rw [Int.emod_eq_of_lt (by omega) (by omega)]
  exact Int.toNat_of_nonneg (by omega)

theorem toINT64_lt (a : Nat) : toINT64 a < 9223372036854775808 := by
  unfold toINT64
  split
  · rename_i h; omega
  · have : a % U64 < U64 := Nat.mod_lt _ (by decide)
    simp only [U64] at this ⊢; omega

theorem batchLoop_inv (O₀ O : Nat → ManagedObject) (hO : SameSizes O₀ O) (A : Int)
    (hA : toUINT64 A < 9223372036854775808) (start : Nat) :
    ∀ (k i : Nat) (b b' : BatchState), BatchInv O₀ A start i b →
      batchLoop O A k i b = some b' →
      ∃ i', BatchInv O₀ A start i' b' := by
  intro k
  induction k with
  | zero =>
    intro i b b' hb h
    simp only [batchLoop] at h
    cases h; exact ⟨i, hb⟩
  | succ k ih =>
    intro i b b' hb h
    unfold batchLoop at h
    split at h
    · rename_i p hget
      rw [(hO p).1, (hO p).2] at h
      split at h
      · cases h
        exact ⟨i, hb⟩
      · rename_i hfit
        refine ih (i + 1) _ b' ?_ h
        obtain ⟨h1, h2, h3, h4, h5, h6⟩ := hb
        have hlen : i < b.pMakeResidentList.length := by
          by_contra hn
          rw [List.getElem?_eq_none (by omega)] at hget
          cases hget
        refine ⟨?_, ?_, ?_, ?_, ?_, ?_⟩
        · simp only [List.length_append, List.length_singleton]; omega
        · simp only [sizeSum_append, sizeSum_cons, sizeSum_nil, add64]
          rw [h2]; simp only [U64]; omega
        · simp only; omega
        · intro hsz
          simp only [sizeSum_append, sizeSum_cons, sizeSum_nil, add64] at hsz ⊢
          have hprev := h4 (fun q hq => hsz q (List.mem_append_left _ hq))
          have hp := hsz p (List.mem_append_right _ (List.mem_singleton_self p))
          rw [hprev] at h3 ⊢
          simp only [U64]; omega
        · simp only [List.length_append, List.length_singleton, inc32]
          rw [h5]; simp only [U32]; omega
        · intro j hj
          simp only [List.length_append, List.length_singleton] at hj
          by_cases hjl : j < b.Batch.length
          · rw [List.getElem?_set_ne (by omega), h6 j hjl]
            simp only [List.map_append, List.map_cons, List.map_nil]
            rw [List.getElem?_append_left (by simpa using hjl)]
          · have hje : j = b.Batch.length := by omega
            subst hje
            rw [← h1, List.getElem?_set_self hlen]
            simp only [List.map_append, List.map_cons, List.map_nil]
            rw [List.getElem?_append_right (by simp)]
            simp [underlyingOf]
    · cases h

theorem window_eq (l : List ResidentScratchSpace) (m : List ResidentScratchSpace)
    (start n : Nat) (hn : n ≤ m.length)
    (h : ∀ j, j < m.length → l[start + j]? = m[j]?) :
    (l.drop start).take n = m.take n := by
  apply List.ext_getElem?
  intro j
  by_cases hj : j < n
  · rw [List.getElem?_take_of_lt hj, List.getElem?_take_of_lt hj, List.getElem?_drop]
    exact h j (by omega)
  · rw [List.getElem?_take_eq_none (by omega), List.getElem?_take_eq_none (by omega)]

theorem boundedBatch_event (O₀ : Nat → ManagedObject) (e : IterationEnv)
    (s s1 : PagingState) (hr : Bool) (hO : SameSizes O₀ s.LRU.Objects)
    (h : boundedBatch e e.AvailableSpace s = some (s1, hr)) :
    s1.Log = s.Log ∨ ∃ ev, s1.Log = s.Log ++ [ev] ∧ ev.BoundedWithinAvailable O₀ [e] := by
  unfold boundedBatch at h
  simp only at h
  split at h
  · rename_i hpos
    split at h
    · cases h
    · rename_i b hb
      cases h
      right
      refine ⟨_, rfl, ?_⟩
      have hlt : e.AvailableSpace < 9223372036854775808 := toINT64_lt _
      have hu := toUINT64_of_pos e.AvailableSpace hpos hlt
      have h0 : BatchInv O₀ e.AvailableSpace s.MakeResidentIndex s.MakeResidentIndex
          ⟨s.pMakeResidentList, s.MakeResidentIndex, 0, 0, s.ObjectsMadeResident, []⟩ := by
        refine ⟨by simp, by simp [sizeSum_nil], Nat.zero_le _, fun _ => by simp [sizeSum_nil],
          by simp, fun j hj => by simp at hj⟩
      obtain ⟨i', h1, h2, h3, h4, h5, h6⟩ :=
        batchLoop_inv O₀ s.LRU.Objects hO e.AvailableSpace (by omega) s.MakeResidentIndex
          _ _ _ b h0 hb
      intro _
      dsimp only
      refine ⟨⟨e, List.mem_singleton_self e, rfl⟩, hpos, ?_, ?_, h5, ?_⟩
      · rw [← h2, ← hu]; exact_mod_cast h3
      · intro hsz; rw [← h4 hsz, ← hu]; exact_mod_cast h3
      · apply window_eq
        · rw [h5]; simp only [List.length_map]
          exact Nat.mod_le _ _
        · intro j hj
          simp only [List.length_map] at hj
          exact h6 j hj
  · cases h; exact Or.inl rfl

theorem BoundedWithinAvailable_mono (O : Nat → ManagedObject) (es es' : List IterationEnv)
    (hsub : ∀ e ∈ es, e ∈ es') (ev : PagingEvent) (h : ev.BoundedWithinAvailable O es) :
    ev.BoundedWithinAvailable O es' := by
  cases ev with
  | MakeResident n l hr ctx =>
    intro hf
    obtain ⟨⟨e, he, h0⟩, h1⟩ := h hf
    exact ⟨⟨e, hsub e he, h0⟩, h1⟩
  | Evict _ _ _ => trivial
  | WaitForCompletion _ => trivial
  | Signal _ => trivial

theorem SameSizes_keptByHeadEviction (O₀ : Nat → ManagedObject) :
    KeptByHeadEviction (fun c => SameSizes O₀ c.Objects) := by
  intro c p rest h _ q
  rw [Evict_Objects]
  exact ⟨(markEvicted_fields _ _ _).2.1.trans (h q).1,
    (markEvicted_fields _ _ _).2.2.1.trans (h q).2⟩

theorem markObject_SameSizes (O₀ : Nat → ManagedObject) (g t : Nat) (m : MarkState) (p : Nat)
    (h : SameSizes O₀ m.LRU.Objects) : SameSizes O₀ (markObject g t m p).LRU.Objects := by
  intro q
  have hq := h q
  unfold markObject
  simp only
  split
  · by_cases hqp : q = p
    · subst hqp
      simpa [LRUCache.ObjectReferenced, LRUCache.RemoveEntryList, LRUCache.MakeResident,
        writeObject] using hq
    · simpa [LRUCache.ObjectReferenced, LRUCache.RemoveEntryList, LRUCache.MakeResident,
        writeObject, hqp] using hq
  · by_cases hqp : q = p
    · subst hqp
      simpa [LRUCache.ObjectReferenced, LRUCache.RemoveEntryList, writeObject] using hq
    · simpa [LRUCache.ObjectReferenced, LRUCache.RemoveEntryList, writeObject, hqp] using hq

theorem markObjects_SameSizes (c : LRUCache) (pWork : AsyncWorkload) (t : Nat) :
    SameSizes c.Objects (markObjects c pWork t).LRU.Objects := by
  unfold markObjects
  generalize pWork.ppObjectsReferenced.take pWork.NumObjectsReferenced = l
  have : ∀ (l : List Nat) (m : MarkState), SameSizes c.Objects m.LRU.Objects →
      SameSizes c.Objects (l.foldl (markObject pWork.SyncPointGeneration t) m).LRU.Objects := by
    intro l
    induction l with
    | nil => intro m h; exact h
    | cons a l ih =>
      intro m h
      simp only [List.foldl_cons]
      exact ih _ (markObject_SameSizes _ _ _ m a h)
  exact this l _ (fun q => ⟨rfl, rfl⟩)

theorem log_append_bounded {O : Nat → ManagedObject} {es : List IterationEnv}
    {l₁ l₂ : List PagingEvent} (h1 : ∀ ev ∈ l₁, ev.BoundedWithinAvailable O es)
    (h2 : ∀ ev ∈ l₂, ev.BoundedWithinAvailable O es) :
    ∀ ev ∈ l₁ ++ l₂, ev.BoundedWithinAvailable O es := by
  intro ev hev
  rcases List.mem_append.mp hev with h | h
  · exact h1 ev h
  · exact h2 ev h

theorem trimOrFinish_BatchesBounded (O₀ : Nat → ManagedObject) (es : List IterationEnv)
    (pWork : AsyncWorkload) (e : IterationEnv) (U B A : Int) (s : PagingState)
    (o : IterationOutcome) (hs : BatchesBounded O₀ es s)
    (h : trimOrFinish pWork e U B A s = some o) : BatchesBounded O₀ es o.state := by
  have hfin : ∀ l, (finalMakeResident e A l s).map IterationOutcome.exit = some o →
      BatchesBounded O₀ es o.state := by
    intro l hl
    cases hf : finalMakeResident e A l s with
    | none => rw [hf] at hl; cases hl
    | some s' =>
      rw [hf] at hl; cases hl
      unfold finalMakeResident at hf
      simp only at hf
      split at hf
      · cases hf
      · cases hf
        refine ⟨hs.1, log_append_bounded hs.2 ?_⟩
        intro ev hev
        simp only [List.mem_singleton] at hev
        subst hev
        intro hf; cases hf
  unfold trimOrFinish at h
  simp only at h
  split at h
  · exact hfin _ h
  · split at h
    · exact hfin _ h
    · split at h
      · exact hfin _ h
      · rename_i First hF
        cases hw : waitAndTrim pWork e U B
            (DequeueCompletedSyncPoints e.Completed s.InFlight).1 First s with
        | none => rw [hw] at h; cases h
        | some s' =>
          rw [hw] at h; cases h
          unfold waitAndTrim at hw
          simp only at hw
          split at hw
          · cases hw
          · rename_i w _
            cases hw
            refine ⟨TrimToSyncPointInclusive_keeps _ (SameSizes_keptByHeadEviction O₀) _ _ _ _
              hs.1, log_append_bounded (log_append_bounded hs.2 ?_) ?_⟩
            · intro ev hev
              unfold waitEvents at hev
              split at hev
              · simp only [List.mem_singleton] at hev; subst hev; trivial
              · simp at hev
            · intro ev hev
              simp only [List.mem_singleton] at hev
              subst hev; trivial

theorem pagingIteration_BatchesBounded (O₀ : Nat → ManagedObject) (es : List IterationEnv)
    (pWork : AsyncWorkload) (e : IterationEnv) (he : e ∈ es) (s : PagingState)
    (o : IterationOutcome) (hs : BatchesBounded O₀ es s)
    (h : pagingIteration pWork e s = some o) : BatchesBounded O₀ es o.state := by
  unfold pagingIteration at h
  split at h
  · cases h
  · rename_i s1 hr hb
    obtain ⟨b1, _, _⟩ := boundedBatch_LRU _ _ _ _ _ hb
    have hs1 : BatchesBounded O₀ es s1 := by
      refine ⟨by rw [b1]; exact hs.1, ?_⟩
      rcases boundedBatch_event O₀ e s s1 hr hs.1 hb with hl | ⟨ev, hl, hev⟩
      · rw [hl]; exact hs.2
      · rw [hl]
        apply log_append_bounded hs.2
        intro ev' hev'
        simp only [List.mem_singleton] at hev'
        subst hev'
        exact BoundedWithinAvailable_mono O₀ [e] es
          (fun e' he' => by rw [List.mem_singleton.mp he']; exact he) _ hev
    split at h
    · exact trimOrFinish_BatchesBounded O₀ es pWork e _ _ _ s1 o hs1 h
    · cases h; exact hs1

theorem loop_BatchesBounded (O₀ : Nat → ManagedObject) (all : List IterationEnv)
    (pWork : AsyncWorkload) :
    ∀ (es : List IterationEnv) (s s' : PagingState), (∀ e ∈ es, e ∈ all) →
      BatchesBounded O₀ all s → ProcessPagingWork.loop pWork es s = some s' →
      BatchesBounded O₀ all s' := by
  intro es
  induction es with
  | nil => intro s s' _ _ h; simp [ProcessPagingWork.loop] at h
  | cons e es ih =>
    intro s s' hsub hs h
    have hstep : ∀ o, pagingIteration pWork e s = some o → BatchesBounded O₀ all o.state :=
      fun o ho => pagingIteration_BatchesBounded O₀ all pWork e
        (hsub e (List.mem_cons_self e es)) s o hs ho
    unfold ProcessPagingWork.loop at h
    split at h
    · cases h
    · rename_i s1 h1
      cases h
      exact hstep _ h1
    · rename_i s1 h1
      exact ih _ _ (fun e' he' => hsub e' (List.mem_cons_of_mem e he')) (hstep _ h1) h

/-- `AvailableSpace` is the difference of the budget and the usage when both sums are
below `2^63`. -/
theorem AvailableSpace_exact (e : IterationEnv)
    (hb : e.LocalMemory.Budget + e.NonLocalMemory.Budget < 9223372036854775808)
    (hu : e.LocalMemory.CurrentUsage + e.NonLocalMemory.CurrentUsage < 9223372036854775808) :
    e.AvailableSpace =
      ((e.LocalMemory.Budget + e.NonLocalMemory.Budget : Nat) : Int) -
        ((e.LocalMemory.CurrentUsage + e.NonLocalMemory.CurrentUsage : Nat) : Int) := by
  have h1 : e.TotalBudget = ((e.LocalMemory.Budget + e.NonLocalMemory.Budget : Nat) : Int) := by
    simp only [IterationEnv.TotalBudget, toINT64, add64, U64]
    rw [Nat.mod_eq_of_lt (by omega), Nat.mod_eq_of_lt (by omega)]
    simp [hb]
  have h2 : e.TotalUsage =
      ((e.LocalMemory.CurrentUsage + e.NonLocalMemory.CurrentUsage : Nat) : Int) := by
    simp only [IterationEnv.TotalUsage, toINT64, add64, U64]
    rw [Nat.mod_eq_of_lt (by omega), Nat.mod_eq_of_lt (by omega)]
    simp [hu]
  simp only [IterationEnv.AvailableSpace, h1, h2, toINT64, toUINT64, U64]
  split <;> omega

theorem ResidentNonDecreasing_of_congr (c c' : LRUCache)
    (hl : c'.ResidentObjectList = c.ResidentObjectList)
    (ho : ∀ p ∈ c.ResidentObjectList,
      (c'.Objects p).LastGPUSyncPoint = (c.Objects p).LastGPUSyncPoint)
    (G : Nat) (h : ResidentOrdered G c) : ResidentOrdered G c' := by
  obtain ⟨h1, h2⟩ := h
  have hmap : residentSyncPoints c' = residentSyncPoints c := by
    unfold residentSyncPoints
    rw [hl]
    exact List.map_congr_left ho
  refine ⟨by unfold ResidentNonDecreasing; rw [hmap]; exact h1, ?_⟩
  intro p hp
  rw [hl] at hp
  rw [ho p hp]; exact h2 p hp

theorem ResidentOrdered_erase (G : Nat) (c : LRUCache) (q : Nat) (l : List Nat)
    (N₁ N₂ S : Nat) (h : ResidentOrdered G c) :
    ResidentOrdered G
      { c with ResidentObjectList := c.ResidentObjectList.erase q, EvictedObjectList := l,
               NumResidentObjects := N₁, NumEvictedObjects := N₂, ResidentSize := S } := by
  obtain ⟨h1, h2⟩ := h
  refine ⟨?_, fun p hp => h2 p (List.mem_of_mem_erase hp)⟩
  unfold ResidentNonDecreasing residentSyncPoints at h1 ⊢
  exact h1.sublist ((List.erase_sublist q c.ResidentObjectList).map _)

theorem ResidentOrdered_keptByHeadEviction (G : Nat) :
    KeptByHeadEviction (ResidentOrdered G) := by
  intro c p rest h hl
  obtain ⟨h1, h2⟩ := h
  have hr : (c.Evict p).ResidentObjectList = rest := by
    simp [LRUCache.Evict, LRUCache.RemoveEntryList, hl]
  have hg : ∀ q, ((c.Evict p).Objects q).LastGPUSyncPoint = (c.Objects q).LastGPUSyncPoint :=
    fun q => by rw [Evict_Objects]; exact (markEvicted_fields _ _ _).1
  refine ⟨?_, ?_⟩
  · unfold ResidentNonDecreasing residentSyncPoints at h1 ⊢
    rw [hr]
    rw [hl] at h1
    simp only [List.map_cons, List.pairwise_cons] at h1
    simpa [hg] using h1.2
  · intro q hq
    rw [hr] at hq
    rw [hg]
    exact h2 q (by rw [hl]; exact List.mem_cons_of_mem p hq)

/-- Appending an object stamped `g` to a resident list bounded by `g`. -/
theorem pairwise_append_stamp (l : List Nat) (f : Nat → Nat) (g q : Nat)
    (h1 : (l.map f).Pairwise (fun a b => a ≤ b)) (h2 : ∀ p ∈ l, f p ≤ g) (hq : f q = g) :
    ((l ++ [q]).map f).Pairwise (fun a b => a ≤ b) := by
  simp only [List.map_append, List.map_cons, List.map_nil]
  rw [List.pairwise_append]
  refine ⟨h1, by simp, ?_⟩
  intro a ha b hb
  simp only [List.mem_singleton] at hb
  obtain ⟨p, hp, rfl⟩ := List.mem_map.mp ha
  rw [hb, hq]; exact h2 p hp

theorem markObject_ordered (T : Nat → Prop) (g t : Nat) (m : MarkState) (q : Nat)
    (hT : T q) (hm : ListMembership T m.LRU) (h : ResidentOrdered g m.LRU) :
    ResidentOrdered g (markObject g t m q).LRU := by
  obtain ⟨h1, h2⟩ := h
  unfold ResidentNonDecreasing residentSyncPoints at h1
  have hcases := hm.counts q
  unfold markObject
  simp only
  split
  · rename_i hs
    have hr0 : m.LRU.ResidentObjectList.count q = 0 := by
      rcases hcases with ⟨_, ⟨hs', _, _⟩ | ⟨_, hr, _⟩⟩ | ⟨hn, _⟩
      · rw [hs] at hs'; cases hs'
      · exact hr
      · exact absurd hT hn
    have hnot : q ∉ m.LRU.ResidentObjectList := List.count_eq_zero.mp hr0
    have hlist : ((m.LRU.ResidentObjectList.erase q ++ [q]).erase q ++ [q]) =
        m.LRU.ResidentObjectList ++ [q] := by
      rw [List.erase_of_not_mem hnot, List.erase_append_right _ hnot]
      simp
    have hgen : ∀ p ∈ m.LRU.ResidentObjectList,
        (writeObject (writeObject m.LRU.Objects q
            { (m.LRU.Objects q) with ResidencyStatus := RESIDENCY_STATUS.RESIDENT }) q
          { (writeObject m.LRU.Objects q
              { (m.LRU.Objects q) with ResidencyStatus := RESIDENCY_STATUS.RESIDENT } q) with
            LastGPUSyncPoint := g, LastUsedTimestamp := t } p).LastGPUSyncPoint =
        (m.LRU.Objects p).LastGPUSyncPoint := by
      intro p hp
      have hpq : p ≠ q := fun e => hnot (e ▸ hp)
      simp [writeObject, hpq]
    simp only [LRUCache.ObjectReferenced, LRUCache.RemoveEntryList, LRUCache.MakeResident]
    refine ⟨?_, ?_⟩
    · unfold ResidentNonDecreasing residentSyncPoints
      dsimp only
      rw [hlist]
      apply pairwise_append_stamp _ _ g q
      · rw [List.map_congr_left hgen]; exact h1
      · intro p hp; rw [hgen p hp]; exact h2 p hp
      · simp [writeObject]
    · intro p hp
      dsimp only at hp ⊢
      rw [hlist] at hp
      rcases List.mem_append.mp hp with hp | hp
      · rw [hgen p hp]; exact h2 p hp
      · simp only [List.mem_singleton] at hp
        subst hp; simp [writeObject]
  · rename_i hs
    have hr1 : m.LRU.ResidentObjectList.count q = 1 := by
      rcases hcases with ⟨_, ⟨_, hr, _⟩ | ⟨hs', _, _⟩⟩ | ⟨hn, _⟩
      · exact hr
      · exact absurd hs' hs
      · exact absurd hT hn
    have hnot : q ∉ m.LRU.ResidentObjectList.erase q := by
      intro hmem
      have := List.count_pos_iff.mpr hmem
      rw [count_erase_eq] at this
      simp at this
      omega
    have hgen : ∀ p ∈ m.LRU.ResidentObjectList.erase q,
        (writeObject m.LRU.Objects q
          { (m.LRU.Objects q) with LastGPUSyncPoint := g, LastUsedTimestamp := t }
          p).LastGPUSyncPoint = (m.LRU.Objects p).LastGPUSyncPoint := by
      intro p hp
      have hpq : p ≠ q := fun e => hnot (e ▸ hp)
      simp [writeObject, hpq]
    have hsub : ((m.LRU.ResidentObjectList.erase q).map
        (fun p => (m.LRU.Objects p).LastGPUSyncPoint)).Pairwise (fun a b => a ≤ b) :=
      h1.sublist ((List.erase_sublist q m.LRU.ResidentObjectList).map _)
    simp only [LRUCache.ObjectReferenced, LRUCache.RemoveEntryList]
    refine ⟨?_, ?_⟩
    · unfold ResidentNonDecreasing residentSyncPoints
      dsimp only
      apply pairwise_append_stamp _ _ g q
      · rw [List.map_congr_left hgen]; exact hsub
      · intro p hp; rw [hgen p hp]; exact h2 p (List.mem_of_mem_erase hp)
      · simp [writeObject]
    · intro p hp
      dsimp only at hp ⊢
      rcases List.mem_append.mp hp with hp | hp
      · rw [hgen p hp]; exact h2 p (List.mem_of_mem_erase hp)
      · simp only [List.mem_singleton] at hp
        subst hp; simp [writeObject]

theorem ResidentOrdered_of_lists (G : Nat) (c c' : LRUCache)
    (hl : c'.ResidentObjectList.Sublist c.ResidentObjectList)
    (ho : ∀ p, (c'.Objects p).LastGPUSyncPoint = (c.Objects p).LastGPUSyncPoint)
    (h : ResidentOrdered G c) : ResidentOrdered G c' := by
  obtain ⟨h1, h2⟩ := h
  refine ⟨?_, fun p hp => by rw [ho]; exact h2 p (hl.subset hp)⟩
  unfold ResidentNonDecreasing residentSyncPoints at h1 ⊢
  have : (fun p => (c'.Objects p).LastGPUSyncPoint) =
      (fun p => (c.Objects p).LastGPUSyncPoint) := funext ho
  rw [this]
  exact h1.sublist (hl.map _)

theorem Insert_ordered (G : Nat) (c : LRUCache) (p : Nat)
    (hG : (c.Objects p).LastGPUSyncPoint ≤ G)
    (hp : ∀ q ∈ c.ResidentObjectList,
      (c.Objects p).LastGPUSyncPoint ≤ (c.Objects q).LastGPUSyncPoint)
    (h : ResidentOrdered G c) : ResidentOrdered G (c.Insert p) := by
  unfold LRUCache.Insert
  split
  · obtain ⟨h1, h2⟩ := h
    refine ⟨?_, ?_⟩
    · unfold ResidentNonDecreasing residentSyncPoints at h1 ⊢
      simp only [List.map_cons, List.pairwise_cons]
      refine ⟨?_, h1⟩
      intro a ha
      obtain ⟨q, hq, rfl⟩ := List.mem_map.mp ha
      exact hp q hq
    · intro q hq
      rcases List.mem_cons.mp hq with e | hq
      · rw [e]; exact hG
      · exact h2 q hq
  · exact ResidentOrdered_of_lists G c _ (List.Sublist.refl _) (fun _ => rfl) h

theorem markObjects_ordered (T : Nat → Prop) (g t : Nat) :
    ∀ (l : List Nat) (m : MarkState), (∀ p ∈ l, T p) →
      ListMembership T m.LRU ∧ ResidentOrdered g m.LRU →
      ResidentOrdered g (l.foldl (markObject g t) m).LRU :=
  fun l m hT h =>
    (markObjects_keeps (fun c => ListMembership T c ∧ ResidentOrdered g c) T g t
      (fun m p hp hm => ⟨markObject_membership T g t m p hp hm.1,
        markObject_ordered T g t m p hp hm.1 hm.2⟩) l m hT h).2

theorem exampleCache_ordered : ResidentOrdered 4 exampleCache := by
  refine ⟨by decide, ?_⟩
  intro p hp
  simp only [exampleCache, List.mem_cons, List.mem_singleton, List.not_mem_nil, or_false] at hp
  rcases hp with h | h <;> subst h <;> decide

theorem findOrCreateFence_frame (m : ResidencyManager) (e : SubsetEnv) (Queue : Nat) :
    (m.findOrCreateFence e Queue).1.AsyncThreadFence = m.AsyncThreadFence ∧
    (m.findOrCreateFence e Queue).1.History = m.History ∧
    (m.findOrCreateFence e Queue).1.Calls = m.Calls := by
  unfold ResidencyManager.findOrCreateFence
  split
  · exact ⟨rfl, rfl, rfl⟩
  · simp only
    split <;> exact ⟨rfl, rfl, rfl⟩

theorem DequeueAsyncWork_frame (m m' : ResidencyManager) (r : Option Nat)
    (h : m.DequeueAsyncWork = some (m', r)) :
    m'.AsyncThreadFence = m.AsyncThreadFence ∧ m'.History = m.History ∧
    m'.Calls = m.Calls ∧ m'.QueueFences = m.QueueFences ∧
    m'.QueuePrivateData = m.QueuePrivateData ∧ m'.NumQueuesSeen = m.NumQueuesSeen ∧
    m'.InFlightSyncPoints = m.InFlightSyncPoints ∧
    m'.CurrentSyncPointGeneration = m.CurrentSyncPointGeneration ∧
    m'.AsyncWorkQueue = m.AsyncWorkQueue ∧ m'.AsyncWorkQueueSize = m.AsyncWorkQueueSize ∧
    m'.MaxSoftwareQueueLatency = m.MaxSoftwareQueueLatency ∧
    m'.CurrentAsyncWorkloadTail = m.CurrentAsyncWorkloadTail := by
  unfold ResidencyManager.DequeueAsyncWork at h
  split at h
  · cases h; simp
  · split at h
    · cases h
    · cases h; simp

theorem workerDequeues_frame :
    ∀ (k : Nat) (m m' : ResidencyManager), m.workerDequeues k = some m' →
      m'.AsyncThreadFence = m.AsyncThreadFence ∧ m'.History = m.History ∧
      m'.Calls = m.Calls ∧ m'.QueueFences = m.QueueFences ∧
      m'.QueuePrivateData = m.QueuePrivateData ∧ m'.NumQueuesSeen = m.NumQueuesSeen ∧
      m'.InFlightSyncPoints = m.InFlightSyncPoints ∧
      m'.CurrentSyncPointGeneration = m.CurrentSyncPointGeneration ∧
      m'.AsyncWorkQueue = m.AsyncWorkQueue ∧ m'.AsyncWorkQueueSize = m.AsyncWorkQueueSize ∧
      m'.MaxSoftwareQueueLatency = m.MaxSoftwareQueueLatency ∧
      m'.CurrentAsyncWorkloadTail = m.CurrentAsyncWorkloadTail := by
  intro k
  induction k with
  | zero =>
    intro m m' h
    simp only [ResidencyManager.workerDequeues, Option.some.injEq] at h
    subst h; simp
  | succ k ih =>
    intro m m' h
    unfold ResidencyManager.workerDequeues at h
    split at h
    · cases h
    · rename_i m1 r hd
      obtain ⟨a1, a2, a3, a4, a5, a6, a7, a8, a9, a10, a11, a12⟩ :=
        DequeueAsyncWork_frame m m1 r hd
      obtain ⟨b1, b2, b3, b4, b5, b6, b7, b8, b9, b10, b11, b12⟩ := ih m1 m' h
      exact ⟨b1.trans a1, b2.trans a2, b3.trans a3, b4.trans a4, b5.trans a5, b6.trans a6,
        b7.trans a7, b8.trans a8, b9.trans a9, b10.trans a10, b11.trans a11, b12.trans a12⟩

theorem EnqueueAsyncWork_frame (m m' : ResidencyManager) (refs : List Nat) (n v g : Nat)
    (ev hr : Bool) (h : m.EnqueueAsyncWork refs n v g ev = some (m', hr)) :
    m'.AsyncThreadFence = m.AsyncThreadFence ∧ m'.History = m.History ∧
    m'.Calls = m.Calls ∧ m'.QueueFences = m.QueueFences ∧ hr = ev ∧
    m'.QueuePrivateData = m.QueuePrivateData ∧ m'.NumQueuesSeen = m.NumQueuesSeen ∧
    m'.InFlightSyncPoints = m.InFlightSyncPoints ∧
    m'.CurrentSyncPointGeneration = m.CurrentSyncPointGeneration ∧
    m'.AsyncWorkQueueSize = m.AsyncWorkQueueSize ∧
    m'.MaxSoftwareQueueLatency = m.MaxSoftwareQueueLatency ∧
    m'.CurrentAsyncWorkloadHead = m.CurrentAsyncWorkloadHead := by
  unfold ResidencyManager.EnqueueAsyncWork at h
  split at h
  · cases h
  · split at h
    · cases h
    · cases h; simp

theorem EnqueueSyncPoint_frame (m : ResidencyManager) (a : Bool) :
    (m.EnqueueSyncPoint a).1.AsyncThreadFence = m.AsyncThreadFence ∧
    (m.EnqueueSyncPoint a).1.History = m.History ∧
    (m.EnqueueSyncPoint a).1.Calls = m.Calls := by
  unfold ResidencyManager.EnqueueSyncPoint
  split <;> exact ⟨rfl, rfl, rfl⟩

/-- What the block under `ExecutionCS` does to the history, to the gate fence and to the
call counter. -/
theorem afterEnqueue_effect (m : ResidencyManager) (hr1 : Bool) (e : SubsetEnv)
    (Queue QueueFence : Nat) (W : AsyncWorkload) (lists : List (Nat × Option (List Nat))) :
    ∃ r : SubmissionRecord,
      (m.afterEnqueue hr1 e Queue QueueFence W lists).1.History = m.History ++ [r] ∧
      r.Workload = W ∧ r.EnqueueSucceeded = hr1 ∧
      r.WaitValue = (if hr1 then some m.AsyncThreadFence.FenceValue else none) ∧
      (m.afterEnqueue hr1 e Queue QueueFence W lists).1.AsyncThreadFence.FenceValue =
        (if hr1 then add64 m.AsyncThreadFence.FenceValue 1
         else m.AsyncThreadFence.FenceValue) ∧
      r.CommandLists = lists.map (fun l => l.1) ∧
      r.ResidencySets = lists.map (fun l => l.2) ∧
      (m.afterEnqueue hr1 e Queue QueueFence W lists).1.Calls = m.Calls := by
  unfold ResidencyManager.afterEnqueue
  dsimp only
  have hsH : ∀ (x : ResidencyManager) (b c : Bool), x.History = m.History →
      (if b then x.EnqueueSyncPoint c else (x, b)).1.History = m.History := by
    intro x b c hx
    split
    · rw [(EnqueueSyncPoint_frame _ _).2.1]; exact hx
    · exact hx
  have hsA : ∀ (x : ResidencyManager) (b c : Bool),
      (if b then x.EnqueueSyncPoint c else (x, b)).1.AsyncThreadFence = x.AsyncThreadFence := by
    intro x b c
    split
    · rw [(EnqueueSyncPoint_frame _ _).1]
    · rfl
  have hsC : ∀ (x : ResidencyManager) (b c : Bool),
      (if b then x.EnqueueSyncPoint c else (x, b)).1.Calls = x.Calls := by
    intro x b c
    split
    · rw [(EnqueueSyncPoint_frame _ _).2.2]
    · rfl
  rw [hsH _ _ _ (by cases hr1 <;> cases e.GPUWaitSucceeded <;> simp), hsA, hsC]
  refine ⟨_, rfl, rfl, rfl, rfl, ?_, rfl, rfl, ?_⟩
  · cases hr1 <;> cases e.GPUWaitSucceeded <;> simp [Fence.Increment]
  · cases hr1 <;> cases e.GPUWaitSucceeded <;> simp

/-- The pieces of a submission that returns. -/
theorem submit_some (m m' : ResidencyManager) (e : SubsetEnv) (Queue : Nat)
    (lists : List (Nat × Option (List Nat))) (hr : Bool)
    (h : m.submit e Queue lists = some (m', hr)) :
    ∃ m1 m2 hr1,
      (m.findOrCreateFence e Queue).1.workerDequeues e.WorkerDequeues = some m1 ∧
      m1.EnqueueAsyncWork (masterSet (lists.map (fun l => l.2)))
        (masterSet (lists.map (fun l => l.2))).length
        m1.AsyncThreadFence.FenceValue m1.CurrentSyncPointGeneration e.EventSet
          = some (m2, hr1) ∧
      (m', hr) = m2.afterEnqueue hr1 e Queue (m.findOrCreateFence e Queue).2
        ⟨m1.CurrentSyncPointGeneration, masterSet (lists.map (fun l => l.2)),
          (masterSet (lists.map (fun l => l.2))).length, m1.AsyncThreadFence.FenceValue⟩
        lists := by
  unfold ResidencyManager.submit at h
  simp only at h
  split at h
  · cases h
  · rename_i m1 hw
    split at h
    · cases h
    · rename_i m2 hr1 henq
      simp only [Option.some.injEq] at h
      exact ⟨m1, m2, hr1, hw, henq, h.symm⟩

/-- What a submission does to the history, to the gate fence and to the call counter. -/
theorem submit_effect (m m' : ResidencyManager) (e : SubsetEnv) (Queue : Nat)
    (lists : List (Nat × Option (List Nat))) (hr : Bool)
    (h : m.submit e Queue lists = some (m', hr)) :
    ∃ r : SubmissionRecord,
      m'.History = m.History ++ [r] ∧
      r.Workload.FenceValueToSignal = m.AsyncThreadFence.FenceValue ∧
      r.WaitValue = (if r.EnqueueSucceeded then some m.AsyncThreadFence.FenceValue else none) ∧
      m'.AsyncThreadFence.FenceValue =
        (if r.EnqueueSucceeded then add64 m.AsyncThreadFence.FenceValue 1
         else m.AsyncThreadFence.FenceValue) ∧
      r.CommandLists = lists.map (fun l => l.1) ∧
      r.ResidencySets = lists.map (fun l => l.2) ∧
      m'.Calls = m.Calls := by
  obtain ⟨m1, m2, hr1, hw, henq, hres⟩ := submit_some m m' e Queue lists hr h
  obtain ⟨f1, f2, f3⟩ := findOrCreateFence_frame m e Queue
  obtain ⟨w1, w2, w3, _⟩ := workerDequeues_frame _ _ _ hw
  obtain ⟨q1, q2, q3, _, _⟩ := EnqueueAsyncWork_frame _ _ _ _ _ _ _ _ henq
  have hA : m2.AsyncThreadFence = m.AsyncThreadFence := q1.trans (w1.trans f1)
  have hH : m2.History = m.History := q2.trans (w2.trans f2)
  have hC : m2.Calls = m.Calls := q3.trans (w3.trans f3)
  obtain ⟨r, e1, e2, e3, e4, e5, e6, e7, e8⟩ := afterEnqueue_effect m2 hr1 e Queue
    (m.findOrCreateFence e Queue).2
    ⟨m1.CurrentSyncPointGeneration, masterSet (lists.map (fun l => l.2)),
      (masterSet (lists.map (fun l => l.2))).length, m1.AsyncThreadFence.FenceValue⟩ lists
  rw [← hres] at e1 e5 e8
  dsimp only at e1 e5 e8
  refine ⟨r, by rw [e1, hH], ?_, ?_, ?_, e6, e7, by rw [e8, hC]⟩
  · rw [e2, w1, f1]
  · rw [e3, e4, hA]
  · rw [e3, e5, hA]

theorem submit_GateInvariant (m m' : ResidencyManager) (e : SubsetEnv) (Queue : Nat)
    (lists : List (Nat × Option (List Nat))) (hr : Bool) (hinv : GateInvariant m)
    (hwrap : m.AsyncThreadFence.FenceValue + 1 < U64)
    (h : m.submit e Queue lists = some (m', hr)) :
    GateInvariant m' ∧ m'.History.length = m.History.length + 1 ∧
    m'.AsyncThreadFence.FenceValue ≤ m.AsyncThreadFence.FenceValue + 1 := by
  obtain ⟨r, h1, h2, h3, h4, _, _, _⟩ := submit_effect m m' e Queue lists hr h
  obtain ⟨⟨g1, g2⟩, g3⟩ := hinv
  have hadd : add64 m.AsyncThreadFence.FenceValue 1 = m.AsyncThreadFence.FenceValue + 1 := by
    simp only [add64]; exact Nat.mod_eq_of_lt hwrap
  rw [hadd] at h4
  have hle : m.AsyncThreadFence.FenceValue ≤ m'.AsyncThreadFence.FenceValue := by
    rw [h4]; split <;> omega
  refine ⟨⟨⟨?_, ?_⟩, ?_⟩, by rw [h1]; simp, by rw [h4]; split <;> omega⟩
  · intro a ha
    rw [h1] at ha
    rcases List.mem_append.mp ha with ha | ha
    · exact g1 a ha
    · simp only [List.mem_singleton] at ha
      subst ha
      rw [h3, h2]
  · rw [h1, List.pairwise_append]
    refine ⟨g2, by simp, ?_⟩
    intro a ha b hb
    simp only [List.mem_singleton] at hb
    subst hb
    rw [h2]; exact g3 a ha
  · intro a ha
    rw [h1] at ha
    rcases List.mem_append.mp ha with ha | ha
    · obtain ⟨a1, a2⟩ := g3 a ha
      exact ⟨Nat.le_trans a1 hle, fun hs => Nat.lt_of_lt_of_le (a2 hs) hle⟩
    · simp only [List.mem_singleton] at ha
      subst ha
      rw [h2, h4]
      refine ⟨?_, fun hs => ?_⟩
      · split <;> omega
      · simp [hs]

theorem Initialize_GateInvariant (MaxLatency : Nat) :
    GateInvariant (ResidencyManager.Initialize MaxLatency) := by
  refine ⟨⟨?_, ?_⟩, ?_⟩ <;> simp [ResidencyManager.Initialize]

theorem totalSizeNeeded_eq (Objects : Nat → ManagedObject) (l : List Nat) :
    totalSizeNeeded Objects l = sizeSum Objects l % U64 := by
  have h : ∀ (l : List Nat) (t : Nat),
      l.foldl (fun t p => add64 t (Objects p).Size) t % U64 = (t + sizeSum Objects l) % U64 ∧
      (t < U64 → l.foldl (fun t p => add64 t (Objects p).Size) t < U64) := by
    intro l
    induction l with
    | nil => intro t; exact ⟨by simp [sizeSum], fun h => h⟩
    | cons a rest ih =>
      intro t
      obtain ⟨i1, i2⟩ := ih (add64 t (Objects a).Size)
      simp only [List.foldl_cons]
      refine ⟨?_, fun _ => i2 (Nat.mod_lt _ (by decide))⟩
      rw [i1, sizeSum_cons, add64, Nat.mod_add_mod, Nat.add_assoc]
  obtain ⟨h1, h2⟩ := h l 0
  unfold totalSizeNeeded
  rw [← Nat.mod_eq_of_lt (h2 (by decide)), h1, Nat.zero_add]

theorem foldl_setInsert_spec (Objects s : List Nat) (hs : s.Nodup) :
    (Objects.foldl setInsert s).Nodup ∧
    ∀ p, p ∈ Objects.foldl setInsert s ↔ p ∈ s ∨ p ∈ Objects := by
  induction Objects generalizing s with
  | nil => exact ⟨hs, fun p => by simp⟩
  | cons a rest ih =>
    simp only [List.foldl_cons]
    have hn : (setInsert s a).Nodup := by
      unfold setInsert
      split
      · exact hs
      · rename_i hna
        rw [List.nodup_append]
        exact ⟨hs, List.nodup_singleton a, by
          intro x hx hx1
          simp only [List.mem_singleton] at hx1
          subst hx1; exact hna hx⟩
    have hm : ∀ p, p ∈ setInsert s a ↔ p ∈ s ∨ p = a := by
      intro p
      unfold setInsert
      split
      · rename_i ha
        constructor
        · exact Or.inl
        · rintro (h | h)
          · exact h
          · subst h; exact ha
      · simp
    obtain ⟨i1, i2⟩ := ih (setInsert s a) hn
    refine ⟨i1, fun p => ?_⟩
    rw [i2, hm, List.mem_cons, or_assoc]

/-- The master set holds each object of the residency sets once. -/
theorem masterSet_spec (ResidencySets : List (Option (List Nat))) :
    (masterSet ResidencySets).Nodup ∧
    ∀ p, p ∈ masterSet ResidencySets ↔ ∃ Objects, some Objects ∈ ResidencySets ∧ p ∈ Objects := by
  have h : ∀ (sets : List (Option (List Nat))) (s : List Nat), s.Nodup →
      (sets.foldl (fun s r =>
          match r with
          | some Objects => Objects.foldl setInsert s
          | none => s) s).Nodup ∧
      ∀ p, p ∈ sets.foldl (fun s r =>
          match r with
          | some Objects => Objects.foldl setInsert s
          | none => s) s ↔ p ∈ s ∨ ∃ Objects, some Objects ∈ sets ∧ p ∈ Objects := by
    intro sets
    induction sets with
    | nil => intro s hs; exact ⟨hs, fun p => by simp⟩
    | cons r rest ih =>
      intro s hs
      simp only [List.foldl_cons]
      cases r with
      | none =>
        obtain ⟨i1, i2⟩ := ih s hs
        refine ⟨i1, fun p => ?_⟩
        rw [i2]
        simp
      | some Objects =>
        obtain ⟨j1, j2⟩ := foldl_setInsert_spec Objects s hs
        obtain ⟨i1, i2⟩ := ih _ j1
        refine ⟨i1, fun p => ?_⟩
        rw [i2, j2]
        simp only [List.mem_cons, Option.some.injEq]
        constructor
        · rintro ((h | h) | ⟨O, hO, hp⟩)
          · exact Or.inl h
          · exact Or.inr ⟨Objects, Or.inl rfl, h⟩
          · exact Or.inr ⟨O, Or.inr hO, hp⟩
        · rintro (h | ⟨O, hO | hO, hp⟩)
          · exact Or.inl (Or.inl h)
          · subst hO; exact Or.inl (Or.inr hp)
          · exact Or.inr ⟨O, hO, hp⟩
  obtain ⟨h1, h2⟩ := h ResidencySets [] List.nodup_nil
  exact ⟨h1, fun p => by rw [masterSet, h2]; simp⟩

theorem needsSplit_false (Objects : Nat → ManagedObject) (e : SubsetEnv)
    (lists : List (Nat × Option (List Nat)))
    (h : needsSplit Objects e lists = false) :
    lists.length = 1 ∨
      sizeSum Objects (masterSet (lists.map (fun l => l.2))) % U64 ≤
        (e.LocalMemory.Budget + e.NonLocalMemory.Budget) % U64 := by
  unfold needsSplit at h
  rw [totalSizeNeeded_eq] at h
  simp only [Bool.and_eq_false_iff, decide_eq_false_iff_not, add64] at h
  rcases h with h | h
  · rcases Nat.lt_or_ge 0 lists.length with h0 | h0
    · left; omega
    · right
      have : lists = [] := List.length_eq_zero.mp (by omega)
      subst this
      simp [masterSet, sizeSum]
  · right; omega

theorem needsSplit_true (Objects : Nat → ManagedObject) (e : SubsetEnv)
    (lists : List (Nat × Option (List Nat)))
    (h : needsSplit Objects e lists = true) : 1 < lists.length := by
  unfold needsSplit at h
  simp only [Bool.and_eq_true, decide_eq_true_eq] at h
  exact h.1

theorem ExecuteSubset_leaf (Objects : Nat → ManagedObject) (e : SubsetEnv) (Queue : Nat)
    (LocalBudget NonLocalBudget : Nat) (m : ResidencyManager)
    (lists : List (Nat × Option (List Nat)))
    (hL : e.LocalMemory.Budget = LocalBudget) (hN : e.NonLocalMemory.Budget = NonLocalBudget)
    (h : needsSplit Objects e lists = false) :
    ∃ recs,
      (match ({ m with Calls := m.Calls + 1 }).submit e Queue lists with
        | none => (({ m with Calls := m.Calls + 1 } : ResidencyManager), (none : Option Bool))
        | some (m1, hr) => (m1, some hr)).1.History = m.History ++ recs ∧
      SplitsOf Objects LocalBudget NonLocalBudget lists
        (match ({ m with Calls := m.Calls + 1 }).submit e Queue lists with
          | none => (({ m with Calls := m.Calls + 1 } : ResidencyManager), (none : Option Bool))
          | some (m1, hr) => (m1, some hr)).2.isSome recs := by
  cases hs : ({ m with Calls := m.Calls + 1 }).submit e Queue lists with
  | none =>
    refine ⟨[], by simp, ?_, ?_, ?_⟩
    · intro r hr; cases hr
    · intro hret; simp at hret
    · intro _ hret; simp at hret
  | some res =>
    obtain ⟨m1, hr⟩ := res
    obtain ⟨r, h1, _, _, _, h5, h6, _⟩ := submit_effect _ m1 e Queue lists hr hs
    refine ⟨[r], h1, ?_, ?_, ?_⟩
    · intro a ha
      simp only [List.mem_singleton] at ha
      subst ha
      unfold BatchFitsMod
      rw [h5, h6, List.length_map, ← hL, ← hN]
      exact needsSplit_false Objects e lists h
    · intro _; simp [h5, h6]
    · intro _ _; simp [h5, h6]

theorem ExecuteSubset_splits (Objects : Nat → ManagedObject) (env : Nat → SubsetEnv)
    (Queue LocalBudget NonLocalBudget : Nat) (hB : BudgetFixed env LocalBudget NonLocalBudget) :
    ∀ (fuel : Nat) (m : ResidencyManager) (lists : List (Nat × Option (List Nat))),
      ∃ recs,
        (ResidencyManager.ExecuteSubset Objects env Queue fuel m lists).1.History =
          m.History ++ recs ∧
        SplitsOf Objects LocalBudget NonLocalBudget lists
          (ResidencyManager.ExecuteSubset Objects env Queue fuel m lists).2.isSome recs := by
  intro fuel
  induction fuel with
  | zero =>
    intro m lists
    unfold ResidencyManager.ExecuteSubset
    cases hn : needsSplit Objects (env m.Calls) lists with
    | true =>
      have := needsSplit_true Objects _ lists hn
      refine ⟨[], by simp, ?_, ?_, ?_⟩
      · intro r hr; cases hr
      · intro hret; simp at hret
      · intro _ hret; simp at hret
    | false =>
      simp only [Bool.false_eq_true, if_false]
      exact ExecuteSubset_leaf Objects (env m.Calls) Queue LocalBudget NonLocalBudget m lists
        (hB m.Calls).1 (hB m.Calls).2 hn
  | succ fuel ih =>
    intro m lists
    unfold ResidencyManager.ExecuteSubset
    cases hn : needsSplit Objects (env m.Calls) lists with
    | false =>
      simp only [Bool.false_eq_true, if_false]
      exact ExecuteSubset_leaf Objects (env m.Calls) Queue LocalBudget NonLocalBudget m lists
        (hB m.Calls).1 (hB m.Calls).2 hn
    | true =>
      have hlen := needsSplit_true Objects _ lists hn
      simp only [if_true]
      obtain ⟨recs1, a1, a2, a3, _⟩ := ih { m with Calls := m.Calls + 1 }
        (lists.take (lists.length / 2))
      cases hlow : ResidencyManager.ExecuteSubset Objects env Queue fuel
          { m with Calls := m.Calls + 1 } (lists.take (lists.length / 2)) with
      | mk m1 LowerHR =>
        rw [hlow] at a1 a3
        cases LowerHR with
        | none =>
          dsimp only
          refine ⟨recs1, a1, a2, ?_, ?_⟩
          · intro hret; simp at hret
          · intro _ hret; simp at hret
        | some LowerHR =>
          dsimp only
          obtain ⟨recs2, b1, b2, b3, _⟩ := ih m1 (lists.drop (lists.length / 2))
          cases hup : ResidencyManager.ExecuteSubset Objects env Queue fuel m1
              (lists.drop (lists.length / 2)) with
          | mk m2 UpperHR =>
            rw [hup] at b1 b3
            dsimp only at a1 b1
            have hH : m2.History = m.History ++ (recs1 ++ recs2) := by
              rw [b1, a1, List.append_assoc]
            have hfit : ∀ r ∈ recs1 ++ recs2,
                BatchFitsMod Objects LocalBudget NonLocalBudget r := by
              intro r hr
              rcases List.mem_append.mp hr with hr | hr
              · exact a2 r hr
              · exact b2 r hr
            cases UpperHR with
            | none =>
              dsimp only
              refine ⟨recs1 ++ recs2, hH, hfit, ?_, ?_⟩
              · intro hret; simp at hret
              · intro _ hret; simp at hret
            | some UpperHR =>
              dsimp only
              refine ⟨recs1 ++ recs2, hH, hfit, ?_, ?_⟩
              · intro _
                obtain ⟨c1, c2⟩ := a3 rfl
                obtain ⟨d1, d2⟩ := b3 rfl
                constructor
                · rw [List.map_append, List.flatten_append, c1, d1, ← List.map_append,
                    List.take_append_drop]
                · rw [List.map_append, List.flatten_append, c2, d2, ← List.map_append,
                    List.take_append_drop]
              · intro h1 _; omega

theorem ExecuteSubset_fuel_succ (Objects : Nat → ManagedObject) (env : Nat → SubsetEnv)
    (Queue : Nat) :
    ∀ (fuel : Nat) (m : ResidencyManager) (lists : List (Nat × Option (List Nat))),
      lists.length ≤ fuel →
      ResidencyManager.ExecuteSubset Objects env Queue (fuel + 1) m lists =
        ResidencyManager.ExecuteSubset Objects env Queue fuel m lists := by
  intro fuel
  induction fuel with
  | zero =>
    intro m lists hl
    cases hn : needsSplit Objects (env m.Calls) lists with
    | true => have := needsSplit_true Objects _ lists hn; omega
    | false => simp [ResidencyManager.ExecuteSubset, hn]
  | succ fuel ih =>
    intro m lists hl
    cases hn : needsSplit Objects (env m.Calls) lists with
    | false =>
      rw [ResidencyManager.ExecuteSubset, ResidencyManager.ExecuteSubset]
      simp [hn]
    | true =>
      have hlen := needsSplit_true Objects _ lists hn
      have h1 : (lists.take (lists.length / 2)).length ≤ fuel := by
        rw [List.length_take]; omega
      have h2 : (lists.drop (lists.length / 2)).length ≤ fuel := by
        rw [List.length_drop]; omega
      rw [ResidencyManager.ExecuteSubset]
      conv_rhs => rw [ResidencyManager.ExecuteSubset]
      simp only [hn, if_true]
      rw [ih _ _ h1]
      cases ResidencyManager.ExecuteSubset Objects env Queue fuel
          { m with Calls := m.Calls + 1 } (lists.take (lists.length / 2)) with
      | mk m1 LowerHR =>
        cases LowerHR with
        | none => rfl
        | some LowerHR => simp only; rw [ih _ _ h2]

/-- With fuel for the number of command lists the recursion of `ExecuteSubset` never uses
it up: more fuel gives the same result. -/
theorem ExecuteSubset_fuel (Objects : Nat → ManagedObject) (env : Nat → SubsetEnv)
    (Queue : Nat) (m : ResidencyManager) (lists : List (Nat × Option (List Nat))) (k : Nat) :
    ResidencyManager.ExecuteSubset Objects env Queue (lists.length + k) m lists =
      m.ExecuteCommandLists Objects env Queue lists := by
  induction k with
  | zero => rfl
  | succ k ih =>
    rw [← ih, ← Nat.add_assoc]
    exact ExecuteSubset_fuel_succ Objects env Queue _ m lists (by omega)

/-- Induction over the calls of `ExecuteSubset`: a property of (manager at entry, command
lists, result) that holds for the calls that do not split, and is passed from the two
recursive calls to the call that splits, holds for every call whose fuel is at least the
number of command lists. -/
theorem ExecuteSubset_induct (Objects : Nat → ManagedObject) (env : Nat → SubsetEnv)
    (Queue : Nat)
    (R : ResidencyManager → List (Nat × Option (List Nat)) →
      ResidencyManager × Option Bool → Prop)
    (hleaf : ∀ m lists, needsSplit Objects (env m.Calls) lists = false →
      R m lists
        (match ({ m with Calls := m.Calls + 1 }).submit (env m.Calls) Queue lists with
          | none => (({ m with Calls := m.Calls + 1 } : ResidencyManager), (none : Option Bool))
          | some (m1, hr) => (m1, some hr)))
    (hlow : ∀ m lists r1, needsSplit Objects (env m.Calls) lists = true →
      R { m with Calls := m.Calls + 1 } (lists.take (lists.length / 2)) r1 →
      r1.2 = none → R m lists (r1.1, none))
    (hboth : ∀ m lists r1 L r2, needsSplit Objects (env m.Calls) lists = true →
      R { m with Calls := m.Calls + 1 } (lists.take (lists.length / 2)) r1 →
      r1.2 = some L → R r1.1 (lists.drop (lists.length / 2)) r2 →
      R m lists (r2.1, r2.2.map (fun U => L && U))) :
    ∀ (fuel : Nat) (m : ResidencyManager) (lists : List (Nat × Option (List Nat))),
      lists.length ≤ fuel →
      R m lists (ResidencyManager.ExecuteSubset Objects env Queue fuel m lists) := by
  intro fuel
  induction fuel with
  | zero =>
    intro m lists hl
    unfold ResidencyManager.ExecuteSubset
    cases hn : needsSplit Objects (env m.Calls) lists with
    | true => have := needsSplit_true Objects _ lists hn; omega
    | false =>
      simp only [Bool.false_eq_true, if_false]
      exact hleaf m lists hn
  | succ fuel ih =>
    intro m lists hl
    unfold ResidencyManager.ExecuteSubset
    cases hn : needsSplit Objects (env m.Calls) lists with
    | false =>
      simp only [Bool.false_eq_true, if_false]
      exact hleaf m lists hn
    | true =>
      have hlen := needsSplit_true Objects _ lists hn
      have h1 : (lists.take (lists.length / 2)).length ≤ fuel := by
        rw [List.length_take]; omega
      have h2 : (lists.drop (lists.length / 2)).length ≤ fuel := by
        rw [List.length_drop]; omega
      simp only [if_true]
      have a := ih { m with Calls := m.Calls + 1 } (lists.take (lists.length / 2)) h1
      cases hlow' : ResidencyManager.ExecuteSubset Objects env Queue fuel
          { m with Calls := m.Calls + 1 } (lists.take (lists.length / 2)) with
      | mk m1 LowerHR =>
        rw [hlow'] at a
        cases LowerHR with
        | none =>
          dsimp only
          exact hlow m lists _ hn a rfl
        | some LowerHR =>
          dsimp only
          have b := ih m1 (lists.drop (lists.length / 2)) h2
          have c := hboth m lists _ LowerHR _ hn a rfl b
          cases hup : ResidencyManager.ExecuteSubset Objects env Queue fuel m1
              (lists.drop (lists.length / 2)) with
          | mk m2 UpperHR =>
            rw [hup] at c
            cases UpperHR with
            | none => exact c
            | some UpperHR => exact c

theorem zip_fst_snd (l : List (Nat × Option (List Nat))) :
    (l.map (fun x => x.1)).zip (l.map (fun x => x.2)) = l := by
  induction l with
  | nil => rfl
  | cons a t ih => simp [ih]

theorem ExecuteSubset_covers (Objects : Nat → ManagedObject) (env : Nat → SubsetEnv)
    (Queue : Nat) :
    ∀ (fuel : Nat) (m : ResidencyManager) (lists : List (Nat × Option (List Nat))),
      lists.length ≤ fuel →
      SplitCovers env Queue m lists
        (ResidencyManager.ExecuteSubset Objects env Queue fuel m lists) := by
  apply ExecuteSubset_induct Objects env Queue (SplitCovers env Queue)
  · intro m lists _
    cases hs : ({ m with Calls := m.Calls + 1 }).submit (env m.Calls) Queue lists with
    | none =>
      refine ⟨[], by simp, by simp, by simp, fun _ => ⟨lists, ?_⟩⟩
      simpa using hs
    | some res =>
      obtain ⟨m1, hr⟩ := res
      obtain ⟨r, h1, _, _, _, h5, h6, _⟩ := submit_effect _ m1 (env m.Calls) Queue lists hr hs
      have hb : batchOf r = lists := by rw [batchOf, h5, h6, zip_fst_snd]
      refine ⟨[r], h1, by simp [hb], by simp [hb], by simp⟩
  · intro m lists r1 _ h1 hnone
    obtain ⟨recs, a1, a2, _, a4⟩ := h1
    refine ⟨recs, a1, a2.trans (List.take_prefix _ _), by simp, fun _ => a4 hnone⟩
  · intro m lists r1 L r2 _ h1 hL h2
    obtain ⟨recs1, a1, _, a3, _⟩ := h1
    obtain ⟨recs2, b1, b2, b3, b4⟩ := h2
    have ha := a3 (by rw [hL]; rfl)
    refine ⟨recs1 ++ recs2, by rw [b1, a1, List.append_assoc], ?_, ?_, ?_⟩
    · rw [List.map_append, List.flatten_append, ha]
      conv_rhs => rw [← List.take_append_drop (lists.length / 2) lists]
      exact (List.prefix_append_right_inj _).mpr b2
    · intro hret
      have hb := b3 (by cases h : r2.2 <;> simp [h] at hret ⊢)
      rw [List.map_append, List.flatten_append, ha, hb, List.take_append_drop]
    · intro hnone
      exact b4 (by cases h : r2.2 <;> simp [h] at hnone ⊢)

theorem sub64_of_le (a b : Nat) (hb : b ≤ a) (ha : a < U64) : sub64 a b = a - b := by
  simp only [sub64, U64] at *; omega

theorem add64_one_of_lt (a : Nat) (ha : a + 1 < U64) : add64 a 1 = a + 1 := by
  simp only [add64]; exact Nat.mod_eq_of_lt ha

theorem mod_ne_of_lt_sub (i t S : Nat) (hi : i < t) (hS : t - i < S) : i % S ≠ t % S := by
  intro h
  have h1 := Nat.sub_mod_eq_zero_of_mod_eq h.symm
  rw [Nat.mod_eq_of_lt hS] at h1
  omega

/-- What a returning `EnqueueAsyncWork` did. -/
theorem EnqueueAsyncWork_some (m m' : ResidencyManager) (refs : List Nat) (n v g : Nat)
    (ev hr : Bool) (h : m.EnqueueAsyncWork refs n v g ev = some (m', hr)) :
    sub64 m.CurrentAsyncWorkloadTail m.CurrentAsyncWorkloadHead < m.MaxSoftwareQueueLatency ∧
    m.AsyncWorkQueueSize ≠ 0 ∧
    m'.AsyncWorkQueue = m.AsyncWorkQueue.set (m.CurrentAsyncWorkloadTail % m.AsyncWorkQueueSize)
      ⟨g, refs, n, v⟩ ∧
    m'.CurrentAsyncWorkloadTail = add64 m.CurrentAsyncWorkloadTail 1 := by
  unfold ResidencyManager.EnqueueAsyncWork at h
  split at h
  · cases h
  · rename_i hroom
    split at h
    · cases h
    · rename_i hsz
      cases h
      exact ⟨by omega, hsz, rfl, rfl⟩

/-- What a returning `DequeueAsyncWork` did. -/
theorem DequeueAsyncWork_some (m m' : ResidencyManager) (r : Option Nat)
    (h : m.DequeueAsyncWork = some (m', r)) :
    (m.CurrentAsyncWorkloadHead = m.CurrentAsyncWorkloadTail ∧ m' = m ∧ r = none) ∨
    (m.CurrentAsyncWorkloadHead ≠ m.CurrentAsyncWorkloadTail ∧ m.AsyncWorkQueueSize ≠ 0 ∧
      m'.CurrentAsyncWorkloadHead = add64 m.CurrentAsyncWorkloadHead 1 ∧
      r = some (m.CurrentAsyncWorkloadHead % m.AsyncWorkQueueSize)) := by
  unfold ResidencyManager.DequeueAsyncWork at h
  split at h
  · rename_i he; cases h; exact Or.inl ⟨he, rfl, rfl⟩
  · rename_i hne
    split at h
    · cases h
    · rename_i hsz; cases h; exact Or.inr ⟨hne, hsz, rfl, rfl⟩

theorem EnqueueAsyncWork_RingBound (m m' : ResidencyManager) (refs : List Nat) (n v g : Nat)
    (ev hr : Bool) (hb : RingBound m)
    (h : m.EnqueueAsyncWork refs n v g ev = some (m', hr)) : RingBound m' := by
  obtain ⟨h1, _, _, h4⟩ := EnqueueAsyncWork_some m m' refs n v g ev hr h
  obtain ⟨_, _, _, _, _, _, _, _, _, _, f11, f12⟩ := EnqueueAsyncWork_frame m m' refs n v g ev hr h
  obtain ⟨b1, b2, b3⟩ := hb
  unfold RingBound
  rw [f11, f12, h4]
  simp only [sub64, add64, U64] at *
  omega

theorem DequeueAsyncWork_RingBound (m m' : ResidencyManager) (r : Option Nat)
    (hb : RingBound m) (h : m.DequeueAsyncWork = some (m', r)) : RingBound m' := by
  rcases DequeueAsyncWork_some m m' r h with ⟨_, h2, _⟩ | ⟨hne, _, h3, _⟩
  · rw [h2]; exact hb
  · obtain ⟨_, _, _, _, _, _, _, _, _, _, f11, f12⟩ := DequeueAsyncWork_frame m m' r h
    obtain ⟨b1, b2, b3⟩ := hb
    unfold RingBound
    rw [f11, f12, h3]
    simp only [sub64, add64, U64] at *
    omega

theorem EnqueueAsyncWork_RingHolds (m m' : ResidencyManager) (E : List AsyncWorkload)
    (refs : List Nat) (n v g : Nat) (ev hr : Bool) (hE : RingHolds m E)
    (hw : m.CurrentAsyncWorkloadTail + 1 < U64)
    (h : m.EnqueueAsyncWork refs n v g ev = some (m', hr)) :
    RingHolds m' (E ++ [⟨g, refs, n, v⟩]) ∧
    m.CurrentAsyncWorkloadTail - m.CurrentAsyncWorkloadHead < m.MaxSoftwareQueueLatency := by
  obtain ⟨h1, _, h3, h4⟩ := EnqueueAsyncWork_some m m' refs n v g ev hr h
  obtain ⟨_, _, _, _, _, _, _, _, _, f10, f11, f12⟩ :=
    EnqueueAsyncWork_frame m m' refs n v g ev hr h
  obtain ⟨e1, e2, e3, e4, e5, e6⟩ := hE
  rw [sub64_of_le _ _ e4 (by omega)] at h1
  rw [add64_one_of_lt _ hw] at h4
  have hk : m.CurrentAsyncWorkloadTail % m.AsyncWorkQueueSize < m.AsyncWorkQueue.length := by
    rw [e2]; exact Nat.mod_lt _ (by omega)
  refine ⟨⟨by rw [f10, f11, e1], by rw [h3, List.length_set, f10, e2],
    by rw [List.length_append, e3, h4]; rfl, by rw [f12, h4]; omega,
    by rw [f12, f11, h4]; omega, ?_⟩, h1⟩
  intro i hi1 hi2
  rw [f12] at hi1
  rw [h4] at hi2
  rw [h3, f10]
  rcases Nat.lt_or_ge i m.CurrentAsyncWorkloadTail with hlt | hge
  · have hne : m.CurrentAsyncWorkloadTail % m.AsyncWorkQueueSize ≠ i % m.AsyncWorkQueueSize :=
      fun hx => mod_ne_of_lt_sub i _ _ hlt (by omega) hx.symm
    rw [List.getElem?_set_ne hne, e6 i hi1 hlt, List.getElem?_append_left (by omega)]
  · have hi : i = m.CurrentAsyncWorkloadTail := by omega
    subst hi
    rw [List.getElem?_set_self hk, ← e3, List.getElem?_append_right (Nat.le_refl _)]
    simp

theorem DequeueAsyncWork_RingHolds (m m' : ResidencyManager) (E : List AsyncWorkload)
    (r : Option Nat) (hE : RingHolds m E) (hw : m.CurrentAsyncWorkloadTail < U64)
    (h : m.DequeueAsyncWork = some (m', r)) :
    RingHolds m' E ∧ m'.CurrentAsyncWorkloadTail = m.CurrentAsyncWorkloadTail ∧
    ((r = none ∧ m.CurrentAsyncWorkloadHead = m.CurrentAsyncWorkloadTail ∧
        m'.CurrentAsyncWorkloadHead = m.CurrentAsyncWorkloadHead) ∨
     (∃ idx W, r = some idx ∧ m'.AsyncWorkQueue[idx]? = some W ∧
        E[m.CurrentAsyncWorkloadHead]? = some W ∧
        m.CurrentAsyncWorkloadHead < m.CurrentAsyncWorkloadTail ∧
        m'.CurrentAsyncWorkloadHead = m.CurrentAsyncWorkloadHead + 1)) := by
  obtain ⟨_, _, _, _, _, _, _, _, f9, f10, f11, f12⟩ := DequeueAsyncWork_frame m m' r h
  rcases DequeueAsyncWork_some m m' r h with ⟨h1, h2, h3⟩ | ⟨hne, _, h3, h4⟩
  · subst h2
    exact ⟨hE, rfl, Or.inl ⟨h3, h1, rfl⟩⟩
  · obtain ⟨e1, e2, e3, e4, e5, e6⟩ := hE
    have hlt : m.CurrentAsyncWorkloadHead < m.CurrentAsyncWorkloadTail := by omega
    rw [add64_one_of_lt _ (by omega)] at h3
    have hslot := e6 m.CurrentAsyncWorkloadHead (by omega) hlt
    have hsome : ∃ W, E[m.CurrentAsyncWorkloadHead]? = some W := by
      have : m.CurrentAsyncWorkloadHead < E.length := by omega
      exact ⟨E[m.CurrentAsyncWorkloadHead], List.getElem?_eq_getElem this⟩
    obtain ⟨W, hW⟩ := hsome
    refine ⟨⟨by rw [f10, f11, e1], by rw [f9, f10, e2], by rw [f12, e3], by rw [f12, h3]; omega,
      by rw [f12, f11, h3]; omega, ?_⟩, f12, Or.inr ⟨_, W, h4, ?_, hW, hlt, h3⟩⟩
    · intro i hi1 hi2
      rw [h3] at hi1
      rw [f12] at hi2
      rw [f9, f10]
      exact e6 i (by omega) hi2
    · rw [f9, hslot, hW]

theorem Initialize_RingHolds (MaxLatency : Nat) (h : MaxLatency % U32 + 1 < U32) :
    RingHolds (ResidencyManager.Initialize MaxLatency) [] := by
  have hi : inc32 (MaxLatency % U32) = MaxLatency % U32 + 1 := by
    simp only [inc32]; exact Nat.mod_eq_of_lt h
  refine ⟨hi, by simp [ResidencyManager.Initialize], rfl, Nat.le_refl _, ?_, ?_⟩
  · simp [ResidencyManager.Initialize]
  · intro i _ hi2
    simp [ResidencyManager.Initialize] at hi2

theorem Initialize_RingBound (MaxLatency : Nat) :
    RingBound (ResidencyManager.Initialize MaxLatency) := by
  refine ⟨by simp [ResidencyManager.Initialize, U64], by simp [ResidencyManager.Initialize, U64],
    ?_⟩
  simp [ResidencyManager.Initialize, sub64, U64]

/-- The pieces of a step of `ringRun` that returns. -/
theorem ringStep_some (m m1 : ResidencyManager) (op : RingOp)
    (out : List (Option AsyncWorkload)) (h : m.ringStep op = some (m1, out)) :
    (∃ W ev hr, op = RingOp.Enqueue W ev ∧ out = [] ∧
      m.EnqueueAsyncWork W.ppObjectsReferenced W.NumObjectsReferenced W.FenceValueToSignal
        W.SyncPointGeneration ev = some (m1, hr)) ∨
    (op = RingOp.Dequeue ∧ out = [none] ∧ m.DequeueAsyncWork = some (m1, none)) ∨
    (∃ idx W, op = RingOp.Dequeue ∧ out = [some W] ∧ m.DequeueAsyncWork = some (m1, some idx) ∧
      m1.AsyncWorkQueue[idx]? = some W) := by
  cases op with
  | Enqueue W ev =>
    simp only [ResidencyManager.ringStep] at h
    split at h
    · cases h
    · rename_i m2 hr he
      cases h
      exact Or.inl ⟨W, ev, hr, rfl, rfl, he⟩
  | Dequeue =>
    simp only [ResidencyManager.ringStep] at h
    split at h
    · cases h
    · rename_i m2 hd
      cases h
      exact Or.inr (Or.inl ⟨rfl, rfl, hd⟩)
    · rename_i m2 idx hd
      split at h
      · cases h
      · rename_i W hW
        cases h
        exact Or.inr (Or.inr ⟨idx, W, rfl, rfl, hd, hW⟩)

theorem ringRun_cons (m m' : ResidencyManager) (op : RingOp) (ops : List RingOp)
    (outs : List (Option AsyncWorkload)) (h : m.ringRun (op :: ops) = some (m', outs)) :
    ∃ m1 out outs1, m.ringStep op = some (m1, out) ∧ m1.ringRun ops = some (m', outs1) ∧
      outs = out ++ outs1 := by
  unfold ResidencyManager.ringRun at h
  split at h
  · cases h
  · rename_i m1 out hs
    split at h
    · cases h
    · rename_i m2 outs1 hr
      cases h
      exact ⟨m1, out, outs1, hs, hr, rfl⟩

theorem ringStep_RingBound (m m1 : ResidencyManager) (op : RingOp)
    (out : List (Option AsyncWorkload)) (hb : RingBound m)
    (h : m.ringStep op = some (m1, out)) : RingBound m1 := by
  rcases ringStep_some m m1 op out h with ⟨W, ev, hr, _, _, he⟩ | ⟨_, _, hd⟩ | ⟨idx, W, _, _, hd, _⟩
  · exact EnqueueAsyncWork_RingBound _ _ _ _ _ _ _ _ hb he
  · exact DequeueAsyncWork_RingBound _ _ _ hb hd
  · exact DequeueAsyncWork_RingBound _ _ _ hb hd

theorem ringRun_RingBound :
    ∀ (ops : List RingOp) (m m' : ResidencyManager) (outs : List (Option AsyncWorkload)),
      RingBound m → m.ringRun ops = some (m', outs) → RingBound m' := by
  intro ops
  induction ops with
  | nil =>
    intro m m' outs hb h
    simp only [ResidencyManager.ringRun, Option.some.injEq, Prod.mk.injEq] at h
    rw [← h.1]; exact hb
  | cons op ops ih =>
    intro m m' outs hb h
    obtain ⟨m1, out, outs1, hs, hr, _⟩ := ringRun_cons m m' op ops outs h
    exact ih m1 m' outs1 (ringStep_RingBound m m1 op out hb hs) hr

/-- While no index has wrapped, the tail index is the head index plus the pending jobs. -/
theorem ringRun_ordered :
    ∀ (ops : List RingOp) (m m' : ResidencyManager) (outs : List (Option AsyncWorkload)),
      RingBound m → m.CurrentAsyncWorkloadHead ≤ m.CurrentAsyncWorkloadTail →
      m.CurrentAsyncWorkloadTail + ops.length < U64 →
      m.ringRun ops = some (m', outs) →
      m'.CurrentAsyncWorkloadHead ≤ m'.CurrentAsyncWorkloadTail ∧
      m'.CurrentAsyncWorkloadTail ≤ m.CurrentAsyncWorkloadTail + ops.length := by
  intro ops
  induction ops with
  | nil =>
    intro m m' outs _ ho _ h
    simp only [ResidencyManager.ringRun, Option.some.injEq, Prod.mk.injEq] at h
    rw [← h.1]; exact ⟨ho, Nat.le_refl _⟩
  | cons op ops ih =>
    intro m m' outs hb ho hw h
    simp only [List.length_cons] at hw
    obtain ⟨m1, out, outs1, hs, hr, _⟩ := ringRun_cons m m' op ops outs h
    have hb1 := ringStep_RingBound m m1 op out hb hs
    have key : m1.CurrentAsyncWorkloadHead ≤ m1.CurrentAsyncWorkloadTail ∧
        m1.CurrentAsyncWorkloadTail ≤ m.CurrentAsyncWorkloadTail + 1 := by
      rcases ringStep_some m m1 op out hs with
        ⟨W, ev, hr', _, _, he⟩ | ⟨_, _, hd⟩ | ⟨idx, W, _, _, hd, _⟩
      · obtain ⟨_, _, _, h4⟩ := EnqueueAsyncWork_some _ _ _ _ _ _ _ _ he
        obtain ⟨_, _, _, _, _, _, _, _, _, _, _, f12⟩ := EnqueueAsyncWork_frame _ _ _ _ _ _ _ _ he
        rw [f12, h4, add64_one_of_lt _ (by omega)]; omega
      · rcases DequeueAsyncWork_some _ _ _ hd with ⟨_, h2, _⟩ | ⟨_, _, _, h4⟩
        · rw [h2]; omega
        · cases h4
      · obtain ⟨_, _, _, _, _, _, _, _, _, _, _, f12⟩ := DequeueAsyncWork_frame _ _ _ hd
        rcases DequeueAsyncWork_some _ _ _ hd with ⟨_, _, h3⟩ | ⟨hne, _, h3, _⟩
        · cases h3
        · rw [f12, h3, add64_one_of_lt _ (by omega)]; omega
    obtain ⟨i1, i2⟩ := ih m1 m' outs1 hb1 key.1 (by omega) hr
    exact ⟨i1, by simp only [List.length_cons]; omega⟩

/-- In the unbounded queue nothing is lost and the order is kept: the jobs dequeued,
followed by the jobs left in the queue, are the jobs of the queue at the start followed by
the jobs enqueued. -/
theorem fifoRun_outputs :
    ∀ (ops : List RingOp) (q : List AsyncWorkload),
      (fifoRun q ops).2.filterMap id ++ (fifoRun q ops).1 = q ++ enqueued ops := by
  intro ops
  induction ops with
  | nil => intro q; simp [fifoRun, enqueued]
  | cons op ops ih =>
    intro q
    cases op with
    | Enqueue W ev => simp [fifoRun, enqueued, ih]
    | Dequeue =>
      cases q with
      | nil => simpa [fifoRun, enqueued] using ih []
      | cons W q => simpa [fifoRun, enqueued] using ih q

/-- The work ring simulates the unbounded queue: along a sequence of calls that return,
started with the jobs `E` enqueued so far of which the first `CurrentAsyncWorkloadHead`
are dequeued, the `DequeueAsyncWork` calls return what the queue returns. -/
theorem ringRun_fifo :
    ∀ (ops : List RingOp) (m m' : ResidencyManager) (E : List AsyncWorkload)
      (outs : List (Option AsyncWorkload)),
      RingHolds m E → m.CurrentAsyncWorkloadTail + ops.length < U64 →
      m.ringRun ops = some (m', outs) →
      RingHolds m' (E ++ enqueued ops) ∧
      outs = (fifoRun (E.drop m.CurrentAsyncWorkloadHead) ops).2 ∧
      (E ++ enqueued ops).drop m'.CurrentAsyncWorkloadHead =
        (fifoRun (E.drop m.CurrentAsyncWorkloadHead) ops).1 := by
  intro ops
  induction ops with
  | nil =>
    intro m m' E outs hE _ h
    simp only [ResidencyManager.ringRun, Option.some.injEq, Prod.mk.injEq] at h
    obtain ⟨h1, h2⟩ := h
    subst h1 h2
    simp [enqueued, fifoRun, hE]
  | cons op ops ih =>
    intro m m' E outs hE hw h
    simp only [List.length_cons] at hw
    obtain ⟨m1, out, outs1, hs, hr, ho⟩ := ringRun_cons m m' op ops outs h
    have hlen : m.CurrentAsyncWorkloadHead ≤ E.length := by rw [hE.2.2.1]; exact hE.2.2.2.1
    rcases ringStep_some m m1 op out hs with
      ⟨W, ev, hr', hop, hout, he⟩ | ⟨hop, hout, hd⟩ | ⟨idx, W, hop, hout, hd, hW⟩
    · obtain ⟨hE1, _⟩ := EnqueueAsyncWork_RingHolds m m1 E _ _ _ _ ev hr' hE (by omega) he
      obtain ⟨_, _, h3, h4⟩ := EnqueueAsyncWork_some _ _ _ _ _ _ _ _ he
      obtain ⟨_, _, _, _, _, _, _, _, _, _, _, f12⟩ := EnqueueAsyncWork_frame _ _ _ _ _ _ _ _ he
      have hW : (⟨W.SyncPointGeneration, W.ppObjectsReferenced, W.NumObjectsReferenced,
          W.FenceValueToSignal⟩ : AsyncWorkload) = W := by cases W; rfl
      rw [hW] at hE1
      have ht : m1.CurrentAsyncWorkloadTail + ops.length < U64 := by
        rw [h4, add64_one_of_lt _ (by omega)]; omega
      obtain ⟨i1, i2, i3⟩ := ih m1 m' (E ++ [W]) outs1 hE1 ht hr
      rw [f12, List.drop_append_of_le_length hlen] at i2 i3
      subst hop hout
      simp only [enqueued, fifoRun]
      rw [List.append_assoc] at i1 i3
      exact ⟨i1, by rw [ho, i2]; rfl, i3⟩
    · obtain ⟨hE1, ht, hcase⟩ := DequeueAsyncWork_RingHolds m m1 E none hE (by omega) hd
      rcases hcase with ⟨_, heq, hh⟩ | ⟨idx, W, hx, _⟩
      · obtain ⟨i1, i2, i3⟩ := ih m1 m' E outs1 hE1 (by omega) hr
        rw [hh] at i2 i3
        have hnil : E.drop m.CurrentAsyncWorkloadHead = [] := by
          apply List.drop_eq_nil_of_le; rw [hE.2.2.1, heq]
        rw [hnil] at i2 i3 ⊢
        subst hop hout
        simp only [enqueued, fifoRun]
        exact ⟨i1, by rw [ho, i2]; rfl, i3⟩
      · cases hx
    · obtain ⟨hE1, ht, hcase⟩ := DequeueAsyncWork_RingHolds m m1 E (some idx) hE (by omega) hd
      rcases hcase with ⟨hx, _⟩ | ⟨idx', W', hx, hW', hEW, hlt, hh⟩
      · cases hx
      · cases hx
        rw [hW'] at hW
        cases hW
        obtain ⟨i1, i2, i3⟩ := ih m1 m' E outs1 hE1 (by omega) hr
        rw [hh] at i2 i3
        have hcons : E.drop m.CurrentAsyncWorkloadHead =
            W :: E.drop (m.CurrentAsyncWorkloadHead + 1) := by
          have hl : m.CurrentAsyncWorkloadHead < E.length := by rw [hE.2.2.1]; exact hlt
          rw [List.drop_eq_getElem_cons hl]
          rw [List.getElem?_eq_getElem hl] at hEW
          cases hEW
          rfl
        rw [hcons]
        subst hop hout
        simp only [enqueued, fifoRun]
        exact ⟨i1, by rw [ho, i2]; rfl, i3⟩

theorem SubmissionInvariant.weaken {I : Nat → ResidencyManager → Prop}
    (hI : SubmissionInvariant I) (m : ResidencyManager) :
    ∀ k n, I (n + k) m → I n m := by
  intro k
  induction k with
  | zero => intro n h; exact h
  | succ k ih => intro n h; exact ih n (hI.mono _ m h)

/-- A submission invariant holds where a call of `ExecuteSubset` stops. -/
theorem ExecuteSubset_graded {I : Nat → ResidencyManager → Prop} (hI : SubmissionInvariant I)
    (Objects : Nat → ManagedObject) (env : Nat → SubsetEnv) (Queue : Nat) :
    ∀ (fuel : Nat) (m : ResidencyManager) (lists : List (Nat × Option (List Nat))),
      lists.length ≤ fuel →
      ∀ n, I (n + max 1 lists.length) m →
        I n (ResidencyManager.ExecuteSubset Objects env Queue fuel m lists).1 := by
  apply ExecuteSubset_induct Objects env Queue
    (fun m lists r => ∀ n, I (n + max 1 lists.length) m → I n r.1)
  · intro m lists _ n h
    have h1 : I (n + 1) m := hI.weaken m (max 1 lists.length - 1) (n + 1) (by
      have : n + 1 + (max 1 lists.length - 1) = n + max 1 lists.length := by omega
      rw [this]; exact h)
    cases hs : ({ m with Calls := m.Calls + 1 }).submit (env m.Calls) Queue lists with
    | none => exact hI.calls n m _ (hI.mono n m h1)
    | some res =>
      obtain ⟨m1, hr⟩ := res
      exact hI.submit n _ m1 _ _ _ hr (hI.calls _ m _ h1) hs
  · intro m lists r1 hn h1 _ n h
    have hlen := needsSplit_true Objects _ lists hn
    have ht : (lists.take (lists.length / 2)).length = lists.length / 2 := by
      rw [List.length_take]; omega
    apply h1 n
    rw [ht]
    apply hI.weaken _ (max 1 lists.length - max 1 (lists.length / 2))
    have : n + max 1 (lists.length / 2) + (max 1 lists.length - max 1 (lists.length / 2)) =
        n + max 1 lists.length := by omega
    rw [this]
    exact hI.calls _ m _ h
  · intro m lists r1 L r2 hn h1 _ h2 n h
    have hlen := needsSplit_true Objects _ lists hn
    have ht : (lists.take (lists.length / 2)).length = lists.length / 2 := by
      rw [List.length_take]; omega
    have hd : (lists.drop (lists.length / 2)).length = lists.length - lists.length / 2 :=
      List.length_drop _ _
    apply h2 n
    apply h1 (n + max 1 (lists.drop (lists.length / 2)).length)
    rw [ht, hd]
    have : n + max 1 (lists.length - lists.length / 2) + max 1 (lists.length / 2) =
        n + max 1 lists.length := by omega
    rw [this]
    exact hI.calls _ m _ h

/-- What the end of `ProcessPagingWork` leaves untouched: everything but the reference
array and its length in one slot of the work ring. -/
theorem finishWork_frame (m m1 : ResidencyManager) (currentHead : Nat)
    (h : m.finishWork currentHead = some m1) :
    m1.AsyncThreadFence = m.AsyncThreadFence ∧ m1.History = m.History ∧
    m1.QueueFences = m.QueueFences ∧ m1.QueuePrivateData = m.QueuePrivateData ∧
    m1.NumQueuesSeen = m.NumQueuesSeen ∧ m1.InFlightSyncPoints = m.InFlightSyncPoints ∧
    m1.CurrentSyncPointGeneration = m.CurrentSyncPointGeneration ∧
    m1.AsyncWorkQueueSize = m.AsyncWorkQueueSize ∧
    m1.MaxSoftwareQueueLatency = m.MaxSoftwareQueueLatency ∧
    m1.CurrentAsyncWorkloadHead = m.CurrentAsyncWorkloadHead ∧
    m1.CurrentAsyncWorkloadTail = m.CurrentAsyncWorkloadTail ∧
    m1.AsyncWorkQueue.length = m.AsyncWorkQueue.length ∧
    ∀ j : Nat, (m1.AsyncWorkQueue[j]?).map (fun (W : AsyncWorkload) => W.SyncPointGeneration) =
      (m.AsyncWorkQueue[j]?).map (fun (W : AsyncWorkload) => W.SyncPointGeneration) := by
  unfold ResidencyManager.finishWork at h
  cases hW : m.AsyncWorkQueue[currentHead]? with
  | none => rw [hW] at h; cases h
  | some pWork =>
    rw [hW] at h
    simp only [Option.some.injEq] at h
    subst h
    refine ⟨rfl, rfl, rfl, rfl, rfl, rfl, rfl, rfl, rfl, rfl, rfl, List.length_set _ _ _, ?_⟩
    intro j
    dsimp only
    by_cases hj : currentHead = j
    · subst hj
      rw [List.getElem?_set_self', hW]
      rfl
    · rw [List.getElem?_set_ne hj]

/-- A submission invariant that the calls of the paging thread keep holds along every run
with enough budget. -/
theorem run_graded {I : Nat → ResidencyManager → Prop} (hI : SubmissionInvariant I)
    (hdeq : ∀ n (m : ResidencyManager) C, I n m →
      I n { m with InFlightSyncPoints := (DequeueCompletedSyncPoints C m.InFlightSyncPoints).1 })
    (hwait : ∀ n (m : ResidencyManager) S C w, I n m →
      WaitForSyncPoint S C m.InFlightSyncPoints = some w →
      I n { m with InFlightSyncPoints := w.InFlight })
    (hwork : ∀ n (m m1 : ResidencyManager) r, I n m → m.DequeueAsyncWork = some (m1, r) →
      I n m1)
    (hfinish : ∀ n (m m1 : ResidencyManager) currentHead, I n m →
      m.finishWork currentHead = some m1 → I n m1) :
    ∀ (steps : List ManagerStep) (m m' : ResidencyManager) (n : Nat),
      I (n + submissionsOf steps) m → m.run steps = some m' → I n m' := by
  intro steps
  induction steps with
  | nil =>
    intro m m' n h hr
    simp only [ResidencyManager.run, Option.some.injEq] at hr
    subst hr
    simpa [submissionsOf] using h
  | cons s steps ih =>
    intro m m' n h hr
    unfold ResidencyManager.run at hr
    split at hr
    · cases hr
    · rename_i m1 hs
      apply ih m1 m' n _ hr
      have hsum : n + submissionsOf (s :: steps) = n + submissionsOf steps + s.submissions := by
        simp only [submissionsOf, List.map_cons, List.sum_cons]; omega
      rw [hsum] at h
      cases s with
      | Execute Objects env Queue lists =>
        simp only [ResidencyManager.step, Option.some.injEq] at hs
        subst hs
        exact ExecuteSubset_graded hI Objects env Queue lists.length m lists (Nat.le_refl _) _ h
      | DequeueCompleted C =>
        simp only [ResidencyManager.step, Option.some.injEq] at hs
        subst hs
        exact hdeq _ m C h
      | WaitFor S C =>
        simp only [ResidencyManager.step] at hs
        split at hs
        · cases hs
        · rename_i w hw
          simp only [Option.some.injEq] at hs
          subst hs
          exact hwait _ m S C w h hw
      | DequeueWork =>
        simp only [ResidencyManager.step] at hs
        split at hs
        · cases hs
        · rename_i m2 r hd
          simp only [Option.some.injEq] at hs
          subst hs
          exact hwork _ m m2 r h hd
      | FinishWork currentHead =>
        simp only [ResidencyManager.step] at hs
        exact hfinish _ m m1 currentHead h hs

/-- What the block under `ExecutionCS` leaves: the record it appends, the queue fences, the
in-flight list and the generation counter.  `signalled` is whether the `Signal` on the
queue fence was issued, `recorded` whether `EnqueueSyncPoint` appended a sync point. -/
theorem afterEnqueue_spec (m : ResidencyManager) (hr1 : Bool) (e : SubsetEnv)
    (Queue QueueFence : Nat) (W : AsyncWorkload) (lists : List (Nat × Option (List Nat))) :
    ∃ rec : SubmissionRecord,
      (m.afterEnqueue hr1 e Queue QueueFence W lists).1.History = m.History ++ [rec] ∧
      rec.Workload = W ∧ rec.Queue = Queue ∧
      (m.afterEnqueue hr1 e Queue QueueFence W lists).1.CurrentSyncPointGeneration =
        add64 m.CurrentSyncPointGeneration 1 ∧
      (m.afterEnqueue hr1 e Queue QueueFence W lists).1.QueueFences =
        (if hr1 && e.GPUWaitSucceeded then (signalAndIncrement m.QueueFences QueueFence).2
         else m.QueueFences) ∧
      rec.Signal =
        (if hr1 && e.GPUWaitSucceeded then
          some (QueueFence, (signalAndIncrement m.QueueFences QueueFence).1)
         else none) ∧
      rec.SyncPoint =
        (if hr1 && e.GPUWaitSucceeded && e.GPUSignalSucceeded && e.SyncPointAllocated then
          some ⟨m.CurrentSyncPointGeneration, m.NumQueuesSeen,
            captureQueueSyncPoints
              (m.afterEnqueue hr1 e Queue QueueFence W lists).1.QueueFences⟩
         else none) ∧
      (m.afterEnqueue hr1 e Queue QueueFence W lists).1.InFlightSyncPoints =
        m.InFlightSyncPoints ++ rec.SyncPoint.toList ∧
      (m.afterEnqueue hr1 e Queue QueueFence W lists).1.NumQueuesSeen = m.NumQueuesSeen ∧
      (m.afterEnqueue hr1 e Queue QueueFence W lists).1.QueuePrivateData = m.QueuePrivateData ∧
      (m.afterEnqueue hr1 e Queue QueueFence W lists).1.AsyncWorkQueue = m.AsyncWorkQueue ∧
      (m.afterEnqueue hr1 e Queue QueueFence W lists).1.AsyncWorkQueueSize =
        m.AsyncWorkQueueSize ∧
      (m.afterEnqueue hr1 e Queue QueueFence W lists).1.MaxSoftwareQueueLatency =
        m.MaxSoftwareQueueLatency ∧
      (m.afterEnqueue hr1 e Queue QueueFence W lists).1.CurrentAsyncWorkloadHead =
        m.CurrentAsyncWorkloadHead ∧
      (m.afterEnqueue hr1 e Queue QueueFence W lists).1.CurrentAsyncWorkloadTail =
        m.CurrentAsyncWorkloadTail := by
  obtain ⟨lm, nlm, fi, pd, wd, es, gw, gs, sa⟩ := e
  cases hr1 <;> cases gw <;> cases gs <;> cases sa <;>
    exact ⟨_, rfl, rfl, rfl, rfl, rfl, rfl, rfl,
      by simp [ResidencyManager.afterEnqueue, ResidencyManager.EnqueueSyncPoint],
      rfl, rfl, rfl, rfl, rfl, rfl, rfl⟩

/-- What finding or creating the fence of a queue does. -/
theorem findOrCreateFence_spec (m : ResidencyManager) (e : SubsetEnv) (Queue : Nat) :
    (m.findOrCreateFence e Queue).1.InFlightSyncPoints = m.InFlightSyncPoints ∧
    (m.findOrCreateFence e Queue).1.CurrentSyncPointGeneration = m.CurrentSyncPointGeneration ∧
    (m.findOrCreateFence e Queue).1.AsyncWorkQueue = m.AsyncWorkQueue ∧
    (m.findOrCreateFence e Queue).1.AsyncWorkQueueSize = m.AsyncWorkQueueSize ∧
    (m.findOrCreateFence e Queue).1.MaxSoftwareQueueLatency = m.MaxSoftwareQueueLatency ∧
    (m.findOrCreateFence e Queue).1.CurrentAsyncWorkloadHead = m.CurrentAsyncWorkloadHead ∧
    (m.findOrCreateFence e Queue).1.CurrentAsyncWorkloadTail = m.CurrentAsyncWorkloadTail ∧
    ((m.QueuePrivateData Queue = some (m.findOrCreateFence e Queue).2 ∧
        (m.findOrCreateFence e Queue).1 = m) ∨
     (m.QueuePrivateData Queue = none ∧
        (m.findOrCreateFence e Queue).2 = m.QueueFences.length ∧
        (m.findOrCreateFence e Queue).1.QueueFences =
          m.QueueFences ++ [⟨e.FenceInitialized, 1⟩] ∧
        (m.findOrCreateFence e Queue).1.NumQueuesSeen = inc32 m.NumQueuesSeen ∧
        ∀ q i, (m.findOrCreateFence e Queue).1.QueuePrivateData q = some i →
          m.QueuePrivateData q = some i ∨ i = m.QueueFences.length)) := by
  unfold ResidencyManager.findOrCreateFence
  split
  · rename_i qf hq
    exact ⟨rfl, rfl, rfl, rfl, rfl, rfl, rfl, Or.inl ⟨hq, rfl⟩⟩
  · rename_i hq
    dsimp only
    split
    · refine ⟨rfl, rfl, rfl, rfl, rfl, rfl, rfl, Or.inr ⟨hq, rfl, rfl, rfl, ?_⟩⟩
      intro q i hqi
      dsimp only at hqi
      split at hqi
      · right; cases hqi; rfl
      · left; exact hqi
    · exact ⟨rfl, rfl, rfl, rfl, rfl, rfl, rfl,
        Or.inr ⟨hq, rfl, rfl, rfl, fun q i hqi => Or.inl hqi⟩⟩

/-- What a submission that returns leaves, in terms of the manager `f` after the fence
of the queue was found or created: the record it appends, the generation counter, the
queue fences and the in-flight list. -/
theorem submit_spec (m m' : ResidencyManager) (e : SubsetEnv) (Queue : Nat)
    (lists : List (Nat × Option (List Nat))) (hr : Bool)
    (h : m.submit e Queue lists = some (m', hr)) :
    ∃ (rec : SubmissionRecord) (signalled : Bool),
      m'.History = m.History ++ [rec] ∧
      rec.Workload.SyncPointGeneration = m.CurrentSyncPointGeneration ∧
      m'.CurrentSyncPointGeneration = add64 m.CurrentSyncPointGeneration 1 ∧
      m'.QueueFences =
        (if signalled then
          (signalAndIncrement (m.findOrCreateFence e Queue).1.QueueFences
            (m.findOrCreateFence e Queue).2).2
         else (m.findOrCreateFence e Queue).1.QueueFences) ∧
      rec.Signal =
        (if signalled then
          some ((m.findOrCreateFence e Queue).2,
            (signalAndIncrement (m.findOrCreateFence e Queue).1.QueueFences
              (m.findOrCreateFence e Queue).2).1)
         else none) ∧
      (rec.SyncPoint = none ∨
        (signalled = true ∧
          rec.SyncPoint = some ⟨m.CurrentSyncPointGeneration,
            (m.findOrCreateFence e Queue).1.NumQueuesSeen,
            captureQueueSyncPoints m'.QueueFences⟩)) ∧
      m'.InFlightSyncPoints = m.InFlightSyncPoints ++ rec.SyncPoint.toList ∧
      m'.NumQueuesSeen = (m.findOrCreateFence e Queue).1.NumQueuesSeen ∧
      m'.QueuePrivateData = (m.findOrCreateFence e Queue).1.QueuePrivateData := by
  obtain ⟨m1, m2, hr1, hw, henq, hres⟩ := submit_some m m' e Queue lists hr h
  obtain ⟨g1, g2, _⟩ := findOrCreateFence_spec m e Queue
  obtain ⟨_, _, _, w4, w5, w6, w7, w8, _⟩ := workerDequeues_frame _ _ _ hw
  obtain ⟨_, _, _, q4, _, q6, q7, q8, q9, _⟩ := EnqueueAsyncWork_frame _ _ _ _ _ _ _ _ henq
  obtain ⟨rec, a1, a2, _, a4, a5, a6, a7, a8, a9, a10, _⟩ := afterEnqueue_spec m2 hr1 e Queue
    (m.findOrCreateFence e Queue).2
    ⟨m1.CurrentSyncPointGeneration, masterSet (lists.map (fun l => l.2)),
      (masterSet (lists.map (fun l => l.2))).length, m1.AsyncThreadFence.FenceValue⟩ lists
  rw [← hres] at a1 a4 a5 a7 a8 a9 a10
  dsimp only at a1 a4 a5 a7 a8 a9 a10
  have hH : m2.History = m.History := by
    obtain ⟨_, f2, _⟩ := findOrCreateFence_frame m e Queue
    obtain ⟨_, w2, _⟩ := workerDequeues_frame _ _ _ hw
    obtain ⟨_, q2, _⟩ := EnqueueAsyncWork_frame _ _ _ _ _ _ _ _ henq
    exact q2.trans (w2.trans f2)
  have hF : m2.QueueFences = (m.findOrCreateFence e Queue).1.QueueFences := q4.trans w4
  have hG : m2.CurrentSyncPointGeneration = m.CurrentSyncPointGeneration :=
    q9.trans (w8.trans g2)
  have hN : m2.NumQueuesSeen = (m.findOrCreateFence e Queue).1.NumQueuesSeen := q7.trans w6
  refine ⟨rec, hr1 && e.GPUWaitSucceeded, by rw [a1, hH], ?_, by rw [a4, hG],
    by rw [a5, hF], by rw [a6, hF], ?_, ?_, by rw [a9, hN], by rw [a10, q6, w5]⟩
  · rw [a2]
    exact w8.trans g2
  · rw [a7]
    split
    · rename_i hc
      right
      simp only [Bool.and_eq_true] at hc
      refine ⟨by simp [hc.1.1.1, hc.1.1.2], ?_⟩
      rw [hG, hN]
    · left; rfl
  · rw [a8, q8, w7, g1]

/-- Where `WaitForSyncPoint` returns, it has removed sync points from the head of the
list: what is left is the part of the list behind them. -/
theorem WaitForSyncPoint_suffix (S : Nat) (C : Nat → Nat) (l : List DeviceWideSyncPoint)
    (w : WaitResult) (h : WaitForSyncPoint S C l = some w) :
    ∃ pre, l = pre ++ w.InFlight := by
  have hwalk : ∀ (l : List DeviceWideSyncPoint) (w : WaitResult),
      WaitForSyncPoint.walk S C l = some w → ∃ pre, l = pre ++ w.InFlight := by
    intro l
    induction l with
    | nil => intro w h; simp [WaitForSyncPoint.walk] at h
    | cons P rest ih =>
      intro w h
      simp only [WaitForSyncPoint.walk] at h
      split at h
      · cases h; exact ⟨[], rfl⟩
      · split at h
        · obtain ⟨pre, hp⟩ := ih w h
          exact ⟨P :: pre, by rw [List.cons_append, ← hp]⟩
        · split at h
          · cases h; exact ⟨[P], rfl⟩
          · cases h
  cases l with
  | nil =>
    simp only [WaitForSyncPoint, Option.some.injEq] at h
    subst h; exact ⟨[], rfl⟩
  | cons P rest => exact hwalk (P :: rest) w h

theorem SyncPointsOrdered_of_suffix (n : Nat) (m : ResidencyManager)
    (pre l : List DeviceWideSyncPoint) (h : SyncPointsOrdered n m)
    (hl : m.InFlightSyncPoints = pre ++ l) :
    SyncPointsOrdered n { m with InFlightSyncPoints := l } := by
  obtain ⟨h1, h2, h3⟩ := h
  rw [hl] at h1 h2
  exact ⟨GenerationsIncreasing_suffix pre l h1,
    fun P hP => h2 P (List.mem_append_right _ hP), h3⟩

theorem SyncPointsOrdered_invariant : SubmissionInvariant SyncPointsOrdered := by
  refine ⟨?_, ?_, ?_⟩
  · intro n m h
    exact ⟨h.1, h.2.1, by have := h.2.2; omega⟩
  · intro n m c h
    exact h
  · intro n m m' e Queue lists hr h hs
    obtain ⟨h1, h2, h3⟩ := h
    obtain ⟨rec, _, _, s2, s3, _, _, s6, s7, _⟩ := submit_spec m m' e Queue lists hr hs
    have hg : m'.CurrentSyncPointGeneration = m.CurrentSyncPointGeneration + 1 := by
      rw [s3, add64_one_of_lt _ (by omega)]
    unfold SyncPointsOrdered
    rw [s7, hg]
    rcases s6 with hnone | ⟨_, hsome⟩
    · rw [hnone]
      simp only [Option.toList, List.append_nil]
      exact ⟨h1, fun P hP => Nat.lt_succ_of_lt (h2 P hP), by omega⟩
    · rw [hsome]
      simp only [Option.toList]
      refine ⟨?_, ?_, by omega⟩
      · unfold GenerationsIncreasing
        rw [List.pairwise_append]
        refine ⟨h1, List.pairwise_singleton _ _, ?_⟩
        intro P hP Q hQ
        simp only [List.mem_singleton] at hQ
        subst hQ
        exact h2 P hP
      · intro P hP
        rcases List.mem_append.mp hP with hP | hP
        · exact Nat.lt_succ_of_lt (h2 P hP)
        · simp only [List.mem_singleton] at hP
          subst hP
          exact Nat.lt_succ_self _

theorem SyncPointsOrdered_run (steps : List ManagerStep) (m m' : ResidencyManager) (n : Nat)
    (h : SyncPointsOrdered (n + submissionsOf steps) m) (hr : m.run steps = some m') :
    SyncPointsOrdered n m' := by
  refine run_graded SyncPointsOrdered_invariant ?_ ?_ ?_ ?_ steps m m' n h hr
  · intro n m C h
    obtain ⟨⟨pre, hp, _⟩, _, _⟩ := DequeueCompletedSyncPoints_spec C m.InFlightSyncPoints
    exact SyncPointsOrdered_of_suffix n m pre _ h hp
  · intro n m S C w h hw
    obtain ⟨pre, hp⟩ := WaitForSyncPoint_suffix S C _ w hw
    exact SyncPointsOrdered_of_suffix n m pre _ h hp
  · intro n m m1 r h hd
    obtain ⟨_, _, _, _, _, _, f7, f8, _⟩ := DequeueAsyncWork_frame m m1 r hd
    unfold SyncPointsOrdered
    rw [f7, f8]
    exact h
  · intro n m m1 currentHead h hf
    obtain ⟨_, _, _, _, _, f6, f7, _⟩ := finishWork_frame m m1 currentHead hf
    unfold SyncPointsOrdered
    rw [f6, f7]
    exact h

/-- Where `WaitForSyncPoint(SyncPointID)` returns on a list of strictly increasing
generations, the list holds the points of generation above `SyncPointID`, in their order,
and the point waited on, if any, has generation `SyncPointID` and is completed. -/
theorem WaitForSyncPoint_spec (S : Nat) (C : Nat → Nat) (l : List DeviceWideSyncPoint)
    (w : WaitResult) (hl : GenerationsIncreasing l) (h : WaitForSyncPoint S C l = some w) :
    w.InFlight = l.filter (fun P => decide (S < P.GenerationID)) ∧
    ∀ P, w.Waited = some P → P ∈ l ∧ P.GenerationID = S ∧ P.IsCompleted C = true := by
  have hwalk : ∀ (l : List DeviceWideSyncPoint) (w : WaitResult), GenerationsIncreasing l →
      WaitForSyncPoint.walk S C l = some w →
      w.InFlight = l.filter (fun P => decide (S < P.GenerationID)) ∧
      ∀ P, w.Waited = some P → P ∈ l ∧ P.GenerationID = S ∧ P.IsCompleted C = true := by
    intro l
    induction l with
    | nil => intro w _ h; simp [WaitForSyncPoint.walk] at h
    | cons P rest ih =>
      intro w hl h
      obtain ⟨hh, hr⟩ := GenerationsIncreasing_head P rest hl
      simp only [WaitForSyncPoint.walk] at h
      split at h
      · rename_i hgt
        cases h
        refine ⟨?_, fun Q hQ => by cases hQ⟩
        symm
        rw [List.filter_eq_self]
        intro Q hQ
        rcases List.mem_cons.mp hQ with hQ | hQ
        · subst hQ; simpa using hgt
        · have := hh Q hQ
          simp only [decide_eq_true_eq]; omega
      · rename_i hngt
        split at h
        · rename_i hlt
          obtain ⟨i1, i2⟩ := ih w hr h
          refine ⟨?_, fun Q hQ => ?_⟩
          · rw [i1, List.filter_cons_of_neg (by simpa using hngt)]
          · obtain ⟨a, b, c⟩ := i2 Q hQ
            exact ⟨List.mem_cons_of_mem _ a, b, c⟩
        · rename_i hnlt
          split at h
          · rename_i hc
            cases h
            refine ⟨?_, fun Q hQ => ?_⟩
            · rw [List.filter_cons_of_neg (by simpa using hngt)]
              symm
              rw [List.filter_eq_self]
              intro Q hQ
              have := hh Q hQ
              simp only [decide_eq_true_eq]; omega
            · cases hQ
              exact ⟨List.mem_cons_self _ _, by omega, hc⟩
          · cases h
  cases l with
  | nil =>
    simp only [WaitForSyncPoint, Option.some.injEq] at h
    subst h
    exact ⟨rfl, fun P hP => by cases hP⟩
  | cons P rest => exact hwalk (P :: rest) w hl h

/-- `WaitForSyncPoint` on a list that is not empty and has only generations below
`SyncPointID` pops every point and then reads the list head as a sync point. -/
theorem WaitForSyncPoint_none_of_all_below (S : Nat) (C : Nat → Nat)
    (l : List DeviceWideSyncPoint) (hne : l ≠ [])
    (hlt : ∀ P ∈ l, P.GenerationID < S) : WaitForSyncPoint S C l = none := by
  have hwalk : ∀ l : List DeviceWideSyncPoint, (∀ P ∈ l, P.GenerationID < S) →
      WaitForSyncPoint.walk S C l = none := by
    intro l
    induction l with
    | nil => intro _; rfl
    | cons P rest ih =>
      intro hlt
      have hP := hlt P (List.mem_cons_self _ _)
      simp only [WaitForSyncPoint.walk]
      rw [if_neg (by omega), if_pos hP]
      exact ih (fun Q hQ => hlt Q (List.mem_cons_of_mem _ hQ))
  cases l with
  | nil => exact absurd rfl hne
  | cons P rest => exact hwalk (P :: rest) hlt

theorem captureQueueSyncPoints_getElem? (fences : List Fence) (i : Nat) :
    (captureQueueSyncPoints fences)[i]? =
      fences[i]?.map (fun F => ⟨i, sub64 F.FenceValue 1⟩) := by
  unfold captureQueueSyncPoints
  rw [List.getElem?_map, List.getElem?_enum]
  cases fences[i]? <;> rfl

theorem captureQueueSyncPoints_length (fences : List Fence) :
    (captureQueueSyncPoints fences).length = fences.length := by
  simp [captureQueueSyncPoints]

theorem sub64_one_of_pos (v : Nat) (h1 : 1 ≤ v) (h2 : v < U64) : sub64 v 1 = v - 1 := by
  simp only [sub64, U64] at *; omega

/-- The fence of the queue is in the list once it has been found or created, and the
invariant of the fences holds there. -/
theorem findOrCreateFence_FencesInv (n : Nat) (m : ResidencyManager) (e : SubsetEnv)
    (Queue : Nat) (h : FencesInv n m) :
    FencesInv n (m.findOrCreateFence e Queue).1 ∧
    (m.findOrCreateFence e Queue).2 < (m.findOrCreateFence e Queue).1.QueueFences.length ∧
    FencesGrow m.QueueFences (m.findOrCreateFence e Queue).1.QueueFences ∧
    (m.QueuePrivateData Queue = some (m.findOrCreateFence e Queue).2 ∨
      (m.QueuePrivateData Queue = none ∧
        (m.findOrCreateFence e Queue).2 = m.QueueFences.length)) := by
  obtain ⟨h1, h2, h3, h4⟩ := h
  obtain ⟨_, _, _, _, _, _, _, hc⟩ := findOrCreateFence_spec m e Queue
  rcases hc with ⟨hq, hm⟩ | ⟨hq, hi, hf, hn, hp⟩
  · rw [hm]
    exact ⟨⟨h1, h2, h3, h4⟩, h2 _ _ hq, fun i F hF => ⟨F, hF, Nat.le_refl _⟩, Or.inl hq⟩
  · refine ⟨⟨?_, ?_, ?_, h4⟩, ?_, ?_, Or.inr ⟨hq, hi⟩⟩
    · rw [hn, hf, h1, List.length_append, List.length_singleton]
      simp only [inc32, U32]; omega
    · intro q i hqi
      rw [hf, List.length_append, List.length_singleton]
      rcases hp q i hqi with hold | hnew
      · have := h2 q i hold; omega
      · omega
    · intro F hF
      rw [hf] at hF
      rcases List.mem_append.mp hF with hF | hF
      · exact h3 F hF
      · simp only [List.mem_singleton] at hF
        subst hF
        exact ⟨Nat.le_refl _, by dsimp only; omega⟩
    · rw [hi, hf, List.length_append, List.length_singleton]; omega
    · intro i F hF
      rw [hf]
      refine ⟨F, ?_, Nat.le_refl _⟩
      rw [List.getElem?_append_left]
      · exact hF
      · by_contra hge
        rw [List.getElem?_eq_none (by omega)] at hF
        cases hF

/-- What `GPUSignal` followed by `Increment` does on a fence of the list. -/
theorem signalAndIncrement_spec (n : Nat) (fences : List Fence) (qf : Nat)
    (hq : qf < fences.length)
    (hv : ∀ F ∈ fences, 1 ≤ F.FenceValue ∧ F.FenceValue + (n + 1) < U64) :
    ∃ F, fences[qf]? = some F ∧
      (signalAndIncrement fences qf).1 = F.FenceValue ∧
      (signalAndIncrement fences qf).2 = fences.set qf ⟨F.Initialized, F.FenceValue + 1⟩ ∧
      (∀ G ∈ (signalAndIncrement fences qf).2, 1 ≤ G.FenceValue ∧ G.FenceValue + n < U64) ∧
      FencesGrow fences (signalAndIncrement fences qf).2 := by
  have hF : fences[qf]? = some fences[qf] := List.getElem?_eq_getElem hq
  obtain ⟨b1, b2⟩ := hv fences[qf] (List.getElem_mem hq)
  have hinc : (fences[qf]).Increment = ⟨(fences[qf]).Initialized, (fences[qf]).FenceValue + 1⟩ := by
    simp only [Fence.Increment]
    rw [add64_one_of_lt _ (by omega)]
  have hs : signalAndIncrement fences qf =
      ((fences[qf]).FenceValue,
        fences.set qf ⟨(fences[qf]).Initialized, (fences[qf]).FenceValue + 1⟩) := by
    unfold signalAndIncrement
    rw [hF]
    simp only
    rw [hinc]
  refine ⟨fences[qf], hF, by rw [hs], by rw [hs], ?_, ?_⟩
  · intro G hG
    rw [hs] at hG
    rcases List.mem_or_eq_of_mem_set hG with hG | hG
    · obtain ⟨c1, c2⟩ := hv G hG
      exact ⟨c1, by omega⟩
    · subst hG
      exact ⟨by dsimp only; omega, by dsimp only; omega⟩
  · intro i G hG
    rw [hs]
    by_cases hi : qf = i
    · subst hi
      rw [hF] at hG
      cases hG
      exact ⟨_, List.getElem?_set_self hq, by dsimp only; omega⟩
    · exact ⟨G, by dsimp only; rw [List.getElem?_set_ne hi]; exact hG, Nat.le_refl _⟩

theorem FencesInv_mono (n : Nat) (m : ResidencyManager) (h : FencesInv (n + 1) m) :
    FencesInv n m := by
  obtain ⟨h1, h2, h3, h4⟩ := h
  exact ⟨h1, h2, fun F hF => ⟨(h3 F hF).1, by have := (h3 F hF).2; omega⟩, by omega⟩

theorem FencesGrow_trans (a b c : List Fence) (h1 : FencesGrow a b) (h2 : FencesGrow b c) :
    FencesGrow a c := by
  intro i F hF
  obtain ⟨F1, g1, g2⟩ := h1 i F hF
  obtain ⟨F2, k1, k2⟩ := h2 i F1 g1
  exact ⟨F2, k1, Nat.le_trans g2 k2⟩

/-- What a submission that returns does to the queue fences and which sync point it
records. -/
theorem submit_FencesInv (n : Nat) (m m' : ResidencyManager) (e : SubsetEnv) (Queue : Nat)
    (lists : List (Nat × Option (List Nat))) (hr : Bool) (h : FencesInv (n + 1) m)
    (hs : m.submit e Queue lists = some (m', hr)) :
    FencesInv n m' ∧ FencesGrow m.QueueFences m'.QueueFences ∧ 1 ≤ m'.QueueFences.length ∧
    ∃ rec : SubmissionRecord,
      m'.History = m.History ++ [rec] ∧
      rec.Workload.SyncPointGeneration = m.CurrentSyncPointGeneration ∧
      m'.InFlightSyncPoints = m.InFlightSyncPoints ++ rec.SyncPoint.toList ∧
      ∀ P, rec.SyncPoint = some P →
        P.GenerationID = m.CurrentSyncPointGeneration ∧
        P.NumQueueSyncPoints = m'.NumQueuesSeen ∧
        P.pQueueSyncPoints = captureQueueSyncPoints m'.QueueFences ∧
        ∃ qf v, rec.Signal = some (qf, v) ∧
          (m.QueuePrivateData Queue = some qf ∨
            (m.QueuePrivateData Queue = none ∧ qf = m.QueueFences.length)) ∧
          ∃ F' : Fence, m'.QueueFences[qf]? = some F' ∧ F'.FenceValue = v + 1 := by
  obtain ⟨⟨a1, a2, a3, a4⟩, aq, ag, aw⟩ := findOrCreateFence_FencesInv (n + 1) m e Queue h
  obtain ⟨rec, signalled, s1, s2, _, s4, s5, s6, s7, s8, s9⟩ :=
    submit_spec m m' e Queue lists hr hs
  obtain ⟨F, hF, g1, g2, g3, g4⟩ := signalAndIncrement_spec n
    (m.findOrCreateFence e Queue).1.QueueFences (m.findOrCreateFence e Queue).2 aq a3
  have hlen : m'.QueueFences.length = (m.findOrCreateFence e Queue).1.QueueFences.length := by
    rw [s4]; split
    · rw [g2, List.length_set]
    · rfl
  have hvals : ∀ G ∈ m'.QueueFences, 1 ≤ G.FenceValue ∧ G.FenceValue + n < U64 := by
    intro G hG
    rw [s4] at hG
    split at hG
    · exact g3 G hG
    · obtain ⟨c1, c2⟩ := a3 G hG
      exact ⟨c1, by omega⟩
  have hgrow : FencesGrow (m.findOrCreateFence e Queue).1.QueueFences m'.QueueFences := by
    rw [s4]; split
    · exact g4
    · exact fun i G hG => ⟨G, hG, Nat.le_refl _⟩
  refine ⟨⟨by rw [s8, hlen]; exact a1, ?_, hvals, by omega⟩, FencesGrow_trans _ _ _ ag hgrow,
    by rw [hlen]; omega, rec, s1, s2, s7, ?_⟩
  · intro q i hqi
    rw [s9] at hqi
    rw [hlen]
    exact a2 q i hqi
  · intro P hP
    rcases s6 with hnone | ⟨hsig, hsome⟩
    · rw [hnone] at hP; cases hP
    · rw [hsome] at hP
      cases hP
      refine ⟨rfl, s8.symm, rfl, (m.findOrCreateFence e Queue).2, F.FenceValue, ?_, aw, ?_⟩
      · rw [s5, hsig, if_pos rfl, g1]
      · rw [s4, hsig, if_pos rfl, g2]
        exact ⟨_, List.getElem?_set_self aq, rfl⟩

theorem Initialize_FencesInv (MaxLatency n : Nat) (hn : n + 1 < U64) :
    FencesInv n (ResidencyManager.Initialize MaxLatency) := by
  refine ⟨by simp [ResidencyManager.Initialize], ?_, ?_, hn⟩
  · intro q i h; simp [ResidencyManager.Initialize] at h
  · intro F hF; simp [ResidencyManager.Initialize] at hF

theorem Dominates_completed (P Q : DeviceWideSyncPoint) (C : Nat → Nat) (h : Dominates P Q)
    (hQ : Q.IsCompleted C = true) : P.IsCompleted C = true := by
  unfold DeviceWideSyncPoint.IsCompleted at *
  rw [List.all_eq_true] at *
  intro q hq
  obtain ⟨q', hq', e1, e2⟩ := h q hq
  have := hQ q' hq'
  simp only [QueueSyncPoint.IsCompleted, decide_eq_true_eq] at this ⊢
  rw [← e1]
  omega

theorem FencesGrow_length (a b : List Fence) (h : FencesGrow a b) : a.length ≤ b.length := by
  by_contra hlt
  have hb : b.length < a.length := by omega
  obtain ⟨F', hF', _⟩ := h b.length a[b.length] (List.getElem?_eq_getElem hb)
  rw [List.getElem?_eq_none (Nat.le_refl _)] at hF'
  cases hF'

theorem CapturedBelow_grow (P : DeviceWideSyncPoint) (a b : List Fence) (h : FencesGrow a b)
    (hP : CapturedBelow P a) : CapturedBelow P b := by
  intro q hq
  obtain ⟨F, hF, hv⟩ := hP q hq
  obtain ⟨F', hF', hle⟩ := h _ F hF
  exact ⟨F', hF', by omega⟩

/-- A sync point captured from the fence list lies below it and dominates every sync
point that lies below it. -/
theorem capture_dominates (fences : List Fence) (g N : Nat) (hN : N = fences.length)
    (hv : ∀ F ∈ fences, 1 ≤ F.FenceValue ∧ F.FenceValue < U64) :
    CapturedBelow ⟨g, N, captureQueueSyncPoints fences⟩ fences ∧
    ∀ P, CapturedBelow P fences → Dominates P ⟨g, N, captureQueueSyncPoints fences⟩ := by
  have htake : (captureQueueSyncPoints fences).take N = captureQueueSyncPoints fences := by
    rw [List.take_of_length_le]
    rw [captureQueueSyncPoints_length, hN]
  refine ⟨?_, ?_⟩
  · intro q hq
    dsimp only at hq
    rw [htake] at hq
    obtain ⟨i, hi⟩ := List.mem_iff_getElem?.mp hq
    rw [captureQueueSyncPoints_getElem?] at hi
    cases hF : fences[i]? with
    | none => rw [hF] at hi; cases hi
    | some F =>
      rw [hF] at hi
      simp only [Option.map_some', Option.some.injEq] at hi
      obtain ⟨c1, c2⟩ := hv F (List.mem_iff_getElem?.mpr ⟨i, hF⟩)
      subst hi
      refine ⟨F, hF, ?_⟩
      dsimp only
      rw [sub64_one_of_pos _ c1 c2]
      omega
  · intro P hP q hq
    obtain ⟨F, hF, hle⟩ := hP q hq
    obtain ⟨c1, c2⟩ := hv F (List.mem_iff_getElem?.mpr ⟨_, hF⟩)
    refine ⟨⟨q.pFence, sub64 F.FenceValue 1⟩, ?_, rfl, ?_⟩
    · dsimp only
      rw [htake]
      apply List.mem_iff_getElem?.mpr
      exact ⟨q.pFence, by rw [captureQueueSyncPoints_getElem?, hF]; rfl⟩
    · dsimp only
      rw [sub64_one_of_pos _ c1 c2]
      omega

theorem SyncPointsCaptured_invariant : SubmissionInvariant SyncPointsCaptured := by
  refine ⟨?_, ?_, ?_⟩
  · intro n m h
    exact ⟨FencesInv_mono n m h.1, h.2⟩
  · intro n m c h
    exact h
  · intro n m m' e Queue lists hr h hs
    obtain ⟨hf, hcap⟩ := h
    obtain ⟨hinv, hgrow, _, rec, r1, _, _, r4⟩ := submit_FencesInv n m m' e Queue lists hr hf hs
    refine ⟨hinv, ?_⟩
    intro hlt
    have hlen := FencesGrow_length _ _ hgrow
    obtain ⟨c1, c2⟩ := hcap (by omega)
    have hvals : ∀ F ∈ m'.QueueFences, 1 ≤ F.FenceValue ∧ F.FenceValue < U64 := by
      intro F hF
      obtain ⟨d1, d2⟩ := hinv.2.2.1 F hF
      exact ⟨d1, by omega⟩
    have hnew : ∀ Q, rec.SyncPoint = some Q →
        CapturedBelow Q m'.QueueFences ∧
        ∀ P, CapturedBelow P m'.QueueFences → Dominates P Q := by
      intro Q hQ
      obtain ⟨p1, p2, p3, _⟩ := r4 Q hQ
      have hN : Q.NumQueueSyncPoints = m'.QueueFences.length := by
        rw [p2, hinv.1, Nat.mod_eq_of_lt hlt]
      have := capture_dominates m'.QueueFences Q.GenerationID Q.NumQueueSyncPoints hN hvals
      rw [← p3] at this
      exact this
    have hold : ∀ a ∈ m.History, ∀ P, a.SyncPoint = some P →
        CapturedBelow P m'.QueueFences :=
      fun a ha P hP => CapturedBelow_grow P _ _ hgrow (c1 a ha P hP)
    rw [r1]
    refine ⟨?_, ?_⟩
    · intro a ha P hP
      rcases List.mem_append.mp ha with ha | ha
      · exact hold a ha P hP
      · simp only [List.mem_singleton] at ha
        subst ha
        exact (hnew P hP).1
    · rw [List.pairwise_append]
      refine ⟨c2, List.pairwise_singleton _ _, ?_⟩
      intro a ha b hb P Q hP hQ
      simp only [List.mem_singleton] at hb
      subst hb
      exact (hnew Q hQ).2 P (hold a ha P hP)

theorem SyncPointsCaptured_run (steps : List ManagerStep) (m m' : ResidencyManager) (n : Nat)
    (h : SyncPointsCaptured (n + submissionsOf steps) m) (hr : m.run steps = some m') :
    SyncPointsCaptured n m' := by
  refine run_graded SyncPointsCaptured_invariant ?_ ?_ ?_ ?_ steps m m' n h hr
  · intro n m C h; exact h
  · intro n m S C w h _; exact h
  · intro n m m1 r h hd
    obtain ⟨_, f2, _, f4, f5, f6, _⟩ := DequeueAsyncWork_frame m m1 r hd
    unfold SyncPointsCaptured FencesInv
    rw [f2, f4, f5, f6]
    exact h
  · intro n m m1 currentHead h hf
    obtain ⟨_, f2, f3, f4, f5, _⟩ := finishWork_frame m m1 currentHead hf
    unfold SyncPointsCaptured FencesInv
    rw [f2, f3, f4, f5]
    exact h

theorem RingGens_congr (m m' : ResidencyManager) (G : List Nat)
    (h1 : m'.AsyncWorkQueue = m.AsyncWorkQueue)
    (h2 : m'.AsyncWorkQueueSize = m.AsyncWorkQueueSize)
    (h3 : m'.MaxSoftwareQueueLatency = m.MaxSoftwareQueueLatency)
    (h4 : m'.CurrentAsyncWorkloadHead = m.CurrentAsyncWorkloadHead)
    (h5 : m'.CurrentAsyncWorkloadTail = m.CurrentAsyncWorkloadTail)
    (h : RingGens m G) : RingGens m' G := by
  unfold RingGens at *
  rw [h1, h2, h3, h4, h5]
  exact h

theorem EnqueueAsyncWork_RingGens (m m' : ResidencyManager) (G : List Nat)
    (refs : List Nat) (n v g : Nat) (ev hr : Bool) (hG : RingGens m G)
    (hw : m.CurrentAsyncWorkloadTail + 1 < U64)
    (h : m.EnqueueAsyncWork refs n v g ev = some (m', hr)) :
    RingGens m' (G ++ [g]) := by
  obtain ⟨h1, _, h3, h4⟩ := EnqueueAsyncWork_some m m' refs n v g ev hr h
  obtain ⟨_, _, _, _, _, _, _, _, _, f10, f11, f12⟩ :=
    EnqueueAsyncWork_frame m m' refs n v g ev hr h
  obtain ⟨e1, e2, e3, e4, e5, e6⟩ := hG
  rw [sub64_of_le _ _ e4 (by omega)] at h1
  rw [add64_one_of_lt _ hw] at h4
  have hk : m.CurrentAsyncWorkloadTail % m.AsyncWorkQueueSize < m.AsyncWorkQueue.length := by
    rw [e2]; exact Nat.mod_lt _ (by omega)
  refine ⟨by rw [f10, f11, e1], by rw [h3, List.length_set, f10, e2],
    by rw [List.length_append, e3, h4]; rfl, by rw [f12, h4]; omega,
    by rw [f12, f11, h4]; omega, ?_⟩
  intro i hi1 hi2
  rw [f12] at hi1
  rw [h4] at hi2
  rw [h3, f10]
  rcases Nat.lt_or_ge i m.CurrentAsyncWorkloadTail with hlt | hge
  · have hne : m.CurrentAsyncWorkloadTail % m.AsyncWorkQueueSize ≠ i % m.AsyncWorkQueueSize :=
      fun hx => mod_ne_of_lt_sub i _ _ hlt (by omega) hx.symm
    rw [List.getElem?_set_ne hne, e6 i hi1 hlt, List.getElem?_append_left (by omega)]
  · have hi : i = m.CurrentAsyncWorkloadTail := by omega
    subst hi
    rw [List.getElem?_set_self hk, ← e3, List.getElem?_append_right (Nat.le_refl _)]
    simp

theorem DequeueAsyncWork_RingGens (m m' : ResidencyManager) (G : List Nat)
    (r : Option Nat) (hG : RingGens m G) (hw : m.CurrentAsyncWorkloadTail < U64)
    (h : m.DequeueAsyncWork = some (m', r)) :
    RingGens m' G ∧ m'.CurrentAsyncWorkloadTail = m.CurrentAsyncWorkloadTail := by
  obtain ⟨_, _, _, _, _, _, _, _, f9, f10, f11, f12⟩ := DequeueAsyncWork_frame m m' r h
  rcases DequeueAsyncWork_some m m' r h with ⟨_, h2, _⟩ | ⟨hne, _, h3, _⟩
  · subst h2
    exact ⟨hG, rfl⟩
  · obtain ⟨e1, e2, e3, e4, e5, e6⟩ := hG
    rw [add64_one_of_lt _ (by omega)] at h3
    refine ⟨⟨by rw [f10, f11, e1], by rw [f9, f10, e2], by rw [f12, e3], by rw [f12, h3]; omega,
      by rw [f12, f11, h3]; omega, ?_⟩, f12⟩
    intro i hi1 hi2
    rw [h3] at hi1
    rw [f12] at hi2
    rw [f9, f10]
    exact e6 i (by omega) hi2

theorem workerDequeues_RingGens :
    ∀ (k : Nat) (m m1 : ResidencyManager) (G : List Nat),
      RingGens m G → m.CurrentAsyncWorkloadTail < U64 → m.workerDequeues k = some m1 →
      RingGens m1 G := by
  intro k
  induction k with
  | zero =>
    intro m m1 G hG _ h
    simp only [ResidencyManager.workerDequeues, Option.some.injEq] at h
    subst h; exact hG
  | succ k ih =>
    intro m m1 G hG hw h
    unfold ResidencyManager.workerDequeues at h
    split at h
    · cases h
    · rename_i m2 r hd
      obtain ⟨hG2, ht⟩ := DequeueAsyncWork_RingGens m m2 G r hG hw hd
      exact ih m2 m1 G hG2 (by rw [ht]; exact hw) h

theorem finishWork_RingGens (m m1 : ResidencyManager) (G : List Nat) (currentHead : Nat)
    (hG : RingGens m G) (h : m.finishWork currentHead = some m1) : RingGens m1 G := by
  obtain ⟨_, _, _, _, _, _, _, f8, f9, f10, f11, f12, f13⟩ := finishWork_frame m m1 currentHead h
  obtain ⟨e1, e2, e3, e4, e5, e6⟩ := hG
  refine ⟨by rw [f8, f9, e1], by rw [f12, f8, e2], by rw [f11, e3], by rw [f10, f11]; exact e4,
    by rw [f10, f11, f9]; exact e5, ?_⟩
  intro i hi1 hi2
  rw [f10] at hi1
  rw [f11] at hi2
  rw [f13, f8]
  exact e6 i hi1 hi2

theorem Initialize_RingGens (MaxLatency : Nat) (h : MaxLatency % U32 + 1 < U32) :
    RingGens (ResidencyManager.Initialize MaxLatency) [] := by
  have hi : inc32 (MaxLatency % U32) = MaxLatency % U32 + 1 := by
    simp only [inc32]; exact Nat.mod_eq_of_lt h
  refine ⟨hi, by simp [ResidencyManager.Initialize], rfl, Nat.le_refl _, ?_, ?_⟩
  · simp [ResidencyManager.Initialize]
  · intro i _ hi2
    simp [ResidencyManager.Initialize] at hi2

/-- With a queue size of 0 no submission returns. -/
theorem submit_none_of_size_zero (m : ResidencyManager) (e : SubsetEnv) (Queue : Nat)
    (lists : List (Nat × Option (List Nat))) (hz : m.AsyncWorkQueueSize = 0) :
    m.submit e Queue lists = none := by
  cases hs : m.submit e Queue lists with
  | none => rfl
  | some res =>
    obtain ⟨m', hr⟩ := res
    obtain ⟨m1, m2, hr1, hw, henq, _⟩ := submit_some m m' e Queue lists hr hs
    obtain ⟨_, _, _, g4, _⟩ := findOrCreateFence_spec m e Queue
    obtain ⟨_, _, _, _, _, _, _, _, _, w10, _⟩ := workerDequeues_frame _ _ _ hw
    obtain ⟨_, hne, _⟩ := EnqueueAsyncWork_some _ _ _ _ _ _ _ _ henq
    exact absurd (w10.trans (g4.trans hz)) hne

theorem RingGenerations_submit (n : Nat) (m m' : ResidencyManager) (e : SubsetEnv)
    (Queue : Nat) (lists : List (Nat × Option (List Nat))) (hr : Bool)
    (hg : m.CurrentSyncPointGeneration + (n + 1) < U64)
    (h : RingGenerations (n + 1) m) (hs : m.submit e Queue lists = some (m', hr)) :
    RingGenerations n m' := by
  rcases h with ⟨G, hG, hw, hp, hlt⟩ | ⟨hz, _⟩
  · obtain ⟨m1, m2, hr1, hwd, henq, hres⟩ := submit_some m m' e Queue lists hr hs
    obtain ⟨_, g2, g3, g4, g5, g6, g7, _⟩ := findOrCreateFence_spec m e Queue
    obtain ⟨_, _, _, _, _, _, _, w8, _, _, _, w12⟩ := workerDequeues_frame _ _ _ hwd
    have hGf : RingGens (m.findOrCreateFence e Queue).1 G := RingGens_congr m _ G g3 g4 g5 g6 g7 hG
    have hG1 := workerDequeues_RingGens _ _ m1 G hGf (by rw [g7]; omega) hwd
    have ht1 : m1.CurrentAsyncWorkloadTail = m.CurrentAsyncWorkloadTail := w12.trans g7
    have hG2 := EnqueueAsyncWork_RingGens m1 m2 G _ _ _ _ _ hr1 hG1 (by rw [ht1]; omega) henq
    obtain ⟨_, _, _, q4⟩ := EnqueueAsyncWork_some _ _ _ _ _ _ _ _ henq
    obtain ⟨rec, _, _, _, a4, _, _, _, _, _, _, a11, a12, a13, a14, a15⟩ :=
      afterEnqueue_spec m2 hr1 e Queue (m.findOrCreateFence e Queue).2
        ⟨m1.CurrentSyncPointGeneration, masterSet (lists.map (fun l => l.2)),
          (masterSet (lists.map (fun l => l.2))).length, m1.AsyncThreadFence.FenceValue⟩ lists
    rw [← hres] at a4 a11 a12 a13 a14 a15
    dsimp only at a4 a11 a12 a13 a14 a15
    obtain ⟨_, _, _, _, _, _, _, _, q9, _⟩ := EnqueueAsyncWork_frame _ _ _ _ _ _ _ _ henq
    have hg1 : m1.CurrentSyncPointGeneration = m.CurrentSyncPointGeneration := w8.trans g2
    have hg' : m'.CurrentSyncPointGeneration = m.CurrentSyncPointGeneration + 1 := by
      rw [a4, q9, hg1, add64_one_of_lt _ (by omega)]
    left
    refine ⟨_, RingGens_congr m2 m' _ a11 a12 a13 a14 a15 hG2, ?_, ?_, ?_⟩
    · rw [a15, q4, ht1, add64_one_of_lt _ (by omega)]; omega
    · rw [List.pairwise_append]
      refine ⟨hp, List.pairwise_singleton _ _, ?_⟩
      intro a ha b hb
      simp only [List.mem_singleton] at hb
      rw [hb, hg1]
      exact hlt a ha
    · intro g hg
      rw [hg']
      rcases List.mem_append.mp hg with hg | hg
      · exact Nat.lt_succ_of_lt (hlt g hg)
      · simp only [List.mem_singleton] at hg
        rw [hg, hg1]
        exact Nat.lt_succ_self _
  · rw [submit_none_of_size_zero m e Queue lists hz] at hs
    cases hs

theorem GenerationsMatch_invariant : SubmissionInvariant GenerationsMatch := by
  refine ⟨?_, ?_, ?_⟩
  · intro n m h
    obtain ⟨h1, h2, h3, h4⟩ := h
    refine ⟨h1, by omega, h3, ?_⟩
    rcases h4 with ⟨G, hG, hw, hp, hlt⟩ | hz
    · exact Or.inl ⟨G, hG, by omega, hp, hlt⟩
    · exact Or.inr hz
  · intro n m c h
    exact h
  · intro n m m' e Queue lists hr h hs
    obtain ⟨h1, h2, h3, h4⟩ := h
    obtain ⟨rec, _, s1, s2, s3, _, _, s6, _⟩ := submit_spec m m' e Queue lists hr hs
    refine ⟨?_, ?_, ?_, RingGenerations_submit n m m' e Queue lists hr (by omega) h4 hs⟩
    · rw [s3, s1, h1, List.length_append, List.length_singleton,
        add64_one_of_lt _ (by omega)]
    · rw [s1, List.length_append, List.length_singleton]; omega
    · intro i r hi
      rw [s1] at hi
      rcases Nat.lt_or_ge i m.History.length with hlt | hge
      · rw [List.getElem?_append_left hlt] at hi
        exact h3 i r hi
      · rw [List.getElem?_append_right hge] at hi
        have hi0 : i - m.History.length = 0 := by
          by_contra hne
          rw [List.getElem?_eq_none (by simp; omega)] at hi
          cases hi
        rw [hi0] at hi
        simp only [List.getElem?_cons_zero, Option.some.injEq] at hi
        subst hi
        have hi' : i = m.History.length := by omega
        refine ⟨by rw [s2, h1, hi'], ?_⟩
        intro P hP
        rcases s6 with hnone | ⟨_, hsome⟩
        · rw [hnone] at hP; cases hP
        · rw [hsome] at hP
          cases hP
          dsimp only
          rw [h1, hi']

theorem RingGenerations_DequeueAsyncWork (n : Nat) (m m1 : ResidencyManager) (r : Option Nat)
    (h : RingGenerations n m) (hd : m.DequeueAsyncWork = some (m1, r)) :
    RingGenerations n m1 := by
  obtain ⟨_, _, _, _, _, _, _, f8, _, f10, _, f12⟩ := DequeueAsyncWork_frame m m1 r hd
  rcases h with ⟨G, hG, hw, hp, hlt⟩ | ⟨hz, he⟩
  · obtain ⟨hG1, ht⟩ := DequeueAsyncWork_RingGens m m1 G r hG (by omega) hd
    exact Or.inl ⟨G, hG1, by rw [ht]; exact hw, hp, by rw [f8]; exact hlt⟩
  · rcases DequeueAsyncWork_some m m1 r hd with ⟨_, h2, _⟩ | ⟨hne, _⟩
    · rw [h2]; exact Or.inr ⟨hz, he⟩
    · exact absurd he hne

theorem RingGenerations_finishWork (n : Nat) (m m1 : ResidencyManager) (currentHead : Nat)
    (h : RingGenerations n m) (hf : m.finishWork currentHead = some m1) :
    RingGenerations n m1 := by
  obtain ⟨_, _, _, _, _, _, f7, f8, _, f10, f11, _⟩ := finishWork_frame m m1 currentHead hf
  rcases h with ⟨G, hG, hw, hp, hlt⟩ | ⟨hz, he⟩
  · exact Or.inl ⟨G, finishWork_RingGens m m1 G currentHead hG hf, by rw [f11]; exact hw, hp,
      by rw [f7]; exact hlt⟩
  · exact Or.inr ⟨by rw [f8]; exact hz, by rw [f10, f11]; exact he⟩

theorem GenerationsMatch_run (steps : List ManagerStep) (m m' : ResidencyManager) (n : Nat)
    (h : GenerationsMatch (n + submissionsOf steps) m) (hr : m.run steps = some m') :
    GenerationsMatch n m' := by
  refine run_graded GenerationsMatch_invariant ?_ ?_ ?_ ?_ steps m m' n h hr
  · intro n m C h; exact h
  · intro n m S C w h _; exact h
  · intro n m m1 r h hd
    obtain ⟨_, f2, _, _, _, _, _, f8, _⟩ := DequeueAsyncWork_frame m m1 r hd
    obtain ⟨h1, h2, h3, h4⟩ := h
    unfold GenerationsMatch
    rw [f2, f8]
    exact ⟨h1, h2, h3, RingGenerations_DequeueAsyncWork n m m1 r h4 hd⟩
  · intro n m m1 currentHead h hf
    obtain ⟨_, f2, _, _, _, _, f7, _⟩ := finishWork_frame m m1 currentHead hf
    obtain ⟨h1, h2, h3, h4⟩ := h
    unfold GenerationsMatch
    rw [f2, f7]
    exact ⟨h1, h2, h3, RingGenerations_finishWork n m m1 currentHead h4 hf⟩

theorem Initialize_GenerationsMatch (MaxLatency n : Nat) (hn : n < U64) :
    GenerationsMatch n (ResidencyManager.Initialize MaxLatency) := by
  refine ⟨rfl, by simpa [ResidencyManager.Initialize] using hn, ?_, ?_⟩
  · intro i rec h; simp [ResidencyManager.Initialize] at h
  · rcases Nat.lt_or_ge (MaxLatency % U32 + 1) U32 with hlt | hge
    · refine Or.inl ⟨[], Initialize_RingGens MaxLatency hlt, ?_, by simp, by simp⟩
      simpa [ResidencyManager.Initialize] using hn
    · refine Or.inr ⟨?_, rfl⟩
      have : MaxLatency % U32 < U32 := Nat.mod_lt _ (by decide)
      simp only [ResidencyManager.Initialize, inc32]
      have h1 : MaxLatency % U32 + 1 = U32 := by omega
      rw [h1, Nat.mod_self]

/-- The jobs pending in the ring are in strictly increasing generation order. -/
theorem RingGenerations_order (n : Nat) (m : ResidencyManager) (h : RingGenerations n m)
    (i j : Nat) (Wi Wj : AsyncWorkload) (hi : m.CurrentAsyncWorkloadHead ≤ i) (hij : i < j)
    (hj : j < m.CurrentAsyncWorkloadTail)
    (hWi : m.AsyncWorkQueue[i % m.AsyncWorkQueueSize]? = some Wi)
    (hWj : m.AsyncWorkQueue[j % m.AsyncWorkQueueSize]? = some Wj) :
    Wi.SyncPointGeneration < Wj.SyncPointGeneration := by
  rcases h with ⟨G, hG, _, hp, _⟩ | ⟨_, he⟩
  · obtain ⟨_, _, e3, _, _, e6⟩ := hG
    have hjl : j < G.length := by omega
    have hil : i < G.length := by omega
    have hgi := e6 i hi (by omega)
    have hgj := e6 j (by omega) hj
    rw [hWi, List.getElem?_eq_getElem hil] at hgi
    rw [hWj, List.getElem?_eq_getElem hjl] at hgj
    simp only [Option.map_some', Option.some.injEq] at hgi hgj
    rw [hgi, hgj]
    exact List.pairwise_iff_getElem.mp hp i j hil hjl hij
  · omega

theorem dec32_inc32 (n : Nat) (h : n < U32) : dec32 (inc32 n) = n := by
  unfold dec32 inc32 U32 at *
  omega

theorem sub64_add64 (r s : Nat) (h : r < U64) : sub64 (add64 r s) s = r := by
  unfold sub64 add64 U64 at *
  omega

theorem ringRun_sizes :
    ∀ (ops : List RingOp) (m m' : ResidencyManager) (outs : List (Option AsyncWorkload)),
      m.ringRun ops = some (m', outs) →
      m'.AsyncWorkQueueSize = m.AsyncWorkQueueSize ∧
      m'.MaxSoftwareQueueLatency = m.MaxSoftwareQueueLatency := by
  intro ops
  induction ops with
  | nil =>
    intro m m' outs h
    simp only [ResidencyManager.ringRun, Option.some.injEq, Prod.mk.injEq] at h
    obtain ⟨rfl, _⟩ := h
    exact ⟨rfl, rfl⟩
  | cons op ops ih =>
    intro m m' outs h
    obtain ⟨m1, out, outs1, hs, hrun, _⟩ := ringRun_cons m m' op ops outs h
    obtain ⟨i1, i2⟩ := ih m1 m' outs1 hrun
    rcases ringStep_some m m1 op out hs with ⟨W, ev, hr, _, _, he⟩ | ⟨_, _, hd⟩ | ⟨idx, W, _, _, hd, _⟩
    · obtain ⟨_, _, _, _, _, _, _, _, _, f10, f11, _⟩ := EnqueueAsyncWork_frame _ _ _ _ _ _ _ _ he
      exact ⟨i1.trans f10, i2.trans f11⟩
    · obtain ⟨_, _, _, _, _, _, _, _, _, f10, f11, _⟩ := DequeueAsyncWork_frame _ _ _ hd
      exact ⟨i1.trans f10, i2.trans f11⟩
    · obtain ⟨_, _, _, _, _, _, _, _, _, f10, f11, _⟩ := DequeueAsyncWork_frame _ _ _ hd
      exact ⟨i1.trans f10, i2.trans f11⟩

theorem eraseLog_eq {s s' : PagingState} (h : s'.eraseLog = s.eraseLog) :
    ∃ L, s' = { s with Log := L } := by
  obtain ⟨a1, a2, a3, a4, a5, a6, a7, a8⟩ := s
  obtain ⟨b1, b2, b3, b4, b5, b6, b7, b8⟩ := s'
  simp only [PagingState.eraseLog, PagingState.mk.injEq, and_true] at h
  obtain ⟨rfl, rfl, rfl, rfl, rfl, rfl, rfl⟩ := h
  exact ⟨b8, rfl⟩

theorem finalMakeResident_eraseLog (e e' : IterationEnv) (A : Int)
    (I : List DeviceWideSyncPoint) (s s' : PagingState) (h : s'.eraseLog = s.eraseLog) :
    (finalMakeResident e' A I s').map PagingState.eraseLog =
      (finalMakeResident e A I s).map PagingState.eraseLog := by
  obtain ⟨L, rfl⟩ := eraseLog_eq h
  unfold finalMakeResident
  simp only
  cases gatherLoop s.LRU.Objects (s.NumObjectsToMakeResident - s.MakeResidentIndex)
    s.MakeResidentIndex s.pMakeResidentList [] with
  | none => rfl
  | some r => rfl

theorem waitAndTrim_eraseLog (pWork : AsyncWorkload) (e : IterationEnv) (f : Bool) (U B : Int)
    (I : List DeviceWideSyncPoint) (F : DeviceWideSyncPoint) (s s' : PagingState)
    (h : s'.eraseLog = s.eraseLog) :
    (waitAndTrim pWork (e.withFinal f) U B I F s').map PagingState.eraseLog =
      (waitAndTrim pWork e U B I F s).map PagingState.eraseLog := by
  obtain ⟨L, rfl⟩ := eraseLog_eq h
  unfold waitAndTrim
  simp only [IterationEnv.withFinal]
  cases WaitForSyncPoint (GenerationToWaitFor pWork F) e.CompletedAfterWait I with
  | none => rfl
  | some w => rfl

theorem trimOrFinish_eraseLog (pWork : AsyncWorkload) (e : IterationEnv) (f : Bool)
    (U B A : Int) (s s' : PagingState) (h : s'.eraseLog = s.eraseLog) :
    (trimOrFinish pWork (e.withFinal f) U B A s').map IterationOutcome.eraseLog =
      (trimOrFinish pWork e U B A s).map IterationOutcome.eraseLog := by
  have h1 := fun I => finalMakeResident_eraseLog e (e.withFinal f) A I s s' h
  have h2 := fun I F => waitAndTrim_eraseLog pWork e f U B I F s s' h
  obtain ⟨L, rfl⟩ := eraseLog_eq h
  have hfin : ∀ (x y : Option PagingState),
      x.map PagingState.eraseLog = y.map PagingState.eraseLog →
      (x.map IterationOutcome.exit).map IterationOutcome.eraseLog =
        (y.map IterationOutcome.exit).map IterationOutcome.eraseLog := by
    intro x y hxy
    cases x <;> cases y <;> simp_all [IterationOutcome.eraseLog]
  have hag : ∀ (x y : Option PagingState),
      x.map PagingState.eraseLog = y.map PagingState.eraseLog →
      (x.map IterationOutcome.again).map IterationOutcome.eraseLog =
        (y.map IterationOutcome.again).map IterationOutcome.eraseLog := by
    intro x y hxy
    cases x <;> cases y <;> simp_all [IterationOutcome.eraseLog]
  unfold trimOrFinish
  simp only
  have hC : (e.withFinal f).Completed = e.Completed := rfl
  rw [hC]
  cases s.LRU.GetResidentListHead with
  | none => exact hfin _ _ (h1 _)
  | some pHead =>
    simp only
    split
    · exact hfin _ _ (h1 _)
    · cases (DequeueCompletedSyncPoints e.Completed s.InFlight).2 with
      | none => exact hfin _ _ (h1 _)
      | some First => exact hag _ _ (h2 _ _)

theorem boundedBatch_eraseLog (e : IterationEnv) (f : Bool) (A : Int) (s s' : PagingState)
    (h : s'.eraseLog = s.eraseLog) :
    (boundedBatch (e.withFinal f) A s').map (fun r => (r.1.eraseLog, r.2)) =
      (boundedBatch e A s).map (fun r => (r.1.eraseLog, r.2)) := by
  obtain ⟨L, rfl⟩ := eraseLog_eq h
  unfold boundedBatch
  simp only [IterationEnv.withFinal]
  split
  · cases batchLoop s.LRU.Objects A (s.NumObjectsToMakeResident - s.MakeResidentIndex)
      s.MakeResidentIndex ⟨s.pMakeResidentList, s.MakeResidentIndex, 0, 0,
        s.ObjectsMadeResident, []⟩ with
    | none => rfl
    | some b => rfl
  · rfl

theorem pagingIteration_eraseLog (pWork : AsyncWorkload) (e : IterationEnv) (f : Bool)
    (s s' : PagingState) (h : s'.eraseLog = s.eraseLog) :
    (pagingIteration pWork (e.withFinal f) s').map IterationOutcome.eraseLog =
      (pagingIteration pWork e s).map IterationOutcome.eraseLog := by
  have hb := boundedBatch_eraseLog e f e.AvailableSpace s s' h
  unfold pagingIteration
  have hA : (e.withFinal f).AvailableSpace = e.AvailableSpace := rfl
  have hU : (e.withFinal f).TotalUsage = e.TotalUsage := rfl
  have hB : (e.withFinal f).TotalBudget = e.TotalBudget := rfl
  rw [hA, hU, hB]
  cases h1 : boundedBatch e e.AvailableSpace s with
  | none =>
    rw [h1] at hb
    cases h2 : boundedBatch (e.withFinal f) e.AvailableSpace s' with
    | none => rfl
    | some r => rw [h2] at hb; cases hb
  | some r =>
    rw [h1] at hb
    cases h2 : boundedBatch (e.withFinal f) e.AvailableSpace s' with
    | none => rw [h2] at hb; cases hb
    | some r' =>
      rw [h2] at hb
      simp only [Option.map_some', Option.some.injEq, Prod.mk.injEq] at hb
      obtain ⟨hs, hr⟩ := hb
      obtain ⟨s1, b1⟩ := r
      obtain ⟨s2, b2⟩ := r'
      simp only at hs hr ⊢
      subst hr
      have ht := trimOrFinish_eraseLog pWork e f e.TotalUsage e.TotalBudget e.AvailableSpace
        s1 s2 hs
      obtain ⟨L, rfl⟩ := eraseLog_eq hs
      simp only
      split
      · exact ht
      · rfl

theorem loop_eraseLog (pWork : AsyncWorkload) (f : Bool) :
    ∀ (es : List IterationEnv) (s s' : PagingState), s'.eraseLog = s.eraseLog →
      (ProcessPagingWork.loop pWork (es.map (fun e => e.withFinal f)) s').map
          PagingState.eraseLog =
        (ProcessPagingWork.loop pWork es s).map PagingState.eraseLog := by
  intro es
  induction es with
  | nil => intro s s' _; rfl
  | cons e es ih =>
    intro s s' h
    have hi := pagingIteration_eraseLog pWork e f s s' h
    simp only [List.map_cons, ProcessPagingWork.loop]
    cases h1 : pagingIteration pWork e s with
    | none =>
      rw [h1] at hi
      cases h2 : pagingIteration pWork (e.withFinal f) s' with
      | none => rfl
      | some r => rw [h2] at hi; cases hi
    | some o =>
      rw [h1] at hi
      cases h2 : pagingIteration pWork (e.withFinal f) s' with
      | none => rw [h2] at hi; cases hi
      | some o' =>
        rw [h2] at hi
        simp only [Option.map_some', Option.some.injEq] at hi
        cases o with
        | exit s1 =>
          cases o' with
          | exit s2 =>
            simp only [IterationOutcome.eraseLog, IterationOutcome.exit.injEq] at hi
            simp only [Option.map_some', hi]
          | again s2 => simp [IterationOutcome.eraseLog] at hi
        | again s1 =>
          cases o' with
          | exit s2 => simp [IterationOutcome.eraseLog] at hi
          | again s2 =>
            simp only [IterationOutcome.eraseLog, IterationOutcome.again.injEq] at hi
            exact ih s1 s2 hi

/-- The outcome of the final `Device->MakeResident` is used for nothing: whatever it is,
`ProcessPagingWork` returns in the same cases and leaves the same cache, in-flight list
and job. -/
theorem ProcessPagingWork_withFinal (c : LRUCache) (InFlight : List DeviceWideSyncPoint)
    (pWork : AsyncWorkload) (env : PagingEnv) (f : Bool) :
    (ProcessPagingWork c InFlight pWork (env.withFinal f)).map
        (fun r => (r.LRU, r.InFlight, r.Work)) =
      (ProcessPagingWork c InFlight pWork env).map (fun r => (r.LRU, r.InFlight, r.Work)) := by
  unfold ProcessPagingWork
  have h0 : beginPagingWork c InFlight pWork (env.withFinal f) =
      beginPagingWork c InFlight pWork env := rfl
  have hI : (env.withFinal f).Iterations = env.Iterations.map (fun e => e.withFinal f) := rfl
  rw [h0, hI]
  by_cases hn : (beginPagingWork c InFlight pWork env).NumObjectsToMakeResident ≠ 0
  · have hl := loop_eraseLog pWork f env.Iterations _ _
      (rfl : (beginPagingWork c InFlight pWork env).eraseLog = _)
    simp only [if_pos hn]
    cases h1 : ProcessPagingWork.loop pWork env.Iterations
        (beginPagingWork c InFlight pWork env) with
    | none =>
      rw [h1] at hl
      cases h2 : ProcessPagingWork.loop pWork
          (env.Iterations.map (fun e => e.withFinal f))
          (beginPagingWork c InFlight pWork env) with
      | none => rfl
      | some r => rw [h2] at hl; cases hl
    | some s1 =>
      rw [h1] at hl
      cases h2 : ProcessPagingWork.loop pWork
          (env.Iterations.map (fun e => e.withFinal f))
          (beginPagingWork c InFlight pWork env) with
      | none => rw [h2] at hl; cases hl
      | some s2 =>
        rw [h2] at hl
        simp only [Option.map_some', Option.some.injEq] at hl
        obtain ⟨L, rfl⟩ := eraseLog_eq hl
        rfl
  · simp only [if_neg hn]

theorem split_erase_append (L₀ front back : List Nat) (p : Nat) (st : Nat → Prop)
    (hf : front.Sublist L₀) (hb : ∀ q ∈ back, st q) (hp : st p) :
    ∃ front' back', (front ++ back).erase p ++ [p] = front' ++ back' ∧
      front'.Sublist L₀ ∧ ∀ q ∈ back', st q := by
  by_cases hm : p ∈ front
  · refine ⟨front.erase p, back ++ [p], ?_, (List.erase_sublist p front).trans hf, ?_⟩
    · rw [List.erase_append_left _ hm, List.append_assoc]
    · intro q hq
      rcases List.mem_append.mp hq with h | h
      · exact hb q h
      · rw [List.mem_singleton.mp h]; exact hp
  · refine ⟨front, back.erase p ++ [p], ?_, hf, ?_⟩
    · rw [List.erase_append_right _ hm, List.append_assoc]
    · intro q hq
      rcases List.mem_append.mp hq with h | h
      · exact hb q (List.mem_of_mem_erase h)
      · rw [List.mem_singleton.mp h]; exact hp

theorem markObject_StampedTail (g t : Nat) (L₀ : List Nat) (m : MarkState) (p : Nat)
    (h : StampedTail g t L₀ m.LRU) : StampedTail g t L₀ (markObject g t m p).LRU := by
  obtain ⟨front, back, hl, hf, hb⟩ := h
  by_cases hs : (m.LRU.Objects p).ResidencyStatus = RESIDENCY_STATUS.EVICTED
  · have hst : ∀ q ∈ back, ((markObject g t m p).LRU.Objects q).LastGPUSyncPoint = g ∧
        ((markObject g t m p).LRU.Objects q).LastUsedTimestamp = t := by
      intro q hq
      by_cases hqp : q = p
      · subst hqp
        simp [markObject, hs, LRUCache.MakeResident, LRUCache.ObjectReferenced,
          LRUCache.RemoveEntryList, writeObject]
      · simpa [markObject, hs, LRUCache.MakeResident, LRUCache.ObjectReferenced,
          LRUCache.RemoveEntryList, writeObject, hqp] using hb q hq
    have hpst : ((markObject g t m p).LRU.Objects p).LastGPUSyncPoint = g ∧
        ((markObject g t m p).LRU.Objects p).LastUsedTimestamp = t := by
      simp [markObject, hs, LRUCache.MakeResident, LRUCache.ObjectReferenced,
        LRUCache.RemoveEntryList, writeObject]
    obtain ⟨f1, b1, e1, s1, t1⟩ := split_erase_append L₀ front back p
      (fun q => ((markObject g t m p).LRU.Objects q).LastGPUSyncPoint = g ∧
        ((markObject g t m p).LRU.Objects q).LastUsedTimestamp = t) hf hst hpst
    obtain ⟨f2, b2, e2, s2, t2⟩ := split_erase_append L₀ f1 b1 p
      (fun q => ((markObject g t m p).LRU.Objects q).LastGPUSyncPoint = g ∧
        ((markObject g t m p).LRU.Objects q).LastUsedTimestamp = t) s1 t1 hpst
    refine ⟨f2, b2, ?_, s2, t2⟩
    rw [← e2, ← e1, ← hl]
    simp [markObject, hs, LRUCache.MakeResident, LRUCache.ObjectReferenced,
      LRUCache.RemoveEntryList]
  · have hst : ∀ q ∈ back, ((markObject g t m p).LRU.Objects q).LastGPUSyncPoint = g ∧
        ((markObject g t m p).LRU.Objects q).LastUsedTimestamp = t := by
      intro q hq
      by_cases hqp : q = p
      · subst hqp
        simp [markObject, hs, LRUCache.ObjectReferenced, LRUCache.RemoveEntryList, writeObject]
      · simpa [markObject, hs, LRUCache.ObjectReferenced, LRUCache.RemoveEntryList,
          writeObject, hqp] using hb q hq
    have hpst : ((markObject g t m p).LRU.Objects p).LastGPUSyncPoint = g ∧
        ((markObject g t m p).LRU.Objects p).LastUsedTimestamp = t := by
      simp [markObject, hs, LRUCache.ObjectReferenced, LRUCache.RemoveEntryList, writeObject]
    obtain ⟨f1, b1, e1, s1, t1⟩ := split_erase_append L₀ front back p
      (fun q => ((markObject g t m p).LRU.Objects q).LastGPUSyncPoint = g ∧
        ((markObject g t m p).LRU.Objects q).LastUsedTimestamp = t) hf hst hpst
    refine ⟨f1, b1, ?_, s1, t1⟩
    rw [← e1, ← hl]
    simp [markObject, hs, LRUCache.ObjectReferenced, LRUCache.RemoveEntryList]

theorem markObjects_StampedTail (c : LRUCache) (pWork : AsyncWorkload) (t : Nat) :
    StampedTail pWork.SyncPointGeneration t c.ResidentObjectList (markObjects c pWork t).LRU := by
  unfold markObjects
  apply markObjects_keeps (StampedTail pWork.SyncPointGeneration t c.ResidentObjectList)
    (fun _ => True)
  · intro m p _ h
    exact markObject_StampedTail _ _ _ m p h
  · intro p _; trivial
  · exact ⟨c.ResidentObjectList, [], by simp, List.Sublist.refl _, by simp⟩

theorem Evict_head_split (c : LRUCache) (p : Nat) (front back : List Nat) (g t : Nat)
    (hl : c.ResidentObjectList = (p :: front) ++ back)
    (hb : ∀ q ∈ back, (c.Objects q).LastGPUSyncPoint = g ∧ (c.Objects q).LastUsedTimestamp = t) :
    (c.Evict p).ResidentObjectList = front ++ back ∧
    ∀ q ∈ back, ((c.Evict p).Objects q).LastGPUSyncPoint = g ∧
      ((c.Evict p).Objects q).LastUsedTimestamp = t := by
  refine ⟨by simp [LRUCache.Evict, LRUCache.RemoveEntryList, hl], ?_⟩
  intro q hq
  rw [Evict_Objects]
  obtain ⟨f1, _, _, f4⟩ := markEvicted_fields c.Objects [p] q
  rw [f1, f4]; exact hb q hq

/-- The loop of `TrimToSyncPointInclusive` for a sync point below `g` on a resident list
that ends in objects of generation `g`: only objects before them are evicted, and one
entry is written per object evicted. -/
theorem TrimToSyncPointInclusive_loop_bound (B : Int) (S g t : Nat) (hS : S < g) :
    ∀ (fuel : Nat) (c : LRUCache) (u : Int) (ev : List Nat) (n : Nat) (evd : List Nat)
      (front back : List Nat),
      c.ResidentObjectList = front ++ back →
      (∀ q ∈ back, (c.Objects q).LastGPUSyncPoint = g ∧ (c.Objects q).LastUsedTimestamp = t) →
      ∃ k, k ≤ front.length ∧
        (LRUCache.TrimToSyncPointInclusive.loop B S fuel c u ev n evd).LRU.ResidentObjectList =
          front.drop k ++ back ∧
        (∀ q ∈ back,
          ((LRUCache.TrimToSyncPointInclusive.loop B S fuel c u ev n evd).LRU.Objects
            q).LastGPUSyncPoint = g ∧
          ((LRUCache.TrimToSyncPointInclusive.loop B S fuel c u ev n evd).LRU.Objects
            q).LastUsedTimestamp = t) ∧
        (LRUCache.TrimToSyncPointInclusive.loop B S fuel c u ev n evd).EvictionList.length =
          ev.length + k ∧
        (LRUCache.TrimToSyncPointInclusive.loop B S fuel c u ev n evd).NumObjectsToEvict =
          incBy32 n k := by
  intro fuel
  induction fuel with
  | zero =>
    intro c u ev n evd front back hl hb
    exact ⟨0, Nat.zero_le _, by simpa [LRUCache.TrimToSyncPointInclusive.loop] using hl,
      hb, rfl, rfl⟩
  | succ fuel ih =>
    intro c u ev n evd front back hl hb
    unfold LRUCache.TrimToSyncPointInclusive.loop
    split
    · exact ⟨0, Nat.zero_le _, by simpa using hl, hb, rfl, rfl⟩
    · rename_i p rest hres
      split
      · exact ⟨0, Nat.zero_le _, by simpa using hl, hb, rfl, rfl⟩
      · rename_i hc
        cases front with
        | nil =>
          exfalso
          apply hc
          left
          have hp : p ∈ back := by
            rw [hres] at hl
            simp only [List.nil_append] at hl
            rw [← hl]; exact List.mem_cons_self _ _
          rw [(hb p hp).1]; exact hS
        | cons a front' =>
          have hap : a = p := by
            rw [hres] at hl
            simp only [List.cons_append, List.cons.injEq] at hl
            exact hl.1.symm
          subst hap
          obtain ⟨e1, e2⟩ := Evict_head_split c a front' back g t hl hb
          obtain ⟨k, k1, k2, k3, k4, k5⟩ := ih (c.Evict a)
            (toINT64 (sub64 (toUINT64 u) ((c.Evict a).Objects a).Size))
            (ev ++ [(c.Objects a).pUnderlying]) (inc32 n) (evd ++ [a]) front' back e1 e2
          refine ⟨k + 1, by simp only [List.length_cons]; omega, ?_, k3, ?_, ?_⟩
          · simpa using k2
          · rw [k4]; simp only [List.length_append, List.length_singleton]; omega
          · rw [k5, incBy32_succ]

/-- The loop of `TrimAgedAllocations` at time `t` on a resident list that ends in objects
used at time `t`: only objects before them are evicted, and one entry is written per
object evicted. -/
theorem TrimAgedAllocations_loop_bound (M : Option DeviceWideSyncPoint) (d g t : Nat) :
    ∀ (fuel : Nat) (c : LRUCache) (ev : List Nat) (n : Nat) (evd : List Nat)
      (front back : List Nat),
      c.ResidentObjectList = front ++ back →
      (∀ q ∈ back, (c.Objects q).LastGPUSyncPoint = g ∧ (c.Objects q).LastUsedTimestamp = t) →
      ∃ k, k ≤ front.length ∧
        (LRUCache.TrimAgedAllocations.loop M t d fuel c ev n evd).LRU.ResidentObjectList =
          front.drop k ++ back ∧
        (∀ q ∈ back,
          ((LRUCache.TrimAgedAllocations.loop M t d fuel c ev n evd).LRU.Objects
            q).LastGPUSyncPoint = g ∧
          ((LRUCache.TrimAgedAllocations.loop M t d fuel c ev n evd).LRU.Objects
            q).LastUsedTimestamp = t) ∧
        (LRUCache.TrimAgedAllocations.loop M t d fuel c ev n evd).EvictionList.length =
          ev.length + k ∧
        (LRUCache.TrimAgedAllocations.loop M t d fuel c ev n evd).NumObjectsToEvict =
          incBy32 n k := by
  intro fuel
  induction fuel with
  | zero =>
    intro c ev n evd front back hl hb
    exact ⟨0, Nat.zero_le _, by simpa [LRUCache.TrimAgedAllocations.loop] using hl,
      hb, rfl, rfl⟩
  | succ fuel ih =>
    intro c ev n evd front back hl hb
    unfold LRUCache.TrimAgedAllocations.loop
    split
    · exact ⟨0, Nat.zero_le _, by simpa using hl, hb, rfl, rfl⟩
    · rename_i p rest hres
      split
      · exact ⟨0, Nat.zero_le _, by simpa using hl, hb, rfl, rfl⟩
      · rename_i hc
        cases front with
        | nil =>
          exfalso
          apply hc
          right
          have hp : p ∈ back := by
            rw [hres] at hl
            simp only [List.nil_append] at hl
            rw [← hl]; exact List.mem_cons_self _ _
          rw [(hb p hp).2]
          simp only [sub64, U64]; omega
        | cons a front' =>
          have hap : a = p := by
            rw [hres] at hl
            simp only [List.cons_append, List.cons.injEq] at hl
            exact hl.1.symm
          subst hap
          obtain ⟨e1, e2⟩ := Evict_head_split c a front' back g t hl hb
          obtain ⟨k, k1, k2, k3, k4, k5⟩ := ih (c.Evict a)
            (ev ++ [(c.Objects a).pUnderlying]) (inc32 n) (evd ++ [a]) front' back e1 e2
          refine ⟨k + 1, by simp only [List.length_cons]; omega, ?_, k3, ?_, ?_⟩
          · simpa using k2
          · rw [k4]; simp only [List.length_append, List.length_singleton]; omega
          · rw [k5, incBy32_succ]

theorem incBy32_zero_of_lt (k : Nat) (h : k < U32) : incBy32 0 k = k := by
  unfold incBy32
  split
  · rename_i h0; exact h0.symm
  · rw [Nat.zero_add]; exact Nat.mod_eq_of_lt h

theorem Trim_StampedTail (g t : Nat) (L₀ : List Nat) (c : LRUCache) (U B : Int) (S : Nat)
    (hS : S < g) (hcap : L₀.length < U32) (h : StampedTail g t L₀ c) :
    StampedTail g t L₀ (c.TrimToSyncPointInclusive U B S).LRU ∧
    (c.TrimToSyncPointInclusive U B S).NumObjectsToEvict =
      (c.TrimToSyncPointInclusive U B S).EvictionList.length ∧
    (c.TrimToSyncPointInclusive U B S).EvictionList.length ≤ L₀.length := by
  obtain ⟨front, back, hl, hf, hb⟩ := h
  obtain ⟨k, k1, k2, k3, k4, k5⟩ := TrimToSyncPointInclusive_loop_bound B S g t hS
    c.ResidentObjectList.length c U [] 0 [] front back hl hb
  have hlen := hf.length_le
  unfold LRUCache.TrimToSyncPointInclusive
  simp only [List.length_nil, Nat.zero_add] at k4
  refine ⟨⟨front.drop k, back, k2, (List.drop_sublist k front).trans hf, k3⟩, ?_, ?_⟩
  · rw [k5, k4, incBy32_zero_of_lt k (by omega)]
  · rw [k4]; omega

theorem TrimAged_StampedTail (g t d : Nat) (L₀ : List Nat) (c : LRUCache)
    (M : Option DeviceWideSyncPoint)
    (hcap : L₀.length < U32) (h : StampedTail g t L₀ c) :
    StampedTail g t L₀ (c.TrimAgedAllocations M [] 0 t d).LRU ∧
    (c.TrimAgedAllocations M [] 0 t d).NumObjectsToEvict =
      (c.TrimAgedAllocations M [] 0 t d).EvictionList.length ∧
    (c.TrimAgedAllocations M [] 0 t d).EvictionList.length ≤ L₀.length := by
  obtain ⟨front, back, hl, hf, hb⟩ := h
  obtain ⟨k, k1, k2, k3, k4, k5⟩ := TrimAgedAllocations_loop_bound M d g t
    c.ResidentObjectList.length c [] 0 [] front back hl hb
  have hlen := hf.length_le
  unfold LRUCache.TrimAgedAllocations
  simp only [List.length_nil, Nat.zero_add] at k4
  refine ⟨⟨front.drop k, back, k2, (List.drop_sublist k front).trans hf, k3⟩, ?_, ?_⟩
  · rw [k5, k4, incBy32_zero_of_lt k (by omega)]
  · rw [k4]; omega

theorem within_append {N : Nat} {l₁ l₂ : List PagingEvent}
    (h1 : ∀ ev ∈ l₁, ev.WithinEvictionList N) (h2 : ∀ ev ∈ l₂, ev.WithinEvictionList N) :
    ∀ ev ∈ l₁ ++ l₂, ev.WithinEvictionList N := by
  intro ev hev
  rcases List.mem_append.mp hev with h | h
  · exact h1 ev h
  · exact h2 ev h

theorem waitEvents_within (N : Nat) (w : WaitResult) :
    ∀ ev ∈ waitEvents w, ev.WithinEvictionList N := by
  intro ev hev
  unfold waitEvents at hev
  split at hev
  · simp only [List.mem_singleton] at hev; subst hev; trivial
  · simp at hev

theorem waitAndTrim_EvictionsBounded (t : Nat) (L₀ : List Nat)
    (InFlight₀ : List DeviceWideSyncPoint) (pWork : AsyncWorkload) (e : IterationEnv)
    (U B : Int) (F : DeviceWideSyncPoint) (rest : List DeviceWideSyncPoint)
    (s s' : PagingState) (hcap : L₀.length < U32)
    (hgate : ∀ P ∈ InFlight₀, pWork.SyncPointGeneration < P.GenerationID →
      P.WaitForCompletion e.CompletedAfterWait = false)
    (hg : 1 ≤ pWork.SyncPointGeneration)
    (hl : ∀ P ∈ F :: rest, P ∈ InFlight₀)
    (hs : StampedTail pWork.SyncPointGeneration t L₀ s.LRU)
    (hlog : ∀ ev ∈ s.Log, ev.WithinEvictionList L₀.length)
    (h : waitAndTrim pWork e U B (F :: rest) F s = some s') :
    EvictionsBounded pWork.SyncPointGeneration t L₀ InFlight₀ s' := by
  unfold waitAndTrim GenerationToWaitFor at h
  simp only at h
  split at h
  · cases h
  · rename_i w hw
    cases h
    by_cases hFg : F.GenerationID = pWork.SyncPointGeneration
    · simp only [hFg, if_true] at hw ⊢
      have hlt := sub64_one_lt pWork.SyncPointGeneration hg
      rw [WaitForSyncPoint_below _ _ F rest (by rw [hFg]; exact hlt)] at hw
      cases hw
      obtain ⟨t1, t2, t3⟩ := Trim_StampedTail _ t L₀ s.LRU
        (toINT64 (add64 (toUINT64 U) s.SizeToMakeResident)) B _ hlt hcap hs
      refine ⟨t1, hl, within_append (within_append hlog (waitEvents_within _ _)) ?_⟩
      intro ev hev
      simp only [List.mem_singleton] at hev
      subst hev
      exact ⟨t2, t3⟩
    · simp only [hFg, if_false] at hw ⊢
      obtain ⟨hw1, hw2⟩ := WaitForSyncPoint_head _ F rest w hw
      have hle : ¬ pWork.SyncPointGeneration < F.GenerationID := by
        intro hlt
        have := hgate F (hl F (List.mem_cons_self F rest)) hlt
        simp only [DeviceWideSyncPoint.WaitForCompletion] at this
        rw [hw2] at this; cases this
      have hlt : F.GenerationID < pWork.SyncPointGeneration := by omega
      subst hw1
      obtain ⟨t1, t2, t3⟩ := Trim_StampedTail _ t L₀ s.LRU
        (toINT64 (add64 (toUINT64 U) s.SizeToMakeResident)) B _ hlt hcap hs
      refine ⟨t1, fun P hP => hl P (List.mem_cons_of_mem F hP),
        within_append (within_append hlog (waitEvents_within _ _)) ?_⟩
      intro ev hev
      simp only [List.mem_singleton] at hev
      subst hev
      exact ⟨t2, t3⟩

theorem trimOrFinish_EvictionsBounded (t : Nat) (L₀ : List Nat)
    (InFlight₀ : List DeviceWideSyncPoint) (pWork : AsyncWorkload) (e : IterationEnv)
    (U B A : Int) (s : PagingState) (o : IterationOutcome) (hcap : L₀.length < U32)
    (hgate : ∀ P ∈ InFlight₀, pWork.SyncPointGeneration < P.GenerationID →
      P.WaitForCompletion e.CompletedAfterWait = false)
    (hs : EvictionsBounded pWork.SyncPointGeneration t L₀ InFlight₀ s)
    (h : trimOrFinish pWork e U B A s = some o) :
    EvictionsBounded pWork.SyncPointGeneration t L₀ InFlight₀ o.state := by
  have hsub : ∀ P ∈ (DequeueCompletedSyncPoints e.Completed s.InFlight).1, P ∈ InFlight₀ :=
    fun P hP => hs.2.1 P (DequeueCompletedSyncPoints_subset _ _ P hP)
  have hfin : (finalMakeResident e A (DequeueCompletedSyncPoints e.Completed s.InFlight).1
      s).map IterationOutcome.exit = some o →
      EvictionsBounded pWork.SyncPointGeneration t L₀ InFlight₀ o.state := by
    intro hl
    cases hf : finalMakeResident e A (DequeueCompletedSyncPoints e.Completed s.InFlight).1 s with
    | none => rw [hf] at hl; cases hl
    | some s' =>
      rw [hf] at hl; cases hl
      unfold finalMakeResident at hf
      simp only at hf
      split at hf
      · cases hf
      · cases hf
        refine ⟨hs.1, hsub, within_append hs.2.2 ?_⟩
        intro ev hev
        simp only [List.mem_singleton] at hev
        subst hev; trivial
  unfold trimOrFinish at h
  simp only at h
  split at h
  · exact hfin h
  · rename_i pHead hhead
    split at h
    · exact hfin h
    · rename_i hgen
      split at h
      · exact hfin h
      · rename_i First hF
        obtain ⟨rest, hrest⟩ := DequeueCompletedSyncPoints_head _ _ _ hF
        rw [hrest] at h hsub
        cases hw : waitAndTrim pWork e U B (First :: rest) First s with
        | none => rw [hw] at h; cases h
        | some s' =>
          rw [hw] at h; cases h
          exact waitAndTrim_EvictionsBounded t L₀ InFlight₀ pWork e U B First rest s s' hcap
            hgate (by omega) hsub hs.1 hs.2.2 hw

theorem pagingIteration_EvictionsBounded (t : Nat) (L₀ : List Nat)
    (InFlight₀ : List DeviceWideSyncPoint) (pWork : AsyncWorkload) (e : IterationEnv)
    (s : PagingState) (o : IterationOutcome) (hcap : L₀.length < U32)
    (hgate : ∀ P ∈ InFlight₀, pWork.SyncPointGeneration < P.GenerationID →
      P.WaitForCompletion e.CompletedAfterWait = false)
    (hs : EvictionsBounded pWork.SyncPointGeneration t L₀ InFlight₀ s)
    (h : pagingIteration pWork e s = some o) :
    EvictionsBounded pWork.SyncPointGeneration t L₀ InFlight₀ o.state := by
  unfold pagingIteration at h
  split at h
  · cases h
  · rename_i s1 hr hb
    obtain ⟨b1, b2, _⟩ := boundedBatch_LRU _ _ _ _ _ hb
    have hs1 : EvictionsBounded pWork.SyncPointGeneration t L₀ InFlight₀ s1 := by
      unfold EvictionsBounded; rw [b1, b2]
      refine ⟨hs.1, hs.2.1, ?_⟩
      rcases boundedBatch_Log _ _ _ _ _ hb with hl | ⟨n, l, b, ctx, hl⟩
      · rw [hl]; exact hs.2.2
      · rw [hl]
        apply within_append hs.2.2
        intro ev hev
        simp only [List.mem_singleton] at hev
        subst hev; trivial
    split at h
    · exact trimOrFinish_EvictionsBounded t L₀ InFlight₀ pWork e _ _ _ s1 o hcap hgate hs1 h
    · cases h; exact hs1

theorem loop_EvictionsBounded (t : Nat) (L₀ : List Nat)
    (InFlight₀ : List DeviceWideSyncPoint) (pWork : AsyncWorkload) (hcap : L₀.length < U32) :
    ∀ (es : List IterationEnv) (s s' : PagingState),
      (∀ e ∈ es, ∀ P ∈ InFlight₀, pWork.SyncPointGeneration < P.GenerationID →
        P.WaitForCompletion e.CompletedAfterWait = false) →
      EvictionsBounded pWork.SyncPointGeneration t L₀ InFlight₀ s →
      ProcessPagingWork.loop pWork es s = some s' →
      EvictionsBounded pWork.SyncPointGeneration t L₀ InFlight₀ s' := by
  intro es
  induction es with
  | nil => intro s s' _ _ h; simp [ProcessPagingWork.loop] at h
  | cons e es ih =>
    intro s s' hgate hs h
    unfold ProcessPagingWork.loop at h
    split at h
    · cases h
    · rename_i s1 h1
      cases h
      exact pagingIteration_EvictionsBounded t L₀ InFlight₀ pWork e s _ hcap
        (hgate e (List.mem_cons_self e es)) hs h1
    · rename_i s1 h1
      exact ih _ _ (fun e' he' => hgate e' (List.mem_cons_of_mem e he'))
        (pagingIteration_EvictionsBounded t L₀ InFlight₀ pWork e s _ hcap
          (hgate e (List.mem_cons_self e es)) hs h1) h

theorem beginPagingWork_EvictionsBounded (c : LRUCache) (InFlight : List DeviceWideSyncPoint)
    (pWork : AsyncWorkload) (env : PagingEnv) (hcap : c.ResidentObjectList.length < U32) :
    EvictionsBounded pWork.SyncPointGeneration env.CurrentTime c.ResidentObjectList InFlight
      (beginPagingWork c InFlight pWork env) := by
  obtain ⟨t1, t2, t3⟩ := TrimAged_StampedTail pWork.SyncPointGeneration env.CurrentTime
    env.EvictionGracePeriod c.ResidentObjectList (markObjects c pWork env.CurrentTime).LRU
    (DequeueCompletedSyncPoints env.Completed InFlight).2 hcap
    (markObjects_StampedTail c pWork env.CurrentTime)
  refine ⟨t1, DequeueCompletedSyncPoints_subset _ _, ?_⟩
  intro ev hev
  simp only [beginPagingWork] at hev
  split at hev
  · simp only [List.mem_singleton] at hev
    subst hev
    exact ⟨t2, t3⟩
  · simp at hev

theorem finalMakeResident_Log (e : IterationEnv) (A : Int) (l : List DeviceWideSyncPoint)
    (s s' : PagingState) (h : finalMakeResident e A l s = some s') :
    ∃ L, s'.Log = s.Log ++ L := by
  unfold finalMakeResident at h
  simp only at h
  split at h
  · cases h
  · cases h; exact ⟨_, rfl⟩

theorem waitAndTrim_Log (pWork : AsyncWorkload) (e : IterationEnv) (U B : Int)
    (l : List DeviceWideSyncPoint) (F : DeviceWideSyncPoint)
    (s s' : PagingState) (h : waitAndTrim pWork e U B l F s = some s') :
    ∃ L, s'.Log = s.Log ++ L := by
  unfold waitAndTrim at h
  simp only at h
  split at h
  · cases h
  · cases h; exact ⟨_, List.append_assoc _ _ _⟩

theorem trimOrFinish_Log (pWork : AsyncWorkload) (e : IterationEnv) (U B A : Int)
    (s : PagingState) (o : IterationOutcome) (h : trimOrFinish pWork e U B A s = some o) :
    ∃ L, o.state.Log = s.Log ++ L := by
  have hfin : ∀ l, (finalMakeResident e A l s).map IterationOutcome.exit = some o →
      ∃ L, o.state.Log = s.Log ++ L := by
    intro l hl
    simp only [Option.map_eq_some'] at hl
    obtain ⟨s', hs', rfl⟩ := hl
    exact finalMakeResident_Log e A l s s' hs'
  unfold trimOrFinish at h
  simp only at h
  split at h
  · exact hfin _ h
  · split at h
    · exact hfin _ h
    · split at h
      · exact hfin _ h
      · simp only [Option.map_eq_some'] at h
        obtain ⟨s', hs', rfl⟩ := h
        exact waitAndTrim_Log _ _ _ _ _ _ _ _ hs'

theorem pagingIteration_Log (pWork : AsyncWorkload) (e : IterationEnv) (s : PagingState)
    (o : IterationOutcome) (h : pagingIteration pWork e s = some o) :
    ∃ L, o.state.Log = s.Log ++ L := by
  unfold pagingIteration at h
  split at h
  · cases h
  · rename_i s1 hr hb
    have h1 : ∃ L, s1.Log = s.Log ++ L := by
      rcases boundedBatch_Log _ _ _ _ _ hb with hl | ⟨n, l, b, ctx, hl⟩
      · exact ⟨[], by rw [hl, List.append_nil]⟩
      · exact ⟨_, hl⟩
    obtain ⟨L1, hL1⟩ := h1
    split at h
    · obtain ⟨L2, hL2⟩ := trimOrFinish_Log _ _ _ _ _ _ _ h
      exact ⟨L1 ++ L2, by rw [hL2, hL1, List.append_assoc]⟩
    · cases h; exact ⟨L1, hL1⟩

theorem loop_Log (pWork : AsyncWorkload) :
    ∀ (es : List IterationEnv) (s s' : PagingState),
      ProcessPagingWork.loop pWork es s = some s' → ∃ L, s'.Log = s.Log ++ L := by
  intro es
  induction es with
  | nil => intro s s' h; simp [ProcessPagingWork.loop] at h
  | cons e es ih =>
    intro s s' h
    unfold ProcessPagingWork.loop at h
    split at h
    · cases h
    · rename_i s1 h1
      cases h
      exact pagingIteration_Log pWork e s _ h1
    · rename_i s1 h1
      obtain ⟨L1, hL1⟩ := pagingIteration_Log pWork e s _ h1
      obtain ⟨L2, hL2⟩ := ih _ _ h
      exact ⟨L1 ++ L2, by rw [hL2]; simp only [IterationOutcome.state] at hL1; rw [hL1, List.append_assoc]⟩

/-- The log of a pass that returns starts with the log written before the batching loop
and ends with the signal of the gate fence. -/
theorem ProcessPagingWork_Log (c : LRUCache) (InFlight : List DeviceWideSyncPoint)
    (pWork : AsyncWorkload) (env : PagingEnv) (r : PagingResult)
    (h : ProcessPagingWork c InFlight pWork env = some r) :
    ∃ L, r.Log = (beginPagingWork c InFlight pWork env).Log ++ L ++
      [PagingEvent.Signal pWork.FenceValueToSignal] := by
  obtain ⟨s, hs, _, _, hlog⟩ := ProcessPagingWork_some c InFlight pWork env r h
  rcases hs with ⟨_, hs⟩ | ⟨_, hs⟩
  · obtain ⟨L, hL⟩ := loop_Log pWork _ _ _ hs
    exact ⟨L, by rw [hlog, hL]⟩
  · exact ⟨[], by rw [hlog, hs, List.append_nil]⟩

theorem markObject_head (g t : Nat) (m : MarkState) (p o : Nat) (rest : List Nat)
    (hl : m.LRU.ResidentObjectList = o :: rest) (hne : p ≠ o) :
    (∃ rest', (markObject g t m p).LRU.ResidentObjectList = o :: rest') ∧
    (markObject g t m p).LRU.Objects o = m.LRU.Objects o := by
  have hne' : o ≠ p := Ne.symm hne
  by_cases hs : (m.LRU.Objects p).ResidencyStatus = RESIDENCY_STATUS.EVICTED
  · refine ⟨?_, ?_⟩
    · simp [markObject, hs, LRUCache.MakeResident, LRUCache.ObjectReferenced,
        LRUCache.RemoveEntryList, hl, List.erase_cons_tail, hne']
    · simp [markObject, hs, LRUCache.MakeResident, LRUCache.ObjectReferenced,
        LRUCache.RemoveEntryList, writeObject, hne']
  · refine ⟨?_, ?_⟩
    · simp [markObject, hs, LRUCache.ObjectReferenced, LRUCache.RemoveEntryList, hl,
        List.erase_cons_tail, hne']
    · simp [markObject, hs, LRUCache.ObjectReferenced, LRUCache.RemoveEntryList, writeObject,
        hne']

theorem markObjects_head (g t : Nat) (o : Nat) :
    ∀ (l : List Nat) (m : MarkState) (rest : List Nat),
      m.LRU.ResidentObjectList = o :: rest → o ∉ l →
      (∃ rest', (l.foldl (markObject g t) m).LRU.ResidentObjectList = o :: rest') ∧
      (l.foldl (markObject g t) m).LRU.Objects o = m.LRU.Objects o := by
  intro l
  induction l with
  | nil => intro m rest hl _; exact ⟨⟨rest, hl⟩, rfl⟩
  | cons a l ih =>
    intro m rest hl hn
    simp only [List.mem_cons, not_or] at hn
    obtain ⟨⟨r1, h1⟩, h2⟩ := markObject_head g t m a o rest hl (Ne.symm hn.1)
    obtain ⟨h3, h4⟩ := ih (markObject g t m a) r1 h1 hn.2
    simp only [List.foldl_cons]
    exact ⟨h3, h4.trans h2⟩

theorem GetCurrentEvictionGracePeriod_le (Period Min Max : Nat) (h : Min ≤ Max) :
    GetCurrentEvictionGracePeriod Period Min Max ≤ Max := by
  unfold GetCurrentEvictionGracePeriod RESIDENCY_MAX RESIDENCY_MIN
  split <;> split <;> omega

theorem status_evicted_keptByHeadEviction (o : Nat) :
    KeptByHeadEviction (fun c => (c.Objects o).ResidencyStatus = RESIDENCY_STATUS.EVICTED) := by
  intro c p rest h _
  simp only [Evict_Objects, markEvicted, List.mem_singleton]
  split
  · rfl
  · exact h

/-- The batch loop on entries that all fit: every entry is converted and counted, and the
loop ends without `break`. -/
theorem batchLoop_all_fit (O : Nat → ManagedObject) (A : Int) (hA : toUINT64 A < U64) :
    ∀ (E : List Nat) (pre post : List ResidentScratchSpace) (b : BatchState),
      b.pMakeResidentList = pre ++ E.map ResidentScratchSpace.pManagedObject ++ post →
      b.BatchSize + sizeSum O E ≤ toUINT64 A →
      batchLoop O A E.length pre.length b = some
        { b with
          BatchSize := b.BatchSize + sizeSum O E
          NumObjectsInBatch := incBy32 b.NumObjectsInBatch E.length
          ObjectsMadeResident := incBy32 b.ObjectsMadeResident E.length
          pMakeResidentList := pre ++ E.map (underlyingOf O) ++ post
          Batch := b.Batch ++ E } := by
  intro E
  induction E with
  | nil =>
    intro pre post b hl _
    obtain ⟨b1, b2, b3, b4, b5, b6⟩ := b
    simp only [List.map_nil, List.append_nil] at hl
    simp [batchLoop, incBy32, sizeSum, hl]
  | cons a E ih =>
    intro pre post b hl hfit
    rw [sizeSum_cons] at hfit
    have hget : b.pMakeResidentList[pre.length]? =
        some (ResidentScratchSpace.pManagedObject a) := by
      rw [hl, List.append_assoc, List.map_cons, List.cons_append,
        List.getElem?_append_right (Nat.le_refl _), Nat.sub_self, List.getElem?_cons_zero]
    have hno : ¬ add64 b.BatchSize (O a).Size > toUINT64 A := by
      unfold add64
      rw [Nat.mod_eq_of_lt (by omega)]
      omega
    have hadd : add64 b.BatchSize (O a).Size = b.BatchSize + (O a).Size := by
      unfold add64
      exact Nat.mod_eq_of_lt (by omega)
    have hset : b.pMakeResidentList.set pre.length
        (ResidentScratchSpace.pUnderlying (O a).pUnderlying) =
        (pre ++ [underlyingOf O a]) ++ E.map ResidentScratchSpace.pManagedObject ++ post := by
      rw [hl]
      simp [underlyingOf, List.set_append]
    simp only [List.length_cons, batchLoop, hget, if_neg hno]
    have hlen : pre.length + 1 = (pre ++ [underlyingOf O a]).length := by simp
    rw [hlen, ih (pre ++ [underlyingOf O a]) post _ hset (by simp only [hadd]; omega)]
    simp only [hadd, incBy32_succ, sizeSum_cons, List.map_cons, List.append_assoc,
      List.singleton_append, List.cons_append, List.nil_append, Nat.add_assoc]

/-- Marking objects that are all resident adds nothing to the make-resident list. -/
theorem markObjects_all_resident (g t : Nat) :
    ∀ (l : List Nat) (m : MarkState),
      (∀ p ∈ l, (m.LRU.Objects p).ResidencyStatus = RESIDENCY_STATUS.RESIDENT) →
      (l.foldl (markObject g t) m).pMakeResidentList = m.pMakeResidentList ∧
      (l.foldl (markObject g t) m).NumObjectsToMakeResident = m.NumObjectsToMakeResident := by
  intro l
  induction l with
  | nil => intro m _; exact ⟨rfl, rfl⟩
  | cons a l ih =>
    intro m h
    have ha : (m.LRU.Objects a).ResidencyStatus ≠ RESIDENCY_STATUS.EVICTED := by
      rw [h a (List.mem_cons_self a l)]; decide
    have hst : ∀ p ∈ l, ((markObject g t m a).LRU.Objects p).ResidencyStatus =
        RESIDENCY_STATUS.RESIDENT := by
      intro p hp
      have := h p (List.mem_cons_of_mem a hp)
      by_cases hpa : p = a
      · subst hpa
        simpa [markObject, ha, LRUCache.ObjectReferenced, LRUCache.RemoveEntryList, writeObject]
          using this
      · simpa [markObject, ha, LRUCache.ObjectReferenced, LRUCache.RemoveEntryList, writeObject,
          hpa] using this
    obtain ⟨h1, h2⟩ := ih (markObject g t m a) hst
    simp only [List.foldl_cons]
    rw [h1, h2]
    simp [markObject, ha]

/-- The marking loop on distinct objects puts the evicted ones on the make-resident list,
in order. -/
theorem markObjects_evicted (g t : Nat) :
    ∀ (l : List Nat) (m : MarkState), l.Nodup →
      (l.foldl (markObject g t) m).pMakeResidentList = m.pMakeResidentList ++
        (l.filter (fun p => decide ((m.LRU.Objects p).ResidencyStatus =
          RESIDENCY_STATUS.EVICTED))).map ResidentScratchSpace.pManagedObject ∧
      (l.foldl (markObject g t) m).NumObjectsToMakeResident =
        incBy32 m.NumObjectsToMakeResident
          (l.filter (fun p => decide ((m.LRU.Objects p).ResidencyStatus =
            RESIDENCY_STATUS.EVICTED))).length := by
  intro l
  induction l with
  | nil => intro m _; simp [incBy32]
  | cons a l ih =>
    intro m hnd
    obtain ⟨hal, hnd'⟩ := List.nodup_cons.mp hnd
    have hcongr : l.filter (fun p => decide (((markObject g t m a).LRU.Objects p).ResidencyStatus =
          RESIDENCY_STATUS.EVICTED)) =
        l.filter (fun p => decide ((m.LRU.Objects p).ResidencyStatus =
          RESIDENCY_STATUS.EVICTED)) := by
      apply List.filter_congr
      intro p hp
      have hpa : p ≠ a := fun e => hal (e ▸ hp)
      by_cases hs : (m.LRU.Objects a).ResidencyStatus = RESIDENCY_STATUS.EVICTED
      · simp [markObject, hs, LRUCache.MakeResident, LRUCache.ObjectReferenced,
          LRUCache.RemoveEntryList, writeObject, hpa]
      · simp [markObject, hs, LRUCache.ObjectReferenced, LRUCache.RemoveEntryList,
          writeObject, hpa]
    obtain ⟨h1, h2⟩ := ih (markObject g t m a) hnd'
    simp only [List.foldl_cons]
    rw [h1, h2, hcongr]
    by_cases hs : (m.LRU.Objects a).ResidencyStatus = RESIDENCY_STATUS.EVICTED
    · simp [markObject, hs, List.filter_cons, incBy32_succ]
    · simp [markObject, hs, List.filter_cons]

theorem sizeSum_SameSizes (O₀ O : Nat → ManagedObject) (h : SameSizes O₀ O) (l : List Nat) :
    sizeSum O l = sizeSum O₀ l := by
  unfold sizeSum
  congr 1
  apply List.map_congr_left
  intro p _
  exact (h p).1

theorem underlyingOf_SameSizes (O₀ O : Nat → ManagedObject) (h : SameSizes O₀ O) (l : List Nat) :
    l.map (underlyingOf O) = l.map (underlyingOf O₀) := by
  apply List.map_congr_left
  intro p _
  unfold underlyingOf
  rw [(h p).2]

theorem beginPagingWork_SameSizes (c : LRUCache) (InFlight : List DeviceWideSyncPoint)
    (pWork : AsyncWorkload) (env : PagingEnv) :
    SameSizes c.Objects (beginPagingWork c InFlight pWork env).LRU.Objects :=
  TrimAgedAllocations_keeps (fun c' => SameSizes c.Objects c'.Objects)
    (SameSizes_keptByHeadEviction c.Objects) _ _ [] 0 env.CurrentTime env.EvictionGracePeriod
    (markObjects_SameSizes c pWork env.CurrentTime)

/-- The first iteration of the batching loop when everything fits and the call succeeds:
one `MakeResident` for the whole list, and the loop is left. -/
theorem pagingIteration_all_fit (pWork : AsyncWorkload) (e : IterationEnv) (s : PagingState)
    (E : List Nat) (hlen : E.length < U32)
    (hl : s.pMakeResidentList = E.map ResidentScratchSpace.pManagedObject)
    (hn : s.NumObjectsToMakeResident = E.length)
    (hi : s.MakeResidentIndex = 0) (ho : s.ObjectsMadeResident = 0)
    (hpos : 0 < e.AvailableSpace)
    (hfit : (sizeSum s.LRU.Objects E : Int) ≤ e.AvailableSpace)
    (hok : e.BatchSucceeded = true) :
    ∃ s1, pagingIteration pWork e s = some (IterationOutcome.exit s1) ∧
      s1.LRU = s.LRU ∧ s1.InFlight = s.InFlight ∧
      s1.Log = s.Log ++ [PagingEvent.MakeResident E.length (E.map (underlyingOf s.LRU.Objects))
        true ⟨false, e.AvailableSpace, E⟩] := by
  have hA63 : e.AvailableSpace < 9223372036854775808 := by
    unfold IterationEnv.AvailableSpace; exact toINT64_lt _
  have hU := toUINT64_of_pos e.AvailableSpace hpos hA63
  have hA : toUINT64 e.AvailableSpace < U64 := by
    unfold U64; omega
  have hb := batchLoop_all_fit s.LRU.Objects e.AvailableSpace hA E [] []
    ⟨s.pMakeResidentList, s.MakeResidentIndex, 0, 0, s.ObjectsMadeResident, []⟩
    (by simp [hl]) (by simp only [Nat.zero_add]; omega)
  simp only [List.length_nil, List.nil_append, List.append_nil, Nat.zero_add, hi, ho,
    incBy32_zero_of_lt _ hlen] at hb
  refine ⟨{ s with
      pMakeResidentList := E.map (underlyingOf s.LRU.Objects)
      MakeResidentIndex := 0
      ObjectsMadeResident := E.length
      SizeToMakeResident := sub64 s.SizeToMakeResident (sizeSum s.LRU.Objects E)
      Log := s.Log ++ [PagingEvent.MakeResident E.length (E.map (underlyingOf s.LRU.Objects))
        true ⟨false, e.AvailableSpace, E⟩] }, ?_, rfl, rfl, rfl⟩
  unfold pagingIteration boundedBatch
  simp only [if_pos hpos, hn, hi, Nat.sub_zero, ho, hb, hok, if_true]
  simp

theorem makeResidentCalls_append (l₁ l₂ : List PagingEvent) :
    makeResidentCalls (l₁ ++ l₂) = makeResidentCalls l₁ ++ makeResidentCalls l₂ := by
  unfold makeResidentCalls
  exact List.filterMap_append _ _ _

theorem beginPagingWork_Log (c : LRUCache) (InFlight : List DeviceWideSyncPoint)
    (pWork : AsyncWorkload) (env : PagingEnv) :
    ((beginPagingWork c InFlight pWork env).Log = [] ∨
      (beginPagingWork c InFlight pWork env).Log =
        [PagingEvent.Evict
          ((markObjects c pWork env.CurrentTime).LRU.TrimAgedAllocations
            (DequeueCompletedSyncPoints env.Completed InFlight).2 [] 0 env.CurrentTime
            env.EvictionGracePeriod).NumObjectsToEvict
          ((markObjects c pWork env.CurrentTime).LRU.TrimAgedAllocations
            (DequeueCompletedSyncPoints env.Completed InFlight).2 [] 0 env.CurrentTime
            env.EvictionGracePeriod).EvictionList
          ⟨((markObjects c pWork env.CurrentTime).LRU.TrimAgedAllocations
              (DequeueCompletedSyncPoints env.Completed InFlight).2 [] 0 env.CurrentTime
              env.EvictionGracePeriod).Evicted,
            ((markObjects c pWork env.CurrentTime).LRU.TrimAgedAllocations
              (DequeueCompletedSyncPoints env.Completed InFlight).2 [] 0 env.CurrentTime
              env.EvictionGracePeriod).LRU.Objects,
            (DequeueCompletedSyncPoints env.Completed InFlight).1⟩]) ∧
    makeResidentCalls (beginPagingWork c InFlight pWork env).Log = [] := by
  simp only [beginPagingWork]
  split
  · exact ⟨Or.inr rfl, rfl⟩
  · exact ⟨Or.inl rfl, rfl⟩

/-- The outcome of the final `Device->MakeResident` reaches nothing outside the pass:
whatever it is, a round of the paging thread returns in the same cases and leaves the same
manager and the same cache, so an `ExecuteCommandLists` call made afterwards returns the
same result; and the pass ends by signalling the gate fence with the `FenceValueToSignal`
of the job. -/
theorem processNextWork_withFinal (m : ResidencyManager) (c : LRUCache) (env : PagingEnv)
    (f : Bool) (senv : Nat → SubsetEnv) (Queue : Nat)
    (lists : List (Nat × Option (List Nat))) :
    (m.processNextWork c (env.withFinal f)).map (fun r => (r.1, r.2.1)) =
      (m.processNextWork c env).map (fun r => (r.1, r.2.1)) ∧
    (m.processNextWork c (env.withFinal f)).map
        (fun r => (r.1.ExecuteCommandLists r.2.1.Objects senv Queue lists).2) =
      (m.processNextWork c env).map
        (fun r => (r.1.ExecuteCommandLists r.2.1.Objects senv Queue lists).2) ∧
    (∀ m' c' Log, m.processNextWork c env = some (m', c', some Log) →
      ∃ m1 currentHead pWork, m.DequeueAsyncWork = some (m1, some currentHead) ∧
        m1.AsyncWorkQueue[currentHead]? = some pWork ∧
        Log.getLast? = some (PagingEvent.Signal pWork.FenceValueToSignal)) := by
  have key : (m.processNextWork c (env.withFinal f)).map (fun r => (r.1, r.2.1)) =
      (m.processNextWork c env).map (fun r => (r.1, r.2.1)) := by
    unfold ResidencyManager.processNextWork
    cases m.DequeueAsyncWork with
    | none => rfl
    | some d =>
      obtain ⟨m1, idx⟩ := d
      cases idx with
      | none => rfl
      | some currentHead =>
        simp only
        cases m1.AsyncWorkQueue[currentHead]? with
        | none => rfl
        | some pWork =>
          simp only
          have hp := ProcessPagingWork_withFinal c m1.InFlightSyncPoints pWork env f
          cases h1 : ProcessPagingWork c m1.InFlightSyncPoints pWork env with
          | none =>
            rw [h1] at hp
            cases h2 : ProcessPagingWork c m1.InFlightSyncPoints pWork (env.withFinal f) with
            | none => rfl
            | some r => rw [h2] at hp; cases hp
          | some r =>
            rw [h1] at hp
            cases h2 : ProcessPagingWork c m1.InFlightSyncPoints pWork (env.withFinal f) with
            | none => rw [h2] at hp; cases hp
            | some r' =>
              rw [h2] at hp
              simp only [Option.map_some', Option.some.injEq, Prod.mk.injEq] at hp
              obtain ⟨e1, e2, e3⟩ := hp
              simp only [Option.map_some', e1, e2, e3]
  refine ⟨key, ?_, ?_⟩
  · have := congrArg (Option.map
      (fun (r : ResidencyManager × LRUCache) =>
        (r.1.ExecuteCommandLists r.2.Objects senv Queue lists).2)) key
    simpa only [Option.map_map, Function.comp_def] using this
  · intro m' c' Log h
    unfold ResidencyManager.processNextWork at h
    cases hd : m.DequeueAsyncWork with
    | none => rw [hd] at h; cases h
    | some d =>
      obtain ⟨m1, idx⟩ := d
      rw [hd] at h
      cases idx with
      | none => simp at h
      | some currentHead =>
        simp only at h
        cases hW : m1.AsyncWorkQueue[currentHead]? with
        | none => rw [hW] at h; cases h
        | some pWork =>
          rw [hW] at h
          simp only at h
          cases hP : ProcessPagingWork c m1.InFlightSyncPoints pWork env with
          | none => rw [hP] at h; cases h
          | some r =>
            rw [hP] at h
            simp only [Option.some.injEq, Prod.mk.injEq] at h
            obtain ⟨_, _, hL⟩ := h
            obtain ⟨s, _, _, _, hlog⟩ := ProcessPagingWork_some c _ pWork env r hP
            refine ⟨m1, currentHead, pWork, rfl, hW, ?_⟩
            rw [← hL, hlog, List.getLast?_append, List.getLast?_singleton]
            rfl

/-- Where no sync point of a generation later than the job's is waited to completion
during the pass, every object of the job's reference array is `RESIDENT`, is in the
resident list and has `LastGPUSyncPoint = g` when `ProcessPagingWork` returns. -/
theorem referenced_kept_of_gate (c : LRUCache) (InFlight : List DeviceWideSyncPoint)
    (pWork : AsyncWorkload) (env : PagingEnv) (r : PagingResult)
    (hgate : ∀ e ∈ env.Iterations, ∀ P ∈ InFlight,
      pWork.SyncPointGeneration < P.GenerationID →
        P.WaitForCompletion e.CompletedAfterWait = false)
    (hr : ProcessPagingWork c InFlight pWork env = some r) :
    ∀ o ∈ pWork.ppObjectsReferenced.take pWork.NumObjectsReferenced,
      (r.LRU.Objects o).ResidencyStatus = RESIDENCY_STATUS.RESIDENT ∧
      o ∈ r.LRU.ResidentObjectList ∧
      (r.LRU.Objects o).LastGPUSyncPoint = pWork.SyncPointGeneration := by
  have hmark : ∀ p ∈ pWork.ppObjectsReferenced.take pWork.NumObjectsReferenced,
      Referenced pWork.SyncPointGeneration env.CurrentTime
        (markObjects c pWork env.CurrentTime).LRU p :=
    fun p hp => markObjects_Referenced _ _ _ _ p (Or.inl hp)
  have haged := TrimAged_Referenced _ _ _ env.EvictionGracePeriod _
    (DequeueCompletedSyncPoints env.Completed InFlight).2 hmark
  obtain ⟨s, hs, hl, _, _⟩ := ProcessPagingWork_some c InFlight pWork env r hr
  have h0 : ReferencedKept (pWork.ppObjectsReferenced.take pWork.NumObjectsReferenced)
      pWork.SyncPointGeneration env.CurrentTime InFlight
      (beginPagingWork c InFlight pWork env) :=
    ⟨haged, DequeueCompletedSyncPoints_subset _ _⟩
  have hk : ReferencedKept (pWork.ppObjectsReferenced.take pWork.NumObjectsReferenced)
      pWork.SyncPointGeneration env.CurrentTime InFlight s := by
    rcases hs with ⟨_, hs⟩ | ⟨_, hs⟩
    · exact loop_ReferencedKept _ _ _ _ _ _ _ hgate h0 hs
    · rw [hs]; exact h0
  rw [hl]
  intro o ho
  obtain ⟨h1, h2, h3, _⟩ := hk.1 o ho
  exact ⟨h1, h2, h3⟩

/-- Where `NumResidentObjects` is the length of the resident list and no sync point of a
generation later than the job's is waited to completion during the pass,
`TrimAgedAllocations` and every `TrimToSyncPointInclusive` call write at most as many
entries as `pEvictionList` was allocated with, and every `Device->Evict` call is made with
the number of entries written. -/
theorem eviction_list_bounded_of_gate (c : LRUCache) (InFlight : List DeviceWideSyncPoint)
    (pWork : AsyncWorkload) (env : PagingEnv) (r : PagingResult)
    (hagg : c.NumResidentObjects = c.ResidentObjectList.length)
    (htyped : c.NumResidentObjects < U32)
    (hgate : ∀ e ∈ env.Iterations, ∀ P ∈ InFlight,
      pWork.SyncPointGeneration < P.GenerationID →
        P.WaitForCompletion e.CompletedAfterWait = false)
    (hr : ProcessPagingWork c InFlight pWork env = some r) :
    r.EvictionListLength = c.NumResidentObjects ∧
    ((markObjects c pWork env.CurrentTime).LRU.TrimAgedAllocations
        (DequeueCompletedSyncPoints env.Completed InFlight).2 [] 0 env.CurrentTime
        env.EvictionGracePeriod).EvictionList.length ≤ r.EvictionListLength ∧
    ∀ ev ∈ r.Log, ∀ n l ctx, ev = PagingEvent.Evict n l ctx →
      n = l.length ∧ l.length ≤ r.EvictionListLength := by
  have hcap : c.ResidentObjectList.length < U32 := by omega
  have hlen : r.EvictionListLength = c.NumResidentObjects := by
    unfold ProcessPagingWork at hr
    simp only at hr
    split at hr
    · cases hr
    · cases hr; rfl
  obtain ⟨s, hs, _, _, hlog⟩ := ProcessPagingWork_some c InFlight pWork env r hr
  have h0 := beginPagingWork_EvictionsBounded c InFlight pWork env hcap
  have hk : EvictionsBounded pWork.SyncPointGeneration env.CurrentTime c.ResidentObjectList
      InFlight s := by
    rcases hs with ⟨_, hs⟩ | ⟨_, hs⟩
    · exact loop_EvictionsBounded _ _ _ _ hcap _ _ _ hgate h0 hs
    · rw [hs]; exact h0
  refine ⟨hlen, ?_, ?_⟩
  · rw [hlen, hagg]
    exact (TrimAged_StampedTail pWork.SyncPointGeneration env.CurrentTime
      env.EvictionGracePeriod c.ResidentObjectList (markObjects c pWork env.CurrentTime).LRU
      (DequeueCompletedSyncPoints env.Completed InFlight).2 hcap
      (markObjects_StampedTail c pWork env.CurrentTime)).2.2
  · intro ev hev n l ctx he
    rw [hlog] at hev
    have hw := @within_append c.ResidentObjectList.length s.Log
      [PagingEvent.Signal pWork.FenceValueToSignal] hk.2.2
      (by
        intro ev' hev'
        simp only [List.mem_singleton] at hev'
        subst hev'; trivial) ev hev
    subst he
    rw [hlen, hagg]
    exact hw

/-- `WaitForSyncPoint` returns on a list of increasing generations that holds a point of
generation `SyncPointID` or above, when the wait for the point of generation
`SyncPointID` returns; it waits for that point if it is in the list, and when the head is
above `SyncPointID` it leaves the list as it is. -/
theorem WaitForSyncPoint_returns (S : Nat) (C : Nat → Nat) :
    ∀ l : List DeviceWideSyncPoint, GenerationsIncreasing l →
      (∃ P ∈ l, S ≤ P.GenerationID) →
      (∀ P ∈ l, P.GenerationID = S → P.WaitForCompletion C = true) →
      ∃ w, WaitForSyncPoint.walk S C l = some w ∧
        w.Waited = l.find? (fun P => decide (P.GenerationID = S)) ∧
        (∀ P rest, l = P :: rest → S < P.GenerationID → w = ⟨l, none⟩) := by
  intro l
  induction l with
  | nil => intro _ h _; obtain ⟨P, hP, _⟩ := h; cases hP
  | cons P rest ih =>
    intro hl hdom hwait
    obtain ⟨hh, hr⟩ := GenerationsIncreasing_head P rest hl
    simp only [WaitForSyncPoint.walk]
    by_cases hgt : P.GenerationID > S
    · rw [if_pos hgt]
      refine ⟨_, rfl, ?_, fun _ _ _ _ => rfl⟩
      symm
      rw [List.find?_eq_none]
      intro Q hQ
      rcases List.mem_cons.mp hQ with h | h
      · subst h; simp only [decide_eq_true_eq]; omega
      · have := hh Q h
        simp only [decide_eq_true_eq]; omega
    · rw [if_neg hgt]
      by_cases hlt : P.GenerationID < S
      · rw [if_pos hlt]
        have hdom' : ∃ Q ∈ rest, S ≤ Q.GenerationID := by
          obtain ⟨Q, hQ, hQS⟩ := hdom
          rcases List.mem_cons.mp hQ with h | h
          · subst h; omega
          · exact ⟨Q, h, hQS⟩
        obtain ⟨w, w1, w2, _⟩ := ih hr hdom'
          (fun Q hQ => hwait Q (List.mem_cons_of_mem P hQ))
        refine ⟨w, w1, ?_, ?_⟩
        · rw [w2, List.find?_cons_of_neg]
          simp only [decide_eq_true_eq]; omega
        · intro P' rest' he hS
          cases he
          omega
      · rw [if_neg hlt]
        have heq : P.GenerationID = S := by omega
        rw [if_pos (hwait P (List.mem_cons_self P rest) heq)]
        refine ⟨_, rfl, ?_, ?_⟩
        · rw [List.find?_cons_of_pos]
          simp only [decide_eq_true_eq]; exact heq
        · intro P' rest' he hS
          cases he
          omega

/-! ## The claims -/

/-- C1: during `ProcessPagingWork` no object is evicted while a sync point of a generation
at or below its `LastGPUSyncPoint` is in the in-flight list: at every `Device->Evict` each
evicted object has `LastGPUSyncPoint` below the generation of every in-flight sync point
(completed or not).  A sync point leaves the in-flight list during the pass only when it
has been seen completed, on all its queue fences, by `DequeueCompletedSyncPoints` or by
the wait; and every object the job references carries the generation of the job, the
latest submission that references it. -/
theorem no_eviction_while_in_flight (c : LRUCache) (InFlight : List DeviceWideSyncPoint)
    (pWork : AsyncWorkload) (env : PagingEnv) (r : PagingResult)
    (hsorted : GenerationsIncreasing InFlight)
    (hr : ProcessPagingWork c InFlight pWork env = some r) :
    (∀ ev ∈ r.Log, ev.EvictionSafe) ∧
    (∀ P ∈ InFlight, P ∉ r.InFlight → SeenCompleted env P) ∧
    (∀ o ∈ pWork.ppObjectsReferenced.take pWork.NumObjectsReferenced,
      (r.LRU.Objects o).LastGPUSyncPoint = pWork.SyncPointGeneration) := by
  have hstamp : ∀ o ∈ pWork.ppObjectsReferenced.take pWork.NumObjectsReferenced,
      (r.LRU.Objects o).LastGPUSyncPoint = pWork.SyncPointGeneration :=
    ProcessPagingWork_keeps _ (LastGPUSyncPoint_keptByHeadEviction _ _) c InFlight pWork env r hr
      (fun o ho => (markObjects_Referenced _ _ _ _ o (Or.inl ho)).2.2.1)
  obtain ⟨s, hs, _, hi, hl⟩ := ProcessPagingWork_some c InFlight pWork env r hr
  have h0 := beginPagingWork_EvictionsSafe c InFlight pWork env hsorted
  have hk : EvictionsSafe (SeenCompleted env) InFlight s := by
    rcases hs with ⟨_, hs⟩ | ⟨_, hs⟩
    · exact loop_EvictionsSafe (SeenCompleted env) InFlight pWork _ _ _
        (fun e he P hP => Or.inr ⟨e, he, hP⟩) h0 hs
    · rw [hs]; exact h0
  refine ⟨?_, ?_, hstamp⟩
  · rw [hl]
    apply mem_log_append hk.2.2.2
    intro ev hev
    simp only [List.mem_singleton] at hev
    subst hev; trivial
  · rw [hi]; exact hk.2.1

theorem no_eviction_while_in_flight_witness :
    ∃ r, GenerationsIncreasing [exampleP4, exampleP5] ∧
      ProcessPagingWork exampleCache [exampleP4, exampleP5] exampleWork exampleEnv = some r ∧
      (∀ ev ∈ r.Log, ev.EvictionSafe) ∧
      (∀ P ∈ [exampleP4, exampleP5], P ∉ r.InFlight → SeenCompleted exampleEnv P) ∧
      (∀ o ∈ exampleWork.ppObjectsReferenced.take exampleWork.NumObjectsReferenced,
        (r.LRU.Objects o).LastGPUSyncPoint = exampleWork.SyncPointGeneration) := by
  have hs : (ProcessPagingWork exampleCache [exampleP4, exampleP5] exampleWork
      exampleEnv).isSome = true := by decide
  obtain ⟨r, hr⟩ := Option.isSome_iff_exists.mp hs
  have hsorted : GenerationsIncreasing [exampleP4, exampleP5] := by
    unfold GenerationsIncreasing; decide
  exact ⟨r, hsorted, hr,
    no_eviction_while_in_flight exampleCache [exampleP4, exampleP5] exampleWork exampleEnv r
      hsorted hr⟩

/-- C2, on the code: the pass of a job can evict an object the job references.  `SetEvent`
fails in `EnqueueAsyncWork` for the submissions of generation 0 and 1, so their jobs are in
the ring but no gate wait is queued and no sync point is recorded for them, and the gate
fence is not incremented: the third submission waits for the same gate value 1 and records
the sync point of generation 2.  The pass for generation 0 signals 1, after which the GPU
may complete the third submission.  The pass for generation 1 marks its object 3 resident,
finds the sync point of generation 2 as the first uncompleted one, waits for it and trims
up to generation 2: object 3 is evicted, and when the pass returns it is `EVICTED` and in
the evicted list, with `LastGPUSyncPoint = 1`. -/
theorem referenced_object_evicted_by_own_pass :
    unsignalledSubmissions.History.map
        (fun r => (r.Workload.SyncPointGeneration, r.Workload.ppObjectsReferenced,
          r.Workload.FenceValueToSignal, r.EnqueueSucceeded, r.WaitValue)) =
      [(0, [1], 1, false, none), (1, [3], 1, false, none), (2, [1], 1, true, some 1)] ∧
    unsignalledSubmissions.InFlightSyncPoints = [⟨2, 1, [⟨0, 1⟩]⟩] ∧
    ((unsignalledSubmissions.processNextWork freshCache idleEnv).bind
        (fun r => r.2.2.map gateSignals)) = some [1] ∧
    unsignalledSecondPass.map
        (fun r => (r.1.SyncPointGeneration, r.1.ppObjectsReferenced, r.1.NumObjectsReferenced,
          waitedGenerations r.2.Log)) = some (1, [3], 1, [2]) ∧
    unsignalledSecondPass.map
        (fun r => ((r.2.LRU.Objects 3).ResidencyStatus, r.2.LRU.ResidentObjectList,
          r.2.LRU.EvictedObjectList, (r.2.LRU.Objects 3).LastGPUSyncPoint)) =
      some (RESIDENCY_STATUS.EVICTED, [], [1, 3], 1) := by
  refine ⟨by decide, by decide, by decide, by decide, by decide⟩

/-- C6: `TrimToSyncPointInclusive(CurrentUsage, CurrentBudget, SyncPoint)` evicts exactly the
longest prefix of the resident list in which every object has `LastGPUSyncPoint ≤ SyncPoint`
and the usage minus the sizes of the objects before it is `≥ CurrentBudget` in signed 64-bit
arithmetic; it returns their handles in order, marks exactly them `EVICTED` and leaves the
other resident objects resident in unchanged order. -/
theorem TrimToSyncPointInclusive_evicts_longest_prefix (Tracked : Nat → Prop) (c : LRUCache)
    (CurrentUsage CurrentBudget : Int) (SyncPoint : Nat) (hm : ListMembership Tracked c) :
    EvictsLongestPrefix c CurrentUsage CurrentBudget SyncPoint := by
  unfold EvictsLongestPrefix
  have hloop := TrimToSyncPointInclusive_loop_eq CurrentBudget SyncPoint
    c.ResidentObjectList.length c CurrentUsage [] 0 [] (Nat.le_refl _)
  obtain ⟨k1, k2, k3⟩ := trimCount_spec c.Objects CurrentBudget SyncPoint
    c.ResidentObjectList CurrentUsage
  have hsplit : c.ResidentObjectList =
      c.ResidentObjectList.take
          (trimCount c.Objects CurrentBudget SyncPoint CurrentUsage c.ResidentObjectList) ++
        c.ResidentObjectList.drop
          (trimCount c.Objects CurrentBudget SyncPoint CurrentUsage c.ResidentObjectList) :=
    (List.take_append_drop _ _).symm
  obtain ⟨f1, f2, f3, f4⟩ := foldl_Evict_prefix Tracked _ c _ hsplit hm
  refine ⟨trimCount c.Objects CurrentBudget SyncPoint CurrentUsage c.ResidentObjectList,
    k1, k2, k3, ?_, ?_, ?_, ?_, ?_, ?_, ?_, ?_, ?_, ?_⟩
  · simp [LRUCache.TrimToSyncPointInclusive, hloop]
  · simp [LRUCache.TrimToSyncPointInclusive, hloop]
  · simp only [LRUCache.TrimToSyncPointInclusive, hloop, incBy32]
    split
    · rename_i h0; rw [h0]; rfl
    · simp
  · intro hlen
    simp only [LRUCache.TrimToSyncPointInclusive, hloop, incBy32]
    split
    · rename_i h0; rw [h0]
    · simp only [Nat.zero_add]; exact Nat.mod_eq_of_lt (by omega)
  · simp only [LRUCache.TrimToSyncPointInclusive, hloop]; exact f1
  · simp only [LRUCache.TrimToSyncPointInclusive, hloop]; exact f2
  · simp only [LRUCache.TrimToSyncPointInclusive, hloop]; exact f3
  · intro p hp
    simp only [LRUCache.TrimToSyncPointInclusive, hloop]
    have hcnt : 1 ≤ (List.foldl LRUCache.Evict c (c.ResidentObjectList.take
        (trimCount c.Objects CurrentBudget SyncPoint CurrentUsage
          c.ResidentObjectList))).ResidentObjectList.count p := by
      rw [f1]; exact List.count_pos_iff.mpr hp
    rcases f4.counts p with ⟨_, ⟨hs, _, _⟩ | ⟨_, hr, _⟩⟩ | ⟨_, hr, _⟩
    · exact hs
    · omega
    · omega
  · intro hlt
    cases hR : c.ResidentObjectList with
    | nil => simp [trimCount]
    | cons p rest => simp [trimCount, hlt]
  · intro p hp
    obtain ⟨i, hi, hget⟩ := List.getElem_of_mem hp
    have hi' : i < trimCount c.Objects CurrentBudget SyncPoint CurrentUsage
        c.ResidentObjectList := by
      have := List.length_take_le
        (trimCount c.Objects CurrentBudget SyncPoint CurrentUsage c.ResidentObjectList)
        c.ResidentObjectList
      omega
    obtain ⟨o, ho, hg, _⟩ := k2 i hi'
    have : c.ResidentObjectList[i]? = some p := by
      rw [← hget, List.getElem_take]
      exact List.getElem?_eq_getElem _
    rw [this] at ho
    cases ho
    exact hg

theorem TrimToSyncPointInclusive_evicts_longest_prefix_witness :
    ListMembership exampleTracked exampleCache ∧ EvictsLongestPrefix exampleCache 100 95 9 :=
  ⟨exampleCache_membership,
    TrimToSyncPointInclusive_evicts_longest_prefix exampleTracked exampleCache 100 95 9
      exampleCache_membership⟩

/-- C7: `TrimAgedAllocations(gate, now, grace)` evicts exactly the longest prefix of the
resident list in which every object has `LastGPUSyncPoint < gate.GenerationID` and
`now - LastUsedTimestamp > grace`, stops at the first object that fails one of the two,
appends the evicted handles in walk order and leaves every other object untouched. -/
theorem TrimAgedAllocations_evicts_aged_prefix (Tracked : Nat → Prop) (c : LRUCache)
    (MaxSyncPoint : Option DeviceWideSyncPoint) (EvictionList : List Nat)
    (NumObjectsToEvict now grace : Nat) (hm : ListMembership Tracked c) :
    EvictsAgedPrefix c MaxSyncPoint EvictionList NumObjectsToEvict now grace := by
  unfold EvictsAgedPrefix
  have hloop := TrimAgedAllocations_loop_eq MaxSyncPoint now grace
    c.ResidentObjectList.length c EvictionList NumObjectsToEvict [] (Nat.le_refl _)
  have hsplit : c.ResidentObjectList =
      c.ResidentObjectList.takeWhile (agedOut c.Objects MaxSyncPoint now grace) ++
        c.ResidentObjectList.dropWhile (agedOut c.Objects MaxSyncPoint now grace) :=
    (List.takeWhile_append_dropWhile _ _).symm
  obtain ⟨f1, f2, f3, _⟩ := foldl_Evict_prefix Tracked _ c _ hsplit hm
  refine ⟨?_, ?_, ?_, ?_, ?_, ?_, ?_, ?_⟩
  · simp [LRUCache.TrimAgedAllocations, hloop]
  · intro gate hg p hp
    have h := List.mem_takeWhile_imp hp
    subst hg
    simpa [agedOut] using h
  · intro gate hg p hp
    have h := List.head?_dropWhile_not (agedOut c.Objects MaxSyncPoint now grace)
      c.ResidentObjectList
    rw [hp] at h
    subst hg
    simp only [agedOut, Bool.and_eq_true, decide_eq_true_eq, not_and, Option.all_some,
      Bool.not_eq_true', Bool.and_eq_false_iff, decide_eq_false_iff_not] at h
    omega
  · simp [LRUCache.TrimAgedAllocations, hloop]
  · intro hlt
    simp only [LRUCache.TrimAgedAllocations, hloop, incBy32]
    split
    · rename_i h0; rw [h0]; rfl
    · exact Nat.mod_eq_of_lt hlt
  · simp only [LRUCache.TrimAgedAllocations, hloop]; exact f1
  · simp only [LRUCache.TrimAgedAllocations, hloop]; exact f2
  · simp only [LRUCache.TrimAgedAllocations, hloop]; exact f3

theorem TrimAgedAllocations_evicts_aged_prefix_witness :
    ListMembership exampleTracked exampleCache ∧
    EvictsAgedPrefix exampleCache (some ⟨4, 0, []⟩) [] 0 1000 50 :=
  ⟨exampleCache_membership,
    TrimAgedAllocations_evicts_aged_prefix exampleTracked exampleCache (some ⟨4, 0, []⟩) [] 0
      1000 50 exampleCache_membership⟩

/-- C9 (amended): every `Device->MakeResident` call of `ProcessPagingWork` other than the
final call of the nothing-left-to-trim branch is issued with `AvailableSpace > 0` and for
objects whose total size, modulo `2^64`, is at most `AvailableSpace`, the 64-bit value
computed from the budgets queried in that iteration; the total size itself is at most
`AvailableSpace` when every size is below `2^63`.  This holds whether or not the call
succeeds. -/
theorem bounded_batches_within_available (c : LRUCache) (InFlight : List DeviceWideSyncPoint)
    (pWork : AsyncWorkload) (env : PagingEnv) (r : PagingResult)
    (hr : ProcessPagingWork c InFlight pWork env = some r) :
    ∀ ev ∈ r.Log, ev.BoundedWithinAvailable c.Objects env.Iterations := by
  obtain ⟨s, hs, _, _, hl⟩ := ProcessPagingWork_some c InFlight pWork env r hr
  have h0 : BatchesBounded c.Objects env.Iterations (beginPagingWork c InFlight pWork env) := by
    refine ⟨TrimAgedAllocations_keeps _ (SameSizes_keptByHeadEviction c.Objects) _ _ _ _ _ _
      (markObjects_SameSizes c pWork env.CurrentTime), ?_⟩
    intro ev hev
    simp only [beginPagingWork] at hev
    split at hev
    · simp only [List.mem_singleton] at hev; subst hev; trivial
    · simp at hev
  have hk : BatchesBounded c.Objects env.Iterations s := by
    rcases hs with ⟨_, hs⟩ | ⟨_, hs⟩
    · exact loop_BatchesBounded c.Objects env.Iterations pWork _ _ _ (fun e he => he) h0 hs
    · rw [hs]; exact h0
  rw [hl]
  apply log_append_bounded hk.2
  intro ev hev
  simp only [List.mem_singleton] at hev
  subst hev; trivial

/-- C9 as stated fails: with the budget used up (`AvailableSpace = 0`) and nothing left to
trim, the final `MakeResident` is issued for the evicted object of size 7 and succeeds. -/
theorem within_available_counterexample :
    ∃ r, ProcessPagingWork exampleCache [exampleP4, exampleP5] exampleWork exampleEnv = some r ∧
      makeResidentCalls r.Log =
        [(1, [ResidentScratchSpace.pUnderlying 103], true, ⟨true, 0, [3]⟩)] ∧
      sizeSum exampleCache.Objects [3] = 7 ∧
      ¬ ∀ ev ∈ r.Log, ev.WithinAvailable exampleCache.Objects := by
  have hs : (ProcessPagingWork exampleCache [exampleP4, exampleP5] exampleWork
      exampleEnv).isSome = true := by decide
  obtain ⟨r, hr⟩ := Option.isSome_iff_exists.mp hs
  have h1 : (ProcessPagingWork exampleCache [exampleP4, exampleP5] exampleWork
      exampleEnv).map (fun r => makeResidentCalls r.Log) =
      some [(1, [ResidentScratchSpace.pUnderlying 103], true, ⟨true, 0, [3]⟩)] := by decide
  have h2 : (ProcessPagingWork exampleCache [exampleP4, exampleP5] exampleWork
      exampleEnv).map (fun r => decide (∀ ev ∈ r.Log,
        ev.WithinAvailable exampleCache.Objects)) = some false := by decide
  rw [hr] at h1 h2
  simp only [Option.map_some', Option.some.injEq, decide_eq_false_iff_not] at h1 h2
  exact ⟨r, hr, h1, by decide, h2⟩

theorem bounded_batches_within_available_witness :
    ∃ r, ProcessPagingWork exampleCache [] exampleWork
        ⟨100, fun _ => 0, ⟨100, 10⟩, 50, [ampleIteration]⟩ = some r ∧
      makeResidentCalls r.Log =
        [(1, [ResidentScratchSpace.pUnderlying 103], true, ⟨false, 90, [3]⟩)] ∧
      ∀ ev ∈ r.Log, ev.BoundedWithinAvailable exampleCache.Objects [ampleIteration] := by
  have hs : (ProcessPagingWork exampleCache [] exampleWork
      ⟨100, fun _ => 0, ⟨100, 10⟩, 50, [ampleIteration]⟩).isSome = true := by decide
  obtain ⟨r, hr⟩ := Option.isSome_iff_exists.mp hs
  have h1 : (ProcessPagingWork exampleCache [] exampleWork
      ⟨100, fun _ => 0, ⟨100, 10⟩, 50, [ampleIteration]⟩).map
        (fun r => makeResidentCalls r.Log) =
      some [(1, [ResidentScratchSpace.pUnderlying 103], true, ⟨false, 90, [3]⟩)] := by decide
  rw [hr] at h1
  simp only [Option.map_some', Option.some.injEq] at h1
  exact ⟨r, hr, h1, bounded_batches_within_available exampleCache [] exampleWork
    ⟨100, fun _ => 0, ⟨100, 10⟩, 50, [ampleIteration]⟩ r hr⟩

/-- C10 (amended): with the budget held fixed, every batch a call of `ExecuteCommandLists`
passes to the queue (also when the call does not return) is a single command list, or the
sizes of the distinct objects of its residency sets, added modulo `2^64`, are at most the
sum modulo `2^64` of the local and the non-local budget; where neither sum reaches `2^64`
this is the comparison of the sums themselves.  The master set of a batch contains each
object once.  When the call returns, the batches are the command lists of the call in
order, and a call with one command list passes that list as one batch.  The recursion
needs no more depth than there are command lists. -/
theorem oversize_batch_splitting (Objects : Nat → ManagedObject) (env : Nat → SubsetEnv)
    (Queue LocalBudget NonLocalBudget : Nat) (m : ResidencyManager)
    (lists : List (Nat × Option (List Nat)))
    (hB : BudgetFixed env LocalBudget NonLocalBudget) :
    ∃ recs,
      (m.ExecuteCommandLists Objects env Queue lists).1.History = m.History ++ recs ∧
      (∀ r ∈ recs, BatchFitsMod Objects LocalBudget NonLocalBudget r ∧
        (LocalBudget + NonLocalBudget < U64 →
          sizeSum Objects (masterSet r.ResidencySets) < U64 →
          BatchFits Objects LocalBudget NonLocalBudget r) ∧
        (masterSet r.ResidencySets).Nodup) ∧
      ((m.ExecuteCommandLists Objects env Queue lists).2.isSome = true →
        (recs.map (fun r => r.CommandLists)).flatten = lists.map (fun l => l.1) ∧
        (recs.map (fun r => r.ResidencySets)).flatten = lists.map (fun l => l.2)) ∧
      (lists.length = 1 → (m.ExecuteCommandLists Objects env Queue lists).2.isSome = true →
        recs.map (fun r => (r.CommandLists, r.ResidencySets)) =
          [(lists.map (fun l => l.1), lists.map (fun l => l.2))]) ∧
      ∀ k, ResidencyManager.ExecuteSubset Objects env Queue (lists.length + k) m lists =
        m.ExecuteCommandLists Objects env Queue lists := by
  obtain ⟨recs, h1, h2, h3, h4⟩ :=
    ExecuteSubset_splits Objects env Queue LocalBudget NonLocalBudget hB lists.length m lists
  refine ⟨recs, h1, fun r hr => ⟨h2 r hr, ?_, (masterSet_spec _).1⟩, h3, h4,
    ExecuteSubset_fuel Objects env Queue m lists⟩
  intro hb hs
  rcases h2 r hr with h | h
  · exact Or.inl h
  · rw [Nat.mod_eq_of_lt hb, Nat.mod_eq_of_lt hs] at h
    exact Or.inr h

/-- C10 as stated fails: two command lists whose objects have sizes `2^64 - 1` and `1`
are passed to the queue as one batch under a budget of 100 bytes, because the 64-bit
total of the sizes is 0. -/
theorem oversize_batch_splitting_counterexample :
    ((ResidencyManager.Initialize 6).ExecuteCommandLists hugeObjects (fun _ => okEnv) 7
        [(10, some [1]), (11, some [2])]).1.History.map
      (fun r => (r.CommandLists, masterSet r.ResidencySets,
        sizeSum hugeObjects (masterSet r.ResidencySets),
        decide (BatchFits hugeObjects 100 0 r)))
      = [([10, 11], [1, 2], 18446744073709551616, false)] ∧
    ((ResidencyManager.Initialize 6).ExecuteCommandLists hugeObjects (fun _ => okEnv) 7
        [(10, some [1]), (11, some [2])]).2 = some true := by
  decide

theorem oversize_batch_splitting_witness :
    BudgetFixed (fun _ => smallBudgetEnv) 25 0 ∧
    ((ResidencyManager.Initialize 6).ExecuteCommandLists exampleObjects
        (fun _ => smallBudgetEnv) 7
        [(10, some [1, 2]), (11, some [3]), (12, some [3, 1])]).1.History.map
      (fun r => r.CommandLists) = [[10], [11, 12]] ∧
    ∃ recs,
      ((ResidencyManager.Initialize 6).ExecuteCommandLists exampleObjects
          (fun _ => smallBudgetEnv) 7
          [(10, some [1, 2]), (11, some [3]), (12, some [3, 1])]).1.History =
        (ResidencyManager.Initialize 6).History ++ recs ∧
      ∀ r ∈ recs, BatchFitsMod exampleObjects 25 0 r ∧
        (25 + 0 < U64 → sizeSum exampleObjects (masterSet r.ResidencySets) < U64 →
          BatchFits exampleObjects 25 0 r) ∧
        (masterSet r.ResidencySets).Nodup := by
  obtain ⟨recs, h1, h2, _⟩ := oversize_batch_splitting exampleObjects (fun _ => smallBudgetEnv)
    7 25 0 (ResidencyManager.Initialize 6)
    [(10, some [1, 2]), (11, some [3]), (12, some [3, 1])] (fun _ => ⟨rfl, rfl⟩)
  exact ⟨fun _ => ⟨rfl, rfl⟩, by decide, recs, h1, h2⟩

/-- C11: split coverage and order.  The recursion of `ExecuteSubset` on `Count` command
lists needs no more depth than `Count` (more fuel gives the same result), and the call can
fail to return only inside a submission that does not return (a wait in
`EnqueueAsyncWork`).  A call that splits has `Count > 1`, calls itself on the first
`Count / 2` lists and then on the remaining `Count - Count / 2`, both non-empty and
shorter than `Count`.  The batches passed to the queue, concatenated in call order, are
the command lists of the call with their residency sets, in the original order, each
once; they are a leading part of them while the call has not returned. -/
theorem split_coverage_and_order (Objects : Nat → ManagedObject) (env : Nat → SubsetEnv)
    (Queue : Nat) (m : ResidencyManager) (lists : List (Nat × Option (List Nat))) :
    (∀ k, ResidencyManager.ExecuteSubset Objects env Queue (lists.length + k) m lists =
      m.ExecuteCommandLists Objects env Queue lists) ∧
    SplitCovers env Queue m lists (m.ExecuteCommandLists Objects env Queue lists) ∧
    (needsSplit Objects (env m.Calls) lists = true →
      0 < lists.length / 2 ∧ lists.length / 2 < lists.length ∧
      (lists.take (lists.length / 2)).length = lists.length / 2 ∧
      (lists.drop (lists.length / 2)).length = lists.length - lists.length / 2 ∧
      0 < lists.length - lists.length / 2 ∧
      lists.length - lists.length / 2 < lists.length ∧
      ∀ fuel, ResidencyManager.ExecuteSubset Objects env Queue (fuel + 1) m lists =
        match ResidencyManager.ExecuteSubset Objects env Queue fuel
            { m with Calls := m.Calls + 1 } (lists.take (lists.length / 2)) with
        | (m1, none) => (m1, none)
        | (m1, some LowerHR) =>
          match ResidencyManager.ExecuteSubset Objects env Queue fuel m1
              (lists.drop (lists.length / 2)) with
          | (m2, none) => (m2, none)
          | (m2, some UpperHR) => (m2, some (LowerHR && UpperHR))) := by
  refine ⟨ExecuteSubset_fuel Objects env Queue m lists,
    ExecuteSubset_covers Objects env Queue lists.length m lists (Nat.le_refl _), ?_⟩
  intro hn
  have hlen := needsSplit_true Objects _ lists hn
  refine ⟨by omega, by omega, by rw [List.length_take]; omega, List.length_drop _ _,
    by omega, by omega, ?_⟩
  intro fuel
  rw [ResidencyManager.ExecuteSubset]
  simp only [hn, if_true]

theorem split_coverage_and_order_witness :
    needsSplit exampleObjects smallBudgetEnv
      [(10, some [1, 2]), (11, some [3]), (12, some [3, 1])] = true ∧
    ((ResidencyManager.Initialize 6).ExecuteCommandLists exampleObjects
        (fun _ => smallBudgetEnv) 7
        [(10, some [1, 2]), (11, some [3]), (12, some [3, 1])]).1.History.map batchOf =
      [[(10, some [1, 2])], [(11, some [3]), (12, some [3, 1])]] ∧
    ((ResidencyManager.Initialize 6).ExecuteCommandLists exampleObjects
        (fun _ => smallBudgetEnv) 7
        [(10, some [1, 2]), (11, some [3]), (12, some [3, 1])]).2 = some true ∧
    SplitCovers (fun _ => smallBudgetEnv) 7 (ResidencyManager.Initialize 6)
      [(10, some [1, 2]), (11, some [3]), (12, some [3, 1])]
      ((ResidencyManager.Initialize 6).ExecuteCommandLists exampleObjects
        (fun _ => smallBudgetEnv) 7
        [(10, some [1, 2]), (11, some [3]), (12, some [3, 1])]) ∧
    0 < 3 / 2 ∧ 3 / 2 < 3 :=
  have h := split_coverage_and_order exampleObjects (fun _ => smallBudgetEnv) 7
    (ResidencyManager.Initialize 6) [(10, some [1, 2]), (11, some [3]), (12, some [3, 1])]
  have hn : needsSplit exampleObjects smallBudgetEnv
      [(10, some [1, 2]), (11, some [3]), (12, some [3, 1])] = true := by decide
  ⟨hn, by decide, by decide, h.2.1, (h.2.2 hn).1, (h.2.2 hn).2.1⟩

/-- C12: the work-ring bound.  In every state reached from `Initialize` by calls of
`EnqueueAsyncWork` and `DequeueAsyncWork` that return, the 64-bit difference
`CurrentAsyncWorkloadTail - CurrentAsyncWorkloadHead` is at most
`MaxSoftwareQueueLatency`, and as long as fewer than `2^64` calls were made
`CurrentAsyncWorkloadTail ≥ CurrentAsyncWorkloadHead` and the difference of the two
numbers is at most `MaxSoftwareQueueLatency`.  `EnqueueAsyncWork` does not return while
the difference is `≥ MaxSoftwareQueueLatency`; when it returns the difference was below
`MaxSoftwareQueueLatency`, the job is in slot `Tail % AsyncWorkQueueSize`, the tail
index is advanced by one and the head index is unchanged. -/
theorem work_ring_bound (MaxLatency : Nat) (ops : List RingOp) (m' : ResidencyManager)
    (outs : List (Option AsyncWorkload))
    (h : (ResidencyManager.Initialize MaxLatency).ringRun ops = some (m', outs)) :
    sub64 m'.CurrentAsyncWorkloadTail m'.CurrentAsyncWorkloadHead ≤ m'.MaxSoftwareQueueLatency ∧
    (ops.length < U64 →
      m'.CurrentAsyncWorkloadHead ≤ m'.CurrentAsyncWorkloadTail ∧
      m'.CurrentAsyncWorkloadTail - m'.CurrentAsyncWorkloadHead ≤ m'.MaxSoftwareQueueLatency) ∧
    (∀ (refs : List Nat) (n v g : Nat) (ev : Bool),
      (m'.MaxSoftwareQueueLatency ≤
          sub64 m'.CurrentAsyncWorkloadTail m'.CurrentAsyncWorkloadHead →
        m'.EnqueueAsyncWork refs n v g ev = none) ∧
      (∀ m'' hr, m'.EnqueueAsyncWork refs n v g ev = some (m'', hr) →
        sub64 m'.CurrentAsyncWorkloadTail m'.CurrentAsyncWorkloadHead
          < m'.MaxSoftwareQueueLatency ∧
        m''.AsyncWorkQueue = m'.AsyncWorkQueue.set
          (m'.CurrentAsyncWorkloadTail % m'.AsyncWorkQueueSize) ⟨g, refs, n, v⟩ ∧
        m''.CurrentAsyncWorkloadTail = add64 m'.CurrentAsyncWorkloadTail 1 ∧
        m''.CurrentAsyncWorkloadHead = m'.CurrentAsyncWorkloadHead)) := by
  have hb := ringRun_RingBound ops _ m' outs (Initialize_RingBound MaxLatency) h
  refine ⟨hb.2.2, ?_, ?_⟩
  · intro hlen
    obtain ⟨o1, _⟩ := ringRun_ordered ops _ m' outs (Initialize_RingBound MaxLatency)
      (Nat.le_refl _) (by simpa [ResidencyManager.Initialize] using hlen) h
    have := hb.2.2
    rw [sub64_of_le _ _ o1 hb.2.1] at this
    exact ⟨o1, this⟩
  · intro refs n v g ev
    refine ⟨?_, ?_⟩
    · intro hfull
      unfold ResidencyManager.EnqueueAsyncWork
      rw [if_pos hfull]
    · intro m'' hr he
      obtain ⟨h1, _, h3, h4⟩ := EnqueueAsyncWork_some _ _ _ _ _ _ _ _ he
      obtain ⟨_, _, _, _, _, _, _, _, _, _, _, f12⟩ := EnqueueAsyncWork_frame _ _ _ _ _ _ _ _ he
      exact ⟨h1, h3, h4, f12⟩

theorem work_ring_bound_witness :
    ∃ m' outs, (ResidencyManager.Initialize 2).ringRun exampleRingOps = some (m', outs) ∧
      m'.MaxSoftwareQueueLatency = 2 ∧
      m'.CurrentAsyncWorkloadHead ≤ m'.CurrentAsyncWorkloadTail ∧
      m'.CurrentAsyncWorkloadTail - m'.CurrentAsyncWorkloadHead ≤ m'.MaxSoftwareQueueLatency := by
  have hs : ((ResidencyManager.Initialize 2).ringRun exampleRingOps).isSome = true := by decide
  obtain ⟨r, hr⟩ := Option.isSome_iff_exists.mp hs
  have hM : ((ResidencyManager.Initialize 2).ringRun exampleRingOps).map
      (fun r => r.1.MaxSoftwareQueueLatency) = some 2 := by decide
  rw [hr] at hM
  exact ⟨r.1, r.2, hr, by simpa using hM,
    (work_ring_bound 2 exampleRingOps r.1 r.2 hr).2.1 (by decide)⟩

/-- C13 (amended): the work ring is a FIFO queue.  For `MaxLatency < 2^32 - 1` and a
sequence of fewer than `2^64` calls of `EnqueueAsyncWork` and `DequeueAsyncWork` from
`Initialize` on, each of which returns (an `EnqueueAsyncWork` is made when there is
room), the `DequeueAsyncWork` calls return what an unbounded FIFO queue returns: the jobs
returned, followed by the jobs still pending, are the jobs enqueued, in enqueue order with
their four fields.  The tail index counts the jobs enqueued and the head index the jobs
dequeued; the slot of every pending job and of the job dequeued last holds that job; and
`DequeueAsyncWork` returns null if and only if the two indices are equal. -/
theorem work_ring_fifo (MaxLatency : Nat) (ops : List RingOp) (m' : ResidencyManager)
    (outs : List (Option AsyncWorkload))
    (hcap : MaxLatency + 1 < U32) (hlen : ops.length < U64)
    (h : (ResidencyManager.Initialize MaxLatency).ringRun ops = some (m', outs)) :
    outs = (fifoRun [] ops).2 ∧
    outs.filterMap id ++ (enqueued ops).drop m'.CurrentAsyncWorkloadHead = enqueued ops ∧
    m'.CurrentAsyncWorkloadTail = (enqueued ops).length ∧
    m'.CurrentAsyncWorkloadHead = (outs.filterMap id).length ∧
    (∀ i, m'.CurrentAsyncWorkloadHead ≤ i + 1 → i < m'.CurrentAsyncWorkloadTail →
      m'.AsyncWorkQueue[i % m'.AsyncWorkQueueSize]? = (enqueued ops)[i]?) ∧
    ((∃ m'', m'.DequeueAsyncWork = some (m'', none)) ↔
      m'.CurrentAsyncWorkloadHead = m'.CurrentAsyncWorkloadTail) := by
  have hmod : MaxLatency % U32 = MaxLatency := Nat.mod_eq_of_lt (by omega)
  have h0 := Initialize_RingHolds MaxLatency (by rw [hmod]; exact hcap)
  obtain ⟨⟨e1, e2, e3, e4, e5, e6⟩, i2, i3⟩ := ringRun_fifo ops _ m' [] outs h0
    (by simpa [ResidencyManager.Initialize] using hlen) h
  simp only [List.nil_append, List.drop_nil] at e3 e6 i2 i3
  have hout := fifoRun_outputs ops []
  rw [← i2, ← i3, List.nil_append] at hout
  refine ⟨i2, hout, e3.symm, ?_, e6, ?_⟩
  · have hl := congrArg List.length hout
    rw [List.length_append, List.length_drop] at hl
    omega
  · constructor
    · rintro ⟨m'', hd⟩
      rcases DequeueAsyncWork_some m' m'' none hd with ⟨h1, _, _⟩ | ⟨_, _, _, h4⟩
      · exact h1
      · cases h4
    · intro heq
      exact ⟨m', by unfold ResidencyManager.DequeueAsyncWork; rw [if_pos heq]⟩

/-- C13 as stated fails: with `MaxLatency = 2^32 - 1` the queue size `MaxLatency + 1` is
computed as 0, and an `EnqueueAsyncWork` made while the ring is empty does not return
(the slot index is a remainder modulo 0), where the FIFO queue hands the job on. -/
theorem work_ring_fifo_counterexample :
    (ResidencyManager.Initialize 4294967295).MaxSoftwareQueueLatency = 4294967295 ∧
    (ResidencyManager.Initialize 4294967295).AsyncWorkQueueSize = 0 ∧
    sub64 (ResidencyManager.Initialize 4294967295).CurrentAsyncWorkloadTail
        (ResidencyManager.Initialize 4294967295).CurrentAsyncWorkloadHead
      < (ResidencyManager.Initialize 4294967295).MaxSoftwareQueueLatency ∧
    ((ResidencyManager.Initialize 4294967295).ringRun
      [RingOp.Enqueue ⟨0, [1], 1, 1⟩ true, RingOp.Dequeue]).isSome = false ∧
    (fifoRun [] [RingOp.Enqueue ⟨0, [1], 1, 1⟩ true, RingOp.Dequeue]).2 =
      [some ⟨0, [1], 1, 1⟩] := by
  decide

theorem work_ring_fifo_witness :
    ∃ m' outs, (ResidencyManager.Initialize 2).ringRun exampleRingOps = some (m', outs) ∧
      outs = [some ⟨0, [1], 1, 1⟩, some ⟨1, [2, 3], 2, 2⟩, some ⟨2, [], 0, 3⟩, none] ∧
      outs = (fifoRun [] exampleRingOps).2 ∧
      outs.filterMap id ++ (enqueued exampleRingOps).drop m'.CurrentAsyncWorkloadHead =
        enqueued exampleRingOps := by
  have hs : ((ResidencyManager.Initialize 2).ringRun exampleRingOps).isSome = true := by decide
  obtain ⟨r, hr⟩ := Option.isSome_iff_exists.mp hs
  have ho : ((ResidencyManager.Initialize 2).ringRun exampleRingOps).map (fun r => r.2) =
      some [some ⟨0, [1], 1, 1⟩, some ⟨1, [2, 3], 2, 2⟩, some ⟨2, [], 0, 3⟩, none] := by decide
  rw [hr] at ho
  have hw := work_ring_fifo 2 exampleRingOps r.1 r.2 (by decide) (by decide) hr
  exact ⟨r.1, r.2, hr, by simpa using ho, hw.1, hw.2.1⟩

/-- C14: in every state reached from `Initialize` by calls of `ExecuteCommandLists`
(whose leaves are the `ExecuteSubset` submissions), `DequeueCompletedSyncPoints`,
`WaitForSyncPoint` and the other steps of the paging thread (`DequeueAsyncWork`, the end
of `ProcessPagingWork`), with fewer than `2^64` submissions in all, the
`GenerationID`s of the sync points in the in-flight list increase strictly from head to
tail, and all are below `CurrentSyncPointGeneration`. -/
theorem in_flight_generations_increasing (MaxLatency : Nat) (steps : List ManagerStep)
    (m : ResidencyManager) (hcap : submissionsOf steps < U64)
    (h : (ResidencyManager.Initialize MaxLatency).run steps = some m) :
    GenerationsIncreasing m.InFlightSyncPoints ∧
    ∀ P ∈ m.InFlightSyncPoints, P.GenerationID < m.CurrentSyncPointGeneration := by
  have h0 : SyncPointsOrdered (0 + submissionsOf steps) (ResidencyManager.Initialize MaxLatency) := by
    refine ⟨?_, ?_, ?_⟩
    · simp [GenerationsIncreasing, ResidencyManager.Initialize]
    · simp [ResidencyManager.Initialize]
    · simpa [ResidencyManager.Initialize] using hcap
  obtain ⟨h1, h2, _⟩ := SyncPointsOrdered_run steps _ m 0 h0 h
  exact ⟨h1, h2⟩

theorem in_flight_generations_increasing_witness :
    ∃ m, (ResidencyManager.Initialize 6).run exampleSteps = some m ∧
      m.InFlightSyncPoints.map (fun P => P.GenerationID) = [2] ∧
      m.CurrentSyncPointGeneration = 3 ∧
      GenerationsIncreasing m.InFlightSyncPoints := by
  have hs : ((ResidencyManager.Initialize 6).run exampleSteps).isSome = true := by decide
  obtain ⟨m, hm⟩ := Option.isSome_iff_exists.mp hs
  have hg : ((ResidencyManager.Initialize 6).run exampleSteps).map
      (fun m => (m.InFlightSyncPoints.map (fun P => P.GenerationID),
        m.CurrentSyncPointGeneration)) = some ([2], 3) := by decide
  rw [hm] at hg
  simp only [Option.map_some', Option.some.injEq, Prod.mk.injEq] at hg
  exact ⟨m, hm, hg.1, hg.2,
    (in_flight_generations_increasing 6 exampleSteps m (by decide) hm).1⟩

/-- C15: `WaitForSyncPoint(id)` on the calls the program makes.  For every in-flight list
with strictly increasing generations that is empty or holds a point of generation `id` or
above, when the wait for the point of generation `id` (if there is one) returns, the call
returns and leaves exactly the points of generation above `id`, in their order; the point
waited for is the one of generation `id`, if present, and when the head is already above
`id` the list is unchanged and nothing is waited for; on such a list the call fails to
return only when that wait does not return.  The only call of the function, in
the trimming branch of `ProcessPagingWork`, is of this kind: it passes the list whose head
is the first uncompleted sync point and `GenerationToWaitFor`, which is the generation of
that head or one less.  (On a list with every generation below `id` the loop goes on to
read the list head itself as a sync point; what it finds there is a matter of the layout
of `ResidencyManager`.) -/
theorem WaitForSyncPoint_leaves_later_points :
    (∀ (S : Nat) (C : Nat → Nat) (l : List DeviceWideSyncPoint),
      GenerationsIncreasing l →
      (l = [] ∨ ∃ P ∈ l, S ≤ P.GenerationID) →
      (∀ P ∈ l, P.GenerationID = S → P.WaitForCompletion C = true) →
      ∃ w, WaitForSyncPoint S C l = some w ∧
        w.InFlight = l.filter (fun P => decide (S < P.GenerationID)) ∧
        w.Waited = l.find? (fun P => decide (P.GenerationID = S)) ∧
        (∀ P rest, l = P :: rest → S < P.GenerationID → w = ⟨l, none⟩)) ∧
    (∀ (S : Nat) (C : Nat → Nat) (l : List DeviceWideSyncPoint),
      GenerationsIncreasing l →
      (l = [] ∨ ∃ P ∈ l, S ≤ P.GenerationID) →
      WaitForSyncPoint S C l = none →
      ∃ P ∈ l, P.GenerationID = S ∧ P.WaitForCompletion C = false) ∧
    (∀ (pWork : AsyncWorkload) (e : IterationEnv) (U B A : Int) (s : PagingState)
      (pHead : Nat) (First : DeviceWideSyncPoint),
      s.LRU.GetResidentListHead = some pHead →
      (s.LRU.Objects pHead).LastGPUSyncPoint < pWork.SyncPointGeneration →
      (DequeueCompletedSyncPoints e.Completed s.InFlight).2 = some First →
      ∃ rest, (DequeueCompletedSyncPoints e.Completed s.InFlight).1 = First :: rest ∧
        trimOrFinish pWork e U B A s =
          (waitAndTrim pWork e U B (First :: rest) First s).map IterationOutcome.again ∧
        GenerationToWaitFor pWork First ≤ First.GenerationID) := by
  have hret : ∀ (S : Nat) (C : Nat → Nat) (l : List DeviceWideSyncPoint),
      GenerationsIncreasing l →
      (l = [] ∨ ∃ P ∈ l, S ≤ P.GenerationID) →
      (∀ P ∈ l, P.GenerationID = S → P.WaitForCompletion C = true) →
      ∃ w, WaitForSyncPoint S C l = some w ∧
        w.InFlight = l.filter (fun P => decide (S < P.GenerationID)) ∧
        w.Waited = l.find? (fun P => decide (P.GenerationID = S)) ∧
        (∀ P rest, l = P :: rest → S < P.GenerationID → w = ⟨l, none⟩) := by
    intro S C l hl hdom hwait
    cases l with
    | nil =>
      exact ⟨⟨[], none⟩, rfl, rfl, rfl, fun P rest he _ => by cases he⟩
    | cons P rest =>
      have hd : ∃ Q ∈ P :: rest, S ≤ Q.GenerationID := by
        rcases hdom with h | h
        · cases h
        · exact h
      obtain ⟨w, w1, w2, w3⟩ := WaitForSyncPoint_returns S C (P :: rest) hl hd hwait
      have hw : WaitForSyncPoint S C (P :: rest) = some w := w1
      exact ⟨w, hw, (WaitForSyncPoint_spec S C (P :: rest) w hl hw).1, w2, w3⟩
  refine ⟨hret, ?_, ?_⟩
  · intro S C l hl hdom hnone
    by_contra hcon
    have hwait : ∀ P ∈ l, P.GenerationID = S → P.WaitForCompletion C = true := by
      intro P hP hS
      cases hc : P.WaitForCompletion C with
      | true => rfl
      | false => exact absurd ⟨P, hP, hS, hc⟩ hcon
    obtain ⟨w, hw, _⟩ := hret S C l hl hdom hwait
    rw [hnone] at hw
    cases hw
  · intro pWork e U B A s pHead First hhead hlt hF
    obtain ⟨rest, hrest⟩ := DequeueCompletedSyncPoints_head _ _ _ hF
    refine ⟨rest, hrest, ?_, ?_⟩
    · unfold trimOrFinish
      simp only [hhead, hF, hrest]
      rw [if_neg (by omega)]
    · unfold GenerationToWaitFor
      split
      · rename_i heq
        have := sub64_one_lt First.GenerationID (by omega)
        omega
      · exact Nat.le_refl _

theorem WaitForSyncPoint_leaves_later_points_witness :
    GenerationsIncreasing [exampleP4, exampleP5] ∧
    (∃ P ∈ [exampleP4, exampleP5], 4 ≤ P.GenerationID) ∧
    (∀ P ∈ [exampleP4, exampleP5], P.GenerationID = 4 →
      P.WaitForCompletion (fun _ => 7) = true) ∧
    ∃ w, WaitForSyncPoint 4 (fun _ => 7) [exampleP4, exampleP5] = some w ∧
      w.InFlight = [exampleP5] ∧ w.Waited = some exampleP4 := by
  have hl : GenerationsIncreasing [exampleP4, exampleP5] := by
    unfold GenerationsIncreasing; decide
  have hd : ∃ P ∈ [exampleP4, exampleP5], 4 ≤ P.GenerationID :=
    ⟨exampleP4, List.mem_cons_self _ _, by decide⟩
  have hw : ∀ P ∈ [exampleP4, exampleP5], P.GenerationID = 4 →
      P.WaitForCompletion (fun _ => 7) = true := by decide
  obtain ⟨w, w1, w2, w3, _⟩ := WaitForSyncPoint_leaves_later_points.1 4 (fun _ => 7)
    [exampleP4, exampleP5] hl (Or.inr hd) hw
  exact ⟨hl, hd, hw, w, w1, w2, w3⟩

/-- C16: `DequeueCompletedSyncPoints` removes the maximal leading run of completed sync
points: what it leaves is the list from the first uncompleted point on, in unchanged
order, it returns that point, which is the new head, and it returns null if and only if
every point of the list was completed, in which case the list is left empty. -/
theorem DequeueCompletedSyncPoints_removes_completed_run (Completed : Nat → Nat)
    (InFlight : List DeviceWideSyncPoint) :
    (DequeueCompletedSyncPoints Completed InFlight).1 =
      InFlight.dropWhile (fun P => P.IsCompleted Completed) ∧
    InFlight = InFlight.takeWhile (fun P => P.IsCompleted Completed) ++
      (DequeueCompletedSyncPoints Completed InFlight).1 ∧
    (∀ P ∈ InFlight.takeWhile (fun P => P.IsCompleted Completed),
      P.IsCompleted Completed = true) ∧
    (DequeueCompletedSyncPoints Completed InFlight).2 =
      (DequeueCompletedSyncPoints Completed InFlight).1.head? ∧
    (∀ F, (DequeueCompletedSyncPoints Completed InFlight).2 = some F →
      F.IsCompleted Completed = false) ∧
    ((DequeueCompletedSyncPoints Completed InFlight).2 = none ↔
      ∀ P ∈ InFlight, P.IsCompleted Completed = true) ∧
    ((DequeueCompletedSyncPoints Completed InFlight).2 = none →
      (DequeueCompletedSyncPoints Completed InFlight).1 = []) := by
  have hdrop : (DequeueCompletedSyncPoints Completed InFlight).1 =
      InFlight.dropWhile (fun P => P.IsCompleted Completed) := by
    induction InFlight with
    | nil => rfl
    | cons P rest ih =>
      by_cases hc : P.IsCompleted Completed = true
      · simp only [DequeueCompletedSyncPoints, hc, if_true, List.dropWhile_cons_of_pos]
        exact ih
      · rw [List.dropWhile_cons_of_neg (by simpa using hc)]
        simp [DequeueCompletedSyncPoints, hc]
  obtain ⟨_, h2, h3⟩ := DequeueCompletedSyncPoints_spec Completed InFlight
  have hnil : (DequeueCompletedSyncPoints Completed InFlight).2 = none →
      (DequeueCompletedSyncPoints Completed InFlight).1 = [] := by
    intro hn
    rw [h2] at hn
    cases hd : (DequeueCompletedSyncPoints Completed InFlight).1 with
    | nil => rfl
    | cons a t => rw [hd] at hn; cases hn
  refine ⟨hdrop, by rw [hdrop, List.takeWhile_append_dropWhile],
    fun P hP => List.mem_takeWhile_imp hP, h2, h3, ?_, hnil⟩
  constructor
  · intro hn
    have h0 := hnil hn
    rw [hdrop, List.dropWhile_eq_nil_iff] at h0
    exact h0
  · intro hall
    rw [h2, hdrop, (List.dropWhile_eq_nil_iff).mpr hall]
    rfl

theorem DequeueCompletedSyncPoints_removes_completed_run_witness :
    DequeueCompletedSyncPoints (fun _ => 8) [exampleP4, exampleP5] = ([exampleP5], some exampleP5) ∧
    (DequeueCompletedSyncPoints (fun _ => 8) [exampleP4, exampleP5]).1 =
      [exampleP4, exampleP5].dropWhile (fun P => P.IsCompleted (fun _ => 8)) :=
  ⟨by decide,
    (DequeueCompletedSyncPoints_removes_completed_run (fun _ => 8) [exampleP4, exampleP5]).1⟩

/-- C17: the sync point a submission appends through `EnqueueSyncPoint` has the current
sync-point generation, which is the generation of the job enqueued by the same
submission, and one `QueueSyncPoint` per fence of the queue-fence list: its
`NumQueueSyncPoints` is `NumQueuesSeen`, which is the number of fences (as a `UINT32`; the
number itself while there are fewer than `2^32`), there is at least one fence, the entry
`i` is the fence `i` with `FenceValue - 1`, and the entry of the fence of the submitting
queue holds the value the submission signalled on that queue.  The hypothesis is the
invariant of the queue fences, which holds after `Initialize` and is kept. -/
theorem sync_point_captures_fences (n : Nat) (m m' : ResidencyManager) (e : SubsetEnv)
    (Queue : Nat) (lists : List (Nat × Option (List Nat))) (hr : Bool)
    (h : FencesInv (n + 1) m) (hs : m.submit e Queue lists = some (m', hr)) :
    FencesInv n m' ∧
    ∃ rec : SubmissionRecord,
      m'.History = m.History ++ [rec] ∧
      ∀ P, rec.SyncPoint = some P →
        m'.InFlightSyncPoints = m.InFlightSyncPoints ++ [P] ∧
        P.GenerationID = m.CurrentSyncPointGeneration ∧
        P.GenerationID = rec.Workload.SyncPointGeneration ∧
        P.NumQueueSyncPoints = m'.NumQueuesSeen ∧
        m'.NumQueuesSeen = m'.QueueFences.length % U32 ∧
        (m'.QueueFences.length < U32 → P.NumQueueSyncPoints = m'.QueueFences.length) ∧
        1 ≤ m'.QueueFences.length ∧
        P.pQueueSyncPoints.length = m'.QueueFences.length ∧
        (∀ (i : Nat) (F : Fence), m'.QueueFences[i]? = some F →
          P.pQueueSyncPoints[i]? = some ⟨i, F.FenceValue - 1⟩) ∧
        ∃ qf v, rec.Signal = some (qf, v) ∧
          (m.QueuePrivateData Queue = some qf ∨
            (m.QueuePrivateData Queue = none ∧ qf = m.QueueFences.length)) ∧
          P.pQueueSyncPoints[qf]? = some ⟨qf, v⟩ := by
  obtain ⟨hinv, _, hpos, rec, r1, r2, r3, r4⟩ := submit_FencesInv n m m' e Queue lists hr h hs
  refine ⟨hinv, rec, r1, ?_⟩
  intro P hP
  obtain ⟨p1, p2, p3, qf, v, p4, p5, F', p6, p7⟩ := r4 P hP
  have hentry : ∀ (i : Nat) (F : Fence), m'.QueueFences[i]? = some F →
      P.pQueueSyncPoints[i]? = some ⟨i, F.FenceValue - 1⟩ := by
    intro i F hF
    obtain ⟨c1, c2⟩ := hinv.2.2.1 F (List.mem_iff_getElem?.mpr ⟨i, hF⟩)
    rw [p3, captureQueueSyncPoints_getElem?, hF, Option.map_some',
      sub64_one_of_pos _ c1 (by omega)]
  refine ⟨by rw [r3, hP]; rfl, p1, by rw [p1, r2], p2, hinv.1, ?_, hpos,
    by rw [p3, captureQueueSyncPoints_length], hentry, qf, v, p4, p5, ?_⟩
  · intro hlt
    rw [p2, hinv.1, Nat.mod_eq_of_lt hlt]
  · rw [hentry qf F' p6, p7, Nat.add_sub_cancel]

theorem sync_point_captures_fences_witness :
    ∃ m' hr, FencesInv 1 (ResidencyManager.Initialize 6) ∧
      (ResidencyManager.Initialize 6).submit okEnv 7 [(1, some [2])] = some (m', hr) ∧
      m'.InFlightSyncPoints = [⟨0, 1, [⟨0, 1⟩]⟩] ∧
      m'.History.map (fun r => r.Signal) = [some (0, 1)] ∧
      FencesInv 0 m' := by
  have hs : ((ResidencyManager.Initialize 6).submit okEnv 7 [(1, some [2])]).isSome = true := by
    decide
  obtain ⟨r, hr⟩ := Option.isSome_iff_exists.mp hs
  have hv : ((ResidencyManager.Initialize 6).submit okEnv 7 [(1, some [2])]).map
      (fun r => (r.1.InFlightSyncPoints, r.1.History.map (fun r => r.Signal))) =
      some ([⟨0, 1, [⟨0, 1⟩]⟩], [some (0, 1)]) := by decide
  rw [hr] at hv
  simp only [Option.map_some', Option.some.injEq, Prod.mk.injEq] at hv
  have h0 := Initialize_FencesInv 6 1 (by decide)
  exact ⟨r.1, r.2, h0, hr, hv.1, hv.2,
    (sync_point_captures_fences 0 (ResidencyManager.Initialize 6) r.1 okEnv 7
      [(1, some [2])] r.2 h0 hr).1⟩

/-- C18: sync-point completion is monotone in generation.  In every state reached from
`Initialize` with fewer than `2^64 - 1` submissions and fewer than `2^32` queue fences,
of two sync points recorded by `EnqueueSyncPoint` the later one captures every queue
fence the earlier one captures, with a `LastUsedValue` that is not smaller; so for any
completed values of the fences, the later one completed implies the earlier one
completed. -/
theorem sync_point_completion_monotone (MaxLatency : Nat) (steps : List ManagerStep)
    (m : ResidencyManager) (hcap : submissionsOf steps + 1 < U64)
    (hq : m.QueueFences.length < U32)
    (h : (ResidencyManager.Initialize MaxLatency).run steps = some m) :
    m.History.Pairwise (fun a b =>
      ∀ P Q, a.SyncPoint = some P → b.SyncPoint = some Q →
        Dominates P Q ∧ ∀ C, Q.IsCompleted C = true → P.IsCompleted C = true) := by
  have h0 : SyncPointsCaptured (0 + submissionsOf steps)
      (ResidencyManager.Initialize MaxLatency) := by
    refine ⟨Initialize_FencesInv MaxLatency _ (by omega), fun _ => ⟨?_, ?_⟩⟩
    · intro rec hrec; simp [ResidencyManager.Initialize] at hrec
    · simp [ResidencyManager.Initialize]
  obtain ⟨_, hc⟩ := SyncPointsCaptured_run steps _ m 0 h0 h
  refine (hc hq).2.imp ?_
  intro a b hab P Q hP hQ
  exact ⟨hab P Q hP hQ, fun C hC => Dominates_completed P Q C (hab P Q hP hQ) hC⟩

theorem sync_point_completion_monotone_witness :
    ∃ m, (ResidencyManager.Initialize 6).run exampleSteps = some m ∧
      m.History.map (fun r => r.SyncPoint) =
        [some ⟨0, 1, [⟨0, 1⟩]⟩, some ⟨1, 1, [⟨0, 2⟩]⟩, some ⟨2, 2, [⟨0, 2⟩, ⟨1, 1⟩]⟩] ∧
      m.History.Pairwise (fun a b =>
        ∀ P Q, a.SyncPoint = some P → b.SyncPoint = some Q →
          Dominates P Q ∧ ∀ C, Q.IsCompleted C = true → P.IsCompleted C = true) := by
  have hs : ((ResidencyManager.Initialize 6).run exampleSteps).isSome = true := by decide
  obtain ⟨m, hm⟩ := Option.isSome_iff_exists.mp hs
  have hv : ((ResidencyManager.Initialize 6).run exampleSteps).map
      (fun m => (m.History.map (fun r => r.SyncPoint), m.QueueFences.length)) =
      some ([some ⟨0, 1, [⟨0, 1⟩]⟩, some ⟨1, 1, [⟨0, 2⟩]⟩,
        some ⟨2, 2, [⟨0, 2⟩, ⟨1, 1⟩]⟩], 2) := by decide
  rw [hm] at hv
  simp only [Option.map_some', Option.some.injEq, Prod.mk.injEq] at hv
  exact ⟨m, hm, hv.1,
    sync_point_completion_monotone 6 exampleSteps m (by decide)
      (by rw [hv.2]; decide) hm⟩

/-- C19: generation matches ring order.  In every state reached from `Initialize` with
fewer than `2^64` submissions, the sync-point generation counter is the number of leaf
submissions made so far, the job enqueued by leaf submission `i` has generation `i` and so
has the sync point recorded by the same submission, and the jobs pending in the work ring
are in strictly increasing generation order.  A further call of `ExecuteCommandLists`
that makes `k` leaf submissions uses the `k` generations from the current one on and
leaves the counter advanced by `k`. -/
theorem generation_matches_ring_order (MaxLatency : Nat) (steps : List ManagerStep)
    (m : ResidencyManager) (hcap : submissionsOf steps < U64)
    (h : (ResidencyManager.Initialize MaxLatency).run steps = some m) :
    m.CurrentSyncPointGeneration = m.History.length ∧
    (∀ (i : Nat) (rec : SubmissionRecord), m.History[i]? = some rec →
      rec.Workload.SyncPointGeneration = i ∧
      ∀ P, rec.SyncPoint = some P → P.GenerationID = i) ∧
    (∀ (i j : Nat) (Wi Wj : AsyncWorkload), m.CurrentAsyncWorkloadHead ≤ i → i < j →
      j < m.CurrentAsyncWorkloadTail →
      m.AsyncWorkQueue[i % m.AsyncWorkQueueSize]? = some Wi →
      m.AsyncWorkQueue[j % m.AsyncWorkQueueSize]? = some Wj →
      Wi.SyncPointGeneration < Wj.SyncPointGeneration) ∧
    (∀ (Objects : Nat → ManagedObject) (env : Nat → SubsetEnv) (Queue : Nat)
        (lists : List (Nat × Option (List Nat))),
      submissionsOf steps + max 1 lists.length < U64 →
      ∃ recs, (m.ExecuteCommandLists Objects env Queue lists).1.History = m.History ++ recs ∧
        (m.ExecuteCommandLists Objects env Queue lists).1.CurrentSyncPointGeneration =
          m.CurrentSyncPointGeneration + recs.length ∧
        ∀ (k : Nat) (rec : SubmissionRecord), recs[k]? = some rec →
          rec.Workload.SyncPointGeneration = m.CurrentSyncPointGeneration + k ∧
          ∀ P, rec.SyncPoint = some P →
            P.GenerationID = m.CurrentSyncPointGeneration + k) := by
  have h0 := GenerationsMatch_run steps _ m 0
    (Initialize_GenerationsMatch MaxLatency _ (by omega)) h
  obtain ⟨g1, _, g3, g4⟩ := h0
  refine ⟨g1, g3, fun i j Wi Wj => RingGenerations_order 0 m g4 i j Wi Wj, ?_⟩
  intro Objects env Queue lists hb
  have hm := GenerationsMatch_run steps _ m (max 1 lists.length)
    (Initialize_GenerationsMatch MaxLatency _ (by omega)) h
  have he := ExecuteSubset_graded GenerationsMatch_invariant Objects env Queue
    lists.length m lists (Nat.le_refl _) 0 (by rw [Nat.zero_add]; exact hm)
  obtain ⟨recs, hrecs, _⟩ := ExecuteSubset_covers Objects env Queue lists.length m lists
    (Nat.le_refl _)
  obtain ⟨k1, _, k3, _⟩ := he
  have hE : m.ExecuteCommandLists Objects env Queue lists =
      ResidencyManager.ExecuteSubset Objects env Queue lists.length m lists := rfl
  rw [hE]
  refine ⟨recs, hrecs, ?_, ?_⟩
  · rw [k1, hrecs, List.length_append, g1]
  · intro k rec hk
    have hidx : (ResidencyManager.ExecuteSubset Objects env Queue lists.length m
        lists).1.History[m.History.length + k]? = some rec := by
      rw [hrecs, List.getElem?_append_right (by omega)]
      simpa using hk
    rw [g1]
    exact k3 _ rec hidx

theorem generation_matches_ring_order_witness :
    ∃ m, (ResidencyManager.Initialize 6).run exampleSteps = some m ∧
      m.History.map (fun r => (r.Workload.SyncPointGeneration,
        r.SyncPoint.map (fun P => P.GenerationID))) = [(0, some 0), (1, some 1), (2, some 2)] ∧
      m.CurrentSyncPointGeneration = m.History.length := by
  have hs : ((ResidencyManager.Initialize 6).run exampleSteps).isSome = true := by decide
  obtain ⟨m, hm⟩ := Option.isSome_iff_exists.mp hs
  have hv : ((ResidencyManager.Initialize 6).run exampleSteps).map
      (fun m => m.History.map (fun r => (r.Workload.SyncPointGeneration,
        r.SyncPoint.map (fun P => P.GenerationID)))) =
      some [(0, some 0), (1, some 1), (2, some 2)] := by decide
  rw [hm] at hv
  simp only [Option.map_some', Option.some.injEq] at hv
  exact ⟨m, hm, hv, (generation_matches_ring_order 6 exampleSteps m (by decide) hm).1⟩

/-- C21: for every cache state whose aggregates are machine values and every object `o`
that is linked into neither list, `BeginTrackingObject(o)` (with either value of
`cStartEvicted`) followed by `EndTrackingObject(o)` leaves `NumResidentObjects`,
`NumEvictedObjects` and `ResidentSize` at their values before the pair and both lists
with their previous contents and order; the other objects are not written, and of `o`
only the status can change (to `EVICTED`, when `cStartEvicted` is set). -/
theorem begin_end_tracking_restores (cStartEvicted : Bool) (c : LRUCache) (o : Nat)
    (hres : o ∉ c.ResidentObjectList) (hev : o ∉ c.EvictedObjectList)
    (h1 : c.NumResidentObjects < U32) (h2 : c.NumEvictedObjects < U32)
    (h3 : c.ResidentSize < U64) :
    (EndTrackingObject (BeginTrackingObject cStartEvicted c (some o)).1 o).NumResidentObjects
        = c.NumResidentObjects ∧
    (EndTrackingObject (BeginTrackingObject cStartEvicted c (some o)).1 o).NumEvictedObjects
        = c.NumEvictedObjects ∧
    (EndTrackingObject (BeginTrackingObject cStartEvicted c (some o)).1 o).ResidentSize
        = c.ResidentSize ∧
    (EndTrackingObject (BeginTrackingObject cStartEvicted c (some o)).1 o).ResidentObjectList
        = c.ResidentObjectList ∧
    (EndTrackingObject (BeginTrackingObject cStartEvicted c (some o)).1 o).EvictedObjectList
        = c.EvictedObjectList ∧
    (∀ p, p ≠ o →
      (EndTrackingObject (BeginTrackingObject cStartEvicted c (some o)).1 o).Objects p
        = c.Objects p) ∧
    (EndTrackingObject (BeginTrackingObject cStartEvicted c (some o)).1 o).Objects o =
      (if cStartEvicted then
        { (c.Objects o) with ResidencyStatus := RESIDENCY_STATUS.EVICTED }
       else c.Objects o) := by
  have e1 := List.erase_of_not_mem hres
  have e2 := List.erase_of_not_mem hev
  cases cStartEvicted
  · by_cases hs : (c.Objects o).ResidencyStatus = RESIDENCY_STATUS.RESIDENT
    · simp [EndTrackingObject, BeginTrackingObject, LRUCache.Insert, LRUCache.Remove,
        LRUCache.RemoveEntryList, hs, e1, e2, dec32_inc32 _ h1, sub64_add64 _ _ h3]
    · simp [EndTrackingObject, BeginTrackingObject, LRUCache.Insert, LRUCache.Remove,
        LRUCache.RemoveEntryList, hs, e1, e2, dec32_inc32 _ h2]
  · simp [EndTrackingObject, BeginTrackingObject, LRUCache.Insert, LRUCache.Remove,
      LRUCache.RemoveEntryList, writeObject, e1, e2, dec32_inc32 _ h2]
    intro p hp
    simp [hp]

theorem begin_end_tracking_restores_witness :
    (BeginTrackingObject false exampleCache (some 9)).1.EvictedObjectList = [9, 3] ∧
    (BeginTrackingObject false exampleCache (some 9)).1.NumEvictedObjects = 2 ∧
    (EndTrackingObject (BeginTrackingObject false exampleCache (some 9)).1 9).NumEvictedObjects
        = exampleCache.NumEvictedObjects ∧
    (EndTrackingObject (BeginTrackingObject false exampleCache (some 9)).1 9).ResidentObjectList
        = [1, 2] ∧
    (EndTrackingObject (BeginTrackingObject false exampleCache (some 9)).1 9).EvictedObjectList
        = [3] := by
  have h := begin_end_tracking_restores false exampleCache 9 (by decide) (by decide)
    (by decide) (by decide) (by decide)
  exact ⟨by decide, by decide, h.2.1, h.2.2.2.1, h.2.2.2.2.1⟩

/-- C22, on the code: a failing final `Device->MakeResident` is dropped.  After a first
`ExecuteCommandLists` call the paging thread processes its job; the only
`MakeResident` of the pass is the final one of the nothing-left-to-trim branch, for
object 3, and it fails; the pass signals the gate fence all the same, and the next
`ExecuteCommandLists` call returns `S_OK`. -/
theorem final_failure_is_dropped :
    ((ResidencyManager.Initialize 2).ExecuteCommandLists freshCache.Objects (fun _ => okEnv) 7
      [(10, some [3])]).2 = some true ∧
    ((((ResidencyManager.Initialize 2).ExecuteCommandLists freshCache.Objects (fun _ => okEnv) 7
        [(10, some [3])]).1.processNextWork freshCache outOfMemoryEnv).bind
      (fun r => r.2.2.map makeResidentCalls)) =
      some [(1, [ResidentScratchSpace.pUnderlying 103], false, ⟨true, 0, [3]⟩)] ∧
    ((((ResidencyManager.Initialize 2).ExecuteCommandLists freshCache.Objects (fun _ => okEnv) 7
        [(10, some [3])]).1.processNextWork freshCache outOfMemoryEnv).bind
      (fun r => r.2.2.map gateSignals)) = some [1] ∧
    (((ResidencyManager.Initialize 2).ExecuteCommandLists freshCache.Objects (fun _ => okEnv) 7
        [(10, some [3])]).1.processNextWork freshCache outOfMemoryEnv).map
      (fun r => (r.1.ExecuteCommandLists r.2.1.Objects (fun _ => okEnv) 7
        [(11, some [3])]).2) = some (some true) := by
  refine ⟨by decide, by decide, by decide, by decide⟩

/-- C23, on the code: a bounded batch whose `Device->MakeResident` fails is counted as
made resident and is not issued again.  With objects 3 and 4 (7 bytes each) to make
resident, 10 bytes available and no sync point to wait for, the bounded call is issued
for object 3 and fails, and the final call of the nothing-left-to-trim branch covers
object 4 only: object 3 is in no call that succeeded and not in the final call.  With 90
bytes available the failed bounded call covers both objects; the branch is then entered
with `ObjectsMadeResident = 2` and `MakeResidentIndex = 0`, so the count of the final call
`NumObjectsToMakeResident - ObjectsMadeResident` is 0 where
`NumObjectsToMakeResident - MakeResidentIndex` is 2, and the loop gathering the handles
reads entries that hold handles already (the pass has no defined result).  When there is
a sync point to wait for and the next iteration finds no space available, the loop is
left as if everything had been made resident, with the failed call the only one. -/
theorem failed_batch_never_retried :
    (ProcessPagingWork twoEvictedCache [] twoEvictedWork
        (passWith [failingBatchIteration])).map (fun r => makeResidentCalls r.Log) =
      some [(1, [ResidentScratchSpace.pUnderlying 103], false, ⟨false, 10, [3]⟩),
        (1, [ResidentScratchSpace.pUnderlying 104], true, ⟨true, 10, [4]⟩)] ∧
    (boundedBatch failingAmpleIteration failingAmpleIteration.AvailableSpace
        (beginPagingWork twoEvictedCache [] twoEvictedWork
          (passWith [failingAmpleIteration]))).map
        (fun r => (r.2, r.1.NumObjectsToMakeResident, r.1.ObjectsMadeResident,
          r.1.MakeResidentIndex,
          sub32 r.1.NumObjectsToMakeResident r.1.ObjectsMadeResident,
          r.1.NumObjectsToMakeResident - r.1.MakeResidentIndex)) =
      some (false, 2, 2, 0, 0, 2) ∧
    (ProcessPagingWork twoEvictedCache [] twoEvictedWork
        (passWith [failingAmpleIteration])).isSome = false ∧
    (ProcessPagingWork twoEvictedCache [exampleP4] twoEvictedWork
        (passWith [failingAmpleIteration, tightIteration])).map
        (fun r => makeResidentCalls r.Log) =
      some [(2, [ResidentScratchSpace.pUnderlying 103, ResidentScratchSpace.pUnderlying 104],
        false, ⟨false, 90, [3, 4]⟩)] := by
  refine ⟨by decide, by decide, by decide, by decide⟩

/-- C26, on the code: `TrimToSyncPointInclusive` can write past the end of the eviction
array.  In the pass for the job of generation 1 after two submissions whose `SetEvent`
failed, `pEvictionList` is allocated with `LRU.NumResidentObjects = 1` entries, the
marking loop makes object 3 resident, the first uncompleted sync point has generation 2,
and `TrimToSyncPointInclusive(…, 2)` evicts both resident objects: it writes the two
entries 101 and 103, and `Device->Evict` is called with a count of 2. -/
theorem eviction_list_overrun_by_later_sync_point :
    unsignalledSecondPass.map
        (fun r => (r.1.SyncPointGeneration, r.2.EvictionListLength, waitedGenerations r.2.Log,
          evictCalls r.2.Log)) =
      some (1, 1, [2], [(2, [101, 103])]) := by
  decide

/-- C27: the wait target never wraps.  In every iteration of the batching loop that
reaches `GenerationToWaitFor` (the iteration ends by looping), the resident list has a
head whose `LastGPUSyncPoint` is below the generation of the job, so the job's
`SyncPointGeneration` is at least 1: for a job of generation 0 the iteration ends in
the nothing-left-to-trim branch.  `WaitForSyncPoint` and `TrimToSyncPointInclusive` are
called with `GenerationToWaitFor`, which is the generation of the first uncompleted
sync point when that differs from the job's generation and the job's generation minus
one (no underflow) when it is equal; in both cases it differs from the generation of the
job. -/
theorem wait_target_never_wraps (pWork : AsyncWorkload) (e : IterationEnv)
    (s s1 : PagingState) (hgen : pWork.SyncPointGeneration < U64)
    (h : pagingIteration pWork e s = some (IterationOutcome.again s1)) :
    1 ≤ pWork.SyncPointGeneration ∧
    ∃ sb hr pHead First w,
      boundedBatch e e.AvailableSpace s = some (sb, hr) ∧
      sb.LRU.GetResidentListHead = some pHead ∧
      (sb.LRU.Objects pHead).LastGPUSyncPoint < pWork.SyncPointGeneration ∧
      (DequeueCompletedSyncPoints e.Completed sb.InFlight).2 = some First ∧
      WaitForSyncPoint (GenerationToWaitFor pWork First) e.CompletedAfterWait
        (DequeueCompletedSyncPoints e.Completed sb.InFlight).1 = some w ∧
      s1.InFlight = w.InFlight ∧
      s1.LRU = (sb.LRU.TrimToSyncPointInclusive
        (toINT64 (add64 (toUINT64 e.TotalUsage) sb.SizeToMakeResident)) e.TotalBudget
        (GenerationToWaitFor pWork First)).LRU ∧
      GenerationToWaitFor pWork First ≠ pWork.SyncPointGeneration ∧
      (First.GenerationID = pWork.SyncPointGeneration →
        GenerationToWaitFor pWork First + 1 = pWork.SyncPointGeneration) ∧
      (First.GenerationID ≠ pWork.SyncPointGeneration →
        GenerationToWaitFor pWork First = First.GenerationID) := by
  unfold pagingIteration at h
  cases hb : boundedBatch e e.AvailableSpace s with
  | none => rw [hb] at h; cases h
  | some r =>
    obtain ⟨sb, hr⟩ := r
    rw [hb] at h
    simp only at h
    split at h
    swap
    · cases h
    unfold trimOrFinish at h
    simp only at h
    cases hh : sb.LRU.GetResidentListHead with
    | none =>
      rw [hh] at h
      simp only [Option.map_eq_some'] at h
      obtain ⟨_, _, h⟩ := h
      cases h
    | some pHead =>
      rw [hh] at h
      simp only at h
      split at h
      · simp only [Option.map_eq_some'] at h
        obtain ⟨_, _, h⟩ := h
        cases h
      · rename_i hlt
        cases hd : (DequeueCompletedSyncPoints e.Completed sb.InFlight).2 with
        | none =>
          rw [hd] at h
          simp only [Option.map_eq_some'] at h
          obtain ⟨_, _, h⟩ := h
          cases h
        | some First =>
          rw [hd] at h
          simp only [Option.map_eq_some', IterationOutcome.again.injEq] at h
          obtain ⟨s', hw, rfl⟩ := h
          unfold waitAndTrim at hw
          simp only at hw
          cases hwait : WaitForSyncPoint (GenerationToWaitFor pWork First) e.CompletedAfterWait
              (DequeueCompletedSyncPoints e.Completed sb.InFlight).1 with
          | none => rw [hwait] at hw; cases hw
          | some w =>
            rw [hwait] at hw
            simp only [Option.some.injEq] at hw
            subst hw
            have hpos : 1 ≤ pWork.SyncPointGeneration := by omega
            refine ⟨hpos, sb, hr, pHead, First, w, rfl, hh, by omega, hd, hwait, rfl, rfl,
              ?_, ?_, ?_⟩
            · unfold GenerationToWaitFor
              split
              · rename_i heq
                rw [heq, sub64_one_of_pos _ hpos hgen]
                omega
              · assumption
            · intro heq
              unfold GenerationToWaitFor
              rw [if_pos heq, heq, sub64_one_of_pos _ hpos hgen]
              omega
            · intro hne
              unfold GenerationToWaitFor
              rw [if_neg hne]

theorem wait_target_never_wraps_witness :
    ∃ s1, exampleWork.SyncPointGeneration < U64 ∧
      pagingIteration exampleWork tightIteration
        (beginPagingWork exampleCache [exampleP5] exampleWork idleEnv) =
          some (IterationOutcome.again s1) ∧
      GenerationToWaitFor exampleWork exampleP5 = 4 ∧
      1 ≤ exampleWork.SyncPointGeneration ∧
      ∃ sb hr pHead First w,
        boundedBatch tightIteration tightIteration.AvailableSpace
          (beginPagingWork exampleCache [exampleP5] exampleWork idleEnv) = some (sb, hr) ∧
        sb.LRU.GetResidentListHead = some pHead ∧
        (sb.LRU.Objects pHead).LastGPUSyncPoint < exampleWork.SyncPointGeneration ∧
        (DequeueCompletedSyncPoints tightIteration.Completed sb.InFlight).2 = some First ∧
        WaitForSyncPoint (GenerationToWaitFor exampleWork First)
          tightIteration.CompletedAfterWait
          (DequeueCompletedSyncPoints tightIteration.Completed sb.InFlight).1 = some w ∧
        s1.InFlight = w.InFlight ∧
        s1.LRU = (sb.LRU.TrimToSyncPointInclusive
          (toINT64 (add64 (toUINT64 tightIteration.TotalUsage) sb.SizeToMakeResident))
          tightIteration.TotalBudget (GenerationToWaitFor exampleWork First)).LRU ∧
        GenerationToWaitFor exampleWork First ≠ exampleWork.SyncPointGeneration ∧
        (First.GenerationID = exampleWork.SyncPointGeneration →
          GenerationToWaitFor exampleWork First + 1 = exampleWork.SyncPointGeneration) ∧
        (First.GenerationID ≠ exampleWork.SyncPointGeneration →
          GenerationToWaitFor exampleWork First = First.GenerationID) := by
  have hs : ((pagingIteration exampleWork tightIteration
      (beginPagingWork exampleCache [exampleP5] exampleWork idleEnv)).bind
      (fun o => match o with
        | IterationOutcome.again s => some s
        | IterationOutcome.exit _ => none)).isSome = true := by decide
  cases hp : pagingIteration exampleWork tightIteration
      (beginPagingWork exampleCache [exampleP5] exampleWork idleEnv) with
  | none => rw [hp] at hs; simp at hs
  | some o =>
    cases o with
    | exit s => rw [hp] at hs; simp at hs
    | again s1 =>
      have hg : exampleWork.SyncPointGeneration < U64 := by decide
      obtain ⟨h1, h2⟩ := wait_target_never_wraps exampleWork tightIteration _ s1 hg hp
      exact ⟨s1, hg, rfl, by decide, h1, h2⟩

/-- C28: ring slots are not overwritten while in use.  In a state reached from
`Initialize` by fewer than `2^64` calls of `EnqueueAsyncWork` and `DequeueAsyncWork`,
whenever `EnqueueAsyncWork` returns, the queue has `MaxSoftwareQueueLatency + 1` slots, the
call wrote the slot `Tail % (MaxSoftwareQueueLatency + 1)` and no other, and that slot
differs from the slot of every pending job (indices `Head .. Tail - 1`) and from the slot
of the job dequeued last (index `Head - 1`); these slots hold after the call what they
held before, the jobs enqueued under those indices. -/
theorem ring_slot_not_in_use (MaxLatency : Nat) (ops : List RingOp) (m' m'' : ResidencyManager)
    (outs : List (Option AsyncWorkload)) (refs : List Nat) (n v g : Nat) (ev hr : Bool)
    (hlen : ops.length < U64)
    (h : (ResidencyManager.Initialize MaxLatency).ringRun ops = some (m', outs))
    (he : m'.EnqueueAsyncWork refs n v g ev = some (m'', hr)) :
    m'.MaxSoftwareQueueLatency = MaxLatency % U32 ∧
    m'.AsyncWorkQueueSize = m'.MaxSoftwareQueueLatency + 1 ∧
    m''.AsyncWorkQueue = m'.AsyncWorkQueue.set
      (m'.CurrentAsyncWorkloadTail % (m'.MaxSoftwareQueueLatency + 1)) ⟨g, refs, n, v⟩ ∧
    (∀ j, j ≠ m'.CurrentAsyncWorkloadTail % (m'.MaxSoftwareQueueLatency + 1) →
      m''.AsyncWorkQueue[j]? = m'.AsyncWorkQueue[j]?) ∧
    (∀ i, m'.CurrentAsyncWorkloadHead ≤ i + 1 → i < m'.CurrentAsyncWorkloadTail →
      i % (m'.MaxSoftwareQueueLatency + 1) ≠
        m'.CurrentAsyncWorkloadTail % (m'.MaxSoftwareQueueLatency + 1) ∧
      m''.AsyncWorkQueue[i % (m'.MaxSoftwareQueueLatency + 1)]? = (enqueued ops)[i]? ∧
      m'.AsyncWorkQueue[i % (m'.MaxSoftwareQueueLatency + 1)]? = (enqueued ops)[i]?) := by
  obtain ⟨s1, s2⟩ := ringRun_sizes ops _ m' outs h
  obtain ⟨hroom, hsize, hset, _⟩ := EnqueueAsyncWork_some _ _ _ _ _ _ _ _ he
  have hM : m'.MaxSoftwareQueueLatency = MaxLatency % U32 := s2
  have hS : m'.AsyncWorkQueueSize = inc32 (MaxLatency % U32) := s1
  have hlt : MaxLatency % U32 < U32 := Nat.mod_lt _ (by unfold U32; decide)
  have hcap : MaxLatency % U32 + 1 < U32 := by
    by_contra hc
    apply hsize
    rw [hS]
    have : MaxLatency % U32 + 1 = U32 := by omega
    unfold inc32
    rw [this, Nat.mod_self]
  have h0 := Initialize_RingHolds MaxLatency hcap
  obtain ⟨⟨e1, e2, e3, e4, e5, e6⟩, _, _⟩ := ringRun_fifo ops _ m' [] outs h0
    (by simpa [ResidencyManager.Initialize] using hlen) h
  simp only [List.nil_append] at e6
  rw [sub64_of_le _ _ e4 (by
    have hl : (enqueued ops).length ≤ ops.length := by
      clear * -
      induction ops with
      | nil => simp [enqueued]
      | cons op ops ih => cases op <;> simp [enqueued] <;> omega
    simp only [List.nil_append] at e3
    omega)] at hroom
  have hne : ∀ i, m'.CurrentAsyncWorkloadHead ≤ i + 1 → i < m'.CurrentAsyncWorkloadTail →
      i % (m'.MaxSoftwareQueueLatency + 1) ≠
        m'.CurrentAsyncWorkloadTail % (m'.MaxSoftwareQueueLatency + 1) := by
    intro i hi1 hi2
    exact mod_ne_of_lt_sub i _ _ hi2 (by omega)
  have hframe : ∀ j, j ≠ m'.CurrentAsyncWorkloadTail % (m'.MaxSoftwareQueueLatency + 1) →
      m''.AsyncWorkQueue[j]? = m'.AsyncWorkQueue[j]? := by
    intro j hj
    rw [hset, e1, List.getElem?_set_ne (Ne.symm hj)]
  refine ⟨hM, e1, by rw [hset, e1], hframe, ?_⟩
  intro i hi1 hi2
  have h6 := e6 i hi1 hi2
  rw [e1] at h6
  exact ⟨hne i hi1 hi2, by rw [hframe _ (hne i hi1 hi2)]; exact h6, h6⟩

theorem ring_slot_not_in_use_witness :
    ∃ m' m'' outs,
      (ResidencyManager.Initialize 2).ringRun (exampleRingOps.take 3) = some (m', outs) ∧
      m'.EnqueueAsyncWork [] 0 3 2 true = some (m'', true) ∧
      m'.CurrentAsyncWorkloadHead = 1 ∧ m'.CurrentAsyncWorkloadTail = 2 ∧
      m'.MaxSoftwareQueueLatency = 2 ∧
      (∀ i, m'.CurrentAsyncWorkloadHead ≤ i + 1 → i < m'.CurrentAsyncWorkloadTail →
        i % (m'.MaxSoftwareQueueLatency + 1) ≠
          m'.CurrentAsyncWorkloadTail % (m'.MaxSoftwareQueueLatency + 1) ∧
        m''.AsyncWorkQueue[i % (m'.MaxSoftwareQueueLatency + 1)]? =
          (enqueued (exampleRingOps.take 3))[i]? ∧
        m'.AsyncWorkQueue[i % (m'.MaxSoftwareQueueLatency + 1)]? =
          (enqueued (exampleRingOps.take 3))[i]?) := by
  have hs : ((ResidencyManager.Initialize 2).ringRun (exampleRingOps.take 3)).isSome = true := by
    decide
  obtain ⟨r, hr⟩ := Option.isSome_iff_exists.mp hs
  have he : (((ResidencyManager.Initialize 2).ringRun (exampleRingOps.take 3)).bind
      (fun r => r.1.EnqueueAsyncWork [] 0 3 2 true)).isSome = true := by decide
  rw [hr] at he
  obtain ⟨r2, hr2⟩ := Option.isSome_iff_exists.mp he
  simp only [Option.some_bind] at hr2
  have hv : ((ResidencyManager.Initialize 2).ringRun (exampleRingOps.take 3)).map
      (fun r => (r.1.CurrentAsyncWorkloadHead, r.1.CurrentAsyncWorkloadTail,
        r.1.MaxSoftwareQueueLatency)) = some (1, 2, 2) := by decide
  rw [hr] at hv
  simp only [Option.map_some', Option.some.injEq, Prod.mk.injEq] at hv
  have hev : r2.2 = true := by
    obtain ⟨_, _, _, _, f5, _⟩ := EnqueueAsyncWork_frame _ _ _ _ _ _ _ _ hr2
    exact f5
  have hr2' : r.1.EnqueueAsyncWork [] 0 3 2 true = some (r2.1, true) := by
    rw [hr2, ← hev]
  exact ⟨r.1, r2.1, r.2, hr, hr2', hv.1, hv.2.1, hv.2.2,
    (ring_slot_not_in_use 2 (exampleRingOps.take 3) r.1 r2.1 r.2 [] 0 3 2 true true
      (by decide) hr hr2').2.2.2.2⟩

end D3DX12Residency
